import Mathlib

/-!
# CatalogFS: the sidecar (filestat) text format

A shallow embedding of the sidecar codec of CatalogFS:

* `getdelim_advanced.c`  : the two-delimiter line reader,
* `filestat_parser_format.c` : the format reader and the format writer,
* `filestat_parser.c` : the size guard in front of the reader.

Conventions of the embedding.

* A byte is a natural number (the value `getc` returns), a stream (`FILE *`)
  is the list of bytes not read yet, a C string is a list of bytes without NUL.
* The target is Linux/LP64: `ssize_t`, `size_t`, `long` are 64 bits wide.
* `malloc`/`realloc`/`strdup` are taken to succeed; the `-ENOMEM` paths are not
  embedded.
* The C library calls (`isspace`, `sscanf`, `dprintf`) are embedded by their
  behaviour in the "C" locale (the program never calls `setlocale`) as done by
  glibc.
* Loops whose termination rests on the stream getting shorter carry a fuel
  argument; the entry points start them with more fuel than the stream has bytes.
-/

namespace CatalogFS

/-! ## Constants -/

/-- ASCII bytes of a string constant of the C source. -/
def bytes (s : String) : List Nat := s.toList.map Char.toNat

def EPERM : Int := 1
def EIO : Int := 5
def EOVERFLOW : Int := 75

/-- The constant `SSIZE_MAX` on LP64. -/
def SSIZE_MAX : Nat := 2 ^ 63 - 1
/-- The constant `SIZE_MAX` on LP64. -/
def SIZE_MAX : Nat := 2 ^ 64 - 1

def FILESTAT_HEADER_OPTION : List Nat := bytes "CatalogFS"
def FILESTAT_VERSION_3 : Nat := 3
def FILESTAT_MAXSIZE : Int := 1048576
def FILESTAT_MAX_HEADER_LENGTH : Nat := 120
def FILESTAT_MAX_LENGTH_OPTION : Nat := 1024
def FILESTAT_MAX_LENGTH_VALUE : Nat := 1048576
/-- The byte '#'. -/
def FILESTAT_COMMENT_CHAR_1 : Nat := 35
/-- The byte ';'. -/
def FILESTAT_COMMENT_CHAR_2 : Nat := 59
/-- The byte '='. -/
def FILESTAT_SEPARATOR_CHAR_MAIN : Nat := 61
/-- The byte '\n'. -/
def FILESTAT_NEWLINE_CHAR_1 : Nat := 10
/-- The byte '\r'. -/
def FILESTAT_NEWLINE_CHAR_2 : Nat := 13
/-- The byte ':'. -/
def FILESTAT_LEGACY_SEPARATOR_CHAR : Nat := 58
def FILESTAT_LEGACY_HEADER_V1 : List Nat := bytes "CatalogFS.File.1"
def FILESTAT_LEGACY_HEADER_V2 : List Nat := bytes "CatalogFS.File.2"
def FILESTAT_LEGACY_TERMINAL_OPTION_1 : List Nat := bytes "name"
def FILESTAT_LEGACY_TERMINAL_OPTION_2 : List Nat := bytes "path"

/-! ## The metadata record (`filestat.h`) -/

/-- The record `struct filestat`: `int64_t` fields are integers, `uint32_t` and
`uint64_t` fields are naturals. -/
structure filestat where
  size : Int
  blocks : Int
  mode : Nat
  uid : Nat
  gid : Nat
  atime : Int
  mtime : Int
  ctime : Int
  atimensec : Int
  mtimensec : Int
  ctimensec : Int
  nlink : Nat
  blksize : Int
deriving DecidableEq, Repr

/-- Every field of the record lies in the range of its C type. -/
def filestat.inRange (r : filestat) : Prop :=
  (-(2:Int) ^ 63 ≤ r.size ∧ r.size < 2 ^ 63) ∧
  (-(2:Int) ^ 63 ≤ r.blocks ∧ r.blocks < 2 ^ 63) ∧
  r.mode < 2 ^ 32 ∧ r.uid < 2 ^ 32 ∧ r.gid < 2 ^ 32 ∧
  (-(2:Int) ^ 63 ≤ r.atime ∧ r.atime < 2 ^ 63) ∧
  (-(2:Int) ^ 63 ≤ r.mtime ∧ r.mtime < 2 ^ 63) ∧
  (-(2:Int) ^ 63 ≤ r.ctime ∧ r.ctime < 2 ^ 63) ∧
  (-(2:Int) ^ 63 ≤ r.atimensec ∧ r.atimensec < 2 ^ 63) ∧
  (-(2:Int) ^ 63 ≤ r.mtimensec ∧ r.mtimensec < 2 ^ 63) ∧
  (-(2:Int) ^ 63 ≤ r.ctimensec ∧ r.ctimensec < 2 ^ 63) ∧
  r.nlink < 2 ^ 64 ∧
  (-(2:Int) ^ 63 ≤ r.blksize ∧ r.blksize < 2 ^ 63)

/-! ## C library -/

/-- The classifier `isspace` in the "C" locale: space, `\t`, `\n`, `\v`, `\f`, `\r`. -/
def isspace (c : Nat) : Bool := c == 32 || (9 ≤ c && c ≤ 13)

/-- The classifier `isdigit`. -/
def isdigit (c : Nat) : Bool := 48 ≤ c && c ≤ 57

/-- The C string held by a buffer: the bytes before the first NUL (`strlen`). -/
def cstr (buf : List Nat) : List Nat := buf.takeWhile (fun c => c != 0)

/-- Decimal digits of `n`, most significant first, produced as `printf` does:
the last digit is peeled off until the quotient is zero. -/
def decimalAux : Nat → Nat → List Nat → List Nat
  | 0, _, acc => acc
  | fuel + 1, n, acc =>
    if n < 10 then (48 + n) :: acc
    else decimalAux fuel (n / 10) ((48 + n % 10) :: acc)

/-- The conversions `%u` / `%lu` of `printf`: unpadded decimal. -/
def printf_u (n : Nat) : List Nat := decimalAux (n + 1) n []

/-- The conversion `%ld` of `printf`: a minus sign for negatives, then the magnitude. -/
def printf_d (v : Int) : List Nat :=
  if v < 0 then 45 :: printf_u v.natAbs else printf_u v.natAbs

/-- The three scan conversions used by the parser: `SCNd64` (`%ld`),
`SCNu32` (`%u`), `SCNu64` (`%lu`). -/
inductive ScanFmt where
  | d64
  | u32
  | u64
deriving DecidableEq, Repr

/-- What `sscanf(str, fmt "%n", place, &pos)` did: its return value, the value
stored through `place` (if the conversion was made), and `pos`. -/
structure Sscanf where
  narg : Int
  stored : Option Int
  pos : Nat
deriving DecidableEq, Repr

/-- Result of `strtol` / `strtoul` on a sign and a magnitude, as stored by the
conversion: `%ld` saturates at the `long` range; `%lu` saturates at `ULONG_MAX`
and negates modulo 2^64; `%u` stores the low 32 bits of the `%lu` result. -/
def strto (fmt : ScanFmt) (neg : Bool) (mag : Nat) : Int :=
  match fmt with
  | .d64 => if neg then max (-(mag : Int)) (-(2 : Int) ^ 63) else min (mag : Int) ((2 : Int) ^ 63 - 1)
  | .u64 =>
    if mag > 2 ^ 64 - 1 then ((2 ^ 64 - 1 : Nat) : Int)
    else if neg then (((2 ^ 64 - mag) % 2 ^ 64 : Nat) : Int) else (mag : Int)
  | .u32 =>
    if mag > 2 ^ 64 - 1 then (((2 ^ 64 - 1) % 2 ^ 32 : Nat) : Int)
    else if neg then ((((2 ^ 64 - mag) % 2 ^ 64) % 2 ^ 32 : Nat) : Int) else ((mag % 2 ^ 32 : Nat) : Int)

/-- The call `sscanf(str, fmt "%n", place, &pos)` for an integer conversion:
white space is skipped, an optional sign and a non-empty run of decimal digits
are converted, `%n` reports the bytes consumed. An exhausted input gives `EOF`
(-1), a missing digit gives 0 conversions; in both cases `pos` keeps its 0. -/
def sscanf (str : List Nat) (fmt : ScanFmt) : Sscanf :=
  let ws := (str.takeWhile isspace).length
  match str.dropWhile isspace with
  | [] => ⟨-1, none, 0⟩
  | c :: s =>
    let neg := c == 45
    let sign := c == 45 || c == 43
    let body := if sign then s else c :: s
    let digits := body.takeWhile isdigit
    if digits = [] then ⟨0, none, 0⟩
    else
      let mag := digits.foldl (fun a d => 10 * a + (d - 48)) 0
      ⟨1, some (strto fmt neg mag), ws + (if sign then 1 else 0) + digits.length⟩

/-! ## The line reader (`getdelim_advanced.c`) -/

/-- What `getdelim_advanced` hands back: the return value, the bytes stored in
`*lineptr` (a NUL follows them unless the call failed), the buffer size `*n`,
`*read_before_eof`, the `errno` it set (0: none), and the unread stream. -/
structure Getdelim where
  result : Int
  lineptr : List Nat
  n : Nat
  read_before_eof : Int
  errno : Int
  fp : List Nat
deriving DecidableEq, Repr

/-- The block "Make enough space for len+1 bytes" of the loop of
`getdelim_advanced`: the new buffer size, or `none` for `EOVERFLOW`. -/
def getdelim_grow (max_size n cur_len : Nat) : Option Nat :=
  if cur_len + 1 ≥ n then
    let needed_max := if SSIZE_MAX < SIZE_MAX then SSIZE_MAX + 1 else SIZE_MAX
    let needed := (2 * n + 1) % 2 ^ 64
    let needed_max := if max_size > 0 ∧ max_size < needed_max then max_size else needed_max
    let needed := if needed_max < needed then needed_max else needed
    if cur_len + 1 ≥ needed then none else some needed
  else some n

/-- The `for (;;)` loop of `getdelim_advanced`; `cur_len` is the length of `lineptr`. -/
def getdelim_loop (delimiter additional_delimiter : Int) (max_size : Nat) :
    List Nat → List Nat → Nat → Getdelim
  | [], lineptr, n => ⟨-1, lineptr, n, lineptr.length, 0, []⟩
  | i :: fp, lineptr, n =>
    match getdelim_grow max_size n lineptr.length with
    | none => ⟨-1, lineptr, n, -1, EOVERFLOW, fp⟩
    | some n =>
      let lineptr := lineptr ++ [i]
      if (i : Int) = delimiter ∨ (additional_delimiter ≥ 0 ∧ (i : Int) = additional_delimiter) then
        ⟨lineptr.length, lineptr, n, -1, 0, fp⟩
      else getdelim_loop delimiter additional_delimiter max_size fp lineptr n

/-- The function `getdelim_advanced`, entered with `*lineptr == NULL` as all its
callers do. -/
def getdelim_advanced (delimiter additional_delimiter : Int) (fp : List Nat) (max_size : Nat) :
    Getdelim :=
  let starting_size := if max_size > 0 ∧ max_size < 120 then max_size else 120
  getdelim_loop delimiter additional_delimiter max_size fp [] starting_size

/-! ## The format reader (`filestat_parser_format.c`) -/

/-- The function `trim_string`: the first loop shortens `len` over trailing
white space, the second advances `str` over leading white space. -/
def trim_string (str : List Nat) : List Nat :=
  let kept := str.rdropWhile isspace
  if kept.length = 0 then []
  else kept.dropWhile isspace

def is_string_empty (str : List Nat) : Bool := str.isEmpty

def is_string_empty_or_whitespace (str : List Nat) : Bool :=
  if str.isEmpty then true
  else is_string_empty (trim_string str)

def is_string_a_comment (str : List Nat) : Bool :=
  match str.dropWhile isspace with
  | [] => false
  | c :: _ => c == FILESTAT_COMMENT_CHAR_1 || c == FILESTAT_COMMENT_CHAR_2

/-- What `filestat_read_line` hands back: the return value, the buffer, the
`errno` left by a failure, and the unread stream. -/
structure ReadLine where
  read : Int
  buf : List Nat
  errno : Int
  fp : List Nat
deriving DecidableEq, Repr

def filestat_read_line (fp : List Nat) (max_size : Nat) : ReadLine :=
  let r := getdelim_advanced FILESTAT_NEWLINE_CHAR_1 FILESTAT_NEWLINE_CHAR_2 fp max_size
  if r.result < 0 then
    if r.read_before_eof ≥ 0 then ⟨r.read_before_eof, r.lineptr, r.errno, r.fp⟩
    else ⟨r.result, [], r.errno, r.fp⟩
  else ⟨r.result, r.lineptr, r.errno, r.fp⟩

/-- The function `filestat_clean_line`, on the C string of the buffer. -/
def filestat_clean_line (line : List Nat) : List Nat :=
  match line.getLast? with
  | none => line
  | some c =>
    if c = FILESTAT_NEWLINE_CHAR_1 ∨ c = FILESTAT_NEWLINE_CHAR_2 then line.dropLast else line

/-- Outcome of `filestat_parse_line`: `skipped` is return 0 with `was_skipped`
set; `failed` is a non-zero return, `option` and `value` left `NULL`;
`pair` is return 0 with both allocated. -/
inductive ParseLine where
  | skipped
  | failed
  | pair (option value : List Nat)
deriving DecidableEq, Repr

def filestat_parse_line (line : List Nat) (use_legacy_format : Bool) : ParseLine :=
  let line_len := line.length
  if is_string_a_comment line then .skipped
  else if is_string_empty_or_whitespace line then .skipped
  else
    let separator :=
      if use_legacy_format then FILESTAT_LEGACY_SEPARATOR_CHAR else FILESTAT_SEPARATOR_CHAR_MAIN
    if separator ∉ line then .failed
    else
      let option_len := line.indexOf separator
      if option_len = 0 ∨ option_len > FILESTAT_MAX_LENGTH_OPTION then .failed
      else
        let value_len := line_len - (option_len + 1)
        if value_len > FILESTAT_MAX_LENGTH_VALUE then .failed
        else .pair (line.take option_len) ((line.drop (option_len + 1)).take value_len)

/-- The function `filestat_sscanf_value`: its return value and what the scan
stored through `place`. -/
def filestat_sscanf_value (str_value : List Nat) (str_fmt : ScanFmt) : Int × Option Int :=
  let r := sscanf str_value str_fmt
  if r.narg ≠ 1 then (- EIO, r.stored)
  else if r.pos ≠ str_value.length then (- EIO, r.stored)
  else (0, r.stored)

/-- Outcome of `filestat_get_next_option_pair`: `error` is a negative
return with `*failed_line` (`none`: `NULL`); `eof` is return 0 with
`eof_file_finished`; `pair` is return 0 with the trimmed option and value. Each
carries the unread stream. `out_of_fuel` is not an outcome of the C function. -/
inductive NextPair where
  | error (res : Int) (failed_line : Option (List Nat)) (fp : List Nat)
  | eof (fp : List Nat)
  | pair (option value : List Nat) (fp : List Nat)
  | out_of_fuel
deriving DecidableEq, Repr

def filestat_get_next_option_pair (max_size : Nat) (use_legacy_format : Bool) :
    Nat → List Nat → NextPair
  | 0, _ => .out_of_fuel
  | fuel + 1, fp =>
    let r := filestat_read_line fp max_size
    if r.read < 0 then .error (if r.errno > 0 then -r.errno else -1) none r.fp
    else if r.read = 0 then .eof r.fp
    else
      let line := filestat_clean_line (cstr r.buf)
      match filestat_parse_line line use_legacy_format with
      | .skipped => filestat_get_next_option_pair max_size use_legacy_format fuel r.fp
      | .failed => .error (-1) (some line) r.fp
      | .pair opt val =>
        let opt_trimmed := trim_string opt
        if is_string_empty opt_trimmed then .error (-1) (some line) r.fp
        else .pair opt_trimmed (trim_string val) r.fp

/-- Store a scanned value in a field, when the scan stored one. -/
def stored_or (old : Int) (s : Option Int) : Int := s.getD old

/-- Store a scanned value in an unsigned field, when the scan stored one. -/
def stored_or_u (old : Nat) (s : Option Int) : Nat :=
  match s with
  | some v => v.toNat
  | none => old

def filestat_process_option_pair (option value : List Nat) (my_stat : filestat) :
    Int × filestat :=
  if option = bytes "size" then
    let r := filestat_sscanf_value value .d64
    (r.1, { my_stat with size := stored_or my_stat.size r.2 })
  else if option = bytes "blocks" then
    let r := filestat_sscanf_value value .d64
    (r.1, { my_stat with blocks := stored_or my_stat.blocks r.2 })
  else if option = bytes "mode" then
    let r := filestat_sscanf_value value .u32
    (r.1, { my_stat with mode := stored_or_u my_stat.mode r.2 })
  else if option = bytes "uid" then
    let r := filestat_sscanf_value value .u32
    (r.1, { my_stat with uid := stored_or_u my_stat.uid r.2 })
  else if option = bytes "gid" then
    let r := filestat_sscanf_value value .u32
    (r.1, { my_stat with gid := stored_or_u my_stat.gid r.2 })
  else if option = bytes "atime" then
    let r := filestat_sscanf_value value .d64
    (r.1, { my_stat with atime := stored_or my_stat.atime r.2 })
  else if option = bytes "mtime" then
    let r := filestat_sscanf_value value .d64
    (r.1, { my_stat with mtime := stored_or my_stat.mtime r.2 })
  else if option = bytes "ctime" then
    let r := filestat_sscanf_value value .d64
    (r.1, { my_stat with ctime := stored_or my_stat.ctime r.2 })
  else if option = bytes "atimensec" then
    let r := filestat_sscanf_value value .d64
    (r.1, { my_stat with atimensec := stored_or my_stat.atimensec r.2 })
  else if option = bytes "mtimensec" then
    let r := filestat_sscanf_value value .d64
    (r.1, { my_stat with mtimensec := stored_or my_stat.mtimensec r.2 })
  else if option = bytes "ctimensec" then
    let r := filestat_sscanf_value value .d64
    (r.1, { my_stat with ctimensec := stored_or my_stat.ctimensec r.2 })
  else if option = bytes "nlink" then
    let r := filestat_sscanf_value value .u64
    (r.1, { my_stat with nlink := stored_or_u my_stat.nlink r.2 })
  else if option = bytes "blksize" then
    let r := filestat_sscanf_value value .d64
    (r.1, { my_stat with blksize := stored_or my_stat.blksize r.2 })
  else (0, my_stat)

def filestat_is_header_correct (option value : List Nat) : Int :=
  if option ≠ FILESTAT_HEADER_OPTION then -1
  else
    let r := filestat_sscanf_value value .u32
    let version := stored_or_u 0 r.2
    if r.1 = 0 then (if version ≠ FILESTAT_VERSION_3 then -1 else r.1) else r.1

def filestat_is_line_a_legacy_header (line : Option (List Nat)) : Bool :=
  match line with
  | none => false
  | some line => line == FILESTAT_LEGACY_HEADER_V1 || line == FILESTAT_LEGACY_HEADER_V2

def filestat_is_option_a_legacy_terminal_one (option : List Nat) : Bool :=
  option == FILESTAT_LEGACY_TERMINAL_OPTION_1 || option == FILESTAT_LEGACY_TERMINAL_OPTION_2

/-- The block "Check results" that ends `filestat_parser_format_read`. -/
def filestat_check_results (my_stat : filestat) : Int :=
  if my_stat.size < 0 ∨ my_stat.blocks < 0 ∨
      (my_stat.atime < 0 ∨ my_stat.ctime < 0 ∨ my_stat.mtime < 0) ∨
      (my_stat.atimensec < 0 ∨ my_stat.ctimensec < 0 ∨ my_stat.mtimensec < 0) ∨
      my_stat.blksize < 0 then -EPERM
  else 0

/-- The `while (true)` loop of `filestat_parser_format_read` with the check that
follows it: the return value and the record as the call leaves it; `none` when
the fuel is used up. -/
def filestat_read_loop :
    Nat → List Nat → (it_is_header_line use_legacy_format : Bool) → filestat →
      Option (Int × filestat)
  | 0, _, _, _, _ => none
  | fuel + 1, fp, it_is_header_line, use_legacy_format, my_stat =>
    let max_size := if it_is_header_line then FILESTAT_MAX_HEADER_LENGTH else 0
    match filestat_get_next_option_pair max_size use_legacy_format (fp.length + 1) fp with
    | .out_of_fuel => none
    | .error res failed_line fp =>
      if filestat_is_line_a_legacy_header failed_line then
        filestat_read_loop fuel fp false true my_stat
      else some (res, my_stat)
    | .eof _ => some (filestat_check_results my_stat, my_stat)
    | .pair option value fp =>
      if it_is_header_line then
        let res := filestat_is_header_correct option value
        if res ≠ 0 then some (-EPERM, my_stat)
        else filestat_read_loop fuel fp false use_legacy_format my_stat
      else if use_legacy_format ∧ filestat_is_option_a_legacy_terminal_one option then
        some (filestat_check_results my_stat, my_stat)
      else
        let r := filestat_process_option_pair option value my_stat
        if r.1 ≠ 0 then some (-EPERM, r.2)
        else filestat_read_loop fuel fp false use_legacy_format r.2

/-- The function `filestat_parser_format_read` on a stream `fp` and the record
`*my_stat` the caller pre-filled. -/
def filestat_parser_format_read (fp : List Nat) (my_stat : filestat) : Option (Int × filestat) :=
  filestat_read_loop (fp.length + 1) fp true false my_stat

/-! ## The format writer -/

/-- An open file: its bytes and the offset of the descriptor. -/
structure File where
  data : List Nat
  offset : Nat
deriving DecidableEq, Repr

/-- The call `ftruncate(fd, 0)`. -/
def ftruncate0 (f : File) : File := { f with data := [] }

/-- The call `lseek(fd, 0, SEEK_SET)`. -/
def lseek0 (f : File) : File := { f with offset := 0 }

/-- A `dprintf` whose formatted text is `out`: the bytes land at the offset
(a gap past the end reads as zeros) and the offset moves past them. -/
def dprintf (f : File) (out : List Nat) : File :=
  { data := (f.data ++ List.replicate (f.offset - f.data.length) 0).take f.offset ++ out ++
      f.data.drop (f.offset + out.length),
    offset := f.offset + out.length }

/-- The function `filestat_parser_format_write` with every system call
succeeding: the return value and the file afterwards. -/
def filestat_parser_format_write (file_fd : Int) (file : File) (my_stat : filestat) :
    Int × File :=
  if file_fd = 0 then (-EPERM, file)
  else
    let f := ftruncate0 file
    let f := lseek0 f
    let f := dprintf f (FILESTAT_HEADER_OPTION ++ bytes "=" ++ printf_u FILESTAT_VERSION_3 ++ bytes "\n")
    let f := dprintf f (bytes "size=" ++ printf_d my_stat.size ++ bytes "\n")
    let f := dprintf f (bytes "blocks=" ++ printf_d my_stat.blocks ++ bytes "\n")
    let f := dprintf f (bytes "mode=" ++ printf_u my_stat.mode ++ bytes "\n")
    let f := dprintf f (bytes "uid=" ++ printf_u my_stat.uid ++ bytes "\n")
    let f := dprintf f (bytes "gid=" ++ printf_u my_stat.gid ++ bytes "\n")
    let f := dprintf f (bytes "atime=" ++ printf_d my_stat.atime ++ bytes "\n")
    let f := dprintf f (bytes "mtime=" ++ printf_d my_stat.mtime ++ bytes "\n")
    let f := dprintf f (bytes "ctime=" ++ printf_d my_stat.ctime ++ bytes "\n")
    let f := dprintf f (bytes "atimensec=" ++ printf_d my_stat.atimensec ++ bytes "\n")
    let f := dprintf f (bytes "mtimensec=" ++ printf_d my_stat.mtimensec ++ bytes "\n")
    let f := dprintf f (bytes "ctimensec=" ++ printf_d my_stat.ctimensec ++ bytes "\n")
    let f := dprintf f (bytes "nlink=" ++ printf_u my_stat.nlink ++ bytes "\n")
    let f := dprintf f (bytes "blksize=" ++ printf_d my_stat.blksize ++ bytes "\n")
    (0, f)

/-! ## The guard in front of the reader (`filestat_parser.c`) -/

/-- The fields of `struct stat` the guard looks at. -/
structure Stat where
  st_mode : Nat
  st_size : Int
deriving DecidableEq, Repr

def S_IFMT : Nat := 0o170000
def S_IFREG : Nat := 0o100000

/-- The macro `S_ISREG`. -/
def S_ISREG (m : Nat) : Bool := (m &&& S_IFMT) == S_IFREG

/-- What `openat` returned a descriptor for: the outcome of `fstat` on it (an
`errno` or the attributes), the outcome of `fdopen` (an `errno` or success) and
the bytes of the file. -/
structure OpenedFile where
  fstat : Except Int Stat
  fdopen : Except Int Unit
  content : List Nat

/-- The function `check_filestat_file_size_is_small_enough`, on the outcome of `fstat`. -/
def check_filestat_file_size_is_small_enough (fstat : Except Int Stat) : Int :=
  match fstat with
  | .error errno => -errno
  | .ok stbuf =>
    if !S_ISREG stbuf.st_mode then -EPERM
    else if stbuf.st_size > FILESTAT_MAXSIZE then -EPERM
    else 0

/-- The function `read_filestat`, on the outcome of `openat` (an `errno` or the
opened file) and the record the caller pre-filled; `none` only if the reader
ran out of fuel. -/
def read_filestat (openat : Except Int OpenedFile) (my_stat : filestat) :
    Option (Int × filestat) :=
  match openat with
  | .error errno => some (-errno, my_stat)
  | .ok fd =>
    let res := check_filestat_file_size_is_small_enough fd.fstat
    if res ≠ 0 then some (res, my_stat)
    else
      match fd.fdopen with
      | .error errno_stored => some (-errno_stored, my_stat)
      | .ok _ => filestat_parser_format_read fd.content my_stat

/-! ## The metadata converters (`filestat_converter.c`) -/

/-- The C type `struct timespec`. -/
structure timespec where
  tv_sec : Int
  tv_nsec : Int
deriving DecidableEq, Repr

/-- The attribute block `struct stat` (Linux, LP64): the two fields of `Stat`
that the guard of the reader looks at, and the other eleven. -/
structure stat extends Stat where
  st_dev : Nat
  st_ino : Nat
  st_nlink : Nat
  st_uid : Nat
  st_gid : Nat
  st_rdev : Nat
  st_blksize : Int
  st_blocks : Int
  st_atim : timespec
  st_mtim : timespec
  st_ctim : timespec
deriving DecidableEq, Repr

/-- The function `fill_filestat_from_stat` (both pointers valid): the return
value and `*my_stat` afterwards; every field of the record is assigned. -/
def fill_filestat_from_stat (stbuf : stat) : Int × filestat :=
  (0,
    { size := stbuf.st_size
      blocks := stbuf.st_blocks
      mode := stbuf.st_mode
      uid := stbuf.st_uid
      gid := stbuf.st_gid
      atime := stbuf.st_atim.tv_sec
      mtime := stbuf.st_mtim.tv_sec
      ctime := stbuf.st_ctim.tv_sec
      atimensec := stbuf.st_atim.tv_nsec
      mtimensec := stbuf.st_mtim.tv_nsec
      ctimensec := stbuf.st_ctim.tv_nsec
      nlink := stbuf.st_nlink
      blksize := stbuf.st_blksize })

/-- The function `fill_filestat_from_realfile`, on the outcome of its `fstatat`
(an `errno` or the attributes): `.error res` is the non-zero return `res`,
`.ok` is return 0 with the record filled. -/
def fill_filestat_from_realfile (fstatat : Except Int stat) : Except Int filestat :=
  match fstatat with
  | .error _ => .error (-EPERM)
  | .ok stbuf =>
    let r := fill_filestat_from_stat stbuf
    if r.1 = -1 then .error (-EPERM) else .ok r.2

/-- The function `fill_stat_from_filestat_with_options` (both pointers valid):
the return value and `*stbuf` afterwards. -/
def fill_stat_from_filestat_with_options (stbuf : stat) (my_stat : filestat)
    (mode times uid gid : Bool) : Int × stat :=
  let stbuf := { stbuf with st_size := my_stat.size }
  let stbuf := { stbuf with st_blocks := my_stat.blocks }
  let stbuf := if mode then { stbuf with st_mode := my_stat.mode } else stbuf
  let stbuf := if uid then { stbuf with st_uid := my_stat.uid } else stbuf
  let stbuf := if gid then { stbuf with st_gid := my_stat.gid } else stbuf
  let stbuf :=
    if times then
      { stbuf with
        st_atim := { tv_sec := my_stat.atime, tv_nsec := my_stat.atimensec }
        st_mtim := { tv_sec := my_stat.mtime, tv_nsec := my_stat.mtimensec }
        st_ctim := { tv_sec := my_stat.ctime, tv_nsec := my_stat.ctimensec } }
    else stbuf
  (0, stbuf)

/-- The function `convert_filesize_to_fileblocks`; the C division truncates
toward zero. -/
def convert_filesize_to_fileblocks (size : Int) : Int :=
  Int.tdiv size 512 + 1

/-- The function `write_filestat` of `filestat_parser.c`. -/
def write_filestat (file_fd : Int) (file : File) (my_stat : filestat) : Int × File :=
  if file_fd = 0 then (-EPERM, file)
  else
    let r := filestat_parser_format_write file_fd file my_stat
    if r.1 ≠ 0 then (r.1, r.2) else (0, r.2)

/-! ## The dispatcher (`catalogfs.c`)

The callbacks take the outcomes of their system calls as arguments (an `errno`
or the result) and return their return value together with the memory they
leave; the log file is not embedded. -/

def EINVAL : Int := 22
def EACCES : Int := 13
def ENOMEM : Int := 12

def S_IFDIR : Nat := 0o040000
def S_IFLNK : Nat := 0o120000

/-- The macro `S_ISDIR`. -/
def S_ISDIR (m : Nat) : Bool := (m &&& S_IFMT) == S_IFDIR

/-- The macro `S_ISLNK`. -/
def S_ISLNK (m : Nat) : Bool := (m &&& S_IFMT) == S_IFLNK

/-- Conversion to `int64_t` / `ssize_t` / `off_t`: the value modulo 2^64 in the
signed range. -/
def to_int64 (x : Int) : Int := (x + 2 ^ 63) % 2 ^ 64 - 2 ^ 63

/-- Conversion to `int`: the value modulo 2^32 in the signed range. -/
def to_int32 (x : Int) : Int := (x + 2 ^ 31) % 2 ^ 32 - 2 ^ 31

/-- The policy flags of `struct my_private_data`. -/
structure my_private_data where
  log_only_errors : Bool
  ignore_saved_chmod : Bool
  ignore_saved_times : Bool
  use_saved_uid : Bool
  use_saved_gid : Bool
deriving DecidableEq, Repr

/-- The structure `struct my_fh_fileinfo` kept for every opened file. -/
structure my_fh_fileinfo where
  file_fd : Int
  file_size : Int
deriving DecidableEq, Repr

/-- The fields of `struct fuse_file_info` the callbacks use; `fh` holds the
address of the `my_fh_fileinfo`, 0 for none. -/
structure fuse_file_info where
  flags : Int
  fh : Nat
deriving DecidableEq, Repr

/-- The function `get_mode_by_path`, on the outcome of its `fstatat`. -/
def get_mode_by_path (fstatat : Except Int stat) : Nat :=
  match fstatat with
  | .error _ => 0
  | .ok stbuf => stbuf.st_mode

/-- The record `save_filestat` hands to the writer: the skeleton of the real
file with `size` and `blocks` taken from the handle. -/
def save_filestat_record (my_stat : filestat) (file_size : Int) : filestat :=
  { my_stat with size := file_size, blocks := convert_filesize_to_fileblocks file_size }

/-- The function `save_filestat`, on the outcome of the `fstatat` of the real
file and the file behind `file_fd`: the return value and the file afterwards. -/
def save_filestat (file_fd : Int) (fstatat : Except Int stat) (file : File) (file_size : Int) :
    Int × File :=
  match fill_filestat_from_realfile fstatat with
  | .error res => (res, file)
  | .ok my_stat =>
    let r := write_filestat file_fd file (save_filestat_record my_stat file_size)
    if r.1 ≠ 0 then (r.1, r.2) else (0, r.2)

/-- The callback `catalogfs_getattr`, on the `*stbuf` of the caller, the outcome
of `fstatat` on the path and the outcome of the `openat` of `read_filestat`: the
return value and `*stbuf` afterwards. -/
def catalogfs_getattr (my_data : my_private_data) (stbuf : stat) (fstatat : Except Int stat)
    (openat : Except Int OpenedFile) : Option (Int × stat) :=
  match fstatat with
  | .error errno => some (-errno, stbuf)
  | .ok stbuf =>
    if !S_ISREG stbuf.st_mode && !S_ISDIR stbuf.st_mode && !S_ISLNK stbuf.st_mode then
      some (-EPERM, stbuf)
    else if S_ISREG stbuf.st_mode then
      if stbuf.st_size = 0 then some (0, stbuf)
      else
        let r := fill_filestat_from_stat stbuf
        if r.1 ≠ 0 then some (-EPERM, stbuf)
        else
          match read_filestat openat r.2 with
          | none => none
          | some (res, my_stat) =>
            if res ≠ 0 then some (res, stbuf)
            else
              let r := fill_stat_from_filestat_with_options stbuf my_stat
                (!my_data.ignore_saved_chmod) (!my_data.ignore_saved_times)
                my_data.use_saved_uid my_data.use_saved_gid
              if r.1 ≠ 0 then some (-EPERM, r.2) else some (0, r.2)
    else some (0, stbuf)

/-- The callback `catalogfs_create`, on the outcome of `openat` and the address
`malloc` returns (0 for `NULL`): the return value, `*fi` afterwards and the
`my_fh_fileinfo` it allocated, if any. -/
def catalogfs_create (mode : Nat) (fi : Option fuse_file_info) (openat : Except Int Int)
    (malloc : Nat) : Int × Option fuse_file_info × Option my_fh_fileinfo :=
  if !S_ISREG mode then (-EPERM, fi, none)
  else
    match fi with
    | none => (-EINVAL, none, none)
    | some f =>
      if f.fh = 0 ∧ S_ISREG mode then
        match openat with
        | .error errno => (-errno, some f, none)
        | .ok fd =>
          if malloc = 0 then (-ENOMEM, some f, none)
          else (0, some { f with fh := malloc }, some { file_fd := fd, file_size := 0 })
      else (0, some f, none)

/-- The callback `catalogfs_open`: the return value and `*fi` afterwards. -/
def catalogfs_open (_path : List Nat) (fi : Option fuse_file_info) :
    Int × Option fuse_file_info :=
  (-EACCES, fi)

/-- The callback `catalogfs_read`. -/
def catalogfs_read (_path _buf : List Nat) (_size : Nat) (_offset : Int)
    (_fi : Option fuse_file_info) : Int :=
  -EPERM

/-- The callback `catalogfs_write`, on the outcome of the `fstatat` of
`get_mode_by_path` and the `my_fh_fileinfo` at the address `fi->fh`: the return
value and that structure afterwards. The sum `offset + (ssize_t)size` wraps. -/
def catalogfs_write (fstatat : Except Int stat) (_buf : List Nat) (size : Nat) (offset : Int)
    (fi : Option fuse_file_info) (data : my_fh_fileinfo) : Int × my_fh_fileinfo :=
  if !S_ISREG (get_mode_by_path fstatat) then (-EPERM, data)
  else
    match fi with
    | none => (-EPERM, data)
    | some f =>
      if f.fh = 0 then (-EPERM, data)
      else if data.file_fd = -1 then (-EPERM, data)
      else
        let min_file_size := to_int64 (offset + to_int64 size)
        let data :=
          if data.file_size < min_file_size then { data with file_size := min_file_size }
          else data
        (to_int32 size, data)

/-- The callback `catalogfs_flush`, on the outcomes of `dup`, of the `fstatat`
of `save_filestat` and of `close`: the return value, the `my_fh_fileinfo` and
the file afterwards. -/
def catalogfs_flush (fi : Option fuse_file_info) (data : my_fh_fileinfo) (file : File)
    (dup : Except Int Int) (fstatat : Except Int stat) (close : Except Int Unit) :
    Int × my_fh_fileinfo × File :=
  match fi with
  | none => (-EPERM, data, file)
  | some f =>
    if f.fh = 0 then (-EPERM, data, file)
    else if data.file_fd = -1 then (-EPERM, data, file)
    else
      match dup with
      | .error errno => (-errno, data, file)
      | .ok dup_fd =>
        let r := save_filestat dup_fd fstatat file data.file_size
        if r.1 ≠ 0 then (r.1, data, r.2)
        else
          match close with
          | .error errno => (-errno, data, r.2)
          | .ok _ => (0, data, r.2)

/-- What `catalogfs_release` leaves: the return value, the `my_fh_fileinfo`
(`none` once freed), whether `close` was called on its descriptor, the file. -/
structure Released where
  res : Int
  data : Option my_fh_fileinfo
  fd_closed : Bool
  file : File
deriving DecidableEq, Repr

/-- The callback `catalogfs_release`, on the outcomes of the `fstatat` of
`save_filestat` and of `close`. -/
def catalogfs_release (fi : Option fuse_file_info) (data : my_fh_fileinfo) (file : File)
    (fstatat : Except Int stat) (close : Except Int Unit) : Released :=
  match fi with
  | none => ⟨-EPERM, some data, false, file⟩
  | some f =>
    if f.fh = 0 then ⟨-EPERM, some data, false, file⟩
    else if data.file_fd = -1 then ⟨-EPERM, some data, false, file⟩
    else
      let r := save_filestat data.file_fd fstatat file data.file_size
      if r.1 ≠ 0 then ⟨r.1, some data, false, r.2⟩
      else
        match close with
        | .error errno => ⟨-errno, some data, true, r.2⟩
        | .ok _ => ⟨0, none, true, r.2⟩

/-- The macro `RELPATH`, on the bytes of the C string `path`: `"."` for `"/"`
and for the empty string, `path + 1` after a leading slash, else `path`. -/
def RELPATH (path : List Nat) : List Nat :=
  if path.head? = some 47 then (if path.length = 1 then bytes "." else path.drop 1)
  else if path.head? = none then bytes "." else path

/-- The callback `catalogfs_rename`, on a system call `renameat2` acting on the
state `dir` of the source directory (an `errno` on failure): the return value
and the state afterwards. -/
def catalogfs_rename {Dir : Type}
    (renameat2 : List Nat → List Nat → Nat → Dir → Except Int Dir)
    (from_ to_ : List Nat) (flags : Nat) (dir : Dir) : Int × Dir :=
  if flags ≠ 0 then (-EINVAL, dir)
  else
    match renameat2 (RELPATH from_) (RELPATH to_) flags dir with
    | .error errno => (-errno, dir)
    | .ok dir => (0, dir)

/-! ## Line view of the reader

The reader consumes its stream line by line. The definitions below describe one
line at a time; `filestat_parser_format_read_eq_lines` proves that the loops
above compute exactly this. -/

/-- A line delimiter of the sidecar format. -/
def isnl (c : Nat) : Bool := c == FILESTAT_NEWLINE_CHAR_1 || c == FILESTAT_NEWLINE_CHAR_2

/-- The number of bytes at which a line overflows its buffer: `needed_max` of
`getdelim_advanced`. -/
def line_cap (max_size : Nat) : Nat :=
  if 0 < max_size ∧ max_size < 2 ^ 63 then max_size else 2 ^ 63

/-- The first line of a stream, its delimiter included, and what follows it. -/
def nextLine : List Nat → List Nat × List Nat
  | [] => ([], [])
  | c :: cs => if isnl c then ([c], cs) else ((c :: (nextLine cs).1), (nextLine cs).2)

/-- All lines of a stream, each with its delimiter (the last may lack one). -/
def splitLines : List Nat → List (List Nat)
  | [] => []
  | c :: cs =>
    if isnl c then [c] :: splitLines cs
    else
      match splitLines cs with
      | [] => [[c]]
      | l :: ls => (c :: l) :: ls

/-- The post-processing of `filestat_read_line` applied to a `getdelim_advanced` outcome. -/
def read_line_of (r : Getdelim) : ReadLine :=
  if r.result < 0 then
    if r.read_before_eof ≥ 0 then ⟨r.read_before_eof, r.lineptr, r.errno, r.fp⟩
    else ⟨r.result, [], r.errno, r.fp⟩
  else ⟨r.result, r.lineptr, r.errno, r.fp⟩

/-- The C string the parser sees for a raw line: cut at the first NUL, final
delimiter removed. -/
def lineOf (raw : List Nat) : List Nat := filestat_clean_line (cstr raw)

/-- What `filestat_get_next_option_pair` makes of one cleaned line. -/
inductive LineClass where
  | skip
  | bad
  | pair (option value : List Nat)
deriving DecidableEq, Repr

def classifyLine (line : List Nat) (use_legacy_format : Bool) : LineClass :=
  match filestat_parse_line line use_legacy_format with
  | .skipped => .skip
  | .failed => .bad
  | .pair opt val =>
    if is_string_empty (trim_string opt) then .bad else .pair (trim_string opt) (trim_string val)

/-- Effect of one line on the state of the read loop: the call returns
(`done`), or the loop goes on with new flags and record (`next`). -/
inductive Step where
  | done (res : Int) (my_stat : filestat)
  | next (it_is_header_line use_legacy_format : Bool) (my_stat : filestat)
deriving DecidableEq, Repr

def stepLine (raw : List Nat) (it_is_header_line use_legacy_format : Bool) (my_stat : filestat) :
    Step :=
  if line_cap (if it_is_header_line then FILESTAT_MAX_HEADER_LENGTH else 0) ≤ raw.length then
    .done (- EOVERFLOW) my_stat
  else
    match classifyLine (lineOf raw) use_legacy_format with
    | .skip => .next it_is_header_line use_legacy_format my_stat
    | .bad =>
      if filestat_is_line_a_legacy_header (some (lineOf raw)) then .next false true my_stat
      else .done (-1) my_stat
    | .pair option value =>
      if it_is_header_line then
        if filestat_is_header_correct option value ≠ 0 then .done (-EPERM) my_stat
        else .next false use_legacy_format my_stat
      else if use_legacy_format ∧ filestat_is_option_a_legacy_terminal_one option then
        .done (filestat_check_results my_stat) my_stat
      else
        let r := filestat_process_option_pair option value my_stat
        if r.1 ≠ 0 then .done (-EPERM) r.2 else .next false use_legacy_format r.2

/-- The read loop over the lines of the stream. -/
def processLines :
    List (List Nat) → (it_is_header_line use_legacy_format : Bool) → filestat → Int × filestat
  | [], _, _, my_stat => (filestat_check_results my_stat, my_stat)
  | raw :: ls, it_is_header_line, use_legacy_format, my_stat =>
    match stepLine raw it_is_header_line use_legacy_format my_stat with
    | .done res st => (res, st)
    | .next h l st => processLines ls h l st

/-! ## Notions used in the statements -/

/-- The nine signed fields the reader checks are not negative. -/
def filestat.signedNonneg (r : filestat) : Prop :=
  0 ≤ r.size ∧ 0 ≤ r.blocks ∧ 0 ≤ r.atime ∧ 0 ≤ r.mtime ∧ 0 ≤ r.ctime ∧
  0 ≤ r.atimensec ∧ 0 ≤ r.mtimensec ∧ 0 ≤ r.ctimensec ∧ 0 ≤ r.blksize

/-- Unpadded decimal rendering of an integer, with a minus sign in front of a
negative one and no sign otherwise (the library rendering of integers). -/
def decimal_text (v : Int) : List Nat := bytes (toString v)

/-- The 14 lines of the sidecar of a record as the format description gives
them: the header, then one `key=value` line per field in the fixed order. -/
def sidecar_lines (r : filestat) : List (List Nat) :=
  [ bytes "CatalogFS=3\n",
    bytes "size=" ++ decimal_text r.size ++ bytes "\n",
    bytes "blocks=" ++ decimal_text r.blocks ++ bytes "\n",
    bytes "mode=" ++ decimal_text r.mode ++ bytes "\n",
    bytes "uid=" ++ decimal_text r.uid ++ bytes "\n",
    bytes "gid=" ++ decimal_text r.gid ++ bytes "\n",
    bytes "atime=" ++ decimal_text r.atime ++ bytes "\n",
    bytes "mtime=" ++ decimal_text r.mtime ++ bytes "\n",
    bytes "ctime=" ++ decimal_text r.ctime ++ bytes "\n",
    bytes "atimensec=" ++ decimal_text r.atimensec ++ bytes "\n",
    bytes "mtimensec=" ++ decimal_text r.mtimensec ++ bytes "\n",
    bytes "ctimensec=" ++ decimal_text r.ctimensec ++ bytes "\n",
    bytes "nlink=" ++ decimal_text r.nlink ++ bytes "\n",
    bytes "blksize=" ++ decimal_text r.blksize ++ bytes "\n" ]

/-- A sample record, every field in range and not negative. -/
def sample_record : filestat :=
  ⟨100, 1, 33188, 1000, 1000, 1700000000, 1700000001, 1700000002, 5, 6, 7, 1, 4096⟩

/-- A sample skeleton, as an underlying inode would fill it. -/
def sample_skeleton : filestat :=
  ⟨154, 8, 33152, 0, 0, 1600000000, 1600000000, 1600000000, 11, 12, 13, 2, 512⟩

/-- A sample target file with earlier content and a moved offset. -/
def sample_file : File := ⟨[120, 121, 122, 10, 113], 2⟩

/-- A cleaned line the reader skips: a comment, or empty / white space only. -/
def skippable (line : List Nat) : Bool :=
  is_string_a_comment line || is_string_empty_or_whitespace line

/-- The first line of a content that is neither a comment nor blank, as the
reader sees it (cut at a NUL, delimiter removed); `none` when there is none. -/
def first_non_skippable_line (content : List Nat) : Option (List Nat) :=
  ((splitLines content).map lineOf).find? (fun line => !skippable line)

/-- A header line of the current format as the reader accepts it: the text
before the first '=' trims to `CatalogFS` and the text after it trims to a
number that the unsigned 32-bit scan reads in full as 3. -/
def is_current_header (line : List Nat) : Bool :=
  match classifyLine line false with
  | .pair k v => k == bytes "CatalogFS" && filestat_sscanf_value v .u32 == (0, some 3)
  | _ => false

/-- The key the read loop passes to `filestat_process_option_pair` for a raw
line met with the given flags (none for a skipped, rejected, header or
terminator line). -/
def processed_key (raw : List Nat) (it_is_header_line use_legacy_format : Bool) :
    List (List Nat) :=
  if line_cap (if it_is_header_line then FILESTAT_MAX_HEADER_LENGTH else 0) ≤ raw.length then []
  else
    match classifyLine (lineOf raw) use_legacy_format with
    | .pair k _ =>
      if it_is_header_line then []
      else if use_legacy_format ∧ filestat_is_option_a_legacy_terminal_one k then []
      else [k]
    | _ => []

/-- The keys of the data lines the read loop processes, in order, until it returns. -/
def processed_keys :
    List (List Nat) → (it_is_header_line use_legacy_format : Bool) → filestat → List (List Nat)
  | [], _, _, _ => []
  | raw :: ls, h, l, st =>
    processed_key raw h l ++
      match stepLine raw h l st with
      | .done _ _ => []
      | .next h' l' st' => processed_keys ls h' l' st'

/-- Every field of `r` whose key is not among `keys` has the value it has in `s`. -/
def unchanged_outside (keys : List (List Nat)) (s r : filestat) : Prop :=
  (bytes "size" ∉ keys → r.size = s.size) ∧
  (bytes "blocks" ∉ keys → r.blocks = s.blocks) ∧
  (bytes "mode" ∉ keys → r.mode = s.mode) ∧
  (bytes "uid" ∉ keys → r.uid = s.uid) ∧
  (bytes "gid" ∉ keys → r.gid = s.gid) ∧
  (bytes "atime" ∉ keys → r.atime = s.atime) ∧
  (bytes "mtime" ∉ keys → r.mtime = s.mtime) ∧
  (bytes "ctime" ∉ keys → r.ctime = s.ctime) ∧
  (bytes "atimensec" ∉ keys → r.atimensec = s.atimensec) ∧
  (bytes "mtimensec" ∉ keys → r.mtimensec = s.mtimensec) ∧
  (bytes "ctimensec" ∉ keys → r.ctimensec = s.ctimensec) ∧
  (bytes "nlink" ∉ keys → r.nlink = s.nlink) ∧
  (bytes "blksize" ∉ keys → r.blksize = s.blksize)

/-- The 13 keys `filestat_process_option_pair` recognizes. -/
def recognized_keys : List (List Nat) :=
  [bytes "size", bytes "blocks", bytes "mode", bytes "uid", bytes "gid", bytes "atime",
    bytes "mtime", bytes "ctime", bytes "atimensec", bytes "mtimensec", bytes "ctimensec",
    bytes "nlink", bytes "blksize"]

/-- The read loop over a list of lines that is followed by more of the stream:
the outcome if it returns on one of them, else the state it has reached. -/
def runLines :
    List (List Nat) → (it_is_header_line use_legacy_format : Bool) → filestat → Step
  | [], h, l, my_stat => .next h l my_stat
  | raw :: ls, h, l, my_stat =>
    match stepLine raw h l my_stat with
    | .done res st => .done res st
    | .next h' l' st => runLines ls h' l' st

/-- A piece of content made of whole lines: empty, or ended by a line delimiter. -/
def ends_with_newline (pre : List Nat) : Prop :=
  ∀ c, pre.getLast? = some c → isnl c = true

/-- The record with the field named by a recognized key set to `v`. -/
def set_field (k : List Nat) (v : Int) (st : filestat) : filestat :=
  if k = bytes "size" then { st with size := v }
  else if k = bytes "blocks" then { st with blocks := v }
  else if k = bytes "mode" then { st with mode := v.toNat }
  else if k = bytes "uid" then { st with uid := v.toNat }
  else if k = bytes "gid" then { st with gid := v.toNat }
  else if k = bytes "atime" then { st with atime := v }
  else if k = bytes "mtime" then { st with mtime := v }
  else if k = bytes "ctime" then { st with ctime := v }
  else if k = bytes "atimensec" then { st with atimensec := v }
  else if k = bytes "mtimensec" then { st with mtimensec := v }
  else if k = bytes "ctimensec" then { st with ctimensec := v }
  else if k = bytes "nlink" then { st with nlink := v.toNat }
  else if k = bytes "blksize" then { st with blksize := v }
  else st

/-- The value `v` fits the C type of the field named by a recognized key:
`uint32_t` for mode, uid, gid; `uint64_t` for nlink; `int64_t` otherwise. -/
def in_field_range (k : List Nat) (v : Int) : Prop :=
  if k = bytes "mode" ∨ k = bytes "uid" ∨ k = bytes "gid" then 0 ≤ v ∧ v < 2 ^ 32
  else if k = bytes "nlink" then 0 ≤ v ∧ v < 2 ^ 64
  else -(2 : Int) ^ 63 ≤ v ∧ v < 2 ^ 63

/-- The text is in its entirety one decimal integer: an optional sign and then
one or more decimal digits, nothing else. -/
def is_decimal_integer (s : List Nat) : Bool :=
  match s with
  | [] => false
  | c :: t =>
    if c == 45 || c == 43 then !t.isEmpty && t.all isdigit
    else (c :: t).all isdigit

/-- An opened file as the callbacks see it: the `my_fh_fileinfo` behind `fi->fh`
and the underlying file behind its descriptor. -/
structure OpenHandle where
  data : my_fh_fileinfo
  file : File

/-- A call on an opened file, with the outcomes of its system calls. -/
inductive HandleOp where
  | write (fstatat : Except Int stat) (buf : List Nat) (size : Nat) (offset : Int)
  | flush (dup : Except Int Int) (fstatat : Except Int stat) (close : Except Int Unit)

/-- One call on an opened file: its return value and the opened file afterwards. -/
def apply_op (fi : Option fuse_file_info) (w : OpenHandle) : HandleOp → Int × OpenHandle
  | .write fstatat buf size offset =>
    let r := catalogfs_write fstatat buf size offset fi w.data
    (r.1, { w with data := r.2 })
  | .flush dup fstatat close =>
    let r := catalogfs_flush fi w.data w.file dup fstatat close
    (r.1, { data := r.2.1, file := r.2.2 })

/-- A sequence of calls on an opened file: the opened file at the end and the
return values in order. -/
def run_ops (fi : Option fuse_file_info) : OpenHandle → List HandleOp → OpenHandle × List Int
  | w, [] => (w, [])
  | w, op :: ops =>
    ((run_ops fi (apply_op fi w op).2 ops).1,
      (apply_op fi w op).1 :: (run_ops fi (apply_op fi w op).2 ops).2)

/-- The ends `offset + size` of the writes of a sequence of calls. -/
def write_ends : List HandleOp → List Int
  | [] => []
  | .write _ _ size offset :: ops => (offset + (size : Int)) :: write_ends ops
  | .flush _ _ _ :: ops => write_ends ops

/-- A write that passes the checks of `catalogfs_write` on a live handle (its
path is a regular file) and whose end fits in 64 signed bits; any flush. -/
def op_ok : HandleOp → Prop
  | .write fstatat _ size offset =>
    S_ISREG (get_mode_by_path fstatat) = true ∧
      -(2 : Int) ^ 63 ≤ offset + (size : Int) ∧ offset + (size : Int) < 2 ^ 63
  | .flush _ _ _ => True

/-- The call with the bytes of `buf` forgotten. -/
def erase_buf : HandleOp → HandleOp
  | .write fstatat _ size offset => .write fstatat [] size offset
  | .flush dup fstatat close => .flush dup fstatat close

/-- Sample attributes of an underlying regular file of 20 bytes. -/
def sample_stat : stat :=
  { st_mode := 33152, st_size := 20, st_dev := 2049, st_ino := 77, st_nlink := 2, st_uid := 1000,
    st_gid := 100, st_rdev := 0, st_blksize := 4096, st_blocks := 8,
    st_atim := ⟨1600000000, 11⟩, st_mtim := ⟨1600000001, 12⟩, st_ctim := ⟨1600000002, 13⟩ }

/-- The policy flags with all four overrides in effect. -/
def all_overrides : my_private_data :=
  { log_only_errors := false, ignore_saved_chmod := false, ignore_saved_times := false,
    use_saved_uid := true, use_saved_gid := true }

/-- Every field whose key is among `keys` has the same value in `s` and in `r`. -/
def agree_on (keys : List (List Nat)) (s r : filestat) : Prop :=
  (bytes "size" ∈ keys → r.size = s.size) ∧
  (bytes "blocks" ∈ keys → r.blocks = s.blocks) ∧
  (bytes "mode" ∈ keys → r.mode = s.mode) ∧
  (bytes "uid" ∈ keys → r.uid = s.uid) ∧
  (bytes "gid" ∈ keys → r.gid = s.gid) ∧
  (bytes "atime" ∈ keys → r.atime = s.atime) ∧
  (bytes "mtime" ∈ keys → r.mtime = s.mtime) ∧
  (bytes "ctime" ∈ keys → r.ctime = s.ctime) ∧
  (bytes "atimensec" ∈ keys → r.atimensec = s.atimensec) ∧
  (bytes "mtimensec" ∈ keys → r.mtimensec = s.mtimensec) ∧
  (bytes "ctimensec" ∈ keys → r.ctimensec = s.ctimensec) ∧
  (bytes "nlink" ∈ keys → r.nlink = s.nlink) ∧
  (bytes "blksize" ∈ keys → r.blksize = s.blksize)

/-- A sample `renameat2` on a directory given by the names of its entries: the
entry is renamed when it exists and the flags are 0, else `ENOENT` or `EINVAL`. -/
def sample_renameat2 (old new : List Nat) (flags : Nat) (dir : List (List Nat)) :
    Except Int (List (List Nat)) :=
  if flags ≠ 0 then .error 22
  else if old ∈ dir then .ok (dir.map (fun e => if e = old then new else e))
  else .error 2

/-- The byte `c` ends a line of `getdelim_advanced` called with these two
delimiters (a negative additional delimiter is ignored). -/
def is_delimiter (delimiter additional_delimiter : Int) (c : Nat) : Bool :=
  decide ((c : Int) = delimiter) ||
    (decide (additional_delimiter ≥ 0) && decide ((c : Int) = additional_delimiter))

/-- A run of spaces and tabs. -/
def is_blank_run (w : List Nat) : Prop := ∀ c ∈ w, c = 32 ∨ c = 9

/-- Some line of the list is as long as the cap in force where it stands: the
header cap while `it_is_header_line` holds (until a line that is neither a
comment nor blank has passed), the cap of an unlimited read afterwards. -/
def exceeds_cap : List (List Nat) → Bool → Prop
  | [], _ => False
  | raw :: ls, it_is_header_line =>
    line_cap (if it_is_header_line then FILESTAT_MAX_HEADER_LENGTH else 0) ≤ raw.length ∨
      exceeds_cap ls (it_is_header_line && skippable (lineOf raw))

/-- Reading a stream to its end with `getdelim_advanced` and no cap: the call
is repeated on what the previous call left unread, each call handing back one
piece (the line stored, or the `read_before_eof` bytes stored before the end of
the stream), until a call reports the end of the stream with zero bytes.
`none`: a call failed otherwise, or the calls allowed were used up. -/
def read_pieces (delimiter additional_delimiter : Int) :
    Nat → List Nat → Option (List (List Nat))
  | 0, _ => none
  | fuel + 1, fp =>
    let r := getdelim_advanced delimiter additional_delimiter fp 0
    if r.result ≥ 0 ∨ r.read_before_eof > 0 then
      (read_pieces delimiter additional_delimiter fuel r.fp).map (fun ps => r.lineptr :: ps)
    else if r.read_before_eof = 0 then some []
    else none

/-- The content with every `\n` byte replaced by the bytes `rep`. -/
def replace_newlines (rep : List Nat) : List Nat → List Nat
  | [] => []
  | c :: cs => (if c = 10 then rep else [c]) ++ replace_newlines rep cs

/-! ## Theorems -/

/-! ### The line reader -/

theorem getdelim_grow_none (ms n len : Nat) (h1 : len + 1 ≤ n) (h2 : n ≤ line_cap ms) :
    getdelim_grow ms n len = none ↔ line_cap ms ≤ len + 1 := by
  unfold getdelim_grow line_cap SSIZE_MAX SIZE_MAX at *
  simp only [ge_iff_le]
  split_ifs at * <;> simp <;> omega

theorem getdelim_grow_some (ms n len n' : Nat) (h1 : len + 1 ≤ n) (h2 : n ≤ line_cap ms)
    (h : getdelim_grow ms n len = some n') : len + 2 ≤ n' ∧ n' ≤ line_cap ms := by
  unfold getdelim_grow line_cap SSIZE_MAX SIZE_MAX at *
  simp only [ge_iff_le] at h
  split_ifs at * <;> simp at h <;> omega

theorem nextLine_length (fp : List Nat) :
    (nextLine fp).1.length + (nextLine fp).2.length = fp.length := by
  induction fp with
  | nil => simp [nextLine]
  | cons c cs ih =>
    unfold nextLine
    split_ifs <;> simp <;> omega

theorem nextLine_append (fp : List Nat) : (nextLine fp).1 ++ (nextLine fp).2 = fp := by
  induction fp with
  | nil => simp [nextLine]
  | cons c cs ih =>
    unfold nextLine
    split_ifs <;> simp [ih]

theorem nextLine_pos (c : Nat) (cs : List Nat) : 0 < (nextLine (c :: cs)).1.length := by
  unfold nextLine
  split_ifs <;> simp

theorem getdelim_loop_spec (ms : Nat) (fp : List Nat) :
    ∀ (buf : List Nat) (n : Nat), buf.length + 1 ≤ n → n ≤ line_cap ms →
      read_line_of (getdelim_loop FILESTAT_NEWLINE_CHAR_1 FILESTAT_NEWLINE_CHAR_2 ms fp buf n) =
        if buf.length + (nextLine fp).1.length < line_cap ms then
          ⟨(buf.length + (nextLine fp).1.length : Nat), buf ++ (nextLine fp).1, 0, (nextLine fp).2⟩
        else ⟨-1, [], EOVERFLOW, fp.drop (line_cap ms - buf.length)⟩ := by
  induction fp with
  | nil =>
    intro buf n h1 h2
    have : buf.length < line_cap ms := by omega
    simp [getdelim_loop, nextLine, read_line_of, this]
  | cons i fp ih =>
    intro buf n h1 h2
    unfold getdelim_loop
    cases hg : getdelim_grow ms n buf.length with
    | none =>
      have hc := (getdelim_grow_none ms n buf.length h1 h2).mp hg
      have hp := nextLine_pos i fp
      have h3 : ¬ (buf.length + (nextLine (i :: fp)).1.length < line_cap ms) := by omega
      have h4 : line_cap ms - buf.length = 1 := by omega
      simp [read_line_of, h3, h4, EOVERFLOW]
    | some n' =>
      have hs := getdelim_grow_some ms n buf.length n' h1 h2 hg
      have hc : ¬ (line_cap ms ≤ buf.length + 1) := by
        intro hle
        have := (getdelim_grow_none ms n buf.length h1 h2).mpr hle
        rw [hg] at this
        cases this
      by_cases hnl : isnl i = true
      · have hd : ((i : Int) = (FILESTAT_NEWLINE_CHAR_1 : Nat) ∨
            ((FILESTAT_NEWLINE_CHAR_2 : Nat) : Int) ≥ 0 ∧ (i : Int) = (FILESTAT_NEWLINE_CHAR_2 : Nat)) := by
          simp [isnl] at hnl
          rcases hnl with h | h
          · left; exact_mod_cast h
          · right; exact ⟨by simp, by exact_mod_cast h⟩
        have h3 : buf.length + 1 < line_cap ms := by omega
        simp only [hd, if_true]
        simp [read_line_of, nextLine, hnl, h3]
        omega
      · have hd : ¬ ((i : Int) = (FILESTAT_NEWLINE_CHAR_1 : Nat) ∨
            ((FILESTAT_NEWLINE_CHAR_2 : Nat) : Int) ≥ 0 ∧ (i : Int) = (FILESTAT_NEWLINE_CHAR_2 : Nat)) := by
          simp [isnl] at hnl
          rintro (h | ⟨_, h⟩)
          · exact hnl.1 (by exact_mod_cast h)
          · exact hnl.2 (by exact_mod_cast h)
        simp only [hd, if_false]
        have := ih (buf ++ [i]) n' (by simp; omega) hs.2
        rw [this]
        have e1 : (buf ++ [i]).length + (nextLine fp).1.length
            = buf.length + (nextLine (i :: fp)).1.length := by
          simp [nextLine, hnl]; omega
        have e2 : line_cap ms - (buf ++ [i]).length + 1 = line_cap ms - buf.length := by
          simp; omega
        rw [e1]
        split_ifs with h5
        · simp [nextLine, hnl]
        · rw [← e2]; simp

/-- The function `filestat_read_line` returns the next line of the stream when
it is shorter than the cap, and fails with `EOVERFLOW` otherwise. -/
theorem filestat_read_line_spec (fp : List Nat) (ms : Nat) :
    filestat_read_line fp ms =
      if (nextLine fp).1.length < line_cap ms then
        ⟨((nextLine fp).1.length : Nat), (nextLine fp).1, 0, (nextLine fp).2⟩
      else ⟨-1, [], EOVERFLOW, fp.drop (line_cap ms)⟩ := by
  have h := getdelim_loop_spec ms fp [] (if ms > 0 ∧ ms < 120 then ms else 120)
    (by simp; split_ifs <;> omega)
    (by unfold line_cap; split_ifs <;> omega)
  simp only [List.length_nil, Nat.zero_add, List.nil_append, Nat.sub_zero] at h
  rw [← h]
  rfl

/-! ### The reader, line by line -/

theorem nextLine_splitLines (c : Nat) (cs : List Nat) :
    splitLines (c :: cs) = (nextLine (c :: cs)).1 :: splitLines (nextLine (c :: cs)).2 := by
  induction cs generalizing c with
  | nil =>
    unfold splitLines nextLine
    split_ifs <;> simp [splitLines, nextLine]
  | cons d ds ih =>
    conv_lhs => rw [splitLines]
    conv_rhs => rw [nextLine]
    split_ifs with h
    · rfl
    · rw [ih d]

theorem line_cap_pos (ms : Nat) : 0 < line_cap ms := by
  unfold line_cap
  split_ifs <;> omega

theorem get_next_fuel (ms : Nat) (legacy : Bool) :
    ∀ (fuel1 fuel2 : Nat) (fp : List Nat), fp.length < fuel1 → fp.length < fuel2 →
      filestat_get_next_option_pair ms legacy fuel1 fp =
        filestat_get_next_option_pair ms legacy fuel2 fp := by
  intro fuel1
  induction fuel1 with
  | zero => intro fuel2 fp h; omega
  | succ f1 ih =>
    intro fuel2 fp h1 h2
    cases fuel2 with
    | zero => omega
    | succ f2 =>
      unfold filestat_get_next_option_pair
      simp only [filestat_read_line_spec]
      have hl := nextLine_length fp
      by_cases hcap : (nextLine fp).1.length < line_cap ms
      · simp only [hcap, if_true]
        by_cases hz : (nextLine fp).1.length = 0
        · have : ((nextLine fp).1.length : Int) = 0 := by omega
          simp [this]
        · have h3 : ¬ (((nextLine fp).1.length : Int) < 0) := by omega
          have h4 : ¬ (((nextLine fp).1.length : Int) = 0) := by omega
          simp only [h3, h4, if_false]
          rw [ih f2 (nextLine fp).2 (by omega) (by omega)]
      · simp [hcap, EOVERFLOW]

theorem get_next_spec (ms : Nat) (legacy : Bool) (fuel : Nat) (fp : List Nat)
    (hf : fp.length < fuel) :
    filestat_get_next_option_pair ms legacy fuel fp =
      if fp = [] then .eof []
      else if line_cap ms ≤ (nextLine fp).1.length then
        .error (- EOVERFLOW) none (fp.drop (line_cap ms))
      else
        match classifyLine (lineOf (nextLine fp).1) legacy with
        | .skip =>
          filestat_get_next_option_pair ms legacy ((nextLine fp).2.length + 1) (nextLine fp).2
        | .bad => .error (-1) (some (lineOf (nextLine fp).1)) (nextLine fp).2
        | .pair o v => .pair o v (nextLine fp).2 := by
  cases fuel with
  | zero => omega
  | succ f =>
    conv_lhs =>
      unfold filestat_get_next_option_pair
      simp only [filestat_read_line_spec]
    have hl := nextLine_length fp
    cases fp with
    | nil =>
      have hc := line_cap_pos ms
      simp [nextLine, hc]
    | cons c cs =>
      have hp := nextLine_pos c cs
      simp only [reduceCtorEq, if_false]
      by_cases hcap : line_cap ms ≤ (nextLine (c :: cs)).1.length
      · have : ¬ ((nextLine (c :: cs)).1.length < line_cap ms) := by omega
        simp [this, hcap, EOVERFLOW]
      · have h1 : (nextLine (c :: cs)).1.length < line_cap ms := by omega
        have h2 : ¬ (((nextLine (c :: cs)).1.length : Int) < 0) := by omega
        have h3 : ¬ (((nextLine (c :: cs)).1.length : Int) = 0) := by omega
        simp only [h1, hcap, if_true, if_false, h2, h3]
        unfold classifyLine lineOf
        cases hpl : filestat_parse_line (filestat_clean_line (cstr (nextLine (c :: cs)).1)) legacy with
        | skipped =>
          simp only
          have hl2 : (nextLine (c :: cs)).1.length + (nextLine (c :: cs)).2.length = cs.length + 1 := by
            simpa using nextLine_length (c :: cs)
          have hf2 : cs.length + 1 < f + 1 := by simpa using hf
          exact get_next_fuel ms legacy f ((nextLine (c :: cs)).2.length + 1) (nextLine (c :: cs)).2
            (by omega) (by omega)
        | failed => simp only
        | pair o v =>
          simp only
          split_ifs <;> rfl
theorem read_loop_eq_lines :
    ∀ (k : Nat) (fp : List Nat) (fuel : Nat) (hdr legacy : Bool) (st : filestat),
      fp.length ≤ k → fp.length < fuel →
        filestat_read_loop fuel fp hdr legacy st = some (processLines (splitLines fp) hdr legacy st) := by
  intro k
  induction k with
  | zero =>
    intro fp fuel hdr legacy st hk hf
    have : fp = [] := List.length_eq_zero.mp (by omega)
    subst this
    cases fuel with
    | zero => simp at hf
    | succ f =>
      rw [filestat_read_loop, get_next_spec _ _ _ _ (by simp)]
      simp [splitLines, processLines]
  | succ k ih =>
    intro fp fuel hdr legacy st hk hf
    cases fuel with
    | zero => omega
    | succ f =>
      cases fp with
      | nil =>
        rw [filestat_read_loop, get_next_spec _ _ _ _ (by simp)]
        simp [splitLines, processLines]
      | cons c cs =>
        have hl : (nextLine (c :: cs)).1.length + (nextLine (c :: cs)).2.length = cs.length + 1 := by
          simpa using nextLine_length (c :: cs)
        have hp := nextLine_pos c cs
        have hk2 : cs.length + 1 ≤ k + 1 := by simpa using hk
        have hf2 : cs.length + 1 < f + 1 := by simpa using hf
        rw [nextLine_splitLines, processLines]
        unfold stepLine
        rw [filestat_read_loop, get_next_spec _ _ _ _ (by simp)]
        simp only [reduceCtorEq, if_false]
        by_cases hcap : line_cap (if hdr = true then FILESTAT_MAX_HEADER_LENGTH else 0) ≤
            (nextLine (c :: cs)).1.length
        · simp [hcap, filestat_is_line_a_legacy_header]
        · simp only [hcap, if_false]
          cases hcl : classifyLine (lineOf (nextLine (c :: cs)).1) legacy with
          | skip =>
            simp only
            have := ih (nextLine (c :: cs)).2 (f + 1) hdr legacy st (by omega) (by omega)
            rw [filestat_read_loop] at this
            exact this
          | bad =>
            simp only
            split_ifs
            · exact ih _ f false true st (by omega) (by omega)
            · rfl
          | pair o v =>
            simp only
            split_ifs
            · rfl
            · exact ih _ f false legacy st (by omega) (by omega)
            · rfl
            · rfl
            · exact ih _ f false legacy _ (by omega) (by omega)

/-- The reader is the line-by-line fold: it returns for every stream, and its
outcome is that of `processLines` over the lines of the stream. -/
theorem filestat_parser_format_read_eq_lines (fp : List Nat) (st : filestat) :
    filestat_parser_format_read fp st = some (processLines (splitLines fp) true false st) :=
  read_loop_eq_lines fp.length fp (fp.length + 1) true false st (le_refl _) (by omega)

/-! ### Decimal output and the numeric scan -/

theorem decimalAux_digits : ∀ (fuel n : Nat) (acc : List Nat),
    (∀ d ∈ acc, isdigit d = true) → ∀ d ∈ decimalAux fuel n acc, isdigit d = true := by
  intro fuel
  induction fuel with
  | zero => intro n acc h; simpa [decimalAux] using h
  | succ f ih =>
    intro n acc h
    unfold decimalAux
    split_ifs with hn
    · intro d hd
      rcases List.mem_cons.mp hd with rfl | hd
      · simp [isdigit]; omega
      · exact h d hd
    · apply ih
      intro d hd
      rcases List.mem_cons.mp hd with rfl | hd
      · simp [isdigit]; omega
      · exact h d hd

theorem decimalAux_ne_nil : ∀ (fuel n : Nat) (acc : List Nat),
    (0 < fuel ∨ acc ≠ []) → decimalAux fuel n acc ≠ [] := by
  intro fuel
  induction fuel with
  | zero => intro n acc h; rcases h with h | h; · omega
            simpa [decimalAux] using h
  | succ f ih =>
    intro n acc _
    unfold decimalAux
    split_ifs
    · simp
    · exact ih _ _ (Or.inr (by simp))

theorem decimalAux_value : ∀ (fuel n : Nat) (acc : List Nat), n < fuel →
    List.foldl (fun a d => 10 * a + (d - 48)) 0 (decimalAux fuel n acc) =
      List.foldl (fun a d => 10 * a + (d - 48)) n acc := by
  intro fuel
  induction fuel with
  | zero => intro n acc h; omega
  | succ f ih =>
    intro n acc h
    unfold decimalAux
    split_ifs with hn
    · simp
    · rw [ih (n / 10) _ (by omega)]
      simp only [List.foldl_cons]
      congr 1
      omega

theorem decimalAux_length : ∀ (fuel n k : Nat) (acc : List Nat), 0 < k → n < 10 ^ k →
    (decimalAux fuel n acc).length ≤ k + acc.length := by
  intro fuel
  induction fuel with
  | zero => intro n k acc _ _; simp [decimalAux]
  | succ f ih =>
    intro n k acc hk hn
    unfold decimalAux
    split_ifs with h10
    · simp; omega
    · cases k with
      | zero => omega
      | succ k =>
        have hk1 : 0 < k := by
          rcases Nat.eq_zero_or_pos k with h0 | h0
          · subst h0; simp at hn; omega
          · exact h0
        have hdiv : n / 10 < 10 ^ k := by
          rw [pow_succ] at hn
          exact Nat.div_lt_of_lt_mul (by rw [Nat.mul_comm]; exact hn)
        have := ih (n / 10) k ((48 + n % 10) :: acc) hk1 hdiv
        simp at this
        omega

theorem printf_u_digits (n : Nat) : ∀ d ∈ printf_u n, isdigit d = true :=
  decimalAux_digits _ _ _ (by simp)

theorem printf_u_ne_nil (n : Nat) : printf_u n ≠ [] :=
  decimalAux_ne_nil _ _ _ (Or.inl (by omega))

theorem printf_u_value (n : Nat) :
    List.foldl (fun a d => 10 * a + (d - 48)) 0 (printf_u n) = n := by
  unfold printf_u
  rw [decimalAux_value _ _ _ (by omega)]
  rfl

theorem printf_u_length (n : Nat) (h : n < 2 ^ 64) : (printf_u n).length ≤ 20 := by
  have := decimalAux_length (n + 1) n 20 [] (by omega) (by omega)
  simpa [printf_u] using this

theorem isdigit_not_space (d : Nat) (h : isdigit d = true) : isspace d = false := by
  simp [isdigit] at h
  simp [isspace]
  omega

theorem sscanf_printf_u (n : Nat) (fmt : ScanFmt) :
    sscanf (printf_u n) fmt = ⟨1, some (strto fmt false n), (printf_u n).length⟩ := by
  have hd := printf_u_digits n
  have hv := printf_u_value n
  have hne := printf_u_ne_nil n
  cases hp : printf_u n with
  | nil => exact absurd hp hne
  | cons c s =>
    rw [hp] at hd hv
    have hc : isdigit c = true := hd c (by simp)
    have hsp := isdigit_not_space c hc
    have htw : (c :: s).takeWhile isdigit = c :: s :=
      List.takeWhile_eq_self_iff.mpr hd
    have h45 : c ≠ 45 := by simp [isdigit] at hc; omega
    have h43 : c ≠ 43 := by simp [isdigit] at hc; omega
    simp only [sscanf, List.takeWhile_cons, List.dropWhile_cons, hsp]
    have hb : (c == 45) = false := by simpa using h45
    simp [h45, h43, htw, hv, hb]

theorem sscanf_minus_printf_u (n : Nat) (fmt : ScanFmt) :
    sscanf (45 :: printf_u n) fmt = ⟨1, some (strto fmt true n), (printf_u n).length + 1⟩ := by
  have hd := printf_u_digits n
  have hv := printf_u_value n
  have hne := printf_u_ne_nil n
  have htw : (printf_u n).takeWhile isdigit = printf_u n :=
    List.takeWhile_eq_self_iff.mpr hd
  have hsp : isspace 45 = false := by decide
  simp only [sscanf, List.takeWhile_cons, List.dropWhile_cons, hsp]
  simp [htw, hv, hne]
  omega

theorem filestat_sscanf_value_printf_d (v : Int) (h1 : -(2:Int) ^ 63 ≤ v) (h2 : v < 2 ^ 63) :
    filestat_sscanf_value (printf_d v) .d64 = (0, some v) := by
  unfold filestat_sscanf_value printf_d
  split_ifs with hneg
  · rw [sscanf_minus_printf_u]
    simp [strto, -Int.natCast_natAbs]
    omega
  · rw [sscanf_printf_u]
    simp [strto, -Int.natCast_natAbs]
    omega

theorem filestat_sscanf_value_printf_u32 (n : Nat) (h : n < 2 ^ 32) :
    filestat_sscanf_value (printf_u n) .u32 = (0, some (n : Int)) := by
  unfold filestat_sscanf_value
  rw [sscanf_printf_u]
  have : ¬ (n > 2 ^ 64 - 1) := by omega
  simp [strto, this]
  omega

theorem filestat_sscanf_value_printf_u64 (n : Nat) (h : n < 2 ^ 64) :
    filestat_sscanf_value (printf_u n) .u64 = (0, some (n : Int)) := by
  unfold filestat_sscanf_value
  rw [sscanf_printf_u]
  have : ¬ (n > 2 ^ 64 - 1) := by omega
  simp [strto, this]
  omega

/-! ### Lines and their classification -/

theorem nextLine_line (l : List Nat) (d : Nat) (rest : List Nat)
    (hl : ∀ c ∈ l, isnl c = false) (hd : isnl d = true) :
    nextLine (l ++ d :: rest) = (l ++ [d], rest) := by
  induction l with
  | nil => simp [nextLine, hd]
  | cons c cs ih =>
    have hc : isnl c = false := hl c (by simp)
    have := ih (fun x hx => hl x (by simp [hx]))
    simp [nextLine, hc, this]

theorem nextLine_last (l : List Nat) (hl : ∀ c ∈ l, isnl c = false) :
    nextLine l = (l, []) := by
  induction l with
  | nil => simp [nextLine]
  | cons c cs ih =>
    have hc : isnl c = false := hl c (by simp)
    have := ih (fun x hx => hl x (by simp [hx]))
    simp [nextLine, hc, this]

theorem splitLines_line (l : List Nat) (d : Nat) (rest : List Nat)
    (hl : ∀ c ∈ l, isnl c = false) (hd : isnl d = true) :
    splitLines (l ++ d :: rest) = (l ++ [d]) :: splitLines rest := by
  cases l with
  | nil => simp [splitLines, hd]
  | cons c cs =>
    rw [List.cons_append, nextLine_splitLines, ← List.cons_append, nextLine_line _ _ _ hl hd]

theorem cstr_of_no_nul (l : List Nat) (h : ∀ c ∈ l, c ≠ 0) : cstr l = l := by
  unfold cstr
  rw [List.takeWhile_eq_self_iff]
  intro c hc
  simpa using h c hc

theorem lineOf_line (l : List Nat) (d : Nat) (hl : ∀ c ∈ l, c ≠ 0) (hd : isnl d = true) :
    lineOf (l ++ [d]) = l := by
  have hd0 : d ≠ 0 := by
    intro h; subst h; simp [isnl, FILESTAT_NEWLINE_CHAR_1, FILESTAT_NEWLINE_CHAR_2] at hd
  have hc : cstr (l ++ [d]) = l ++ [d] := by
    apply cstr_of_no_nul
    intro c hc
    rcases List.mem_append.mp hc with h | h
    · exact hl c h
    · simp at h; subst h; exact hd0
  have hd' : d = FILESTAT_NEWLINE_CHAR_1 ∨ d = FILESTAT_NEWLINE_CHAR_2 := by
    simpa [isnl] using hd
  unfold lineOf
  rw [hc]
  simp [filestat_clean_line, hd']

theorem trim_string_head (c : Nat) (rest : List Nat) (hc : isspace c = false) :
    ∃ x, trim_string (c :: rest) = c :: x := by
  have hne : (c :: rest).rdropWhile isspace ≠ [] := by
    intro h
    rw [List.rdropWhile_eq_nil_iff] at h
    have := h c (by simp)
    simp [hc] at this
  have hpre : (c :: rest).rdropWhile isspace <+: c :: rest := List.rdropWhile_prefix _ _
  cases hk : (c :: rest).rdropWhile isspace with
  | nil => exact absurd hk hne
  | cons k ks =>
    rw [hk] at hpre
    have : k = c := by
      obtain ⟨t, ht⟩ := hpre
      simp at ht
      exact ht.1
    subst this
    refine ⟨ks, ?_⟩
    simp [trim_string, hk, hc]

theorem trim_string_of_no_space (l : List Nat) (h : ∀ c ∈ l, isspace c = false) :
    trim_string l = l := by
  cases l with
  | nil => simp [trim_string]
  | cons c cs =>
    have h1 : (c :: cs).rdropWhile isspace = c :: cs := by
      rw [List.rdropWhile_eq_self_iff]
      intro hl
      have := h _ (List.getLast_mem hl)
      simp [this]
    have hc : isspace c = false := h c (by simp)
    simp [trim_string, h1, hc]

/-- A line `key sep value` whose key is trimmed, free of the separator, not a
comment and within the length bounds is classified as that pair, the value trimmed. -/
theorem classifyLine_key_value (k v : List Nat) (legacy : Bool) (c : Nat) (ks : List Nat)
    (hk : k = c :: ks) (hc : isspace c = false)
    (hc1 : c ≠ FILESTAT_COMMENT_CHAR_1) (hc2 : c ≠ FILESTAT_COMMENT_CHAR_2)
    (htrim : trim_string k = k)
    (hsep : (if legacy then FILESTAT_LEGACY_SEPARATOR_CHAR else FILESTAT_SEPARATOR_CHAR_MAIN) ∉ k)
    (hklen : k.length ≤ FILESTAT_MAX_LENGTH_OPTION) (hvlen : v.length ≤ FILESTAT_MAX_LENGTH_VALUE) :
    classifyLine
      (k ++ (if legacy then FILESTAT_LEGACY_SEPARATOR_CHAR else FILESTAT_SEPARATOR_CHAR_MAIN) :: v)
      legacy = .pair k (trim_string v) := by
  set sep := (if legacy then FILESTAT_LEGACY_SEPARATOR_CHAR else FILESTAT_SEPARATOR_CHAR_MAIN)
    with hsepdef
  have hcom : is_string_a_comment (k ++ sep :: v) = false := by
    subst hk
    simp [is_string_a_comment, hc, hc1, hc2]
  have hws : is_string_empty_or_whitespace (k ++ sep :: v) = false := by
    subst hk
    obtain ⟨x, hx⟩ := trim_string_head c (ks ++ sep :: v) hc
    simp only [List.cons_append] at *
    simp [is_string_empty_or_whitespace, is_string_empty, hx]
  have hidx : List.indexOf sep (k ++ sep :: v) = k.length := by
    rw [List.indexOf_append_of_not_mem hsep]
    simp
  have hmem : sep ∈ k ++ sep :: v := by simp
  have hk0 : k.length ≠ 0 := by subst hk; simp
  have hke : is_string_empty k = false := by subst hk; simp [is_string_empty]
  unfold classifyLine filestat_parse_line
  simp only [hcom, hws, ← hsepdef, hidx, hmem]
  have hvl : k.length + (v.length + 1) - (k.length + 1) = v.length := by omega
  simp [hk0, not_lt.mpr hklen, htrim, hke, not_lt.mpr hvlen, hvl]

theorem printf_d_chars (v : Int) : ∀ c ∈ printf_d v, isspace c = false ∧ c ≠ 0 := by
  have hu : ∀ c ∈ printf_u v.natAbs, isspace c = false ∧ c ≠ 0 := by
    intro c hc
    have hd := printf_u_digits _ c hc
    refine ⟨isdigit_not_space c hd, ?_⟩
    simp [isdigit] at hd
    omega
  intro c hc
  unfold printf_d at hc
  split_ifs at hc
  · rcases List.mem_cons.mp hc with rfl | h
    · exact ⟨by decide, by decide⟩
    · exact hu c h
  · exact hu c hc

theorem printf_u_chars (n : Nat) : ∀ c ∈ printf_u n, isspace c = false ∧ c ≠ 0 := by
  intro c hc
  have hd := printf_u_digits _ c hc
  refine ⟨isdigit_not_space c hd, ?_⟩
  simp [isdigit] at hd
  omega

theorem printf_d_length (v : Int) (h1 : -(2:Int) ^ 63 ≤ v) (h2 : v < 2 ^ 63) :
    (printf_d v).length ≤ 21 := by
  have := printf_u_length v.natAbs (by omega)
  unfold printf_d
  split_ifs <;> simp <;> omega

theorem isnl_isspace (c : Nat) (h : isspace c = false) : isnl c = false := by
  simp [isspace] at h
  simp [isnl, FILESTAT_NEWLINE_CHAR_1, FILESTAT_NEWLINE_CHAR_2]
  omega

/-- Effect on the read loop, past the header, of a line `key sep value` ended by a delimiter. -/
theorem stepLine_key_value (k v : List Nat) (legacy : Bool) (d : Nat) (st : filestat)
    (c : Nat) (ks : List Nat)
    (hk : k = c :: ks) (hc : isspace c = false)
    (hc1 : c ≠ FILESTAT_COMMENT_CHAR_1) (hc2 : c ≠ FILESTAT_COMMENT_CHAR_2)
    (htrim : trim_string k = k)
    (hsep : (if legacy then FILESTAT_LEGACY_SEPARATOR_CHAR else FILESTAT_SEPARATOR_CHAR_MAIN) ∉ k)
    (hklen : k.length ≤ FILESTAT_MAX_LENGTH_OPTION) (hvlen : v.length ≤ FILESTAT_MAX_LENGTH_VALUE)
    (hk0 : ∀ x ∈ k, x ≠ 0) (hv0 : ∀ x ∈ v, x ≠ 0) (hd : isnl d = true) :
    stepLine
      ((k ++ (if legacy then FILESTAT_LEGACY_SEPARATOR_CHAR else FILESTAT_SEPARATOR_CHAR_MAIN) :: v)
        ++ [d]) false legacy st =
      if legacy ∧ filestat_is_option_a_legacy_terminal_one k then
        .done (filestat_check_results st) st
      else if (filestat_process_option_pair k (trim_string v) st).1 ≠ 0 then
        .done (-EPERM) (filestat_process_option_pair k (trim_string v) st).2
      else .next false legacy (filestat_process_option_pair k (trim_string v) st).2 := by
  have hno0 : ∀ x ∈ k ++
      (if legacy then FILESTAT_LEGACY_SEPARATOR_CHAR else FILESTAT_SEPARATOR_CHAR_MAIN) :: v,
      x ≠ 0 := by
    intro x hx
    rcases List.mem_append.mp hx with h | h
    · exact hk0 x h
    · rcases List.mem_cons.mp h with h | h
      · subst h
        cases legacy <;> simp [FILESTAT_LEGACY_SEPARATOR_CHAR, FILESTAT_SEPARATOR_CHAR_MAIN]
      · exact hv0 x h
  have hlen : ¬ (line_cap 0 ≤ ((k ++
      (if legacy then FILESTAT_LEGACY_SEPARATOR_CHAR else FILESTAT_SEPARATOR_CHAR_MAIN) :: v)
        ++ [d]).length) := by
    simp [line_cap, FILESTAT_MAX_LENGTH_OPTION, FILESTAT_MAX_LENGTH_VALUE] at *
    omega
  unfold stepLine
  simp only [Bool.false_eq_true, if_false, hlen]
  rw [lineOf_line _ _ hno0 hd,
    classifyLine_key_value k v legacy c ks hk hc hc1 hc2 htrim hsep hklen hvlen]

theorem dprintf_append (d out : List Nat) :
    dprintf ⟨d, d.length⟩ out = ⟨d ++ out, (d ++ out).length⟩ := by
  simp [dprintf]

/-- The text `filestat_parser_format_write` leaves in the file. -/
theorem filestat_parser_format_write_data (file_fd : Int) (file : File) (r : filestat)
    (hfd : file_fd ≠ 0) :
    filestat_parser_format_write file_fd file r =
      (0, ⟨(bytes "CatalogFS" ++ 61 :: printf_u 3) ++ 10 ::
        ((bytes "size" ++ 61 :: printf_d r.size) ++ 10 ::
        ((bytes "blocks" ++ 61 :: printf_d r.blocks) ++ 10 ::
        ((bytes "mode" ++ 61 :: printf_u r.mode) ++ 10 ::
        ((bytes "uid" ++ 61 :: printf_u r.uid) ++ 10 ::
        ((bytes "gid" ++ 61 :: printf_u r.gid) ++ 10 ::
        ((bytes "atime" ++ 61 :: printf_d r.atime) ++ 10 ::
        ((bytes "mtime" ++ 61 :: printf_d r.mtime) ++ 10 ::
        ((bytes "ctime" ++ 61 :: printf_d r.ctime) ++ 10 ::
        ((bytes "atimensec" ++ 61 :: printf_d r.atimensec) ++ 10 ::
        ((bytes "mtimensec" ++ 61 :: printf_d r.mtimensec) ++ 10 ::
        ((bytes "ctimensec" ++ 61 :: printf_d r.ctimensec) ++ 10 ::
        ((bytes "nlink" ++ 61 :: printf_u r.nlink) ++ 10 ::
        ((bytes "blksize" ++ 61 :: printf_d r.blksize) ++ 10 :: []))))))))))))),
        ((bytes "CatalogFS" ++ 61 :: printf_u 3) ++ 10 ::
        ((bytes "size" ++ 61 :: printf_d r.size) ++ 10 ::
        ((bytes "blocks" ++ 61 :: printf_d r.blocks) ++ 10 ::
        ((bytes "mode" ++ 61 :: printf_u r.mode) ++ 10 ::
        ((bytes "uid" ++ 61 :: printf_u r.uid) ++ 10 ::
        ((bytes "gid" ++ 61 :: printf_u r.gid) ++ 10 ::
        ((bytes "atime" ++ 61 :: printf_d r.atime) ++ 10 ::
        ((bytes "mtime" ++ 61 :: printf_d r.mtime) ++ 10 ::
        ((bytes "ctime" ++ 61 :: printf_d r.ctime) ++ 10 ::
        ((bytes "atimensec" ++ 61 :: printf_d r.atimensec) ++ 10 ::
        ((bytes "mtimensec" ++ 61 :: printf_d r.mtimensec) ++ 10 ::
        ((bytes "ctimensec" ++ 61 :: printf_d r.ctimensec) ++ 10 ::
        ((bytes "nlink" ++ 61 :: printf_u r.nlink) ++ 10 ::
        ((bytes "blksize" ++ 61 :: printf_d r.blksize) ++ 10 :: [])))))))))))))).length⟩) := by
  have h0 : lseek0 (ftruncate0 file) = ⟨[], ([] : List Nat).length⟩ := by
    simp [lseek0, ftruncate0]
  unfold filestat_parser_format_write
  simp only [hfd, if_false, h0, dprintf_append]
  simp [bytes, FILESTAT_HEADER_OPTION, FILESTAT_VERSION_3]

/-! ### C1: the round trip -/

theorem stepLine_header (st : filestat) :
    stepLine ((bytes "CatalogFS" ++ 61 :: printf_u 3) ++ [10]) true false st =
      .next false false st := by
  have h1 : classifyLine (lineOf ((bytes "CatalogFS" ++ 61 :: printf_u 3) ++ [10])) false =
      .pair (bytes "CatalogFS") [51] := by decide
  have h2 : filestat_is_header_correct (bytes "CatalogFS") [51] = 0 := by decide
  have h3 : ¬ (line_cap FILESTAT_MAX_HEADER_LENGTH ≤
      ((bytes "CatalogFS" ++ 61 :: printf_u 3) ++ [10]).length) := by decide
  unfold stepLine
  simp only [if_true, h3, if_false, h1, h2]
  simp

/-- A line `key=digits` met past the header, in the current format. -/
theorem stepLine_field (k v : List Nat) (st : filestat) (c : Nat) (ks : List Nat)
    (hk : k = c :: ks) (hc : isspace c = false)
    (hc1 : c ≠ FILESTAT_COMMENT_CHAR_1) (hc2 : c ≠ FILESTAT_COMMENT_CHAR_2)
    (htrim : trim_string k = k) (hsep : FILESTAT_SEPARATOR_CHAR_MAIN ∉ k)
    (hklen : k.length ≤ FILESTAT_MAX_LENGTH_OPTION) (hk0 : ∀ x ∈ k, x ≠ 0)
    (hv : ∀ x ∈ v, isspace x = false ∧ x ≠ 0) (hvlen : v.length ≤ 21) :
    stepLine ((k ++ 61 :: v) ++ [10]) false false st =
      if (filestat_process_option_pair k v st).1 ≠ 0 then
        .done (-EPERM) (filestat_process_option_pair k v st).2
      else .next false false (filestat_process_option_pair k v st).2 := by
  have h := stepLine_key_value k v false 10 st c ks hk hc hc1 hc2 htrim (by simpa using hsep)
    hklen (by simp [FILESTAT_MAX_LENGTH_VALUE]; omega) hk0 (fun x hx => (hv x hx).2) (by decide)
  rw [trim_string_of_no_space v (fun x hx => (hv x hx).1)] at h
  simpa [FILESTAT_SEPARATOR_CHAR_MAIN] using h

theorem field_line_no_nl (k v : List Nat) (hk : ∀ x ∈ k, isnl x = false)
    (hv : ∀ x ∈ v, isspace x = false ∧ x ≠ 0) : ∀ x ∈ k ++ 61 :: v, isnl x = false := by
  intro x hx
  rcases List.mem_append.mp hx with h | h
  · exact hk x h
  · rcases List.mem_cons.mp h with h | h
    · subst h; decide
    · exact isnl_isspace x (hv x h).1

theorem process_size (v : Int) (st : filestat) (h1 : -(2:Int) ^ 63 ≤ v) (h2 : v < 2 ^ 63) :
    filestat_process_option_pair (bytes "size") (printf_d v) st = (0, { st with size := v }) := by
  simp [filestat_process_option_pair, filestat_sscanf_value_printf_d v h1 h2, stored_or]

theorem process_blocks (v : Int) (st : filestat) (h1 : -(2:Int) ^ 63 ≤ v) (h2 : v < 2 ^ 63) :
    filestat_process_option_pair (bytes "blocks") (printf_d v) st = (0, { st with blocks := v }) := by
  simp [filestat_process_option_pair, filestat_sscanf_value_printf_d v h1 h2, stored_or, bytes]

theorem process_mode (n : Nat) (st : filestat) (h : n < 2 ^ 32) :
    filestat_process_option_pair (bytes "mode") (printf_u n) st = (0, { st with mode := n }) := by
  simp [filestat_process_option_pair, filestat_sscanf_value_printf_u32 n h, stored_or_u, bytes]

theorem process_uid (n : Nat) (st : filestat) (h : n < 2 ^ 32) :
    filestat_process_option_pair (bytes "uid") (printf_u n) st = (0, { st with uid := n }) := by
  simp [filestat_process_option_pair, filestat_sscanf_value_printf_u32 n h, stored_or_u, bytes]

theorem process_gid (n : Nat) (st : filestat) (h : n < 2 ^ 32) :
    filestat_process_option_pair (bytes "gid") (printf_u n) st = (0, { st with gid := n }) := by
  simp [filestat_process_option_pair, filestat_sscanf_value_printf_u32 n h, stored_or_u, bytes]

theorem process_atime (v : Int) (st : filestat) (h1 : -(2:Int) ^ 63 ≤ v) (h2 : v < 2 ^ 63) :
    filestat_process_option_pair (bytes "atime") (printf_d v) st = (0, { st with atime := v }) := by
  simp [filestat_process_option_pair, filestat_sscanf_value_printf_d v h1 h2, stored_or, bytes]

theorem process_mtime (v : Int) (st : filestat) (h1 : -(2:Int) ^ 63 ≤ v) (h2 : v < 2 ^ 63) :
    filestat_process_option_pair (bytes "mtime") (printf_d v) st = (0, { st with mtime := v }) := by
  simp [filestat_process_option_pair, filestat_sscanf_value_printf_d v h1 h2, stored_or, bytes]

theorem process_ctime (v : Int) (st : filestat) (h1 : -(2:Int) ^ 63 ≤ v) (h2 : v < 2 ^ 63) :
    filestat_process_option_pair (bytes "ctime") (printf_d v) st = (0, { st with ctime := v }) := by
  simp [filestat_process_option_pair, filestat_sscanf_value_printf_d v h1 h2, stored_or, bytes]

theorem process_atimensec (v : Int) (st : filestat) (h1 : -(2:Int) ^ 63 ≤ v) (h2 : v < 2 ^ 63) :
    filestat_process_option_pair (bytes "atimensec") (printf_d v) st =
      (0, { st with atimensec := v }) := by
  simp [filestat_process_option_pair, filestat_sscanf_value_printf_d v h1 h2, stored_or, bytes]

theorem process_mtimensec (v : Int) (st : filestat) (h1 : -(2:Int) ^ 63 ≤ v) (h2 : v < 2 ^ 63) :
    filestat_process_option_pair (bytes "mtimensec") (printf_d v) st =
      (0, { st with mtimensec := v }) := by
  simp [filestat_process_option_pair, filestat_sscanf_value_printf_d v h1 h2, stored_or, bytes]

theorem process_ctimensec (v : Int) (st : filestat) (h1 : -(2:Int) ^ 63 ≤ v) (h2 : v < 2 ^ 63) :
    filestat_process_option_pair (bytes "ctimensec") (printf_d v) st =
      (0, { st with ctimensec := v }) := by
  simp [filestat_process_option_pair, filestat_sscanf_value_printf_d v h1 h2, stored_or, bytes]

theorem process_nlink (n : Nat) (st : filestat) (h : n < 2 ^ 64) :
    filestat_process_option_pair (bytes "nlink") (printf_u n) st = (0, { st with nlink := n }) := by
  simp [filestat_process_option_pair, filestat_sscanf_value_printf_u64 n h, stored_or_u, bytes]

theorem process_blksize (v : Int) (st : filestat) (h1 : -(2:Int) ^ 63 ≤ v) (h2 : v < 2 ^ 63) :
    filestat_process_option_pair (bytes "blksize") (printf_d v) st =
      (0, { st with blksize := v }) := by
  simp [filestat_process_option_pair, filestat_sscanf_value_printf_d v h1 h2, stored_or, bytes]

theorem step_size (v : Int) (st : filestat) (h1 : -(2:Int) ^ 63 ≤ v) (h2 : v < 2 ^ 63) :
    stepLine ((bytes "size" ++ 61 :: printf_d v) ++ [10]) false false st =
      .next false false { st with size := v } := by
  rw [stepLine_field (bytes "size") (printf_d v) st 115 (bytes "ize") (by decide) (by decide)
    (by decide) (by decide) (by decide) (by decide) (by decide) (by decide)
    (printf_d_chars v) (printf_d_length v h1 h2), process_size v st h1 h2]
  simp

theorem step_blocks (v : Int) (st : filestat) (h1 : -(2:Int) ^ 63 ≤ v) (h2 : v < 2 ^ 63) :
    stepLine ((bytes "blocks" ++ 61 :: printf_d v) ++ [10]) false false st =
      .next false false { st with blocks := v } := by
  rw [stepLine_field (bytes "blocks") (printf_d v) st 98 (bytes "locks") (by decide) (by decide)
    (by decide) (by decide) (by decide) (by decide) (by decide) (by decide)
    (printf_d_chars v) (printf_d_length v h1 h2), process_blocks v st h1 h2]
  simp

theorem step_mode (n : Nat) (st : filestat) (h : n < 2 ^ 32) :
    stepLine ((bytes "mode" ++ 61 :: printf_u n) ++ [10]) false false st =
      .next false false { st with mode := n } := by
  rw [stepLine_field (bytes "mode") (printf_u n) st 109 (bytes "ode") (by decide) (by decide)
    (by decide) (by decide) (by decide) (by decide) (by decide) (by decide)
    (printf_u_chars n) (by have := printf_u_length n (by omega); omega), process_mode n st h]
  simp

theorem step_uid (n : Nat) (st : filestat) (h : n < 2 ^ 32) :
    stepLine ((bytes "uid" ++ 61 :: printf_u n) ++ [10]) false false st =
      .next false false { st with uid := n } := by
  rw [stepLine_field (bytes "uid") (printf_u n) st 117 (bytes "id") (by decide) (by decide)
    (by decide) (by decide) (by decide) (by decide) (by decide) (by decide)
    (printf_u_chars n) (by have := printf_u_length n (by omega); omega), process_uid n st h]
  simp

theorem step_gid (n : Nat) (st : filestat) (h : n < 2 ^ 32) :
    stepLine ((bytes "gid" ++ 61 :: printf_u n) ++ [10]) false false st =
      .next false false { st with gid := n } := by
  rw [stepLine_field (bytes "gid") (printf_u n) st 103 (bytes "id") (by decide) (by decide)
    (by decide) (by decide) (by decide) (by decide) (by decide) (by decide)
    (printf_u_chars n) (by have := printf_u_length n (by omega); omega), process_gid n st h]
  simp

theorem step_atime (v : Int) (st : filestat) (h1 : -(2:Int) ^ 63 ≤ v) (h2 : v < 2 ^ 63) :
    stepLine ((bytes "atime" ++ 61 :: printf_d v) ++ [10]) false false st =
      .next false false { st with atime := v } := by
  rw [stepLine_field (bytes "atime") (printf_d v) st 97 (bytes "time") (by decide) (by decide)
    (by decide) (by decide) (by decide) (by decide) (by decide) (by decide)
    (printf_d_chars v) (printf_d_length v h1 h2), process_atime v st h1 h2]
  simp

theorem step_mtime (v : Int) (st : filestat) (h1 : -(2:Int) ^ 63 ≤ v) (h2 : v < 2 ^ 63) :
    stepLine ((bytes "mtime" ++ 61 :: printf_d v) ++ [10]) false false st =
      .next false false { st with mtime := v } := by
  rw [stepLine_field (bytes "mtime") (printf_d v) st 109 (bytes "time") (by decide) (by decide)
    (by decide) (by decide) (by decide) (by decide) (by decide) (by decide)
    (printf_d_chars v) (printf_d_length v h1 h2), process_mtime v st h1 h2]
  simp

theorem step_ctime (v : Int) (st : filestat) (h1 : -(2:Int) ^ 63 ≤ v) (h2 : v < 2 ^ 63) :
    stepLine ((bytes "ctime" ++ 61 :: printf_d v) ++ [10]) false false st =
      .next false false { st with ctime := v } := by
  rw [stepLine_field (bytes "ctime") (printf_d v) st 99 (bytes "time") (by decide) (by decide)
    (by decide) (by decide) (by decide) (by decide) (by decide) (by decide)
    (printf_d_chars v) (printf_d_length v h1 h2), process_ctime v st h1 h2]
  simp

theorem step_atimensec (v : Int) (st : filestat) (h1 : -(2:Int) ^ 63 ≤ v) (h2 : v < 2 ^ 63) :
    stepLine ((bytes "atimensec" ++ 61 :: printf_d v) ++ [10]) false false st =
      .next false false { st with atimensec := v } := by
  rw [stepLine_field (bytes "atimensec") (printf_d v) st 97 (bytes "timensec") (by decide) (by decide)
    (by decide) (by decide) (by decide) (by decide) (by decide) (by decide)
    (printf_d_chars v) (printf_d_length v h1 h2), process_atimensec v st h1 h2]
  simp

theorem step_mtimensec (v : Int) (st : filestat) (h1 : -(2:Int) ^ 63 ≤ v) (h2 : v < 2 ^ 63) :
    stepLine ((bytes "mtimensec" ++ 61 :: printf_d v) ++ [10]) false false st =
      .next false false { st with mtimensec := v } := by
  rw [stepLine_field (bytes "mtimensec") (printf_d v) st 109 (bytes "timensec") (by decide) (by decide)
    (by decide) (by decide) (by decide) (by decide) (by decide) (by decide)
    (printf_d_chars v) (printf_d_length v h1 h2), process_mtimensec v st h1 h2]
  simp

theorem step_ctimensec (v : Int) (st : filestat) (h1 : -(2:Int) ^ 63 ≤ v) (h2 : v < 2 ^ 63) :
    stepLine ((bytes "ctimensec" ++ 61 :: printf_d v) ++ [10]) false false st =
      .next false false { st with ctimensec := v } := by
  rw [stepLine_field (bytes "ctimensec") (printf_d v) st 99 (bytes "timensec") (by decide) (by decide)
    (by decide) (by decide) (by decide) (by decide) (by decide) (by decide)
    (printf_d_chars v) (printf_d_length v h1 h2), process_ctimensec v st h1 h2]
  simp

theorem step_nlink (n : Nat) (st : filestat) (h : n < 2 ^ 64) :
    stepLine ((bytes "nlink" ++ 61 :: printf_u n) ++ [10]) false false st =
      .next false false { st with nlink := n } := by
  rw [stepLine_field (bytes "nlink") (printf_u n) st 110 (bytes "link") (by decide) (by decide)
    (by decide) (by decide) (by decide) (by decide) (by decide) (by decide)
    (printf_u_chars n) (by have := printf_u_length n (by omega); omega), process_nlink n st h]
  simp

theorem step_blksize (v : Int) (st : filestat) (h1 : -(2:Int) ^ 63 ≤ v) (h2 : v < 2 ^ 63) :
    stepLine ((bytes "blksize" ++ 61 :: printf_d v) ++ [10]) false false st =
      .next false false { st with blksize := v } := by
  rw [stepLine_field (bytes "blksize") (printf_d v) st 98 (bytes "lksize") (by decide) (by decide)
    (by decide) (by decide) (by decide) (by decide) (by decide) (by decide)
    (printf_d_chars v) (printf_d_length v h1 h2), process_blksize v st h1 h2]
  simp

theorem written_lines (r : filestat) :
    splitLines
      ((bytes "CatalogFS" ++ 61 :: printf_u 3) ++ 10 ::
        ((bytes "size" ++ 61 :: printf_d r.size) ++ 10 ::
        ((bytes "blocks" ++ 61 :: printf_d r.blocks) ++ 10 ::
        ((bytes "mode" ++ 61 :: printf_u r.mode) ++ 10 ::
        ((bytes "uid" ++ 61 :: printf_u r.uid) ++ 10 ::
        ((bytes "gid" ++ 61 :: printf_u r.gid) ++ 10 ::
        ((bytes "atime" ++ 61 :: printf_d r.atime) ++ 10 ::
        ((bytes "mtime" ++ 61 :: printf_d r.mtime) ++ 10 ::
        ((bytes "ctime" ++ 61 :: printf_d r.ctime) ++ 10 ::
        ((bytes "atimensec" ++ 61 :: printf_d r.atimensec) ++ 10 ::
        ((bytes "mtimensec" ++ 61 :: printf_d r.mtimensec) ++ 10 ::
        ((bytes "ctimensec" ++ 61 :: printf_d r.ctimensec) ++ 10 ::
        ((bytes "nlink" ++ 61 :: printf_u r.nlink) ++ 10 ::
        ((bytes "blksize" ++ 61 :: printf_d r.blksize) ++ 10 :: [])))))))))))))) =
      [(bytes "CatalogFS" ++ 61 :: printf_u 3) ++ [10],
        (bytes "size" ++ 61 :: printf_d r.size) ++ [10],
        (bytes "blocks" ++ 61 :: printf_d r.blocks) ++ [10],
        (bytes "mode" ++ 61 :: printf_u r.mode) ++ [10],
        (bytes "uid" ++ 61 :: printf_u r.uid) ++ [10],
        (bytes "gid" ++ 61 :: printf_u r.gid) ++ [10],
        (bytes "atime" ++ 61 :: printf_d r.atime) ++ [10],
        (bytes "mtime" ++ 61 :: printf_d r.mtime) ++ [10],
        (bytes "ctime" ++ 61 :: printf_d r.ctime) ++ [10],
        (bytes "atimensec" ++ 61 :: printf_d r.atimensec) ++ [10],
        (bytes "mtimensec" ++ 61 :: printf_d r.mtimensec) ++ [10],
        (bytes "ctimensec" ++ 61 :: printf_d r.ctimensec) ++ [10],
        (bytes "nlink" ++ 61 :: printf_u r.nlink) ++ [10],
        (bytes "blksize" ++ 61 :: printf_d r.blksize) ++ [10]] := by
  rw [splitLines_line _ 10 _ (field_line_no_nl _ _ (by decide) (printf_u_chars _)) (by decide),
    splitLines_line _ 10 _ (field_line_no_nl _ _ (by decide) (printf_d_chars _)) (by decide),
    splitLines_line _ 10 _ (field_line_no_nl _ _ (by decide) (printf_d_chars _)) (by decide),
    splitLines_line _ 10 _ (field_line_no_nl _ _ (by decide) (printf_u_chars _)) (by decide),
    splitLines_line _ 10 _ (field_line_no_nl _ _ (by decide) (printf_u_chars _)) (by decide),
    splitLines_line _ 10 _ (field_line_no_nl _ _ (by decide) (printf_u_chars _)) (by decide),
    splitLines_line _ 10 _ (field_line_no_nl _ _ (by decide) (printf_d_chars _)) (by decide),
    splitLines_line _ 10 _ (field_line_no_nl _ _ (by decide) (printf_d_chars _)) (by decide),
    splitLines_line _ 10 _ (field_line_no_nl _ _ (by decide) (printf_d_chars _)) (by decide),
    splitLines_line _ 10 _ (field_line_no_nl _ _ (by decide) (printf_d_chars _)) (by decide),
    splitLines_line _ 10 _ (field_line_no_nl _ _ (by decide) (printf_d_chars _)) (by decide),
    splitLines_line _ 10 _ (field_line_no_nl _ _ (by decide) (printf_d_chars _)) (by decide),
    splitLines_line _ 10 _ (field_line_no_nl _ _ (by decide) (printf_u_chars _)) (by decide),
    splitLines_line _ 10 _ (field_line_no_nl _ _ (by decide) (printf_d_chars _)) (by decide)]
  rfl

/-- C1 (round trip). For every record `r` whose fields lie in the ranges of their C
types and whose nine signed fields are not negative, and for every skeleton `s`,
the reader run over the bytes the writer leaves for `r` succeeds and yields `r`. -/
theorem write_read_round_trip (r s : filestat) (file_fd : Int) (file : File)
    (hfd : file_fd ≠ 0) (hr : r.inRange) (hn : r.signedNonneg) :
    filestat_parser_format_read (filestat_parser_format_write file_fd file r).2.data s =
      some (0, r) := by
  obtain ⟨⟨a1, a2⟩, ⟨b1, b2⟩, hm, hu, hg, ⟨c1, c2⟩, ⟨d1, d2⟩, ⟨e1, e2⟩, ⟨f1, f2⟩, ⟨g1, g2⟩,
    ⟨i1, i2⟩, hl, ⟨j1, j2⟩⟩ := hr
  obtain ⟨n1, n2, n3, n4, n5, n6, n7, n8, n9⟩ := hn
  rw [filestat_parser_format_write_data _ _ _ hfd, filestat_parser_format_read_eq_lines]
  simp only [written_lines]
  simp only [processLines, stepLine_header, step_size _ _ a1 a2, step_blocks _ _ b1 b2,
    step_mode _ _ hm, step_uid _ _ hu, step_gid _ _ hg, step_atime _ _ c1 c2,
    step_mtime _ _ d1 d2, step_ctime _ _ e1 e2, step_atimensec _ _ f1 f2,
    step_mtimensec _ _ g1 g2, step_ctimensec _ _ i1 i2, step_nlink _ _ hl,
    step_blksize _ _ j1 j2]
  have hchk : filestat_check_results r = 0 := by
    simp [filestat_check_results, not_lt.mpr n1, not_lt.mpr n2, not_lt.mpr n3, not_lt.mpr n4,
      not_lt.mpr n5, not_lt.mpr n6, not_lt.mpr n7, not_lt.mpr n8, not_lt.mpr n9]
  cases r
  simpa using hchk

theorem digitChar_toNat (m : Nat) (h : m < 10) : (Nat.digitChar m).toNat = 48 + m := by
  interval_cases m <;> rfl

theorem toDigitsCore_decimalAux : ∀ (fuel n : Nat) (acc : List Char),
    (Nat.toDigitsCore 10 fuel n acc).map Char.toNat = decimalAux fuel n (acc.map Char.toNat) := by
  intro fuel
  induction fuel with
  | zero => intro n acc; simp [Nat.toDigitsCore, decimalAux]
  | succ f ih =>
    intro n acc
    unfold Nat.toDigitsCore decimalAux
    have hd := digitChar_toNat (n % 10) (Nat.mod_lt _ (by omega))
    by_cases h : n < 10
    · have h0 : n / 10 = 0 := by omega
      have hm : n % 10 = n := by omega
      simp [h, h0, hd, hm] at *
      exact hd
    · have h0 : n / 10 ≠ 0 := by omega
      simp only [h, h0, if_false]
      rw [ih]
      simp [hd]

theorem bytes_toString_nat (n : Nat) : bytes (toString n) = printf_u n := by
  show ((Nat.repr n).toList.map Char.toNat) = _
  unfold Nat.repr Nat.toDigits printf_u
  simpa using toDigitsCore_decimalAux (n + 1) n []

theorem bytes_toString_int (v : Int) : bytes (toString v) = printf_d v := by
  cases v with
  | ofNat m =>
    show bytes (toString m) = _
    rw [bytes_toString_nat]
    have : ¬ ((m : Int) < 0) := by omega
    simp [printf_d, this]
  | negSucc m =>
    show bytes ("-" ++ toString (m + 1)) = _
    have : bytes ("-" ++ toString (m + 1)) = 45 :: bytes (toString (m + 1)) := by
      simp [bytes]
    rw [this, bytes_toString_nat]
    simp [printf_d, Int.negSucc_lt_zero]

/-! ### C2: what the writer leaves in the file -/

theorem printf_d_natCast (n : Nat) : printf_d (n : Int) = printf_u n := by
  have : ¬ ((n : Int) < 0) := by omega
  simp [printf_d, this]

theorem sidecar_lines_eq (r : filestat) :
    sidecar_lines r =
      [(bytes "CatalogFS" ++ 61 :: printf_u 3) ++ [10],
        (bytes "size" ++ 61 :: printf_d r.size) ++ [10],
        (bytes "blocks" ++ 61 :: printf_d r.blocks) ++ [10],
        (bytes "mode" ++ 61 :: printf_u r.mode) ++ [10],
        (bytes "uid" ++ 61 :: printf_u r.uid) ++ [10],
        (bytes "gid" ++ 61 :: printf_u r.gid) ++ [10],
        (bytes "atime" ++ 61 :: printf_d r.atime) ++ [10],
        (bytes "mtime" ++ 61 :: printf_d r.mtime) ++ [10],
        (bytes "ctime" ++ 61 :: printf_d r.ctime) ++ [10],
        (bytes "atimensec" ++ 61 :: printf_d r.atimensec) ++ [10],
        (bytes "mtimensec" ++ 61 :: printf_d r.mtimensec) ++ [10],
        (bytes "ctimensec" ++ 61 :: printf_d r.ctimensec) ++ [10],
        (bytes "nlink" ++ 61 :: printf_u r.nlink) ++ [10],
        (bytes "blksize" ++ 61 :: printf_d r.blksize) ++ [10]] := by
  have h3 : printf_u 3 = [51] := by decide
  simp only [sidecar_lines, decimal_text, bytes_toString_int, printf_d_natCast, h3]
  simp [bytes]

/-- C2 (writer output). For every record and whatever the target file held
before, a successful `filestat_parser_format_write` returns 0 and leaves in the
file exactly the 14 lines of `sidecar_lines`: the header `CatalogFS=3`, then
`key=value` for size, blocks, mode, uid, gid, atime, mtime, ctime, atimensec,
mtimensec, ctimensec, nlink, blksize in that order, every value in unpadded
decimal and every line ended by one newline byte. -/
theorem write_emits_the_fourteen_lines (r : filestat) (file_fd : Int) (file : File)
    (hfd : file_fd ≠ 0) :
    (filestat_parser_format_write file_fd file r).1 = 0 ∧
    (filestat_parser_format_write file_fd file r).2.data = (sidecar_lines r).flatten ∧
    splitLines (filestat_parser_format_write file_fd file r).2.data = sidecar_lines r ∧
    (sidecar_lines r).length = 14 := by
  rw [filestat_parser_format_write_data _ _ _ hfd]
  refine ⟨rfl, ?_, ?_, rfl⟩
  · rw [sidecar_lines_eq]
    simp
  · simp only [written_lines, sidecar_lines_eq]

theorem write_emits_the_fourteen_lines_witness :
    (3 : Int) ≠ 0 ∧
    (filestat_parser_format_write 3 sample_file sample_record).1 = 0 ∧
    (filestat_parser_format_write 3 sample_file sample_record).2.data =
      (sidecar_lines sample_record).flatten ∧
    splitLines (filestat_parser_format_write 3 sample_file sample_record).2.data =
      sidecar_lines sample_record ∧
    (sidecar_lines sample_record).length = 14 :=
  ⟨by decide, write_emits_the_fourteen_lines sample_record 3 sample_file (by decide)⟩

theorem sample_record_inRange : sample_record.inRange := by
  simp [filestat.inRange, sample_record]

theorem sample_record_signedNonneg : sample_record.signedNonneg := by
  simp [filestat.signedNonneg, sample_record]

theorem write_read_round_trip_witness :
    (3 : Int) ≠ 0 ∧ sample_record.inRange ∧ sample_record.signedNonneg ∧
    filestat_parser_format_read
      (filestat_parser_format_write 3 sample_file sample_record).2.data sample_skeleton =
      some (0, sample_record) :=
  ⟨by decide, sample_record_inRange, sample_record_signedNonneg,
    write_read_round_trip sample_record sample_skeleton 3 sample_file (by decide)
      sample_record_inRange sample_record_signedNonneg⟩

/-! ### C5: the check that ends a read -/

theorem stepLine_done (raw : List Nat) (h l : Bool) (st st' : filestat) (res : Int)
    (hs : stepLine raw h l st = .done res st') :
    res ≠ 0 ∨ res = filestat_check_results st' := by
  unfold stepLine at hs
  by_cases hcap : line_cap (if h = true then FILESTAT_MAX_HEADER_LENGTH else 0) ≤ raw.length
  · simp only [hcap, if_true, Step.done.injEq] at hs
    left; rw [← hs.1]; decide
  · simp only [hcap, if_false] at hs
    cases hcl : classifyLine (lineOf raw) l with
    | skip => simp [hcl] at hs
    | bad =>
      simp only [hcl] at hs
      split_ifs at hs
      simp only [Step.done.injEq] at hs
      left; rw [← hs.1]; decide
    | pair o v =>
      simp only [hcl] at hs
      split_ifs at hs
      · simp only [Step.done.injEq] at hs
        left; rw [← hs.1]; decide
      · simp only [Step.done.injEq] at hs
        right; rw [← hs.1, ← hs.2]
      · simp only [Step.done.injEq] at hs
        left; rw [← hs.1]; decide

theorem processLines_zero : ∀ (ls : List (List Nat)) (h l : Bool) (st r : filestat),
    processLines ls h l st = (0, r) → filestat_check_results r = 0 := by
  intro ls
  induction ls with
  | nil =>
    intro h l st r hp
    simp [processLines] at hp
    rw [← hp.2]; exact hp.1
  | cons raw ls ih =>
    intro h l st r hp
    rw [processLines] at hp
    cases hs : stepLine raw h l st with
    | done res st' =>
      rw [hs] at hp
      simp at hp
      rcases stepLine_done raw h l st st' res hs with h0 | h0
      · exact absurd hp.1 h0
      · rw [← hp.2, ← h0]; exact hp.1
    | next h' l' st' =>
      rw [hs] at hp
      exact ih h' l' st' r hp

theorem check_results_zero (r : filestat) (h : filestat_check_results r = 0) :
    r.signedNonneg := by
  unfold filestat_check_results at h
  split_ifs at h with hc
  · simp [EPERM] at h
  · unfold filestat.signedNonneg
    push_neg at hc
    obtain ⟨h1, h2, ⟨h3, h4, h5⟩, ⟨h6, h7, h8⟩, h9⟩ := hc
    exact ⟨h1, h2, h3, h5, h4, h6, h8, h7, h9⟩

theorem header_line_bytes :
    bytes "CatalogFS=3\n" = (bytes "CatalogFS" ++ 61 :: printf_u 3) ++ [10] := by decide

/-- C5 (post-read validation). Whenever `filestat_parser_format_read` returns
success, each of size, blocks, atime, mtime, ctime, atimensec, mtimensec,
ctimensec and blksize of the resulting record is not negative; and the content
"CatalogFS=3\nsize=-1\n" is rejected for every skeleton. -/
theorem read_success_signed_fields_nonneg :
    (∀ (fp : List Nat) (s r : filestat),
      filestat_parser_format_read fp s = some (0, r) → r.signedNonneg) ∧
    (∀ s : filestat, ∃ res st,
      filestat_parser_format_read (bytes "CatalogFS=3\nsize=-1\n") s = some (res, st) ∧
        res ≠ 0) := by
  constructor
  · intro fp s r h
    rw [filestat_parser_format_read_eq_lines] at h
    exact check_results_zero r (processLines_zero _ _ _ _ _ (by simpa using h))
  · intro s
    have hl : splitLines (bytes "CatalogFS=3\nsize=-1\n") =
        [(bytes "CatalogFS" ++ 61 :: printf_u 3) ++ [10],
          (bytes "size" ++ 61 :: printf_d (-1)) ++ [10]] := by decide
    refine ⟨-EPERM, { s with size := -1 }, ?_, by decide⟩
    rw [filestat_parser_format_read_eq_lines, hl]
    simp only [processLines, stepLine_header, step_size (-1) s (by norm_num) (by norm_num)]
    simp [filestat_check_results]

theorem read_success_signed_fields_nonneg_witness :
    filestat_parser_format_read (bytes "CatalogFS=3\nsize=10\n") sample_skeleton =
      some (0, { sample_skeleton with size := 10 }) ∧
    filestat.signedNonneg { sample_skeleton with size := 10 } :=
  ⟨by decide, read_success_signed_fields_nonneg.1 (bytes "CatalogFS=3\nsize=10\n")
    sample_skeleton { sample_skeleton with size := 10 } (by decide)⟩

/-! ### C3: the header line -/

theorem classifyLine_skip_iff (line : List Nat) (legacy : Bool) :
    classifyLine line legacy = .skip ↔ skippable line = true := by
  unfold classifyLine filestat_parse_line skippable
  by_cases h1 : is_string_a_comment line = true
  · simp [h1]
  · by_cases h2 : is_string_empty_or_whitespace line = true
    · simp [h1, h2]
    · simp only [h1, h2, if_false, Bool.or_self, Bool.false_eq_true, iff_false]
      split_ifs <;> simp only [reduceCtorEq, not_false_eq_true]
      all_goals (split_ifs <;> simp only [reduceCtorEq, not_false_eq_true])

/-- The scan without its local names. -/
theorem sscanf_eq (str : List Nat) (fmt : ScanFmt) :
    sscanf str fmt =
      match str.dropWhile isspace with
      | [] => ⟨-1, none, 0⟩
      | c :: s =>
        if (if (c == 45 || c == 43) = true then s else c :: s).takeWhile isdigit = [] then
          ⟨0, none, 0⟩
        else
          ⟨1, some (strto fmt (c == 45)
              (((if (c == 45 || c == 43) = true then s else c :: s).takeWhile isdigit).foldl
                (fun a d => 10 * a + (d - 48)) 0)),
            (str.takeWhile isspace).length + (if (c == 45 || c == 43) = true then 1 else 0) +
              ((if (c == 45 || c == 43) = true then s else c :: s).takeWhile isdigit).length⟩ := by
  rfl

theorem strto_u32_nat (neg : Bool) (mag : Nat) : ∃ x : Nat, strto .u32 neg mag = (x : Int) := by
  unfold strto
  simp only
  split_ifs <;> exact ⟨_, rfl⟩

theorem sscanf_u32_stored (v : List Nat) (h : (sscanf v .u32).narg = 1) :
    ∃ x : Nat, (sscanf v .u32).stored = some (x : Int) := by
  rw [sscanf_eq] at h ⊢
  cases hdw : v.dropWhile isspace with
  | nil => rw [hdw] at h; simp at h
  | cons c s =>
    rw [hdw] at h
    simp only at h ⊢
    by_cases hd : (if (c == 45 || c == 43) = true then s else c :: s).takeWhile isdigit = []
    · rw [if_pos hd] at h; simp at h
    · rw [if_neg hd]
      obtain ⟨x, hx⟩ := strto_u32_nat (c == 45)
        (((if (c == 45 || c == 43) = true then s else c :: s).takeWhile isdigit).foldl
          (fun a d => 10 * a + (d - 48)) 0)
      exact ⟨x, by simp only [hx]⟩

theorem filestat_sscanf_value_zero (v : List Nat) (fmt : ScanFmt)
    (h : (filestat_sscanf_value v fmt).1 = 0) :
    (sscanf v fmt).narg = 1 ∧ (sscanf v fmt).pos = v.length ∧
      (filestat_sscanf_value v fmt).2 = (sscanf v fmt).stored := by
  unfold filestat_sscanf_value at h ⊢
  by_cases a : (sscanf v fmt).narg = 1
  · by_cases b : (sscanf v fmt).pos = v.length
    · simp [a, b]
    · simp [a, b, EIO] at h
  · simp [a, EIO] at h

theorem header_correct_zero (k v : List Nat) (h : filestat_is_header_correct k v = 0) :
    k = bytes "CatalogFS" ∧ filestat_sscanf_value v .u32 = (0, some 3) := by
  unfold filestat_is_header_correct at h
  by_cases hk : k = FILESTAT_HEADER_OPTION
  · simp only [hk, ne_eq, not_true_eq_false, if_false] at h
    by_cases h0 : (filestat_sscanf_value v .u32).1 = 0
    · simp only [h0, if_true] at h
      by_cases h3 : stored_or_u 0 (filestat_sscanf_value v .u32).2 = FILESTAT_VERSION_3
      · refine ⟨hk, ?_⟩
        obtain ⟨hn, _, h2⟩ := filestat_sscanf_value_zero v .u32 h0
        obtain ⟨x, hx⟩ := sscanf_u32_stored v hn
        rw [h2, hx] at h3
        simp [stored_or_u, FILESTAT_VERSION_3] at h3
        subst h3
        exact Prod.ext h0 (by rw [h2, hx]; rfl)
      · simp [h3] at h
    · simp [h0] at h
  · simp [hk] at h

theorem processLines_cons_done (raw : List Nat) (ls : List (List Nat)) (h l : Bool)
    (st s : filestat) (r : Int) (hs : stepLine raw h l st = .done r s) :
    processLines (raw :: ls) h l st = (r, s) := by
  rw [processLines, hs]

theorem processLines_cons_next (raw : List Nat) (ls : List (List Nat)) (h l h' l' : Bool)
    (st s : filestat) (hs : stepLine raw h l st = .next h' l' s) :
    processLines (raw :: ls) h l st = processLines ls h' l' s := by
  rw [processLines, hs]

theorem stepLine_overflow (raw : List Nat) (h l : Bool) (st : filestat)
    (hcap : line_cap (if h = true then FILESTAT_MAX_HEADER_LENGTH else 0) ≤ raw.length) :
    stepLine raw h l st = .done (- EOVERFLOW) st := by
  unfold stepLine
  rw [if_pos hcap]

theorem stepLine_skip (raw : List Nat) (h l : Bool) (st : filestat)
    (hcap : ¬ line_cap (if h = true then FILESTAT_MAX_HEADER_LENGTH else 0) ≤ raw.length)
    (hsk : skippable (lineOf raw) = true) :
    stepLine raw h l st = .next h l st := by
  unfold stepLine
  rw [if_neg hcap, (classifyLine_skip_iff (lineOf raw) l).mpr hsk]

theorem processLines_bad_header : ∀ (ls : List (List Nat)) (st : filestat) (line : List Nat),
    (ls.map lineOf).find? (fun line => !skippable line) = some line →
    is_current_header line = false → line ≠ FILESTAT_LEGACY_HEADER_V1 →
    line ≠ FILESTAT_LEGACY_HEADER_V2 →
    ∃ res st', processLines ls true false st = (res, st') ∧ res ≠ 0 := by
  intro ls
  induction ls with
  | nil => intro st line h; simp at h
  | cons raw ls ih =>
    intro st line hf hh h1 h2
    by_cases hcap : line_cap (if true = true then FILESTAT_MAX_HEADER_LENGTH else 0) ≤ raw.length
    · exact ⟨_, _, processLines_cons_done _ _ _ _ _ _ _ (stepLine_overflow raw true false st hcap),
        by decide⟩
    · by_cases hsk : skippable (lineOf raw) = true
      · rw [processLines_cons_next _ _ _ _ _ _ _ _ (stepLine_skip raw true false st hcap hsk)]
        apply ih st line _ hh h1 h2
        simpa [List.find?, hsk] using hf
      · have hline : lineOf raw = line := by
          simpa [List.find?, hsk] using hf
        have hs : stepLine raw true false st = .done (-1) st := by
          unfold stepLine
          rw [if_neg hcap]
          cases hcl : classifyLine (lineOf raw) false with
          | skip => exact absurd ((classifyLine_skip_iff _ _).mp hcl) hsk
          | bad =>
            have hnl : filestat_is_line_a_legacy_header (some (lineOf raw)) = false := by
              rw [hline]
              simp [filestat_is_line_a_legacy_header, h1, h2]
            simp [hnl]
          | pair k v =>
            have hne : filestat_is_header_correct k v ≠ 0 := by
              intro h0
              obtain ⟨hk, hv⟩ := header_correct_zero k v h0
              rw [← hline] at hh
              simp [is_current_header, hcl, hk, hv] at hh
            simp [hne, EPERM]
        exact ⟨_, _, processLines_cons_done _ _ _ _ _ _ _ hs, by decide⟩

/-- C3 (header strictness, amended). If the first non-skippable line of a
content is neither a current header as the reader accepts it (text before the
first '=' trimming to `CatalogFS`, text after it trimming to a number scanned
in full as 3) nor exactly `CatalogFS.File.1` or `CatalogFS.File.2`, then
`filestat_parser_format_read` fails, for every skeleton. -/
theorem header_strictness (content : List Nat) (s : filestat) (line : List Nat)
    (hfirst : first_non_skippable_line content = some line)
    (hcur : is_current_header line = false)
    (hv1 : line ≠ FILESTAT_LEGACY_HEADER_V1) (hv2 : line ≠ FILESTAT_LEGACY_HEADER_V2) :
    ∃ res st, filestat_parser_format_read content s = some (res, st) ∧ res ≠ 0 := by
  obtain ⟨res, st, hp, hr⟩ := processLines_bad_header (splitLines content) s line hfirst hcur hv1 hv2
  exact ⟨res, st, by rw [filestat_parser_format_read_eq_lines, hp], hr⟩

theorem header_strictness_witness :
    first_non_skippable_line (bytes "# saved\nCatalogFS=4\nsize=1\n") = some (bytes "CatalogFS=4") ∧
    is_current_header (bytes "CatalogFS=4") = false ∧
    bytes "CatalogFS=4" ≠ FILESTAT_LEGACY_HEADER_V1 ∧
    bytes "CatalogFS=4" ≠ FILESTAT_LEGACY_HEADER_V2 ∧
    ∃ res st, filestat_parser_format_read (bytes "# saved\nCatalogFS=4\nsize=1\n")
      sample_skeleton = some (res, st) ∧ res ≠ 0 :=
  ⟨by decide, by decide, by decide, by decide,
    header_strictness (bytes "# saved\nCatalogFS=4\nsize=1\n") sample_skeleton
      (bytes "CatalogFS=4") (by decide) (by decide) (by decide) (by decide)⟩

/-- C3 as stated fails: the first non-skippable line of "CatalogFS = 03\n" is
the text `CatalogFS = 03`, which is neither `CatalogFS=3` nor a legacy header,
and the read succeeds. -/
theorem header_strictness_counterexample :
    first_non_skippable_line (bytes "CatalogFS = 03\n") = some (bytes "CatalogFS = 03") ∧
    bytes "CatalogFS = 03" ≠ bytes "CatalogFS=3" ∧
    bytes "CatalogFS = 03" ≠ FILESTAT_LEGACY_HEADER_V1 ∧
    bytes "CatalogFS = 03" ≠ FILESTAT_LEGACY_HEADER_V2 ∧
    filestat_parser_format_read (bytes "CatalogFS = 03\n") sample_skeleton =
      some (0, sample_skeleton) := by
  decide

/-! ### C6: fields without a line keep the skeleton -/

theorem unchanged_outside_refl (keys : List (List Nat)) (s : filestat) :
    unchanged_outside keys s s := by
  simp [unchanged_outside]

theorem unchanged_outside_trans (a b : List (List Nat)) (s m r : filestat)
    (h1 : unchanged_outside a s m) (h2 : unchanged_outside b m r) :
    unchanged_outside (a ++ b) s r := by
  unfold unchanged_outside at *
  simp only [List.mem_append, not_or] at *
  obtain ⟨a1, a2, a3, a4, a5, a6, a7, a8, a9, a10, a11, a12, a13⟩ := h1
  obtain ⟨b1, b2, b3, b4, b5, b6, b7, b8, b9, b10, b11, b12, b13⟩ := h2
  refine ⟨?_, ?_, ?_, ?_, ?_, ?_, ?_, ?_, ?_, ?_, ?_, ?_, ?_⟩ <;> intro ⟨x, y⟩
  · rw [b1 y, a1 x]
  · rw [b2 y, a2 x]
  · rw [b3 y, a3 x]
  · rw [b4 y, a4 x]
  · rw [b5 y, a5 x]
  · rw [b6 y, a6 x]
  · rw [b7 y, a7 x]
  · rw [b8 y, a8 x]
  · rw [b9 y, a9 x]
  · rw [b10 y, a10 x]
  · rw [b11 y, a11 x]
  · rw [b12 y, a12 x]
  · rw [b13 y, a13 x]

theorem process_frame (k v : List Nat) (st : filestat) :
    unchanged_outside [k] st (filestat_process_option_pair k v st).2 := by
  unfold filestat_process_option_pair unchanged_outside
  by_cases h0 : k = bytes "size"
  · rw [if_pos h0]
    refine ⟨?_, ?_, ?_, ?_, ?_, ?_, ?_, ?_, ?_, ?_, ?_, ?_, ?_⟩ <;> intro hk <;>
      first
      | rfl
      | exact absurd (List.mem_singleton.mpr h0.symm) hk
  rw [if_neg h0]
  by_cases h1 : k = bytes "blocks"
  · rw [if_pos h1]
    refine ⟨?_, ?_, ?_, ?_, ?_, ?_, ?_, ?_, ?_, ?_, ?_, ?_, ?_⟩ <;> intro hk <;>
      first
      | rfl
      | exact absurd (List.mem_singleton.mpr h1.symm) hk
  rw [if_neg h1]
  by_cases h2 : k = bytes "mode"
  · rw [if_pos h2]
    refine ⟨?_, ?_, ?_, ?_, ?_, ?_, ?_, ?_, ?_, ?_, ?_, ?_, ?_⟩ <;> intro hk <;>
      first
      | rfl
      | exact absurd (List.mem_singleton.mpr h2.symm) hk
  rw [if_neg h2]
  by_cases h3 : k = bytes "uid"
  · rw [if_pos h3]
    refine ⟨?_, ?_, ?_, ?_, ?_, ?_, ?_, ?_, ?_, ?_, ?_, ?_, ?_⟩ <;> intro hk <;>
      first
      | rfl
      | exact absurd (List.mem_singleton.mpr h3.symm) hk
  rw [if_neg h3]
  by_cases h4 : k = bytes "gid"
  · rw [if_pos h4]
    refine ⟨?_, ?_, ?_, ?_, ?_, ?_, ?_, ?_, ?_, ?_, ?_, ?_, ?_⟩ <;> intro hk <;>
      first
      | rfl
      | exact absurd (List.mem_singleton.mpr h4.symm) hk
  rw [if_neg h4]
  by_cases h5 : k = bytes "atime"
  · rw [if_pos h5]
    refine ⟨?_, ?_, ?_, ?_, ?_, ?_, ?_, ?_, ?_, ?_, ?_, ?_, ?_⟩ <;> intro hk <;>
      first
      | rfl
      | exact absurd (List.mem_singleton.mpr h5.symm) hk
  rw [if_neg h5]
  by_cases h6 : k = bytes "mtime"
  · rw [if_pos h6]
    refine ⟨?_, ?_, ?_, ?_, ?_, ?_, ?_, ?_, ?_, ?_, ?_, ?_, ?_⟩ <;> intro hk <;>
      first
      | rfl
      | exact absurd (List.mem_singleton.mpr h6.symm) hk
  rw [if_neg h6]
  by_cases h7 : k = bytes "ctime"
  · rw [if_pos h7]
    refine ⟨?_, ?_, ?_, ?_, ?_, ?_, ?_, ?_, ?_, ?_, ?_, ?_, ?_⟩ <;> intro hk <;>
      first
      | rfl
      | exact absurd (List.mem_singleton.mpr h7.symm) hk
  rw [if_neg h7]
  by_cases h8 : k = bytes "atimensec"
  · rw [if_pos h8]
    refine ⟨?_, ?_, ?_, ?_, ?_, ?_, ?_, ?_, ?_, ?_, ?_, ?_, ?_⟩ <;> intro hk <;>
      first
      | rfl
      | exact absurd (List.mem_singleton.mpr h8.symm) hk
  rw [if_neg h8]
  by_cases h9 : k = bytes "mtimensec"
  · rw [if_pos h9]
    refine ⟨?_, ?_, ?_, ?_, ?_, ?_, ?_, ?_, ?_, ?_, ?_, ?_, ?_⟩ <;> intro hk <;>
      first
      | rfl
      | exact absurd (List.mem_singleton.mpr h9.symm) hk
  rw [if_neg h9]
  by_cases h10 : k = bytes "ctimensec"
  · rw [if_pos h10]
    refine ⟨?_, ?_, ?_, ?_, ?_, ?_, ?_, ?_, ?_, ?_, ?_, ?_, ?_⟩ <;> intro hk <;>
      first
      | rfl
      | exact absurd (List.mem_singleton.mpr h10.symm) hk
  rw [if_neg h10]
  by_cases h11 : k = bytes "nlink"
  · rw [if_pos h11]
    refine ⟨?_, ?_, ?_, ?_, ?_, ?_, ?_, ?_, ?_, ?_, ?_, ?_, ?_⟩ <;> intro hk <;>
      first
      | rfl
      | exact absurd (List.mem_singleton.mpr h11.symm) hk
  rw [if_neg h11]
  by_cases h12 : k = bytes "blksize"
  · rw [if_pos h12]
    refine ⟨?_, ?_, ?_, ?_, ?_, ?_, ?_, ?_, ?_, ?_, ?_, ?_, ?_⟩ <;> intro hk <;>
      first
      | rfl
      | exact absurd (List.mem_singleton.mpr h12.symm) hk
  rw [if_neg h12]
  refine ⟨?_, ?_, ?_, ?_, ?_, ?_, ?_, ?_, ?_, ?_, ?_, ?_, ?_⟩ <;> intro _ <;> rfl

theorem stepLine_frame (raw : List Nat) (h l : Bool) (st : filestat) :
    (∀ r s', stepLine raw h l st = .done r s' → unchanged_outside (processed_key raw h l) st s') ∧
    (∀ h' l' s', stepLine raw h l st = .next h' l' s' →
      unchanged_outside (processed_key raw h l) st s') := by
  unfold stepLine processed_key
  by_cases hcap : line_cap (if h = true then FILESTAT_MAX_HEADER_LENGTH else 0) ≤ raw.length
  · simp only [hcap, if_true]
    constructor
    · intro r s' hs; simp at hs; rw [← hs.2]; exact unchanged_outside_refl _ _
    · intro h' l' s' hs; simp at hs
  · simp only [hcap, if_false]
    cases hcl : classifyLine (lineOf raw) l with
    | skip =>
      constructor
      · intro r s' hs; simp at hs
      · intro h' l' s' hs; simp at hs; rw [← hs.2.2]; exact unchanged_outside_refl _ _
    | bad =>
      constructor
      · intro r s' hs
        simp only at hs
        split_ifs at hs
        simp at hs; rw [← hs.2]; exact unchanged_outside_refl _ _
      · intro h' l' s' hs
        simp only at hs
        split_ifs at hs
        simp at hs; rw [← hs.2.2]; exact unchanged_outside_refl _ _
    | pair k v =>
      simp only
      cases h with
      | true =>
        simp only [if_true]
        constructor
        · intro r s' hs
          split_ifs at hs
          simp at hs; rw [← hs.2]; exact unchanged_outside_refl _ _
        · intro h' l' s' hs
          split_ifs at hs
          simp at hs; rw [← hs.2.2]; exact unchanged_outside_refl _ _
      | false =>
        simp only [Bool.false_eq_true, if_false]
        by_cases ht : l = true ∧ filestat_is_option_a_legacy_terminal_one k = true
        · rw [if_pos ht, if_pos ht]
          constructor
          · intro r s' hs; simp at hs; rw [← hs.2]; exact unchanged_outside_refl _ _
          · intro h' l' s' hs; simp at hs
        · rw [if_neg ht, if_neg ht]
          constructor
          · intro r s' hs
            split_ifs at hs
            simp only [Step.done.injEq] at hs
            rw [← hs.2]; exact process_frame k v st
          · intro h' l' s' hs
            split_ifs at hs
            simp only [Step.next.injEq] at hs
            rw [← hs.2.2]; exact process_frame k v st

theorem processLines_frame : ∀ (ls : List (List Nat)) (h l : Bool) (st : filestat),
    unchanged_outside (processed_keys ls h l st) st (processLines ls h l st).2 := by
  intro ls
  induction ls with
  | nil => intro h l st; simp [processLines, processed_keys, unchanged_outside]
  | cons raw ls ih =>
    intro h l st
    rw [processLines, processed_keys]
    cases hs : stepLine raw h l st with
    | done r s' =>
      simp only [List.append_nil]
      exact (stepLine_frame raw h l st).1 r s' hs
    | next h' l' s' =>
      simp only
      exact unchanged_outside_trans _ _ _ _ _ ((stepLine_frame raw h l st).2 h' l' s' hs)
        (ih h' l' s')

theorem process_unknown (k v : List Nat) (st : filestat) (h : k ∉ recognized_keys) :
    filestat_process_option_pair k v st = (0, st) := by
  simp only [recognized_keys, List.mem_cons, List.mem_singleton, List.not_mem_nil, or_false,
    not_or] at h
  obtain ⟨h1, h2, h3, h4, h5, h6, h7, h8, h9, h10, h11, h12, h13⟩ := h
  unfold filestat_process_option_pair
  rw [if_neg h1, if_neg h2, if_neg h3, if_neg h4, if_neg h5, if_neg h6, if_neg h7, if_neg h8,
    if_neg h9, if_neg h10, if_neg h11, if_neg h12, if_neg h13]

/-- A data line met past the header: terminator, or processed. -/
theorem stepLine_pair (raw : List Nat) (l : Bool) (st : filestat) (k v : List Nat)
    (hcap : raw.length < line_cap 0) (hcl : classifyLine (lineOf raw) l = .pair k v) :
    stepLine raw false l st =
      if l = true ∧ filestat_is_option_a_legacy_terminal_one k = true then
        .done (filestat_check_results st) st
      else if (filestat_process_option_pair k v st).1 ≠ 0 then
        .done (-EPERM) (filestat_process_option_pair k v st).2
      else .next false l (filestat_process_option_pair k v st).2 := by
  unfold stepLine
  simp only [Bool.false_eq_true, if_false, not_le.mpr hcap, hcl]

/-- A data line with an unknown key, met past the header, changes nothing. -/
theorem stepLine_unknown (raw : List Nat) (l : Bool) (st : filestat) (k v : List Nat)
    (hcap : raw.length < line_cap 0) (hcl : classifyLine (lineOf raw) l = .pair k v)
    (hk : k ∉ recognized_keys)
    (ht : ¬ (l = true ∧ filestat_is_option_a_legacy_terminal_one k = true)) :
    stepLine raw false l st = .next false l st := by
  rw [stepLine_pair raw l st k v hcap hcl, if_neg ht, process_unknown k v st hk]
  simp

/-- C6 (missing fields keep the skeleton). When `filestat_parser_format_read`
succeeds, every one of the 13 fields whose key is not the key of a data line
the reader processed has the value the skeleton held; and for the content
"CatalogFS=3\nsize=10\n# comment\nfuture_field=hi\nmtime=1700000000\n" the
record left is the skeleton with size 10 and mtime 1700000000, nothing else
changed. -/
theorem missing_fields_keep_skeleton :
    (∀ (fp : List Nat) (s r : filestat),
      filestat_parser_format_read fp s = some (0, r) →
        unchanged_outside (processed_keys (splitLines fp) true false s) s r) ∧
    (∀ s : filestat, ∃ res,
      filestat_parser_format_read
        (bytes "CatalogFS=3\nsize=10\n# comment\nfuture_field=hi\nmtime=1700000000\n") s =
        some (res, { s with size := 10, mtime := 1700000000 })) := by
  constructor
  · intro fp s r h
    rw [filestat_parser_format_read_eq_lines] at h
    have hf := processLines_frame (splitLines fp) true false s
    have h2 : processLines (splitLines fp) true false s = (0, r) := by simpa using h
    rw [h2] at hf
    exact hf
  · intro s
    have hl : splitLines
        (bytes "CatalogFS=3\nsize=10\n# comment\nfuture_field=hi\nmtime=1700000000\n") =
        [(bytes "CatalogFS" ++ 61 :: printf_u 3) ++ [10],
          (bytes "size" ++ 61 :: printf_d 10) ++ [10],
          bytes "# comment\n",
          bytes "future_field=hi\n",
          (bytes "mtime" ++ 61 :: printf_d 1700000000) ++ [10]] := by decide
    have h3 : ∀ st, stepLine (bytes "# comment\n") false false st = .next false false st :=
      fun st => stepLine_skip _ false false st (by decide) (by decide)
    have h4 : ∀ st, stepLine (bytes "future_field=hi\n") false false st = .next false false st :=
      fun st => stepLine_unknown _ false st (bytes "future_field") (bytes "hi") (by decide)
        (by decide) (by decide) (by decide)
    refine ⟨filestat_check_results { s with size := 10, mtime := 1700000000 }, ?_⟩
    rw [filestat_parser_format_read_eq_lines, hl]
    simp only [processLines, stepLine_header, step_size 10 _ (by norm_num) (by norm_num), h3, h4,
      step_mtime 1700000000 _ (by norm_num) (by norm_num)]

theorem missing_fields_keep_skeleton_witness :
    filestat_parser_format_read (bytes "CatalogFS=3\nsize=10\nfuture=1\n") sample_skeleton =
      some (0, { sample_skeleton with size := 10 }) ∧
    unchanged_outside
      (processed_keys (splitLines (bytes "CatalogFS=3\nsize=10\nfuture=1\n")) true false
        sample_skeleton)
      sample_skeleton { sample_skeleton with size := 10 } :=
  ⟨by decide, missing_fields_keep_skeleton.1 (bytes "CatalogFS=3\nsize=10\nfuture=1\n")
    sample_skeleton { sample_skeleton with size := 10 } (by decide)⟩

/-! ### Prefixes of whole lines -/

theorem processLines_append : ∀ (a b : List (List Nat)) (h l : Bool) (st : filestat),
    processLines (a ++ b) h l st =
      match runLines a h l st with
      | .done r s => (r, s)
      | .next h' l' s' => processLines b h' l' s' := by
  intro a
  induction a with
  | nil => intro b h l st; simp [runLines]
  | cons raw a ih =>
    intro b h l st
    rw [List.cons_append, processLines, runLines]
    cases hs : stepLine raw h l st with
    | done r s => simp
    | next h' l' s' => simp only; exact ih b h' l' s'

theorem splitLines_ne_nil (c : Nat) (cs : List Nat) : splitLines (c :: cs) ≠ [] := by
  rw [nextLine_splitLines]; simp

theorem splitLines_append : ∀ (pre x : List Nat), ends_with_newline pre →
    splitLines (pre ++ x) = splitLines pre ++ splitLines x := by
  intro pre
  induction pre with
  | nil => intro x _; simp [splitLines]
  | cons c cs ih =>
    intro x hp
    by_cases hc : isnl c = true
    · have hcs : ends_with_newline cs := by
        intro d hd
        cases cs with
        | nil => simp at hd
        | cons e es =>
          apply hp d
          rw [List.getLast?_cons_cons]; exact hd
      rw [List.cons_append, splitLines, if_pos hc, splitLines, if_pos hc, ih x hcs]
      rfl
    · cases cs with
      | nil =>
        have := hp c (by simp)
        exact absurd this hc
      | cons e es =>
        have hcs : ends_with_newline (e :: es) := by
          intro d hd
          apply hp d
          rw [List.getLast?_cons_cons]; exact hd
        rw [List.cons_append, splitLines, if_neg hc, ih x hcs]
        conv_rhs => rw [splitLines, if_neg hc]
        cases hsp : splitLines (e :: es) with
        | nil => exact absurd hsp (splitLines_ne_nil e es)
        | cons l ls => rfl

/-- The ways the read loop goes on after a line. -/
theorem stepLine_next_cases (raw : List Nat) (h l : Bool) (st s' : filestat) (h' l' : Bool)
    (hs : stepLine raw h l st = .next h' l' s') :
    ¬ (line_cap (if h = true then FILESTAT_MAX_HEADER_LENGTH else 0) ≤ raw.length) ∧
    ((classifyLine (lineOf raw) l = .skip ∧ h' = h ∧ l' = l ∧ s' = st) ∨
     (classifyLine (lineOf raw) l = .bad ∧
        filestat_is_line_a_legacy_header (some (lineOf raw)) = true ∧
        h' = false ∧ l' = true ∧ s' = st) ∨
     (∃ k v, classifyLine (lineOf raw) l = .pair k v ∧ h = true ∧
        filestat_is_header_correct k v = 0 ∧ h' = false ∧ l' = l ∧ s' = st) ∨
     (∃ k v, classifyLine (lineOf raw) l = .pair k v ∧ h = false ∧
        ¬ (l = true ∧ filestat_is_option_a_legacy_terminal_one k = true) ∧
        (filestat_process_option_pair k v st).1 = 0 ∧
        h' = false ∧ l' = l ∧ s' = (filestat_process_option_pair k v st).2)) := by
  unfold stepLine at hs
  by_cases hcap : line_cap (if h = true then FILESTAT_MAX_HEADER_LENGTH else 0) ≤ raw.length
  · rw [if_pos hcap] at hs; simp at hs
  · rw [if_neg hcap] at hs
    refine ⟨hcap, ?_⟩
    cases hcl : classifyLine (lineOf raw) l with
    | skip =>
      rw [hcl] at hs
      simp only [Step.next.injEq] at hs
      exact Or.inl ⟨rfl, hs.1.symm, hs.2.1.symm, hs.2.2.symm⟩
    | bad =>
      rw [hcl] at hs
      simp only at hs
      by_cases hh : filestat_is_line_a_legacy_header (some (lineOf raw)) = true
      · rw [if_pos hh] at hs
        simp only [Step.next.injEq] at hs
        exact Or.inr (Or.inl ⟨rfl, hh, hs.1.symm, hs.2.1.symm, hs.2.2.symm⟩)
      · rw [if_neg hh] at hs; simp at hs
    | pair k v =>
      rw [hcl] at hs
      simp only at hs
      cases h with
      | true =>
        simp only [if_true] at hs
        by_cases h0 : filestat_is_header_correct k v = 0
        · simp only [h0, ne_eq, not_true_eq_false, if_false, Step.next.injEq] at hs
          exact Or.inr (Or.inr (Or.inl ⟨k, v, rfl, rfl, h0, hs.1.symm, hs.2.1.symm, hs.2.2.symm⟩))
        · simp [h0] at hs
      | false =>
        simp only [Bool.false_eq_true, if_false] at hs
        by_cases ht : l = true ∧ filestat_is_option_a_legacy_terminal_one k = true
        · rw [if_pos ht] at hs; simp at hs
        · rw [if_neg ht] at hs
          by_cases h0 : (filestat_process_option_pair k v st).1 = 0
          · simp only [h0, ne_eq, not_true_eq_false, if_false, Step.next.injEq] at hs
            exact Or.inr (Or.inr (Or.inr
              ⟨k, v, rfl, rfl, ht, h0, hs.1.symm, hs.2.1.symm, hs.2.2.symm⟩))
          · simp [h0] at hs

theorem classifyLine_legacy_header (line : List Nat) (l : Bool)
    (hh : filestat_is_line_a_legacy_header (some line) = true) : classifyLine line l = .bad := by
  simp only [filestat_is_line_a_legacy_header, Bool.or_eq_true, beq_iff_eq] at hh
  rcases hh with h | h <;> subst h <;> cases l <;> decide

/-- A line `key:digits` met in legacy mode. -/
theorem stepLine_field_legacy (k v : List Nat) (d : Nat) (st : filestat) (c : Nat)
    (ks : List Nat) (hk : k = c :: ks) (hc : isspace c = false)
    (hc1 : c ≠ FILESTAT_COMMENT_CHAR_1) (hc2 : c ≠ FILESTAT_COMMENT_CHAR_2)
    (htrim : trim_string k = k) (hsep : FILESTAT_LEGACY_SEPARATOR_CHAR ∉ k)
    (hklen : k.length ≤ FILESTAT_MAX_LENGTH_OPTION) (hk0 : ∀ x ∈ k, x ≠ 0)
    (hterm : filestat_is_option_a_legacy_terminal_one k = false)
    (hv : ∀ x ∈ v, isspace x = false ∧ x ≠ 0) (hvlen : v.length ≤ 21) (hd : isnl d = true) :
    stepLine ((k ++ 58 :: v) ++ [d]) false true st =
      if (filestat_process_option_pair k v st).1 ≠ 0 then
        .done (-EPERM) (filestat_process_option_pair k v st).2
      else .next false true (filestat_process_option_pair k v st).2 := by
  have h := stepLine_key_value k v true d st c ks hk hc hc1 hc2 htrim (by simpa using hsep)
    hklen (by simp [FILESTAT_MAX_LENGTH_VALUE]; omega) hk0 (fun x hx => (hv x hx).2) hd
  rw [trim_string_of_no_space v (fun x hx => (hv x hx).1)] at h
  simpa [FILESTAT_LEGACY_SEPARATOR_CHAR, hterm] using h

theorem step_legacy_size (v : Int) (d : Nat) (st : filestat) (h1 : -(2:Int) ^ 63 ≤ v)
    (h2 : v < 2 ^ 63) (hd : isnl d = true) :
    stepLine ((bytes "size" ++ 58 :: printf_d v) ++ [d]) false true st =
      .next false true { st with size := v } := by
  rw [stepLine_field_legacy (bytes "size") (printf_d v) d st 115 (bytes "ize") (by decide)
    (by decide) (by decide) (by decide) (by decide) (by decide) (by decide) (by decide)
    (by decide) (printf_d_chars v) (printf_d_length v h1 h2) hd, process_size v st h1 h2]
  simp

theorem step_legacy_blocks (v : Int) (d : Nat) (st : filestat) (h1 : -(2:Int) ^ 63 ≤ v)
    (h2 : v < 2 ^ 63) (hd : isnl d = true) :
    stepLine ((bytes "blocks" ++ 58 :: printf_d v) ++ [d]) false true st =
      .next false true { st with blocks := v } := by
  rw [stepLine_field_legacy (bytes "blocks") (printf_d v) d st 98 (bytes "locks") (by decide)
    (by decide) (by decide) (by decide) (by decide) (by decide) (by decide) (by decide)
    (by decide) (printf_d_chars v) (printf_d_length v h1 h2) hd, process_blocks v st h1 h2]
  simp

theorem step_legacy_mode (n : Nat) (d : Nat) (st : filestat) (h : n < 2 ^ 32)
    (hd : isnl d = true) :
    stepLine ((bytes "mode" ++ 58 :: printf_u n) ++ [d]) false true st =
      .next false true { st with mode := n } := by
  rw [stepLine_field_legacy (bytes "mode") (printf_u n) d st 109 (bytes "ode") (by decide)
    (by decide) (by decide) (by decide) (by decide) (by decide) (by decide) (by decide)
    (by decide) (printf_u_chars n) (by have := printf_u_length n (by omega); omega) hd,
    process_mode n st h]
  simp

theorem step_legacy_uid (n : Nat) (d : Nat) (st : filestat) (h : n < 2 ^ 32)
    (hd : isnl d = true) :
    stepLine ((bytes "uid" ++ 58 :: printf_u n) ++ [d]) false true st =
      .next false true { st with uid := n } := by
  rw [stepLine_field_legacy (bytes "uid") (printf_u n) d st 117 (bytes "id") (by decide)
    (by decide) (by decide) (by decide) (by decide) (by decide) (by decide) (by decide)
    (by decide) (printf_u_chars n) (by have := printf_u_length n (by omega); omega) hd,
    process_uid n st h]
  simp

theorem step_legacy_gid (n : Nat) (d : Nat) (st : filestat) (h : n < 2 ^ 32)
    (hd : isnl d = true) :
    stepLine ((bytes "gid" ++ 58 :: printf_u n) ++ [d]) false true st =
      .next false true { st with gid := n } := by
  rw [stepLine_field_legacy (bytes "gid") (printf_u n) d st 103 (bytes "id") (by decide)
    (by decide) (by decide) (by decide) (by decide) (by decide) (by decide) (by decide)
    (by decide) (printf_u_chars n) (by have := printf_u_length n (by omega); omega) hd,
    process_gid n st h]
  simp

theorem step_legacy_atime (v : Int) (d : Nat) (st : filestat) (h1 : -(2:Int) ^ 63 ≤ v)
    (h2 : v < 2 ^ 63) (hd : isnl d = true) :
    stepLine ((bytes "atime" ++ 58 :: printf_d v) ++ [d]) false true st =
      .next false true { st with atime := v } := by
  rw [stepLine_field_legacy (bytes "atime") (printf_d v) d st 97 (bytes "time") (by decide)
    (by decide) (by decide) (by decide) (by decide) (by decide) (by decide) (by decide)
    (by decide) (printf_d_chars v) (printf_d_length v h1 h2) hd, process_atime v st h1 h2]
  simp

theorem step_legacy_mtime (v : Int) (d : Nat) (st : filestat) (h1 : -(2:Int) ^ 63 ≤ v)
    (h2 : v < 2 ^ 63) (hd : isnl d = true) :
    stepLine ((bytes "mtime" ++ 58 :: printf_d v) ++ [d]) false true st =
      .next false true { st with mtime := v } := by
  rw [stepLine_field_legacy (bytes "mtime") (printf_d v) d st 109 (bytes "time") (by decide)
    (by decide) (by decide) (by decide) (by decide) (by decide) (by decide) (by decide)
    (by decide) (printf_d_chars v) (printf_d_length v h1 h2) hd, process_mtime v st h1 h2]
  simp

theorem step_legacy_ctime (v : Int) (d : Nat) (st : filestat) (h1 : -(2:Int) ^ 63 ≤ v)
    (h2 : v < 2 ^ 63) (hd : isnl d = true) :
    stepLine ((bytes "ctime" ++ 58 :: printf_d v) ++ [d]) false true st =
      .next false true { st with ctime := v } := by
  rw [stepLine_field_legacy (bytes "ctime") (printf_d v) d st 99 (bytes "time") (by decide)
    (by decide) (by decide) (by decide) (by decide) (by decide) (by decide) (by decide)
    (by decide) (printf_d_chars v) (printf_d_length v h1 h2) hd, process_ctime v st h1 h2]
  simp

theorem step_legacy_atimensec (v : Int) (d : Nat) (st : filestat) (h1 : -(2:Int) ^ 63 ≤ v)
    (h2 : v < 2 ^ 63) (hd : isnl d = true) :
    stepLine ((bytes "atimensec" ++ 58 :: printf_d v) ++ [d]) false true st =
      .next false true { st with atimensec := v } := by
  rw [stepLine_field_legacy (bytes "atimensec") (printf_d v) d st 97 (bytes "timensec") (by decide)
    (by decide) (by decide) (by decide) (by decide) (by decide) (by decide) (by decide)
    (by decide) (printf_d_chars v) (printf_d_length v h1 h2) hd, process_atimensec v st h1 h2]
  simp

theorem step_legacy_mtimensec (v : Int) (d : Nat) (st : filestat) (h1 : -(2:Int) ^ 63 ≤ v)
    (h2 : v < 2 ^ 63) (hd : isnl d = true) :
    stepLine ((bytes "mtimensec" ++ 58 :: printf_d v) ++ [d]) false true st =
      .next false true { st with mtimensec := v } := by
  rw [stepLine_field_legacy (bytes "mtimensec") (printf_d v) d st 109 (bytes "timensec") (by decide)
    (by decide) (by decide) (by decide) (by decide) (by decide) (by decide) (by decide)
    (by decide) (printf_d_chars v) (printf_d_length v h1 h2) hd, process_mtimensec v st h1 h2]
  simp

theorem step_legacy_ctimensec (v : Int) (d : Nat) (st : filestat) (h1 : -(2:Int) ^ 63 ≤ v)
    (h2 : v < 2 ^ 63) (hd : isnl d = true) :
    stepLine ((bytes "ctimensec" ++ 58 :: printf_d v) ++ [d]) false true st =
      .next false true { st with ctimensec := v } := by
  rw [stepLine_field_legacy (bytes "ctimensec") (printf_d v) d st 99 (bytes "timensec") (by decide)
    (by decide) (by decide) (by decide) (by decide) (by decide) (by decide) (by decide)
    (by decide) (printf_d_chars v) (printf_d_length v h1 h2) hd, process_ctimensec v st h1 h2]
  simp

theorem step_legacy_nlink (n : Nat) (d : Nat) (st : filestat) (h : n < 2 ^ 64)
    (hd : isnl d = true) :
    stepLine ((bytes "nlink" ++ 58 :: printf_u n) ++ [d]) false true st =
      .next false true { st with nlink := n } := by
  rw [stepLine_field_legacy (bytes "nlink") (printf_u n) d st 110 (bytes "link") (by decide)
    (by decide) (by decide) (by decide) (by decide) (by decide) (by decide) (by decide)
    (by decide) (printf_u_chars n) (by have := printf_u_length n (by omega); omega) hd,
    process_nlink n st h]
  simp

theorem step_legacy_blksize (v : Int) (d : Nat) (st : filestat) (h1 : -(2:Int) ^ 63 ≤ v)
    (h2 : v < 2 ^ 63) (hd : isnl d = true) :
    stepLine ((bytes "blksize" ++ 58 :: printf_d v) ++ [d]) false true st =
      .next false true { st with blksize := v } := by
  rw [stepLine_field_legacy (bytes "blksize") (printf_d v) d st 98 (bytes "lksize") (by decide)
    (by decide) (by decide) (by decide) (by decide) (by decide) (by decide) (by decide)
    (by decide) (printf_d_chars v) (printf_d_length v h1 h2) hd, process_blksize v st h1 h2]
  simp

/-! ### C8: the legacy terminators -/

theorem processLines_nil_of_run (a : List (List Nat)) (h l : Bool) (st : filestat) :
    processLines a h l st =
      match runLines a h l st with
      | .done r s => (r, s)
      | .next _ _ s' => (filestat_check_results s', s') := by
  have := processLines_append a [] h l st
  rw [List.append_nil] at this
  rw [this]
  cases runLines a h l st <;> simp [processLines]

theorem takeWhile_length_all (p : Nat → Bool) (l : List Nat)
    (h : (l.takeWhile p).length = l.length) : ∀ x ∈ l, p x = true := by
  have hpre : l.takeWhile p <+: l := List.takeWhile_prefix p
  have heq : l.takeWhile p = l := hpre.eq_of_length h
  exact List.takeWhile_eq_self_iff.mp heq

theorem dropWhile_head (p : Nat → Bool) : ∀ (l : List Nat) (c : Nat) (t : List Nat),
    l.dropWhile p = c :: t → p c = false := by
  intro l
  induction l with
  | nil => intro c t h; simp at h
  | cons a l ih =>
    intro c t h
    by_cases ha : p a = true
    · rw [List.dropWhile_cons_of_pos ha] at h
      exact ih c t h
    · rw [List.dropWhile_cons_of_neg ha] at h
      simp only [List.cons.injEq] at h
      rw [← h.1]
      simpa using ha

theorem trim_string_head_not_space (x : List Nat) (c : Nat) (t : List Nat)
    (h : trim_string x = c :: t) : isspace c = false := by
  unfold trim_string at h
  simp only at h
  split_ifs at h
  exact dropWhile_head isspace _ c t h

/-- A value the scan accepts in full, and that does not start with white space,
is a decimal integer. -/
theorem sscanf_value_zero_decimal (v : List Nat) (fmt : ScanFmt)
    (hhead : ∀ c t, v = c :: t → isspace c = false)
    (h : (filestat_sscanf_value v fmt).1 = 0) : is_decimal_integer v = true := by
  obtain ⟨hn, hp, _⟩ := filestat_sscanf_value_zero v fmt h
  rw [sscanf_eq] at hn hp
  cases v with
  | nil => simp at hn
  | cons c s =>
    have hc := hhead c s rfl
    have hdw : (c :: s).dropWhile isspace = c :: s := by
      rw [List.dropWhile_cons_of_neg (by simp [hc])]
    have htw : (c :: s).takeWhile isspace = [] := by
      rw [List.takeWhile_cons_of_neg (by simp [hc])]
    rw [hdw] at hn hp
    rw [htw] at hp
    simp only at hn hp
    by_cases hd : (if (c == 45 || c == 43) = true then s else c :: s).takeWhile isdigit = []
    · rw [if_pos hd] at hn; simp at hn
    · rw [if_neg hd] at hp
      simp only [List.length_nil, Nat.zero_add, List.length_cons] at hp
      unfold is_decimal_integer
      by_cases hs : (c == 45 || c == 43) = true
      · simp only [hs, if_true] at hp hd ⊢
        have hall := takeWhile_length_all isdigit s (by omega)
        have hne : s ≠ [] := by
          intro h0; subst h0; simp at hd
        simp only [Bool.and_eq_true, Bool.not_eq_true', List.all_eq_true]
        exact ⟨by cases s <;> simp_all, hall⟩
      · simp only [hs, if_false, Nat.zero_add] at hp hd ⊢
        have hall := takeWhile_length_all isdigit (c :: s) (by simpa using hp)
        simp only [Bool.false_eq_true, if_false, List.all_eq_true]
        exact hall

theorem classifyLine_pair_trimmed (line : List Nat) (l : Bool) (k v : List Nat)
    (h : classifyLine line l = .pair k v) : ∃ val, v = trim_string val := by
  unfold classifyLine at h
  split at h
  · simp at h
  · simp at h
  · split_ifs at h
    simp only [LineClass.pair.injEq] at h
    exact ⟨_, h.2.symm⟩

theorem process_recognized (k v : List Nat) (st : filestat) (hk : k ∈ recognized_keys) :
    ∃ fmt, (filestat_process_option_pair k v st).1 = (filestat_sscanf_value v fmt).1 := by
  simp only [recognized_keys, List.mem_cons, List.mem_singleton, List.not_mem_nil, or_false] at hk
  rcases hk with h | h | h | h | h | h | h | h | h | h | h | h | h <;> subst h
  · exact ⟨.d64, by simp [filestat_process_option_pair, bytes]⟩
  · exact ⟨.d64, by simp [filestat_process_option_pair, bytes]⟩
  · exact ⟨.u32, by simp [filestat_process_option_pair, bytes]⟩
  · exact ⟨.u32, by simp [filestat_process_option_pair, bytes]⟩
  · exact ⟨.u32, by simp [filestat_process_option_pair, bytes]⟩
  · exact ⟨.d64, by simp [filestat_process_option_pair, bytes]⟩
  · exact ⟨.d64, by simp [filestat_process_option_pair, bytes]⟩
  · exact ⟨.d64, by simp [filestat_process_option_pair, bytes]⟩
  · exact ⟨.d64, by simp [filestat_process_option_pair, bytes]⟩
  · exact ⟨.d64, by simp [filestat_process_option_pair, bytes]⟩
  · exact ⟨.d64, by simp [filestat_process_option_pair, bytes]⟩
  · exact ⟨.u64, by simp [filestat_process_option_pair, bytes]⟩
  · exact ⟨.d64, by simp [filestat_process_option_pair, bytes]⟩

theorem recognized_not_terminal (k : List Nat) (hk : k ∈ recognized_keys) :
    filestat_is_option_a_legacy_terminal_one k = false := by
  simp only [recognized_keys, List.mem_cons, List.mem_singleton, List.not_mem_nil, or_false] at hk
  rcases hk with h | h | h | h | h | h | h | h | h | h | h | h | h <;> subst h <;> decide

theorem read_after_header (rest : List Nat) (s : filestat) :
    filestat_parser_format_read (bytes "CatalogFS=3\n" ++ rest) s =
      filestat_read_loop (rest.length + 1) rest false false s := by
  rw [filestat_parser_format_read_eq_lines,
    read_loop_eq_lines rest.length rest _ false false s (le_refl _) (by omega),
    header_line_bytes, List.append_assoc, List.singleton_append,
    splitLines_line _ 10 _ (field_line_no_nl _ _ (by decide) (printf_u_chars _)) (by decide),
    processLines, stepLine_header]

theorem loop_rejects_bad_number (fuel : Nat) (fp : List Nat) (legacy : Bool) (st : filestat)
    (k v : List Nat) (hf : fp.length < fuel)
    (hcl : classifyLine (lineOf (nextLine fp).1) legacy = .pair k v)
    (hk : k ∈ recognized_keys) (hv : is_decimal_integer v = false) :
    ∃ res st', filestat_read_loop fuel fp false legacy st = some (res, st') ∧ res ≠ 0 := by
  rw [read_loop_eq_lines fp.length fp fuel false legacy st (le_refl _) hf]
  cases fp with
  | nil =>
    have h0 : classifyLine (lineOf (nextLine []).1) legacy = .skip := by
      cases legacy <;> decide
    rw [h0] at hcl
    simp at hcl
  | cons c cs =>
    rw [nextLine_splitLines]
    by_cases hcap : line_cap (if false = true then FILESTAT_MAX_HEADER_LENGTH else 0) ≤
        (nextLine (c :: cs)).1.length
    · exact ⟨_, _, congrArg some (processLines_cons_done _ _ _ _ _ _ _
        (stepLine_overflow _ false legacy st hcap)), by decide⟩
    · have hne : (filestat_process_option_pair k v st).1 ≠ 0 := by
        intro h0
        obtain ⟨fmt, hfmt⟩ := process_recognized k v st hk
        rw [hfmt] at h0
        obtain ⟨val, hval⟩ := classifyLine_pair_trimmed _ _ _ _ hcl
        have := sscanf_value_zero_decimal v fmt
          (fun a t hat => trim_string_head_not_space val a t (by rw [← hval, hat])) h0
        rw [hv] at this
        exact absurd this (by decide)
      have hs : stepLine (nextLine (c :: cs)).1 false legacy st =
          .done (-EPERM) (filestat_process_option_pair k v st).2 := by
        rw [stepLine_pair _ legacy st k v (by simpa using hcap) hcl,
          if_neg (by simp [recognized_not_terminal k hk]), if_pos hne]
      exact ⟨_, _, congrArg some (processLines_cons_done _ _ _ _ _ _ _ hs), by decide⟩

/-- C9 (strict numeric scan). For every recognized key, when the next line the
read loop meets past the header is a data line with that key whose trimmed
value is not in its entirety one decimal integer (empty included), the read
fails; in particular the values `123AB`, `12 3`, `1e3`, `0x10` and the empty
value are rejected for every skeleton, no numeric prefix being accepted. -/
theorem strict_numeric_scan :
    (∀ (fuel : Nat) (fp : List Nat) (legacy : Bool) (st : filestat) (k v : List Nat),
      fp.length < fuel →
      classifyLine (lineOf (nextLine fp).1) legacy = .pair k v →
      k ∈ recognized_keys → is_decimal_integer v = false →
      ∃ res st', filestat_read_loop fuel fp false legacy st = some (res, st') ∧ res ≠ 0) ∧
    (∀ s : filestat, ∀ content ∈
        [bytes "CatalogFS=3\nsize=123AB\n", bytes "CatalogFS=3\nsize=12 3\n",
          bytes "CatalogFS=3\nsize=1e3\n", bytes "CatalogFS=3\nsize=0x10\n",
          bytes "CatalogFS=3\nsize=\n"],
      ∃ res st', filestat_parser_format_read content s = some (res, st') ∧ res ≠ 0) := by
  refine ⟨fun fuel fp legacy st k v hf hcl hk hv =>
    loop_rejects_bad_number fuel fp legacy st k v hf hcl hk hv, ?_⟩
  intro s content hc
  simp only [List.mem_cons, List.mem_singleton, List.not_mem_nil, or_false] at hc
  rcases hc with h | h | h | h | h <;> subst h
  · have e : bytes "CatalogFS=3\nsize=123AB\n" = bytes "CatalogFS=3\n" ++ bytes "size=123AB\n" := by
      decide
    rw [e, read_after_header]
    exact loop_rejects_bad_number _ _ false s (bytes "size") (bytes "123AB") (by omega)
      (by decide) (by decide) (by decide)
  · have e : bytes "CatalogFS=3\nsize=12 3\n" = bytes "CatalogFS=3\n" ++ bytes "size=12 3\n" := by
      decide
    rw [e, read_after_header]
    exact loop_rejects_bad_number _ _ false s (bytes "size") (bytes "12 3") (by omega)
      (by decide) (by decide) (by decide)
  · have e : bytes "CatalogFS=3\nsize=1e3\n" = bytes "CatalogFS=3\n" ++ bytes "size=1e3\n" := by
      decide
    rw [e, read_after_header]
    exact loop_rejects_bad_number _ _ false s (bytes "size") (bytes "1e3") (by omega)
      (by decide) (by decide) (by decide)
  · have e : bytes "CatalogFS=3\nsize=0x10\n" = bytes "CatalogFS=3\n" ++ bytes "size=0x10\n" := by
      decide
    rw [e, read_after_header]
    exact loop_rejects_bad_number _ _ false s (bytes "size") (bytes "0x10") (by omega)
      (by decide) (by decide) (by decide)
  · have e : bytes "CatalogFS=3\nsize=\n" = bytes "CatalogFS=3\n" ++ bytes "size=\n" := by
      decide
    rw [e, read_after_header]
    exact loop_rejects_bad_number _ _ false s (bytes "size") [] (by omega)
      (by decide) (by decide) (by decide)

theorem strict_numeric_scan_witness :
    (bytes "mode: 12 3\nsize:1\n").length < 30 ∧
    classifyLine (lineOf (nextLine (bytes "mode: 12 3\nsize:1\n")).1) true =
      .pair (bytes "mode") (bytes "12 3") ∧
    bytes "mode" ∈ recognized_keys ∧ is_decimal_integer (bytes "12 3") = false ∧
    ∃ res st', filestat_read_loop 30 (bytes "mode: 12 3\nsize:1\n") false true sample_skeleton =
      some (res, st') ∧ res ≠ 0 :=
  ⟨by decide, by decide, by decide, by decide,
    strict_numeric_scan.1 30 (bytes "mode: 12 3\nsize:1\n") true sample_skeleton (bytes "mode")
      (bytes "12 3") (by decide) (by decide) (by decide) (by decide)⟩

/-! ### C7: the legacy separator -/

theorem kv_line_no_nl (k v : List Nat) (sep : Nat) (hk : ∀ x ∈ k, isnl x = false)
    (hsep : isnl sep = false) (hv : ∀ x ∈ v, isspace x = false ∧ x ≠ 0) :
    ∀ x ∈ k ++ sep :: v, isnl x = false := by
  intro x hx
  rcases List.mem_append.mp hx with h | h
  · exact hk x h
  · rcases List.mem_cons.mp h with h | h
    · subst h; exact hsep
    · exact isnl_isspace x (hv x h).1

theorem printf_d_of_nonneg (v : Int) (h : 0 ≤ v) : printf_d v = printf_u v.toNat := by
  have h1 : ¬ (v < 0) := by omega
  have h2 : v.natAbs = v.toNat := by omega
  simp [printf_d, h1, h2]

theorem runLines_skippable : ∀ (a : List (List Nat)) (s : filestat),
    (∀ raw ∈ a, skippable (lineOf raw) = true ∧ raw.length < FILESTAT_MAX_HEADER_LENGTH) →
    runLines a true false s = .next true false s := by
  intro a
  induction a with
  | nil => intro s _; rfl
  | cons raw a ih =>
    intro s h
    obtain ⟨hsk, hlen⟩ := h raw (by simp)
    have hcap : ¬ line_cap (if true = true then FILESTAT_MAX_HEADER_LENGTH else 0) ≤ raw.length := by
      simp [line_cap, FILESTAT_MAX_HEADER_LENGTH] at *
      omega
    rw [runLines, stepLine_skip raw true false s hcap hsk]
    exact ih s (fun r hr => h r (by simp [hr]))

theorem stepLine_switch_to_legacy (hdr : List Nat) (d : Nat) (s : filestat)
    (hh : hdr = FILESTAT_LEGACY_HEADER_V1 ∨ hdr = FILESTAT_LEGACY_HEADER_V2)
    (hd : isnl d = true) :
    stepLine (hdr ++ [d]) true false s = .next false true s := by
  have h0 : ∀ x ∈ hdr, x ≠ 0 := by
    rcases hh with h | h <;> subst h <;> decide
  have hlen : hdr.length = 16 := by
    rcases hh with h | h <;> subst h <;> decide
  have hl := lineOf_line hdr d h0 hd
  have hleg : filestat_is_line_a_legacy_header (some hdr) = true := by
    rcases hh with h | h <;> subst h <;> decide
  have hcap : ¬ line_cap (if true = true then FILESTAT_MAX_HEADER_LENGTH else 0) ≤
      (hdr ++ [d]).length := by
    simp [line_cap, FILESTAT_MAX_HEADER_LENGTH, hlen]
  unfold stepLine
  rw [if_neg hcap, hl, classifyLine_legacy_header hdr false hleg]
  simp only [hleg, if_true]

theorem legacy_header_no_nl (hdr : List Nat)
    (hh : hdr = FILESTAT_LEGACY_HEADER_V1 ∨ hdr = FILESTAT_LEGACY_HEADER_V2) :
    ∀ x ∈ hdr, isnl x = false := by
  rcases hh with h | h <;> subst h <;> decide

theorem classifyLine_no_separator (line : List Nat) (l : Bool) (hsk : skippable line = false)
    (hsep : (if l then FILESTAT_LEGACY_SEPARATOR_CHAR else FILESTAT_SEPARATOR_CHAR_MAIN) ∉ line) :
    classifyLine line l = .bad := by
  simp only [skippable, Bool.or_eq_false_iff] at hsk
  unfold classifyLine filestat_parse_line
  simp only [hsk.1, hsk.2, Bool.false_eq_true, if_false]
  rw [if_pos hsep]

theorem loop_rejects_line_without_colon (fuel : Nat) (fp : List Nat) (st : filestat)
    (hf : fp.length < fuel) (hne : fp ≠ [])
    (hsk : skippable (lineOf (nextLine fp).1) = false)
    (hsep : FILESTAT_LEGACY_SEPARATOR_CHAR ∉ lineOf (nextLine fp).1)
    (hleg : filestat_is_line_a_legacy_header (some (lineOf (nextLine fp).1)) = false) :
    ∃ res st', filestat_read_loop fuel fp false true st = some (res, st') ∧ res ≠ 0 := by
  rw [read_loop_eq_lines fp.length fp fuel false true st (le_refl _) hf]
  cases fp with
  | nil => exact absurd rfl hne
  | cons c cs =>
    rw [nextLine_splitLines]
    by_cases hcap : line_cap (if false = true then FILESTAT_MAX_HEADER_LENGTH else 0) ≤
        (nextLine (c :: cs)).1.length
    · exact ⟨_, _, congrArg some (processLines_cons_done _ _ _ _ _ _ _
        (stepLine_overflow _ false true st hcap)), by decide⟩
    · have hs : stepLine (nextLine (c :: cs)).1 false true st = .done (-1) st := by
        unfold stepLine
        rw [if_neg hcap, classifyLine_no_separator _ true hsk (by simpa using hsep)]
        simp only [hleg, Bool.false_eq_true, if_false]
      exact ⟨_, _, congrArg some (processLines_cons_done _ _ _ _ _ _ _ hs), by decide⟩

theorem loop_legacy_step (fuel : Nat) (line : List Nat) (d : Nat) (post : List Nat)
    (st st' : filestat) (hnl : ∀ x ∈ line, isnl x = false) (hd : isnl d = true)
    (hf : (line ++ d :: post).length < fuel)
    (hs : stepLine (line ++ [d]) false true st = .next false true st') :
    filestat_read_loop fuel (line ++ d :: post) false true st =
      filestat_read_loop (post.length + 1) post false true st' := by
  rw [read_loop_eq_lines _ _ fuel false true st (le_refl _) hf,
    read_loop_eq_lines post.length post _ false true st' (le_refl _) (by omega),
    splitLines_line _ d _ hnl hd, processLines_cons_next _ _ _ _ _ _ _ _ hs]

theorem loop_legacy_sets_field (k : List Nat) (v : Int) (d : Nat) (post : List Nat)
    (st : filestat) (fuel : Nat) (hk : k ∈ recognized_keys) (hv : in_field_range k v)
    (hd : isnl d = true) (hf : ((k ++ 58 :: printf_d v) ++ d :: post).length < fuel) :
    filestat_read_loop fuel ((k ++ 58 :: printf_d v) ++ d :: post) false true st =
      filestat_read_loop (post.length + 1) post false true (set_field k v st) := by
  simp only [recognized_keys, List.mem_cons, List.mem_singleton, List.not_mem_nil, or_false] at hk
  rcases hk with h | h | h | h | h | h | h | h | h | h | h | h | h <;> subst h
  · have hr : -(2:Int) ^ 63 ≤ v ∧ v < 2 ^ 63 := by
      simpa [in_field_range, bytes] using hv
    have hset : set_field (bytes "size") v st = { st with size := v } := by
      simp [set_field, bytes]
    rw [hset]
    exact loop_legacy_step fuel _ d post st _
      (kv_line_no_nl _ _ 58 (by decide) (by decide) (printf_d_chars v)) hd hf
      (step_legacy_size v d st hr.1 hr.2 hd)
  · have hr : -(2:Int) ^ 63 ≤ v ∧ v < 2 ^ 63 := by
      simpa [in_field_range, bytes] using hv
    have hset : set_field (bytes "blocks") v st = { st with blocks := v } := by
      simp [set_field, bytes]
    rw [hset]
    exact loop_legacy_step fuel _ d post st _
      (kv_line_no_nl _ _ 58 (by decide) (by decide) (printf_d_chars v)) hd hf
      (step_legacy_blocks v d st hr.1 hr.2 hd)
  · have hr : 0 ≤ v ∧ v < 2 ^ 32 := by
      simpa [in_field_range, bytes] using hv
    have hset : set_field (bytes "mode") v st = { st with mode := v.toNat } := by
      simp [set_field, bytes]
    rw [hset]
    rw [printf_d_of_nonneg v hr.1] at hf ⊢
    exact loop_legacy_step fuel _ d post st _
      (kv_line_no_nl _ _ 58 (by decide) (by decide) (printf_u_chars _)) hd hf
      (step_legacy_mode v.toNat d st (by omega) hd)
  · have hr : 0 ≤ v ∧ v < 2 ^ 32 := by
      simpa [in_field_range, bytes] using hv
    have hset : set_field (bytes "uid") v st = { st with uid := v.toNat } := by
      simp [set_field, bytes]
    rw [hset]
    rw [printf_d_of_nonneg v hr.1] at hf ⊢
    exact loop_legacy_step fuel _ d post st _
      (kv_line_no_nl _ _ 58 (by decide) (by decide) (printf_u_chars _)) hd hf
      (step_legacy_uid v.toNat d st (by omega) hd)
  · have hr : 0 ≤ v ∧ v < 2 ^ 32 := by
      simpa [in_field_range, bytes] using hv
    have hset : set_field (bytes "gid") v st = { st with gid := v.toNat } := by
      simp [set_field, bytes]
    rw [hset]
    rw [printf_d_of_nonneg v hr.1] at hf ⊢
    exact loop_legacy_step fuel _ d post st _
      (kv_line_no_nl _ _ 58 (by decide) (by decide) (printf_u_chars _)) hd hf
      (step_legacy_gid v.toNat d st (by omega) hd)
  · have hr : -(2:Int) ^ 63 ≤ v ∧ v < 2 ^ 63 := by
      simpa [in_field_range, bytes] using hv
    have hset : set_field (bytes "atime") v st = { st with atime := v } := by
      simp [set_field, bytes]
    rw [hset]
    exact loop_legacy_step fuel _ d post st _
      (kv_line_no_nl _ _ 58 (by decide) (by decide) (printf_d_chars v)) hd hf
      (step_legacy_atime v d st hr.1 hr.2 hd)
  · have hr : -(2:Int) ^ 63 ≤ v ∧ v < 2 ^ 63 := by
      simpa [in_field_range, bytes] using hv
    have hset : set_field (bytes "mtime") v st = { st with mtime := v } := by
      simp [set_field, bytes]
    rw [hset]
    exact loop_legacy_step fuel _ d post st _
      (kv_line_no_nl _ _ 58 (by decide) (by decide) (printf_d_chars v)) hd hf
      (step_legacy_mtime v d st hr.1 hr.2 hd)
  · have hr : -(2:Int) ^ 63 ≤ v ∧ v < 2 ^ 63 := by
      simpa [in_field_range, bytes] using hv
    have hset : set_field (bytes "ctime") v st = { st with ctime := v } := by
      simp [set_field, bytes]
    rw [hset]
    exact loop_legacy_step fuel _ d post st _
      (kv_line_no_nl _ _ 58 (by decide) (by decide) (printf_d_chars v)) hd hf
      (step_legacy_ctime v d st hr.1 hr.2 hd)
  · have hr : -(2:Int) ^ 63 ≤ v ∧ v < 2 ^ 63 := by
      simpa [in_field_range, bytes] using hv
    have hset : set_field (bytes "atimensec") v st = { st with atimensec := v } := by
      simp [set_field, bytes]
    rw [hset]
    exact loop_legacy_step fuel _ d post st _
      (kv_line_no_nl _ _ 58 (by decide) (by decide) (printf_d_chars v)) hd hf
      (step_legacy_atimensec v d st hr.1 hr.2 hd)
  · have hr : -(2:Int) ^ 63 ≤ v ∧ v < 2 ^ 63 := by
      simpa [in_field_range, bytes] using hv
    have hset : set_field (bytes "mtimensec") v st = { st with mtimensec := v } := by
      simp [set_field, bytes]
    rw [hset]
    exact loop_legacy_step fuel _ d post st _
      (kv_line_no_nl _ _ 58 (by decide) (by decide) (printf_d_chars v)) hd hf
      (step_legacy_mtimensec v d st hr.1 hr.2 hd)
  · have hr : -(2:Int) ^ 63 ≤ v ∧ v < 2 ^ 63 := by
      simpa [in_field_range, bytes] using hv
    have hset : set_field (bytes "ctimensec") v st = { st with ctimensec := v } := by
      simp [set_field, bytes]
    rw [hset]
    exact loop_legacy_step fuel _ d post st _
      (kv_line_no_nl _ _ 58 (by decide) (by decide) (printf_d_chars v)) hd hf
      (step_legacy_ctimensec v d st hr.1 hr.2 hd)
  · have hr : 0 ≤ v ∧ v < 2 ^ 64 := by
      simpa [in_field_range, bytes] using hv
    have hset : set_field (bytes "nlink") v st = { st with nlink := v.toNat } := by
      simp [set_field, bytes]
    rw [hset]
    rw [printf_d_of_nonneg v hr.1] at hf ⊢
    exact loop_legacy_step fuel _ d post st _
      (kv_line_no_nl _ _ 58 (by decide) (by decide) (printf_u_chars _)) hd hf
      (step_legacy_nlink v.toNat d st (by omega) hd)
  · have hr : -(2:Int) ^ 63 ≤ v ∧ v < 2 ^ 63 := by
      simpa [in_field_range, bytes] using hv
    have hset : set_field (bytes "blksize") v st = { st with blksize := v } := by
      simp [set_field, bytes]
    rw [hset]
    exact loop_legacy_step fuel _ d post st _
      (kv_line_no_nl _ _ 58 (by decide) (by decide) (printf_d_chars v)) hd hf
      (step_legacy_blksize v d st hr.1 hr.2 hd)

/-- C7 (legacy separator, amended). When the first non-skippable line is exactly
`CatalogFS.File.1` or `CatalogFS.File.2`, the read loop goes on in legacy mode;
in legacy mode every line the loop reaches (that is, before a `name` / `path`
terminator) is split at its first ':' : for every recognized key `k` and every
decimal value `v` in the range of the field, the line `k:v` sets field `k` to
`v`, and a non-skippable line without ':' that is not itself a legacy header
(such as `k=v`) makes the read fail. -/
theorem legacy_separator :
    (∀ (pre hdr : List Nat) (d : Nat) (post : List Nat) (s : filestat),
      ends_with_newline pre →
      (∀ raw ∈ splitLines pre,
        skippable (lineOf raw) = true ∧ raw.length < FILESTAT_MAX_HEADER_LENGTH) →
      (hdr = FILESTAT_LEGACY_HEADER_V1 ∨ hdr = FILESTAT_LEGACY_HEADER_V2) → isnl d = true →
      filestat_parser_format_read (pre ++ (hdr ++ d :: post)) s =
        filestat_read_loop (post.length + 1) post false true s) ∧
    (∀ (k : List Nat) (v : Int) (d : Nat) (post : List Nat) (st : filestat) (fuel : Nat),
      k ∈ recognized_keys → in_field_range k v → isnl d = true →
      ((k ++ 58 :: printf_d v) ++ d :: post).length < fuel →
      filestat_read_loop fuel ((k ++ 58 :: printf_d v) ++ d :: post) false true st =
        filestat_read_loop (post.length + 1) post false true (set_field k v st)) ∧
    (∀ (fuel : Nat) (fp : List Nat) (st : filestat),
      fp.length < fuel → fp ≠ [] →
      skippable (lineOf (nextLine fp).1) = false →
      FILESTAT_LEGACY_SEPARATOR_CHAR ∉ lineOf (nextLine fp).1 →
      filestat_is_line_a_legacy_header (some (lineOf (nextLine fp).1)) = false →
      ∃ res st', filestat_read_loop fuel fp false true st = some (res, st') ∧ res ≠ 0) := by
  refine ⟨?_, ?_, ?_⟩
  · intro pre hdr d post s hpre hskip hh hd
    rw [filestat_parser_format_read_eq_lines,
      read_loop_eq_lines post.length post _ false true s (le_refl _) (by omega),
      splitLines_append pre _ hpre, splitLines_line _ d _ (legacy_header_no_nl hdr hh) hd,
      processLines_append, runLines_skippable _ s hskip]
    simp only
    rw [processLines_cons_next _ _ _ _ _ _ _ _ (stepLine_switch_to_legacy hdr d s hh hd)]
  · intro k v d post st fuel hk hv hd hf
    exact loop_legacy_sets_field k v d post st fuel hk hv hd hf
  · intro fuel fp st hf hne hsk hsep hleg
    exact loop_rejects_line_without_colon fuel fp st hf hne hsk hsep hleg

theorem legacy_separator_witness :
    (bytes "size=5\n").length < 8 ∧ bytes "size=5\n" ≠ [] ∧
    skippable (lineOf (nextLine (bytes "size=5\n")).1) = false ∧
    FILESTAT_LEGACY_SEPARATOR_CHAR ∉ lineOf (nextLine (bytes "size=5\n")).1 ∧
    filestat_is_line_a_legacy_header (some (lineOf (nextLine (bytes "size=5\n")).1)) = false ∧
    ∃ res st', filestat_read_loop 8 (bytes "size=5\n") false true sample_skeleton =
      some (res, st') ∧ res ≠ 0 :=
  ⟨by decide, by decide, by decide, by decide, by decide,
    legacy_separator.2.2 8 (bytes "size=5\n") sample_skeleton (by decide) (by decide)
      (by decide) (by decide) (by decide)⟩

/-- C7 as stated fails: in "CatalogFS.File.2\nname:x\nsize=5\n" the first
non-skippable line is exactly `CatalogFS.File.2`, the following data line
`size=5` contains no ':', and the read succeeds, because the `name` line ends
the read before that line is reached. -/
theorem legacy_separator_counterexample :
    first_non_skippable_line (bytes "CatalogFS.File.2\nname:x\nsize=5\n") =
      some FILESTAT_LEGACY_HEADER_V2 ∧
    bytes "size=5\n" ∈ splitLines (bytes "CatalogFS.File.2\nname:x\nsize=5\n") ∧
    skippable (lineOf (bytes "size=5\n")) = false ∧
    FILESTAT_LEGACY_SEPARATOR_CHAR ∉ lineOf (bytes "size=5\n") ∧
    filestat_parser_format_read (bytes "CatalogFS.File.2\nname:x\nsize=5\n") sample_skeleton =
      some (0, sample_skeleton) := by
  decide

/-! ### C4: inserted lines -/

theorem not_legacy_header_of_classify (line : List Nat) (l : Bool)
    (h : classifyLine line l ≠ .bad) : filestat_is_line_a_legacy_header (some line) = false := by
  cases hh : filestat_is_line_a_legacy_header (some line) with
  | false => rfl
  | true => exact absurd (classifyLine_legacy_header line l hh) h

theorem not_skippable_of_classify (line : List Nat) (l : Bool)
    (h : classifyLine line l ≠ .skip) : skippable line = false := by
  cases hh : skippable line with
  | false => rfl
  | true => exact absurd ((classifyLine_skip_iff line l).mpr hh) h

/-- The flags after a line the loop goes on from. -/
theorem stepLine_next_flags (raw : List Nat) (h l : Bool) (st s' : filestat) (h' l' : Bool)
    (hs : stepLine raw h l st = .next h' l' s') :
    h' = (h && skippable (lineOf raw)) ∧
      l' = (l || filestat_is_line_a_legacy_header (some (lineOf raw))) := by
  obtain ⟨_, hc⟩ := stepLine_next_cases raw h l st s' h' l' hs
  rcases hc with ⟨c, a, b, _⟩ | ⟨c, hh, a, b, _⟩ | ⟨k, v, c, _, _, a, b, _⟩ |
    ⟨k, v, c, hf, _, _, a, b, _⟩
  · have h1 := (classifyLine_skip_iff _ _).mp c
    have h2 := not_legacy_header_of_classify (lineOf raw) l (by rw [c]; simp)
    simp [a, b, h1, h2]
  · have h1 := not_skippable_of_classify (lineOf raw) l (by rw [c]; simp)
    simp [a, b, h1, hh]
  · have h1 := not_skippable_of_classify (lineOf raw) l (by rw [c]; simp)
    have h2 := not_legacy_header_of_classify (lineOf raw) l (by rw [c]; simp)
    simp [a, b, h1, h2]
  · have h2 := not_legacy_header_of_classify (lineOf raw) l (by rw [c]; simp)
    simp [a, b, hf, h2]

/-- C10 (size cap). `read_filestat` refuses with operation-not-permitted, whatever
the content is and leaving the record untouched, every opened sidecar that is not
a regular file or whose size is strictly greater than 1,048,576 bytes; for a
regular file of 1,048,576 bytes or fewer the guard returns 0 and `read_filestat`
is the format reader run on the content. -/
theorem size_cap :
    (∀ (st : Stat) (fdopen : Except Int Unit) (content : List Nat) (my_stat : filestat),
      (S_ISREG st.st_mode = false ∨ st.st_size > 1048576) →
      read_filestat (.ok ⟨.ok st, fdopen, content⟩) my_stat = some (-EPERM, my_stat)) ∧
    (∀ (st : Stat) (content : List Nat) (my_stat : filestat),
      S_ISREG st.st_mode = true → st.st_size ≤ 1048576 →
      check_filestat_file_size_is_small_enough (.ok st) = 0 ∧
      read_filestat (.ok ⟨.ok st, .ok (), content⟩) my_stat =
        filestat_parser_format_read content my_stat) := by
  constructor
  · intro st fdopen content my_stat h
    have hc : check_filestat_file_size_is_small_enough (.ok st) = -EPERM := by
      unfold check_filestat_file_size_is_small_enough
      rcases h with h | h
      · simp [h]
      · by_cases hr : S_ISREG st.st_mode = true
        · simp [hr, FILESTAT_MAXSIZE, h]
        · simp [hr]
    simp [read_filestat, hc, EPERM]
  · intro st content my_stat hreg hsize
    have hc : check_filestat_file_size_is_small_enough (.ok st) = 0 := by
      unfold check_filestat_file_size_is_small_enough
      simp [hreg, FILESTAT_MAXSIZE, not_lt.mpr hsize]
    exact ⟨hc, by simp [read_filestat, hc]⟩

theorem size_cap_witness :
    ((⟨33188, 1048577⟩ : Stat).st_size > 1048576 ∧
      read_filestat (.ok ⟨.ok ⟨33188, 1048577⟩, .ok (), bytes "CatalogFS=3\nsize=1\n"⟩)
        sample_skeleton = some (-EPERM, sample_skeleton)) ∧
    (S_ISREG (⟨33188, 1048576⟩ : Stat).st_mode = true ∧
      (⟨33188, 1048576⟩ : Stat).st_size ≤ 1048576 ∧
      check_filestat_file_size_is_small_enough (.ok ⟨33188, 1048576⟩) = 0) :=
  ⟨⟨by decide, size_cap.1 ⟨33188, 1048577⟩ (.ok ()) (bytes "CatalogFS=3\nsize=1\n")
      sample_skeleton (Or.inr (by decide))⟩,
    ⟨by decide, by decide,
      (size_cap.2 ⟨33188, 1048576⟩ [] sample_skeleton (by decide) (by decide)).1⟩⟩

/-! ### C11: the converter -/

/-- C11 (converter frame). For every record, attribute block and flags,
`fill_stat_from_filestat_with_options` returns 0 and the block with `st_size`
and `st_blocks` replaced by the record's; `st_mode` replaced iff the mode flag
is on, the three times (seconds and nanoseconds) iff the times flag is on,
`st_uid` iff the uid flag is on, `st_gid` iff the gid flag is on; `st_nlink`,
`st_blksize` and the remaining attributes are those of the block. -/
theorem converter_frame (r : filestat) (a : stat) (mode times uid gid : Bool) :
    (fill_stat_from_filestat_with_options a r mode times uid gid).1 = 0 ∧
    (fill_stat_from_filestat_with_options a r mode times uid gid).2.st_size = r.size ∧
    (fill_stat_from_filestat_with_options a r mode times uid gid).2.st_blocks = r.blocks ∧
    (fill_stat_from_filestat_with_options a r mode times uid gid).2.st_mode =
      (if mode then r.mode else a.st_mode) ∧
    (fill_stat_from_filestat_with_options a r mode times uid gid).2.st_atim =
      (if times then ⟨r.atime, r.atimensec⟩ else a.st_atim) ∧
    (fill_stat_from_filestat_with_options a r mode times uid gid).2.st_mtim =
      (if times then ⟨r.mtime, r.mtimensec⟩ else a.st_mtim) ∧
    (fill_stat_from_filestat_with_options a r mode times uid gid).2.st_ctim =
      (if times then ⟨r.ctime, r.ctimensec⟩ else a.st_ctim) ∧
    (fill_stat_from_filestat_with_options a r mode times uid gid).2.st_uid =
      (if uid then r.uid else a.st_uid) ∧
    (fill_stat_from_filestat_with_options a r mode times uid gid).2.st_gid =
      (if gid then r.gid else a.st_gid) ∧
    (fill_stat_from_filestat_with_options a r mode times uid gid).2.st_nlink = a.st_nlink ∧
    (fill_stat_from_filestat_with_options a r mode times uid gid).2.st_blksize = a.st_blksize ∧
    (fill_stat_from_filestat_with_options a r mode times uid gid).2.st_dev = a.st_dev ∧
    (fill_stat_from_filestat_with_options a r mode times uid gid).2.st_ino = a.st_ino ∧
    (fill_stat_from_filestat_with_options a r mode times uid gid).2.st_rdev = a.st_rdev := by
  cases mode <;> cases times <;> cases uid <;> cases gid <;>
    simp [fill_stat_from_filestat_with_options]

/-! ### C12, C13: attribute lookup -/

theorem S_ISDIR_not_reg (m : Nat) (h : S_ISDIR m = true) : S_ISREG m = false := by
  simp only [S_ISDIR, beq_iff_eq] at h
  simp [S_ISREG, h, S_IFDIR, S_IFREG]

theorem S_ISLNK_not_reg (m : Nat) (h : S_ISLNK m = true) : S_ISREG m = false := by
  simp only [S_ISLNK, beq_iff_eq] at h
  simp [S_ISREG, h, S_IFLNK, S_IFREG]

/-- The attribute lookup of a regular underlying file of non-zero size whose
sidecar is read successfully. -/
theorem getattr_regular (my_data : my_private_data) (stbuf u : stat)
    (openat : Except Int OpenedFile) (r : filestat)
    (hreg : S_ISREG u.st_mode = true) (hsize : u.st_size ≠ 0)
    (hread : read_filestat openat (fill_filestat_from_stat u).2 = some (0, r)) :
    catalogfs_getattr my_data stbuf (.ok u) openat =
      some (0, (fill_stat_from_filestat_with_options u r (!my_data.ignore_saved_chmod)
        (!my_data.ignore_saved_times) my_data.use_saved_uid my_data.use_saved_gid).2) := by
  have h1 : (fill_filestat_from_stat u).1 = 0 := rfl
  have h2 : ∀ (a : stat) (m t ui gi : Bool),
      (fill_stat_from_filestat_with_options a r m t ui gi).1 = 0 := fun _ _ _ _ _ => rfl
  unfold catalogfs_getattr
  simp only [hreg, hsize, h1, hread, h2, Bool.not_true, Bool.false_and, Bool.false_eq_true,
    if_false, if_true, ne_eq, not_true_eq_false]

/-- C12 (getattr overlay). For a regular underlying file of non-zero size whose
content is read successfully into the record `r` from the skeleton of the
underlying attributes `u`, `catalogfs_getattr` returns success with size and
blocks of `r`; mode of `r` iff `ignore_saved_chmod` is off, times of `r` iff
`ignore_saved_times` is off, uid of `r` iff `use_saved_uid` is on, gid of `r`
iff `use_saved_gid` is on, else those of `u`; nlink and blksize of `u`. With all
four overrides in effect the block is `u` with the size, blocks, mode, times,
uid and gid of `r`. -/
theorem getattr_overlay (my_data : my_private_data) (stbuf u : stat)
    (openat : Except Int OpenedFile) (r : filestat)
    (hreg : S_ISREG u.st_mode = true) (hsize : u.st_size ≠ 0)
    (hread : read_filestat openat (fill_filestat_from_stat u).2 = some (0, r)) :
    ∃ a, catalogfs_getattr my_data stbuf (.ok u) openat = some (0, a) ∧
      a.st_size = r.size ∧ a.st_blocks = r.blocks ∧
      a.st_mode = (if my_data.ignore_saved_chmod then u.st_mode else r.mode) ∧
      a.st_atim = (if my_data.ignore_saved_times then u.st_atim else ⟨r.atime, r.atimensec⟩) ∧
      a.st_mtim = (if my_data.ignore_saved_times then u.st_mtim else ⟨r.mtime, r.mtimensec⟩) ∧
      a.st_ctim = (if my_data.ignore_saved_times then u.st_ctim else ⟨r.ctime, r.ctimensec⟩) ∧
      a.st_uid = (if my_data.use_saved_uid then r.uid else u.st_uid) ∧
      a.st_gid = (if my_data.use_saved_gid then r.gid else u.st_gid) ∧
      a.st_nlink = u.st_nlink ∧ a.st_blksize = u.st_blksize ∧
      (my_data.ignore_saved_chmod = false → my_data.ignore_saved_times = false →
        my_data.use_saved_uid = true → my_data.use_saved_gid = true →
        a = { u with
              st_size := r.size, st_blocks := r.blocks, st_mode := r.mode,
              st_atim := ⟨r.atime, r.atimensec⟩, st_mtim := ⟨r.mtime, r.mtimensec⟩,
              st_ctim := ⟨r.ctime, r.ctimensec⟩, st_uid := r.uid, st_gid := r.gid }) := by
  refine ⟨_, getattr_regular my_data stbuf u openat r hreg hsize hread, ?_⟩
  obtain ⟨lo, ch, ti, ui, gi⟩ := my_data
  cases ch <;> cases ti <;> cases ui <;> cases gi <;>
    simp [fill_stat_from_filestat_with_options]

theorem getattr_overlay_witness :
    S_ISREG sample_stat.st_mode = true ∧ sample_stat.st_size ≠ 0 ∧
    read_filestat (.ok ⟨.ok sample_stat.toStat, .ok (), bytes "CatalogFS=3\nsize=4096\nuid=7\n"⟩)
      (fill_filestat_from_stat sample_stat).2 =
      some (0, { (fill_filestat_from_stat sample_stat).2 with size := 4096, uid := 7 }) ∧
    ∃ a, catalogfs_getattr all_overrides sample_stat (.ok sample_stat)
        (.ok ⟨.ok sample_stat.toStat, .ok (), bytes "CatalogFS=3\nsize=4096\nuid=7\n"⟩) =
        some (0, a) ∧
      a.st_size = 4096 ∧ a.st_uid = 7 ∧ a.st_nlink = 2 ∧ a.st_blksize = 4096 :=
  have hread : read_filestat
      (.ok ⟨.ok sample_stat.toStat, .ok (), bytes "CatalogFS=3\nsize=4096\nuid=7\n"⟩)
      (fill_filestat_from_stat sample_stat).2 =
      some (0, { (fill_filestat_from_stat sample_stat).2 with size := 4096, uid := 7 }) := by
    decide
  ⟨by decide, by decide, hread,
    match getattr_overlay all_overrides sample_stat sample_stat _ _ (by decide) (by decide) hread with
    | ⟨a, h, h1, _, _, _, _, _, h2, _, h3, h4, _⟩ => ⟨a, h, h1, h2, h3, h4⟩⟩

/-- C13 (getattr dispatch on the entry type). For a directory, a symbolic link,
or a regular file of size zero, `catalogfs_getattr` returns success with the
underlying attributes unchanged, whatever the outcome of opening the sidecar
would be (the sidecar is not read); for an entry of any other type it returns
operation-not-permitted. -/
theorem getattr_dispatch (my_data : my_private_data) (stbuf u : stat)
    (openat : Except Int OpenedFile) :
    ((S_ISDIR u.st_mode = true ∨ S_ISLNK u.st_mode = true ∨
        (S_ISREG u.st_mode = true ∧ u.st_size = 0)) →
      catalogfs_getattr my_data stbuf (.ok u) openat = some (0, u)) ∧
    ((S_ISREG u.st_mode = false ∧ S_ISDIR u.st_mode = false ∧ S_ISLNK u.st_mode = false) →
      catalogfs_getattr my_data stbuf (.ok u) openat = some (-EPERM, u)) := by
  constructor
  · intro h
    unfold catalogfs_getattr
    rcases h with h | h | ⟨h, hs⟩
    · simp [h, S_ISDIR_not_reg _ h]
    · simp [h, S_ISLNK_not_reg _ h]
    · simp [h, hs]
  · intro ⟨h1, h2, h3⟩
    unfold catalogfs_getattr
    simp [h1, h2, h3]

theorem getattr_dispatch_witness :
    (S_ISDIR 16877 = true ∧
      catalogfs_getattr all_overrides sample_stat (.ok { sample_stat with st_mode := 16877 })
        (.error 2) = some (0, { sample_stat with st_mode := 16877 })) ∧
    ((S_ISREG 4516 = false ∧ S_ISDIR 4516 = false ∧ S_ISLNK 4516 = false) ∧
      catalogfs_getattr all_overrides sample_stat (.ok { sample_stat with st_mode := 4516 })
        (.error 2) = some (-EPERM, { sample_stat with st_mode := 4516 })) :=
  ⟨⟨by decide, (getattr_dispatch all_overrides sample_stat { sample_stat with st_mode := 16877 }
      (.error 2)).1 (Or.inl (by decide))⟩,
    ⟨by decide, (getattr_dispatch all_overrides sample_stat { sample_stat with st_mode := 4516 }
      (.error 2)).2 (by decide)⟩⟩

/-! ### C17, C16: the block count and the saved record -/

theorem convert_of_nonneg (n : Int) (h : 0 ≤ n) :
    convert_filesize_to_fileblocks n = n / 512 + 1 := by
  unfold convert_filesize_to_fileblocks
  rw [Int.tdiv_eq_ediv h (by decide)]

/-- C17 (blocks law). For every size `n ≥ 0`, `convert_filesize_to_fileblocks n`
is `⌊n / 512⌋ + 1`: it equals `⌈n / 512⌉` when `n` is not a multiple of 512 and
`⌈n / 512⌉ + 1` when it is; the result is at least 1 and 512 times the result
exceeds `n`. -/
theorem blocks_law (n : Int) (h : 0 ≤ n) :
    convert_filesize_to_fileblocks n = ⌊(n : ℚ) / 512⌋ + 1 ∧
    (n % 512 ≠ 0 → convert_filesize_to_fileblocks n = ⌈(n : ℚ) / 512⌉) ∧
    (n % 512 = 0 → convert_filesize_to_fileblocks n = ⌈(n : ℚ) / 512⌉ + 1) ∧
    1 ≤ convert_filesize_to_fileblocks n ∧
    n < 512 * convert_filesize_to_fileblocks n := by
  rw [convert_of_nonneg n h]
  have hfloor : ⌊(n : ℚ) / 512⌋ = n / 512 := by
    have := Rat.floor_intCast_div_natCast n 512
    simpa using this
  refine ⟨by rw [hfloor], ?_, ?_, by omega, by omega⟩
  · intro hne
    symm
    rw [Int.ceil_eq_iff]
    have hq : (n : ℚ) = 512 * ((n / 512 : Int) : ℚ) + ((n % 512 : Int) : ℚ) := by
      exact_mod_cast (Int.ediv_add_emod n 512).symm
    have h0 : 0 ≤ n % 512 := Int.emod_nonneg n (by decide)
    have h1 : n % 512 < 512 := Int.emod_lt_of_pos n (by decide)
    have h0q : (0 : ℚ) < ((n % 512 : Int) : ℚ) := by
      exact_mod_cast lt_of_le_of_ne h0 (Ne.symm hne)
    have h1q : ((n % 512 : Int) : ℚ) < 512 := by exact_mod_cast h1
    constructor
    · push_cast
      rw [lt_div_iff₀ (by norm_num)]
      linarith
    · push_cast
      rw [div_le_iff₀ (by norm_num)]
      linarith
  · intro he
    have hq : (n : ℚ) / 512 = ((n / 512 : Int) : ℚ) := by
      have : n = 512 * (n / 512) := by omega
      rw [div_eq_iff (by norm_num)]
      exact_mod_cast (by omega : n = n / 512 * 512)
    rw [hq, Int.ceil_intCast]

theorem blocks_law_witness :
    (0 : Int) ≤ 1010 ∧
    convert_filesize_to_fileblocks 100 = 1 ∧ convert_filesize_to_fileblocks 1010 = 2 ∧
    convert_filesize_to_fileblocks 0 = 1 ∧ convert_filesize_to_fileblocks 512 = 2 ∧
    convert_filesize_to_fileblocks 1010 = ⌊((1010 : Int) : ℚ) / 512⌋ + 1 ∧
    (1010 : Int) < 512 * convert_filesize_to_fileblocks 1010 :=
  ⟨by decide, by decide, by decide, by decide, by decide,
    (blocks_law 1010 (by decide)).1, (blocks_law 1010 (by decide)).2.2.2.2⟩

/-- C16 (the saved record). When the attributes of the underlying placeholder
are obtained as `st`, `save_filestat` with accumulator `acc` writes, through
`write_filestat`, the record whose size is `acc`, whose blocks is
`convert_filesize_to_fileblocks acc` (`acc / 512 + 1` for `acc ≥ 0`), and whose
other eleven fields are those of `st`. -/
theorem save_filestat_record_law (file_fd : Int) (st : stat) (file : File) (acc : Int) :
    save_filestat file_fd (.ok st) file acc =
      write_filestat file_fd file
        { size := acc, blocks := convert_filesize_to_fileblocks acc,
          mode := st.st_mode, uid := st.st_uid, gid := st.st_gid,
          atime := st.st_atim.tv_sec, mtime := st.st_mtim.tv_sec, ctime := st.st_ctim.tv_sec,
          atimensec := st.st_atim.tv_nsec, mtimensec := st.st_mtim.tv_nsec,
          ctimensec := st.st_ctim.tv_nsec, nlink := st.st_nlink, blksize := st.st_blksize } ∧
    (0 ≤ acc → convert_filesize_to_fileblocks acc = acc / 512 + 1) ∧
    (save_filestat 5 (.ok { sample_stat with st_mode := 0o100644 }) ⟨[], 0⟩ 100).1 = 0 ∧
    (bytes "CatalogFS=3\nsize=100\nblocks=1\nmode=33188\n").isPrefixOf
      (save_filestat 5 (.ok { sample_stat with st_mode := 0o100644 }) ⟨[], 0⟩ 100).2.data = true := by
  refine ⟨?_, convert_of_nonneg acc, by decide, by decide⟩
  have hre : ∀ r : Int × File, (if r.1 ≠ 0 then (r.1, r.2) else (0, r.2)) = r := by
    intro r
    by_cases hr : r.1 = 0
    · rw [if_neg (not_not.mpr hr)]
      exact Prod.ext hr.symm rfl
    · rw [if_pos hr]
  have hs : save_filestat file_fd (.ok st) file acc =
      write_filestat file_fd file (save_filestat_record (fill_filestat_from_stat st).2 acc) := by
    simp only [save_filestat, fill_filestat_from_realfile]
    exact hre _
  rw [hs]
  rfl

theorem save_filestat_record_law_witness :
    (0 : Int) ≤ 100 ∧ convert_filesize_to_fileblocks 100 = 100 / 512 + 1 :=
  ⟨by decide, (save_filestat_record_law 5 sample_stat ⟨[], 0⟩ 100).2.1 (by decide)⟩

/-! ### C20, C19, C18: open, read and write -/

/-- C20 (content access never succeeds). For every path and file-info argument
`catalogfs_open` returns `-EACCES` and leaves `*fi` as it was (no handle is
created); for every path, buffer, size, offset and handle `catalogfs_read`
returns `-EPERM`; both return values are negative. -/
theorem content_access_denied (path buf : List Nat) (size : Nat) (offset : Int)
    (fi : Option fuse_file_info) :
    catalogfs_open path fi = (-EACCES, fi) ∧
    (catalogfs_open path fi).2 = fi ∧
    (catalogfs_open path fi).1 < 0 ∧
    catalogfs_read path buf size offset fi = -EPERM ∧
    catalogfs_read path buf size offset fi < 0 :=
  ⟨rfl, rfl, (by decide : -EACCES < 0), rfl, (by decide : -EPERM < 0)⟩

theorem catalogfs_write_live (fstatat : Except Int stat) (buf : List Nat) (size : Nat)
    (offset : Int) (fi : fuse_file_info) (data : my_fh_fileinfo)
    (hreg : S_ISREG (get_mode_by_path fstatat) = true) (hfh : fi.fh ≠ 0)
    (hfd : data.file_fd ≠ -1) :
    catalogfs_write fstatat buf size offset (some fi) data =
      (to_int32 size,
        if data.file_size < to_int64 (offset + to_int64 size)
        then { data with file_size := to_int64 (offset + to_int64 size) } else data) := by
  simp [catalogfs_write, hreg, hfh, hfd]

/-- C19, amended. For every write on a live handle (non-zero handle,
descriptor other than -1) whose path is an underlying regular file,
`catalogfs_write` returns `(int)size`; for every `size` up to `INT_MAX`
(2^31 - 1) that is exactly `size`. -/
theorem write_returns_size (fstatat : Except Int stat) (buf : List Nat) (size : Nat)
    (offset : Int) (fi : fuse_file_info) (data : my_fh_fileinfo)
    (hreg : S_ISREG (get_mode_by_path fstatat) = true) (hfh : fi.fh ≠ 0)
    (hfd : data.file_fd ≠ -1) :
    (catalogfs_write fstatat buf size offset (some fi) data).1 = to_int32 size ∧
    (size ≤ 2 ^ 31 - 1 → (catalogfs_write fstatat buf size offset (some fi) data).1 = size) := by
  rw [catalogfs_write_live fstatat buf size offset fi data hreg hfh hfd]
  refine ⟨rfl, fun h => ?_⟩
  show to_int32 size = size
  unfold to_int32
  omega

theorem write_returns_size_witness :
    S_ISREG (get_mode_by_path (.ok sample_stat)) = true ∧
    (⟨0, 140000⟩ : fuse_file_info).fh ≠ 0 ∧ (⟨5, 0⟩ : my_fh_fileinfo).file_fd ≠ -1 ∧
    (catalogfs_write (.ok sample_stat) (bytes "abc") 4096 0 (some ⟨0, 140000⟩) ⟨5, 0⟩).1 = 4096 :=
  ⟨by decide, by decide, by decide,
    (write_returns_size (.ok sample_stat) (bytes "abc") 4096 0 ⟨0, 140000⟩ ⟨5, 0⟩
      (by decide) (by decide) (by decide)).2 (by decide)⟩

/-- C19 as stated fails: a write of `size` 2^31 on a live handle whose path is a
regular file returns -2147483648, not 2^31. -/
theorem write_returns_size_counterexample :
    S_ISREG (get_mode_by_path (.ok sample_stat)) = true ∧
    (⟨0, 140000⟩ : fuse_file_info).fh ≠ 0 ∧ (⟨5, 0⟩ : my_fh_fileinfo).file_fd ≠ -1 ∧
    (catalogfs_write (.ok sample_stat) [] (2 ^ 31) 0 (some ⟨0, 140000⟩) ⟨5, 0⟩).1 =
      -2147483648 ∧
    (catalogfs_write (.ok sample_stat) [] (2 ^ 31) 0 (some ⟨0, 140000⟩) ⟨5, 0⟩).1 ≠
      ((2 ^ 31 : Nat) : Int) := by
  decide

theorem apply_op_erase_buf (fi : Option fuse_file_info) (w : OpenHandle) (op : HandleOp) :
    apply_op fi w (erase_buf op) = apply_op fi w op := by
  cases op <;> rfl

theorem run_ops_erase_buf (fi : Option fuse_file_info) :
    ∀ (ops : List HandleOp) (w : OpenHandle),
      run_ops fi w (ops.map erase_buf) = run_ops fi w ops
  | [], _ => rfl
  | op :: ops, w => by
    simp only [List.map_cons, run_ops, apply_op_erase_buf, run_ops_erase_buf fi ops]

/-- C18 (written bytes are discarded). For every handle state, offset and size,
two calls of `catalogfs_write` that differ only in `buf` return the same value
and leave the same handle state; two sequences of writes and flushes that differ
only in the `buf` of their writes leave the same handle state and the same file
and return the same values, and so does a release after them. -/
theorem written_bytes_discarded (fstatat : Except Int stat) (buf1 buf2 : List Nat) (size : Nat)
    (offset : Int) (fi : Option fuse_file_info) (data : my_fh_fileinfo) (file : File)
    (ops1 ops2 : List HandleOp) (hops : ops1.map erase_buf = ops2.map erase_buf) :
    catalogfs_write fstatat buf1 size offset fi data =
      catalogfs_write fstatat buf2 size offset fi data ∧
    run_ops fi ⟨data, file⟩ ops1 = run_ops fi ⟨data, file⟩ ops2 ∧
    ∀ (st : Except Int stat) (close : Except Int Unit),
      catalogfs_release fi (run_ops fi ⟨data, file⟩ ops1).1.data
          (run_ops fi ⟨data, file⟩ ops1).1.file st close =
        catalogfs_release fi (run_ops fi ⟨data, file⟩ ops2).1.data
          (run_ops fi ⟨data, file⟩ ops2).1.file st close := by
  have h : run_ops fi ⟨data, file⟩ ops1 = run_ops fi ⟨data, file⟩ ops2 := by
    rw [← run_ops_erase_buf fi ops1, ← run_ops_erase_buf fi ops2, hops]
  exact ⟨rfl, h, fun st close => by rw [h]⟩

theorem written_bytes_discarded_witness :
    [HandleOp.write (.ok sample_stat) (bytes "secret") 6 0, .flush (.ok 9) (.ok sample_stat) (.ok ())].map
        erase_buf =
      [HandleOp.write (.ok sample_stat) (bytes "public") 6 0,
        .flush (.ok 9) (.ok sample_stat) (.ok ())].map erase_buf ∧
    run_ops (some ⟨0, 140000⟩) ⟨⟨5, 0⟩, ⟨[], 0⟩⟩
        [.write (.ok sample_stat) (bytes "secret") 6 0, .flush (.ok 9) (.ok sample_stat) (.ok ())] =
      run_ops (some ⟨0, 140000⟩) ⟨⟨5, 0⟩, ⟨[], 0⟩⟩
        [.write (.ok sample_stat) (bytes "public") 6 0, .flush (.ok 9) (.ok sample_stat) (.ok ())] :=
  ⟨rfl, (written_bytes_discarded (.ok sample_stat) [] [] 0 0 (some ⟨0, 140000⟩) ⟨5, 0⟩ ⟨[], 0⟩
    [.write (.ok sample_stat) (bytes "secret") 6 0, .flush (.ok 9) (.ok sample_stat) (.ok ())]
    [.write (.ok sample_stat) (bytes "public") 6 0, .flush (.ok 9) (.ok sample_stat) (.ok ())]
    rfl).2.1⟩

/-! ### C15: the write accumulator -/

theorem to_int64_of_fits (x : Int) (h1 : -(2 : Int) ^ 63 ≤ x) (h2 : x < 2 ^ 63) :
    to_int64 x = x := by
  unfold to_int64
  omega

theorem to_int64_add (a b : Int) : to_int64 (a + to_int64 b) = to_int64 (a + b) := by
  unfold to_int64
  omega

theorem catalogfs_flush_data (fi : Option fuse_file_info) (data : my_fh_fileinfo) (file : File)
    (dup : Except Int Int) (fstatat : Except Int stat) (close : Except Int Unit) :
    (catalogfs_flush fi data file dup fstatat close).2.1 = data := by
  unfold catalogfs_flush
  cases fi with
  | none => rfl
  | some f =>
    by_cases h1 : f.fh = 0
    · simp [h1]
    · by_cases h2 : data.file_fd = -1
      · simp [h1, h2]
      · cases dup with
        | error e => simp [h1, h2]
        | ok d =>
          by_cases h3 : (save_filestat d fstatat file data.file_size).1 = 0
          · cases close <;> simp [h1, h2, h3]
          · simp [h1, h2, h3]

theorem apply_op_ok (fi : fuse_file_info) (w : OpenHandle) (op : HandleOp)
    (hfh : fi.fh ≠ 0) (hfd : w.data.file_fd ≠ -1) (hok : op_ok op) :
    (apply_op (some fi) w op).2.data.file_fd = w.data.file_fd ∧
    (apply_op (some fi) w op).2.data.file_size =
      (write_ends [op]).foldl max w.data.file_size := by
  cases op with
  | write fstatat buf size offset =>
    obtain ⟨hreg, h1, h2⟩ := hok
    simp only [apply_op, catalogfs_write_live fstatat buf size offset fi w.data hreg hfh hfd,
      to_int64_add, to_int64_of_fits _ h1 h2, write_ends, List.foldl_cons, List.foldl_nil]
    by_cases hlt : w.data.file_size < offset + (size : Int)
    · rw [if_pos hlt]
      exact ⟨rfl, (max_eq_right (le_of_lt hlt)).symm⟩
    · rw [if_neg hlt]
      exact ⟨rfl, (max_eq_left (not_lt.mp hlt)).symm⟩
  | flush dup fstatat close =>
    simp only [apply_op, catalogfs_flush_data, write_ends, List.foldl_nil, and_self]

theorem write_ends_cons (op : HandleOp) (ops : List HandleOp) :
    write_ends (op :: ops) = write_ends [op] ++ write_ends ops := by
  cases op <;> rfl

theorem write_ends_append : ∀ (a b : List HandleOp),
    write_ends (a ++ b) = write_ends a ++ write_ends b
  | [], _ => rfl
  | op :: a, b => by
    rw [List.cons_append, write_ends_cons, write_ends_append a b, write_ends_cons op a,
      List.append_assoc]

theorem write_ends_perm {a b : List HandleOp} (h : a.Perm b) :
    (write_ends a).Perm (write_ends b) := by
  induction h with
  | nil => exact List.Perm.refl _
  | @cons x l₁ l₂ _ ih =>
    rw [write_ends_cons x l₁, write_ends_cons x l₂]
    exact List.Perm.append_left _ ih
  | swap x y l =>
    rw [write_ends_cons y (x :: l), write_ends_cons x l, write_ends_cons x (y :: l),
      write_ends_cons y l, ← List.append_assoc, ← List.append_assoc]
    exact List.Perm.append_right _ List.perm_append_comm
  | trans _ _ ih1 ih2 => exact ih1.trans ih2

theorem le_foldl_max : ∀ (l : List Int) (a : Int), a ≤ l.foldl max a
  | [], _ => le_refl _
  | x :: l, a => le_trans (le_max_left a x) (le_foldl_max l (max a x))

theorem foldl_max_perm {a b : List Int} (h : a.Perm b) (x : Int) :
    a.foldl max x = b.foldl max x := by
  induction h generalizing x with
  | nil => rfl
  | cons y _ ih => exact ih (max x y)
  | swap y z l =>
    simp only [List.foldl_cons]
    rw [max_assoc, max_comm z y, ← max_assoc]
  | trans _ _ ih1 ih2 => exact (ih1 x).trans (ih2 x)

theorem run_ops_ok (fi : fuse_file_info) (hfh : fi.fh ≠ 0) :
    ∀ (ops : List HandleOp) (w : OpenHandle), w.data.file_fd ≠ -1 → (∀ op ∈ ops, op_ok op) →
      (run_ops (some fi) w ops).1.data.file_fd = w.data.file_fd ∧
      (run_ops (some fi) w ops).1.data.file_size = (write_ends ops).foldl max w.data.file_size
  | [], _, _, _ => ⟨rfl, rfl⟩
  | op :: ops, w, hfd, hok => by
    obtain ⟨h1, h2⟩ := apply_op_ok fi w op hfh hfd (hok op (List.mem_cons_self _ _))
    obtain ⟨h3, h4⟩ := run_ops_ok fi hfh ops (apply_op (some fi) w op).2 (by rw [h1]; exact hfd)
      (fun o ho => hok o (List.mem_cons_of_mem _ ho))
    simp only [run_ops]
    refine ⟨h3.trans h1, ?_⟩
    rw [h4, h2, write_ends_cons op ops, List.foldl_append]

theorem create_handle (mode : Nat) (fi0 fi : fuse_file_info) (fd : Int) (addr : Nat)
    (data : my_fh_fileinfo)
    (h : catalogfs_create mode (some fi0) (.ok fd) addr = (0, some fi, some data)) :
    fi.fh ≠ 0 ∧ data = ⟨fd, 0⟩ := by
  unfold catalogfs_create at h
  by_cases hreg : S_ISREG mode = true
  · by_cases hfh : fi0.fh = 0
    · by_cases hm : addr = 0
      · simp [hreg, hfh, hm, ENOMEM] at h
      · simp only [hreg, hfh, hm, Bool.not_true, Bool.false_eq_true, if_false, and_self,
          if_true, Prod.mk.injEq, Option.some.injEq, true_and] at h
        obtain ⟨h1, h2⟩ := h
        exact ⟨by rw [← h1]; exact hm, h2.symm⟩
    · simp [hreg, hfh] at h
  · simp [hreg, EPERM] at h

/-- C15 (write accumulator law). After a successful `catalogfs_create` (which
sets the accumulator to 0) followed by any sequence of writes that pass the
checks of `catalogfs_write` and of flushes on the same handle, every
`offset + size` fitting in 64 signed bits, the accumulator `file_size` is the
maximum of 0 and of the `offset + size` of the writes. It is not negative, a
longer sequence never gives a smaller one, it is the same for every reordering
of the calls, and a flush leaves it as it is. -/
theorem write_accumulator_law (mode : Nat) (fi0 fi : fuse_file_info) (fd : Int) (addr : Nat)
    (data : my_fh_fileinfo) (file : File) (ops : List HandleOp)
    (hcreate : catalogfs_create mode (some fi0) (.ok fd) addr = (0, some fi, some data))
    (hfd : fd ≠ -1) (hok : ∀ op ∈ ops, op_ok op) :
    data.file_size = 0 ∧
    (run_ops (some fi) ⟨data, file⟩ ops).1.data.file_size = (write_ends ops).foldl max 0 ∧
    0 ≤ (run_ops (some fi) ⟨data, file⟩ ops).1.data.file_size ∧
    (∀ more, (∀ op ∈ more, op_ok op) →
      (run_ops (some fi) ⟨data, file⟩ ops).1.data.file_size ≤
        (run_ops (some fi) ⟨data, file⟩ (ops ++ more)).1.data.file_size) ∧
    (∀ ops', ops'.Perm ops →
      (run_ops (some fi) ⟨data, file⟩ ops').1.data.file_size =
        (run_ops (some fi) ⟨data, file⟩ ops).1.data.file_size) ∧
    (∀ dup fstatat close,
      (apply_op (some fi) (run_ops (some fi) ⟨data, file⟩ ops).1
        (.flush dup fstatat close)).2.data =
        (run_ops (some fi) ⟨data, file⟩ ops).1.data) := by
  obtain ⟨hfh, hdata⟩ := create_handle mode fi0 fi fd addr data hcreate
  subst hdata
  have key : ∀ l : List HandleOp, (∀ op ∈ l, op_ok op) →
      (run_ops (some fi) ⟨⟨fd, 0⟩, file⟩ l).1.data.file_size = (write_ends l).foldl max 0 :=
    fun l hl => (run_ops_ok fi hfh l ⟨⟨fd, 0⟩, file⟩ hfd hl).2
  refine ⟨rfl, key ops hok, ?_, ?_, ?_, ?_⟩
  · rw [key ops hok]
    exact le_foldl_max _ 0
  · intro more hmore
    rw [key ops hok, key (ops ++ more) (fun op h => (List.mem_append.mp h).elim (hok op) (hmore op)),
      write_ends_append, List.foldl_append]
    exact le_foldl_max _ _
  · intro ops' hp
    rw [key ops hok, key ops' (fun op h => hok op (hp.mem_iff.mp h))]
    exact foldl_max_perm (write_ends_perm hp) 0
  · intro dup fstatat close
    simp only [apply_op, catalogfs_flush_data]

theorem write_accumulator_law_witness :
    catalogfs_create 33188 (some ⟨0, 0⟩) (.ok 5) 140000 = (0, some ⟨0, 140000⟩, some ⟨5, 0⟩) ∧
    (5 : Int) ≠ -1 ∧
    (∀ op ∈ [HandleOp.write (.ok sample_stat) (bytes "a") 50 0,
        .flush (.ok 9) (.ok sample_stat) (.ok ()),
        .write (.ok sample_stat) (bytes "b") 10 1000], op_ok op) ∧
    (run_ops (some ⟨0, 140000⟩) ⟨⟨5, 0⟩, ⟨[], 0⟩⟩
      [.write (.ok sample_stat) (bytes "a") 50 0, .flush (.ok 9) (.ok sample_stat) (.ok ()),
        .write (.ok sample_stat) (bytes "b") 10 1000]).1.data.file_size = 1010 :=
  have hok : ∀ op ∈ [HandleOp.write (.ok sample_stat) (bytes "a") 50 0,
      .flush (.ok 9) (.ok sample_stat) (.ok ()),
      .write (.ok sample_stat) (bytes "b") 10 1000], op_ok op := by
    intro op h
    simp only [List.mem_cons, List.mem_singleton, List.not_mem_nil, or_false] at h
    rcases h with h | h | h <;> subst h
    · exact ⟨by decide, by decide, by decide⟩
    · trivial
    · exact ⟨by decide, by decide, by decide⟩
  ⟨by decide, by decide, hok,
    (write_accumulator_law 33188 ⟨0, 0⟩ ⟨0, 140000⟩ 5 140000 ⟨5, 0⟩ ⟨[], 0⟩ _
      (by decide) (by decide) hok).2.1.trans (by decide)⟩

/-! ### C14: what a lookup reports is fixed by the sidecar -/

theorem sscanf_value_stored (v : List Nat) (fmt : ScanFmt)
    (h : (filestat_sscanf_value v fmt).1 = 0) :
    ∃ x, (filestat_sscanf_value v fmt).2 = some x := by
  obtain ⟨h1, _, h3⟩ := filestat_sscanf_value_zero v fmt h
  rw [h3]
  rw [sscanf_eq] at h1 ⊢
  generalize v.dropWhile isspace = d at h1 ⊢
  cases d with
  | nil => simp at h1
  | cons c s =>
    by_cases hd : (if (c == 45 || c == 43) = true then s else c :: s).takeWhile isdigit = []
    · simp only [hd, if_true] at h1
      exact absurd h1 (by decide)
    · simp only [hd, if_false]
      exact ⟨_, rfl⟩

theorem agree_on_all (s r : filestat) (h : agree_on recognized_keys s r) : r = s := by
  obtain ⟨a1, a2, a3, a4, a5, a6, a7, a8, a9, a10, a11, a12, a13⟩ := h
  cases s
  cases r
  simp only [filestat.mk.injEq]
  exact ⟨a1 (by decide), a2 (by decide), a3 (by decide), a4 (by decide), a5 (by decide),
    a6 (by decide), a7 (by decide), a8 (by decide), a9 (by decide), a10 (by decide),
    a11 (by decide), a12 (by decide), a13 (by decide)⟩

theorem agree_on_mono (a b : List (List Nat)) (s r : filestat) (hab : ∀ k ∈ b, k ∈ a)
    (h : agree_on a s r) : agree_on b s r := by
  obtain ⟨a1, a2, a3, a4, a5, a6, a7, a8, a9, a10, a11, a12, a13⟩ := h
  exact ⟨fun m => a1 (hab _ m), fun m => a2 (hab _ m), fun m => a3 (hab _ m),
    fun m => a4 (hab _ m), fun m => a5 (hab _ m), fun m => a6 (hab _ m), fun m => a7 (hab _ m),
    fun m => a8 (hab _ m), fun m => a9 (hab _ m), fun m => a10 (hab _ m),
    fun m => a11 (hab _ m), fun m => a12 (hab _ m), fun m => a13 (hab _ m)⟩

/-- The return value of `filestat_process_option_pair` does not depend on the record. -/
theorem process_code (k v : List Nat) (s r : filestat) :
    (filestat_process_option_pair k v r).1 = (filestat_process_option_pair k v s).1 := by
  unfold filestat_process_option_pair
  by_cases h0 : k = bytes "size"
  · rw [if_pos h0, if_pos h0]
  rw [if_neg h0, if_neg h0]
  by_cases h1 : k = bytes "blocks"
  · rw [if_pos h1, if_pos h1]
  rw [if_neg h1, if_neg h1]
  by_cases h2 : k = bytes "mode"
  · rw [if_pos h2, if_pos h2]
  rw [if_neg h2, if_neg h2]
  by_cases h3 : k = bytes "uid"
  · rw [if_pos h3, if_pos h3]
  rw [if_neg h3, if_neg h3]
  by_cases h4 : k = bytes "gid"
  · rw [if_pos h4, if_pos h4]
  rw [if_neg h4, if_neg h4]
  by_cases h5 : k = bytes "atime"
  · rw [if_pos h5, if_pos h5]
  rw [if_neg h5, if_neg h5]
  by_cases h6 : k = bytes "mtime"
  · rw [if_pos h6, if_pos h6]
  rw [if_neg h6, if_neg h6]
  by_cases h7 : k = bytes "ctime"
  · rw [if_pos h7, if_pos h7]
  rw [if_neg h7, if_neg h7]
  by_cases h8 : k = bytes "atimensec"
  · rw [if_pos h8, if_pos h8]
  rw [if_neg h8, if_neg h8]
  by_cases h9 : k = bytes "mtimensec"
  · rw [if_pos h9, if_pos h9]
  rw [if_neg h9, if_neg h9]
  by_cases h10 : k = bytes "ctimensec"
  · rw [if_pos h10, if_pos h10]
  rw [if_neg h10, if_neg h10]
  by_cases h11 : k = bytes "nlink"
  · rw [if_pos h11, if_pos h11]
  rw [if_neg h11, if_neg h11]
  by_cases h12 : k = bytes "blksize"
  · rw [if_pos h12, if_pos h12]
  rw [if_neg h12, if_neg h12]

/-- A successful `filestat_process_option_pair` on two records that agree on the
keys `K` leaves records that agree on `k :: K`. -/
theorem process_agree (K : List (List Nat)) (k v : List Nat) (s r : filestat)
    (ha : agree_on K s r) (h : (filestat_process_option_pair k v s).1 = 0) :
    agree_on (k :: K) (filestat_process_option_pair k v s).2
      (filestat_process_option_pair k v r).2 := by
  obtain ⟨a1, a2, a3, a4, a5, a6, a7, a8, a9, a10, a11, a12, a13⟩ := ha
  unfold filestat_process_option_pair at h ⊢
  unfold agree_on
  by_cases h0 : k = bytes "size"
  · rw [if_pos h0] at h
    rw [if_pos h0, if_pos h0]
    obtain ⟨x, hx⟩ := sscanf_value_stored v .d64 h
    simp only [hx, stored_or, stored_or_u, Option.getD_some]
    refine ⟨?_, ?_, ?_, ?_, ?_, ?_, ?_, ?_, ?_, ?_, ?_, ?_, ?_⟩ <;> intro hm <;>
      first
      | trivial
      | (have e := (List.mem_cons.mp hm).resolve_left (by rw [h0]; decide)
         first | exact a1 e | exact a2 e | exact a3 e | exact a4 e | exact a5 e | exact a6 e |
          exact a7 e | exact a8 e | exact a9 e | exact a10 e | exact a11 e | exact a12 e |
          exact a13 e)
  rw [if_neg h0] at h
  rw [if_neg h0, if_neg h0]
  by_cases h1 : k = bytes "blocks"
  · rw [if_pos h1] at h
    rw [if_pos h1, if_pos h1]
    obtain ⟨x, hx⟩ := sscanf_value_stored v .d64 h
    simp only [hx, stored_or, stored_or_u, Option.getD_some]
    refine ⟨?_, ?_, ?_, ?_, ?_, ?_, ?_, ?_, ?_, ?_, ?_, ?_, ?_⟩ <;> intro hm <;>
      first
      | trivial
      | (have e := (List.mem_cons.mp hm).resolve_left (by rw [h1]; decide)
         first | exact a1 e | exact a2 e | exact a3 e | exact a4 e | exact a5 e | exact a6 e |
          exact a7 e | exact a8 e | exact a9 e | exact a10 e | exact a11 e | exact a12 e |
          exact a13 e)
  rw [if_neg h1] at h
  rw [if_neg h1, if_neg h1]
  by_cases h2 : k = bytes "mode"
  · rw [if_pos h2] at h
    rw [if_pos h2, if_pos h2]
    obtain ⟨x, hx⟩ := sscanf_value_stored v .u32 h
    simp only [hx, stored_or, stored_or_u, Option.getD_some]
    refine ⟨?_, ?_, ?_, ?_, ?_, ?_, ?_, ?_, ?_, ?_, ?_, ?_, ?_⟩ <;> intro hm <;>
      first
      | trivial
      | (have e := (List.mem_cons.mp hm).resolve_left (by rw [h2]; decide)
         first | exact a1 e | exact a2 e | exact a3 e | exact a4 e | exact a5 e | exact a6 e |
          exact a7 e | exact a8 e | exact a9 e | exact a10 e | exact a11 e | exact a12 e |
          exact a13 e)
  rw [if_neg h2] at h
  rw [if_neg h2, if_neg h2]
  by_cases h3 : k = bytes "uid"
  · rw [if_pos h3] at h
    rw [if_pos h3, if_pos h3]
    obtain ⟨x, hx⟩ := sscanf_value_stored v .u32 h
    simp only [hx, stored_or, stored_or_u, Option.getD_some]
    refine ⟨?_, ?_, ?_, ?_, ?_, ?_, ?_, ?_, ?_, ?_, ?_, ?_, ?_⟩ <;> intro hm <;>
      first
      | trivial
      | (have e := (List.mem_cons.mp hm).resolve_left (by rw [h3]; decide)
         first | exact a1 e | exact a2 e | exact a3 e | exact a4 e | exact a5 e | exact a6 e |
          exact a7 e | exact a8 e | exact a9 e | exact a10 e | exact a11 e | exact a12 e |
          exact a13 e)
  rw [if_neg h3] at h
  rw [if_neg h3, if_neg h3]
  by_cases h4 : k = bytes "gid"
  · rw [if_pos h4] at h
    rw [if_pos h4, if_pos h4]
    obtain ⟨x, hx⟩ := sscanf_value_stored v .u32 h
    simp only [hx, stored_or, stored_or_u, Option.getD_some]
    refine ⟨?_, ?_, ?_, ?_, ?_, ?_, ?_, ?_, ?_, ?_, ?_, ?_, ?_⟩ <;> intro hm <;>
      first
      | trivial
      | (have e := (List.mem_cons.mp hm).resolve_left (by rw [h4]; decide)
         first | exact a1 e | exact a2 e | exact a3 e | exact a4 e | exact a5 e | exact a6 e |
          exact a7 e | exact a8 e | exact a9 e | exact a10 e | exact a11 e | exact a12 e |
          exact a13 e)
  rw [if_neg h4] at h
  rw [if_neg h4, if_neg h4]
  by_cases h5 : k = bytes "atime"
  · rw [if_pos h5] at h
    rw [if_pos h5, if_pos h5]
    obtain ⟨x, hx⟩ := sscanf_value_stored v .d64 h
    simp only [hx, stored_or, stored_or_u, Option.getD_some]
    refine ⟨?_, ?_, ?_, ?_, ?_, ?_, ?_, ?_, ?_, ?_, ?_, ?_, ?_⟩ <;> intro hm <;>
      first
      | trivial
      | (have e := (List.mem_cons.mp hm).resolve_left (by rw [h5]; decide)
         first | exact a1 e | exact a2 e | exact a3 e | exact a4 e | exact a5 e | exact a6 e |
          exact a7 e | exact a8 e | exact a9 e | exact a10 e | exact a11 e | exact a12 e |
          exact a13 e)
  rw [if_neg h5] at h
  rw [if_neg h5, if_neg h5]
  by_cases h6 : k = bytes "mtime"
  · rw [if_pos h6] at h
    rw [if_pos h6, if_pos h6]
    obtain ⟨x, hx⟩ := sscanf_value_stored v .d64 h
    simp only [hx, stored_or, stored_or_u, Option.getD_some]
    refine ⟨?_, ?_, ?_, ?_, ?_, ?_, ?_, ?_, ?_, ?_, ?_, ?_, ?_⟩ <;> intro hm <;>
      first
      | trivial
      | (have e := (List.mem_cons.mp hm).resolve_left (by rw [h6]; decide)
         first | exact a1 e | exact a2 e | exact a3 e | exact a4 e | exact a5 e | exact a6 e |
          exact a7 e | exact a8 e | exact a9 e | exact a10 e | exact a11 e | exact a12 e |
          exact a13 e)
  rw [if_neg h6] at h
  rw [if_neg h6, if_neg h6]
  by_cases h7 : k = bytes "ctime"
  · rw [if_pos h7] at h
    rw [if_pos h7, if_pos h7]
    obtain ⟨x, hx⟩ := sscanf_value_stored v .d64 h
    simp only [hx, stored_or, stored_or_u, Option.getD_some]
    refine ⟨?_, ?_, ?_, ?_, ?_, ?_, ?_, ?_, ?_, ?_, ?_, ?_, ?_⟩ <;> intro hm <;>
      first
      | trivial
      | (have e := (List.mem_cons.mp hm).resolve_left (by rw [h7]; decide)
         first | exact a1 e | exact a2 e | exact a3 e | exact a4 e | exact a5 e | exact a6 e |
          exact a7 e | exact a8 e | exact a9 e | exact a10 e | exact a11 e | exact a12 e |
          exact a13 e)
  rw [if_neg h7] at h
  rw [if_neg h7, if_neg h7]
  by_cases h8 : k = bytes "atimensec"
  · rw [if_pos h8] at h
    rw [if_pos h8, if_pos h8]
    obtain ⟨x, hx⟩ := sscanf_value_stored v .d64 h
    simp only [hx, stored_or, stored_or_u, Option.getD_some]
    refine ⟨?_, ?_, ?_, ?_, ?_, ?_, ?_, ?_, ?_, ?_, ?_, ?_, ?_⟩ <;> intro hm <;>
      first
      | trivial
      | (have e := (List.mem_cons.mp hm).resolve_left (by rw [h8]; decide)
         first | exact a1 e | exact a2 e | exact a3 e | exact a4 e | exact a5 e | exact a6 e |
          exact a7 e | exact a8 e | exact a9 e | exact a10 e | exact a11 e | exact a12 e |
          exact a13 e)
  rw [if_neg h8] at h
  rw [if_neg h8, if_neg h8]
  by_cases h9 : k = bytes "mtimensec"
  · rw [if_pos h9] at h
    rw [if_pos h9, if_pos h9]
    obtain ⟨x, hx⟩ := sscanf_value_stored v .d64 h
    simp only [hx, stored_or, stored_or_u, Option.getD_some]
    refine ⟨?_, ?_, ?_, ?_, ?_, ?_, ?_, ?_, ?_, ?_, ?_, ?_, ?_⟩ <;> intro hm <;>
      first
      | trivial
      | (have e := (List.mem_cons.mp hm).resolve_left (by rw [h9]; decide)
         first | exact a1 e | exact a2 e | exact a3 e | exact a4 e | exact a5 e | exact a6 e |
          exact a7 e | exact a8 e | exact a9 e | exact a10 e | exact a11 e | exact a12 e |
          exact a13 e)
  rw [if_neg h9] at h
  rw [if_neg h9, if_neg h9]
  by_cases h10 : k = bytes "ctimensec"
  · rw [if_pos h10] at h
    rw [if_pos h10, if_pos h10]
    obtain ⟨x, hx⟩ := sscanf_value_stored v .d64 h
    simp only [hx, stored_or, stored_or_u, Option.getD_some]
    refine ⟨?_, ?_, ?_, ?_, ?_, ?_, ?_, ?_, ?_, ?_, ?_, ?_, ?_⟩ <;> intro hm <;>
      first
      | trivial
      | (have e := (List.mem_cons.mp hm).resolve_left (by rw [h10]; decide)
         first | exact a1 e | exact a2 e | exact a3 e | exact a4 e | exact a5 e | exact a6 e |
          exact a7 e | exact a8 e | exact a9 e | exact a10 e | exact a11 e | exact a12 e |
          exact a13 e)
  rw [if_neg h10] at h
  rw [if_neg h10, if_neg h10]
  by_cases h11 : k = bytes "nlink"
  · rw [if_pos h11] at h
    rw [if_pos h11, if_pos h11]
    obtain ⟨x, hx⟩ := sscanf_value_stored v .u64 h
    simp only [hx, stored_or, stored_or_u, Option.getD_some]
    refine ⟨?_, ?_, ?_, ?_, ?_, ?_, ?_, ?_, ?_, ?_, ?_, ?_, ?_⟩ <;> intro hm <;>
      first
      | trivial
      | (have e := (List.mem_cons.mp hm).resolve_left (by rw [h11]; decide)
         first | exact a1 e | exact a2 e | exact a3 e | exact a4 e | exact a5 e | exact a6 e |
          exact a7 e | exact a8 e | exact a9 e | exact a10 e | exact a11 e | exact a12 e |
          exact a13 e)
  rw [if_neg h11] at h
  rw [if_neg h11, if_neg h11]
  by_cases h12 : k = bytes "blksize"
  · rw [if_pos h12] at h
    rw [if_pos h12, if_pos h12]
    obtain ⟨x, hx⟩ := sscanf_value_stored v .d64 h
    simp only [hx, stored_or, stored_or_u, Option.getD_some]
    refine ⟨?_, ?_, ?_, ?_, ?_, ?_, ?_, ?_, ?_, ?_, ?_, ?_, ?_⟩ <;> intro hm <;>
      first
      | trivial
      | (have e := (List.mem_cons.mp hm).resolve_left (by rw [h12]; decide)
         first | exact a1 e | exact a2 e | exact a3 e | exact a4 e | exact a5 e | exact a6 e |
          exact a7 e | exact a8 e | exact a9 e | exact a10 e | exact a11 e | exact a12 e)
  rw [if_neg h12] at h
  rw [if_neg h12, if_neg h12]
  exact ⟨fun hm => a1 ((List.mem_cons.mp hm).resolve_left (fun e => h0 e.symm)),
    fun hm => a2 ((List.mem_cons.mp hm).resolve_left (fun e => h1 e.symm)),
    fun hm => a3 ((List.mem_cons.mp hm).resolve_left (fun e => h2 e.symm)),
    fun hm => a4 ((List.mem_cons.mp hm).resolve_left (fun e => h3 e.symm)),
    fun hm => a5 ((List.mem_cons.mp hm).resolve_left (fun e => h4 e.symm)),
    fun hm => a6 ((List.mem_cons.mp hm).resolve_left (fun e => h5 e.symm)),
    fun hm => a7 ((List.mem_cons.mp hm).resolve_left (fun e => h6 e.symm)),
    fun hm => a8 ((List.mem_cons.mp hm).resolve_left (fun e => h7 e.symm)),
    fun hm => a9 ((List.mem_cons.mp hm).resolve_left (fun e => h8 e.symm)),
    fun hm => a10 ((List.mem_cons.mp hm).resolve_left (fun e => h9 e.symm)),
    fun hm => a11 ((List.mem_cons.mp hm).resolve_left (fun e => h10 e.symm)),
    fun hm => a12 ((List.mem_cons.mp hm).resolve_left (fun e => h11 e.symm)),
    fun hm => a13 ((List.mem_cons.mp hm).resolve_left (fun e => h12 e.symm))⟩

theorem stepLine_agree_next (K : List (List Nat)) (raw : List Nat) (h l : Bool)
    (s r s' : filestat) (h' l' : Bool) (ha : agree_on K s r)
    (hs : stepLine raw h l s = .next h' l' s') :
    ∃ r', stepLine raw h l r = .next h' l' r' ∧ agree_on (processed_key raw h l ++ K) s' r' := by
  obtain ⟨hcap, hc⟩ := stepLine_next_cases raw h l s s' h' l' hs
  rcases hc with ⟨c, a, b, e⟩ | ⟨c, hh, a, b, e⟩ | ⟨k, v, c, hh, hok, a, b, e⟩ |
    ⟨k, v, c, hf, ht, h0, a, b, e⟩
  · subst a b e
    refine ⟨r, ?_, ?_⟩
    · unfold stepLine
      rw [if_neg hcap, c]
    · unfold processed_key
      rw [if_neg hcap, c]
      exact ha
  · subst a b e
    refine ⟨r, ?_, ?_⟩
    · unfold stepLine
      rw [if_neg hcap, c]
      simp only [hh, if_true]
    · unfold processed_key
      rw [if_neg hcap, c]
      exact ha
  · subst a b e hh
    refine ⟨r, ?_, ?_⟩
    · unfold stepLine
      rw [if_neg hcap, c]
      simp only [if_true, hok, ne_eq, not_true_eq_false, if_false]
    · unfold processed_key
      rw [if_neg hcap, c]
      exact ha
  · subst a b e hf
    have h0r : (filestat_process_option_pair k v r).1 = 0 := by rw [process_code k v s r]; exact h0
    refine ⟨(filestat_process_option_pair k v r).2, ?_, ?_⟩
    · unfold stepLine
      rw [if_neg hcap, c]
      simp only [Bool.false_eq_true, if_false, ht, h0r, ne_eq, not_true_eq_false]
    · unfold processed_key
      rw [if_neg hcap, c]
      simp only [Bool.false_eq_true, if_false, ht]
      exact process_agree K k v s r ha h0

/-- A line on which the read loop returns 0 is a legacy terminator line: the
record is left as it is, no key is processed, and the return value is that of
the final check. -/
theorem stepLine_done_zero (raw : List Nat) (h l : Bool) (s s' : filestat)
    (hs : stepLine raw h l s = .done 0 s') :
    s' = s ∧ processed_key raw h l = [] ∧
      ∀ r, stepLine raw h l r = .done (filestat_check_results r) r := by
  unfold stepLine at hs
  by_cases hcap : line_cap (if h = true then FILESTAT_MAX_HEADER_LENGTH else 0) ≤ raw.length
  · rw [if_pos hcap] at hs
    simp only [Step.done.injEq] at hs
    exact absurd hs.1 (by decide)
  · rw [if_neg hcap] at hs
    cases hcl : classifyLine (lineOf raw) l with
    | skip => rw [hcl] at hs; simp at hs
    | bad =>
      rw [hcl] at hs
      simp only at hs
      by_cases hh : filestat_is_line_a_legacy_header (some (lineOf raw)) = true
      · rw [if_pos hh] at hs; simp at hs
      · rw [if_neg hh] at hs
        simp only [Step.done.injEq] at hs
        exact absurd hs.1 (by decide)
    | pair k v =>
      rw [hcl] at hs
      simp only at hs
      cases h with
      | true =>
        simp only [if_true] at hs
        by_cases h0 : filestat_is_header_correct k v = 0
        · simp [h0] at hs
        · simp only [h0, ne_eq, not_false_eq_true, if_true, Step.done.injEq] at hs
          exact absurd hs.1 (by decide)
      | false =>
        simp only [Bool.false_eq_true, if_false] at hs hcap
        by_cases ht : l = true ∧ filestat_is_option_a_legacy_terminal_one k = true
        · rw [if_pos ht] at hs
          simp only [Step.done.injEq] at hs
          refine ⟨hs.2.symm, ?_, fun r => ?_⟩
          · unfold processed_key
            simp only [Bool.false_eq_true, if_false]
            rw [if_neg hcap, hcl]
            simp only
            rw [if_pos ht]
          · unfold stepLine
            simp only [Bool.false_eq_true, if_false]
            rw [if_neg hcap, hcl]
            simp only
            rw [if_pos ht]
        · rw [if_neg ht] at hs
          by_cases h0 : (filestat_process_option_pair k v s).1 = 0
          · simp [h0] at hs
          · simp only [h0, ne_eq, not_false_eq_true, if_true, Step.done.injEq] at hs
            exact absurd hs.1 (by decide)

/-- Two reads of the same lines from records that agree on the keys `K`: when
every recognized key is in `K` or is processed, a successful read from the first
record is a successful read from the second, with the same result. -/
theorem processLines_agree : ∀ (ls : List (List Nat)) (h l : Bool) (s r r1 : filestat)
    (K : List (List Nat)), agree_on K s r →
    (∀ k ∈ recognized_keys, k ∈ K ∨ k ∈ processed_keys ls h l s) →
    processLines ls h l s = (0, r1) → processLines ls h l r = (0, r1) := by
  intro ls
  induction ls with
  | nil =>
    intro h l s r r1 K ha hk hp
    have hall : agree_on recognized_keys s r :=
      agree_on_mono K recognized_keys s r
        (fun k hm => (hk k hm).elim id (fun hn => absurd hn (by simp [processed_keys]))) ha
    rw [agree_on_all s r hall]
    exact hp
  | cons raw ls ih =>
    intro h l s r r1 K ha hk hp
    rw [processLines] at hp ⊢
    rw [processed_keys] at hk
    cases hs : stepLine raw h l s with
    | done res s' =>
      rw [hs] at hp hk
      simp only [Prod.mk.injEq] at hp
      obtain ⟨hres, hs'⟩ := hp
      subst hres
      obtain ⟨e1, e2, e3⟩ := stepLine_done_zero raw h l s s' hs
      have hall : agree_on recognized_keys s r :=
        agree_on_mono K recognized_keys s r
          (fun k hm => (hk k hm).elim id (fun hn => absurd hn (by simp [e2]))) ha
      have hrs := agree_on_all s r hall
      rw [hrs, hs]
      simp only [Prod.mk.injEq, true_and]
      exact hs'
    | next h' l' s' =>
      rw [hs] at hp hk
      simp only at hp hk
      obtain ⟨r', hr, ha'⟩ := stepLine_agree_next K raw h l s r s' h' l' ha hs
      rw [hr]
      simp only
      refine ih h' l' s' r' r1 (processed_key raw h l ++ K) ha' (fun k hm => ?_) hp
      rcases hk k hm with a | a
      · exact Or.inl (List.mem_append_right _ a)
      · rcases List.mem_append.mp a with b | b
        · exact Or.inl (List.mem_append_left _ b)
        · exact Or.inr b

/-- The key processed on a line `key=digits` met past the header. -/
theorem processed_key_field (k v : List Nat) (c : Nat) (ks : List Nat)
    (hk : k = c :: ks) (hc : isspace c = false)
    (hc1 : c ≠ FILESTAT_COMMENT_CHAR_1) (hc2 : c ≠ FILESTAT_COMMENT_CHAR_2)
    (htrim : trim_string k = k) (hsep : FILESTAT_SEPARATOR_CHAR_MAIN ∉ k)
    (hklen : k.length ≤ FILESTAT_MAX_LENGTH_OPTION) (hk0 : ∀ x ∈ k, x ≠ 0)
    (hv : ∀ x ∈ v, isspace x = false ∧ x ≠ 0) (hvlen : v.length ≤ 21) :
    processed_key ((k ++ 61 :: v) ++ [10]) false false = [k] := by
  have hno0 : ∀ x ∈ k ++ 61 :: v, x ≠ 0 := by
    intro x hx
    rcases List.mem_append.mp hx with h | h
    · exact hk0 x h
    · rcases List.mem_cons.mp h with h | h
      · subst h; decide
      · exact (hv x h).2
  have hlen : ¬ (line_cap 0 ≤ ((k ++ 61 :: v) ++ [10]).length) := by
    simp [line_cap, FILESTAT_MAX_LENGTH_OPTION, FILESTAT_MAX_LENGTH_VALUE] at *
    omega
  have hcl := classifyLine_key_value k v false c ks hk hc hc1 hc2 htrim
    (by simpa using hsep) hklen (by simp [FILESTAT_MAX_LENGTH_VALUE]; omega)
  simp only [Bool.false_eq_true, if_false, FILESTAT_SEPARATOR_CHAR_MAIN] at hcl
  unfold processed_key
  simp only [Bool.false_eq_true, if_false]
  rw [if_neg hlen, lineOf_line _ _ hno0 (by decide), hcl]
  simp

/-- The keys the reader processes on the text the writer leaves are the 13
recognized keys. -/
theorem processed_keys_written (r s : filestat) (file_fd : Int) (file : File)
    (hfd : file_fd ≠ 0) (hr : r.inRange) :
    processed_keys (splitLines (filestat_parser_format_write file_fd file r).2.data)
      true false s = recognized_keys := by
  obtain ⟨⟨a1, a2⟩, ⟨b1, b2⟩, hm, hu, hg, ⟨c1, c2⟩, ⟨d1, d2⟩, ⟨e1, e2⟩, ⟨f1, f2⟩, ⟨g1, g2⟩,
    ⟨i1, i2⟩, hl, ⟨j1, j2⟩⟩ := hr
  have p0 : processed_key ((bytes "CatalogFS" ++ 61 :: printf_u 3) ++ [10]) true false = [] := by
    decide
  have p1 : processed_key ((bytes "size" ++ 61 :: printf_d r.size) ++ [10]) false false =
      [bytes "size"] :=
    processed_key_field (bytes "size") (printf_d r.size) 115 (bytes "ize") (by decide) (by decide)
      (by decide) (by decide) (by decide) (by decide) (by decide) (by decide)
      (printf_d_chars r.size) (printf_d_length r.size a1 a2)
  have p2 : processed_key ((bytes "blocks" ++ 61 :: printf_d r.blocks) ++ [10]) false false =
      [bytes "blocks"] :=
    processed_key_field (bytes "blocks") (printf_d r.blocks) 98 (bytes "locks") (by decide) (by decide)
      (by decide) (by decide) (by decide) (by decide) (by decide) (by decide)
      (printf_d_chars r.blocks) (printf_d_length r.blocks b1 b2)
  have p3 : processed_key ((bytes "mode" ++ 61 :: printf_u r.mode) ++ [10]) false false =
      [bytes "mode"] :=
    processed_key_field (bytes "mode") (printf_u r.mode) 109 (bytes "ode") (by decide) (by decide)
      (by decide) (by decide) (by decide) (by decide) (by decide) (by decide)
      (printf_u_chars r.mode) (le_trans (printf_u_length r.mode (lt_trans hm (by decide))) (by decide))
  have p4 : processed_key ((bytes "uid" ++ 61 :: printf_u r.uid) ++ [10]) false false =
      [bytes "uid"] :=
    processed_key_field (bytes "uid") (printf_u r.uid) 117 (bytes "id") (by decide) (by decide)
      (by decide) (by decide) (by decide) (by decide) (by decide) (by decide)
      (printf_u_chars r.uid) (le_trans (printf_u_length r.uid (lt_trans hu (by decide))) (by decide))
  have p5 : processed_key ((bytes "gid" ++ 61 :: printf_u r.gid) ++ [10]) false false =
      [bytes "gid"] :=
    processed_key_field (bytes "gid") (printf_u r.gid) 103 (bytes "id") (by decide) (by decide)
      (by decide) (by decide) (by decide) (by decide) (by decide) (by decide)
      (printf_u_chars r.gid) (le_trans (printf_u_length r.gid (lt_trans hg (by decide))) (by decide))
  have p6 : processed_key ((bytes "atime" ++ 61 :: printf_d r.atime) ++ [10]) false false =
      [bytes "atime"] :=
    processed_key_field (bytes "atime") (printf_d r.atime) 97 (bytes "time") (by decide) (by decide)
      (by decide) (by decide) (by decide) (by decide) (by decide) (by decide)
      (printf_d_chars r.atime) (printf_d_length r.atime c1 c2)
  have p7 : processed_key ((bytes "mtime" ++ 61 :: printf_d r.mtime) ++ [10]) false false =
      [bytes "mtime"] :=
    processed_key_field (bytes "mtime") (printf_d r.mtime) 109 (bytes "time") (by decide) (by decide)
      (by decide) (by decide) (by decide) (by decide) (by decide) (by decide)
      (printf_d_chars r.mtime) (printf_d_length r.mtime d1 d2)
  have p8 : processed_key ((bytes "ctime" ++ 61 :: printf_d r.ctime) ++ [10]) false false =
      [bytes "ctime"] :=
    processed_key_field (bytes "ctime") (printf_d r.ctime) 99 (bytes "time") (by decide) (by decide)
      (by decide) (by decide) (by decide) (by decide) (by decide) (by decide)
      (printf_d_chars r.ctime) (printf_d_length r.ctime e1 e2)
  have p9 : processed_key ((bytes "atimensec" ++ 61 :: printf_d r.atimensec) ++ [10]) false false =
      [bytes "atimensec"] :=
    processed_key_field (bytes "atimensec") (printf_d r.atimensec) 97 (bytes "timensec") (by decide) (by decide)
      (by decide) (by decide) (by decide) (by decide) (by decide) (by decide)
      (printf_d_chars r.atimensec) (printf_d_length r.atimensec f1 f2)
  have p10 : processed_key ((bytes "mtimensec" ++ 61 :: printf_d r.mtimensec) ++ [10]) false false =
      [bytes "mtimensec"] :=
    processed_key_field (bytes "mtimensec") (printf_d r.mtimensec) 109 (bytes "timensec") (by decide) (by decide)
      (by decide) (by decide) (by decide) (by decide) (by decide) (by decide)
      (printf_d_chars r.mtimensec) (printf_d_length r.mtimensec g1 g2)
  have p11 : processed_key ((bytes "ctimensec" ++ 61 :: printf_d r.ctimensec) ++ [10]) false false =
      [bytes "ctimensec"] :=
    processed_key_field (bytes "ctimensec") (printf_d r.ctimensec) 99 (bytes "timensec") (by decide) (by decide)
      (by decide) (by decide) (by decide) (by decide) (by decide) (by decide)
      (printf_d_chars r.ctimensec) (printf_d_length r.ctimensec i1 i2)
  have p12 : processed_key ((bytes "nlink" ++ 61 :: printf_u r.nlink) ++ [10]) false false =
      [bytes "nlink"] :=
    processed_key_field (bytes "nlink") (printf_u r.nlink) 110 (bytes "link") (by decide) (by decide)
      (by decide) (by decide) (by decide) (by decide) (by decide) (by decide)
      (printf_u_chars r.nlink) (le_trans (printf_u_length r.nlink hl) (by decide))
  have p13 : processed_key ((bytes "blksize" ++ 61 :: printf_d r.blksize) ++ [10]) false false =
      [bytes "blksize"] :=
    processed_key_field (bytes "blksize") (printf_d r.blksize) 98 (bytes "lksize") (by decide) (by decide)
      (by decide) (by decide) (by decide) (by decide) (by decide) (by decide)
      (printf_d_chars r.blksize) (printf_d_length r.blksize j1 j2)
  rw [filestat_parser_format_write_data _ _ _ hfd]
  simp only [written_lines]
  simp only [processed_keys, stepLine_header, step_size _ _ a1 a2, step_blocks _ _ b1 b2,
    step_mode _ _ hm, step_uid _ _ hu, step_gid _ _ hg, step_atime _ _ c1 c2,
    step_mtime _ _ d1 d2, step_ctime _ _ e1 e2, step_atimensec _ _ f1 f2,
    step_mtimensec _ _ g1 g2, step_ctimensec _ _ i1 i2, step_nlink _ _ hl,
    step_blksize _ _ j1 j2, p0, p1, p2, p3, p4, p5, p6, p7, p8, p9, p10, p11, p12, p13]
  rfl

theorem getattr_regular_inv (my_data : my_private_data) (stbuf u a : stat)
    (openat : Except Int OpenedFile)
    (hreg : S_ISREG u.st_mode = true) (hsize : u.st_size ≠ 0)
    (h : catalogfs_getattr my_data stbuf (.ok u) openat = some (0, a)) :
    ∃ r, read_filestat openat (fill_filestat_from_stat u).2 = some (0, r) ∧
      a = (fill_stat_from_filestat_with_options u r (!my_data.ignore_saved_chmod)
        (!my_data.ignore_saved_times) my_data.use_saved_uid my_data.use_saved_gid).2 := by
  have h1 : (fill_filestat_from_stat u).1 = 0 := rfl
  have h2 : ∀ (a : stat) (r : filestat) (m t ui gi : Bool),
      (fill_stat_from_filestat_with_options a r m t ui gi).1 = 0 := fun _ _ _ _ _ _ => rfl
  unfold catalogfs_getattr at h
  simp only [hreg, hsize, h1, h2, Bool.not_true, Bool.false_and, Bool.false_eq_true,
    if_false, if_true, ne_eq, not_true_eq_false] at h
  cases hr : read_filestat openat (fill_filestat_from_stat u).2 with
  | none => rw [hr] at h; simp at h
  | some p =>
    obtain ⟨res, r⟩ := p
    rw [hr] at h
    simp only at h
    by_cases h0 : res = 0
    · subst h0
      simp only [if_false, not_true_eq_false, Option.some.injEq, Prod.mk.injEq, true_and] at h
      exact ⟨r, rfl, h.symm⟩
    · rw [if_pos h0] at h
      simp only [Option.some.injEq, Prod.mk.injEq] at h
      exact absurd h.1 h0

theorem read_filestat_ok (o : OpenedFile) (s : filestat)
    (hg : check_filestat_file_size_is_small_enough o.fstat = 0) (hf : o.fdopen = .ok ()) :
    read_filestat (.ok o) s = some (processLines (splitLines o.content) true false s) := by
  unfold read_filestat
  simp only [hg, hf, ne_eq, not_true_eq_false, if_false, filestat_parser_format_read_eq_lines]

/-- C14 (archival immutability seen through getattr). With all four overrides
in effect, take two lookups of regular non-empty sidecars with the same content,
both opened and passing the size guard, whose underlying attributes `u1` and
`u2` are arbitrary (mode bits, owner, group, timestamps may all differ). If the
content carries all 13 keys and the first lookup succeeds, the second succeeds
and reports the same size, blocks, mode, times, uid and gid. The text the writer
leaves for any record in range carries all 13 keys. -/
theorem archival_immutability :
    (∀ (my_data : my_private_data) (stbuf1 stbuf2 u1 u2 a1 : stat) (o1 o2 : OpenedFile),
      my_data.ignore_saved_chmod = false → my_data.ignore_saved_times = false →
      my_data.use_saved_uid = true → my_data.use_saved_gid = true →
      o2.content = o1.content →
      (∀ k ∈ recognized_keys,
        k ∈ processed_keys (splitLines o1.content) true false (fill_filestat_from_stat u1).2) →
      S_ISREG u1.st_mode = true → u1.st_size ≠ 0 →
      S_ISREG u2.st_mode = true → u2.st_size ≠ 0 →
      check_filestat_file_size_is_small_enough o1.fstat = 0 → o1.fdopen = .ok () →
      check_filestat_file_size_is_small_enough o2.fstat = 0 → o2.fdopen = .ok () →
      catalogfs_getattr my_data stbuf1 (.ok u1) (.ok o1) = some (0, a1) →
      ∃ a2, catalogfs_getattr my_data stbuf2 (.ok u2) (.ok o2) = some (0, a2) ∧
        a2.st_size = a1.st_size ∧ a2.st_blocks = a1.st_blocks ∧ a2.st_mode = a1.st_mode ∧
        a2.st_atim = a1.st_atim ∧ a2.st_mtim = a1.st_mtim ∧ a2.st_ctim = a1.st_ctim ∧
        a2.st_uid = a1.st_uid ∧ a2.st_gid = a1.st_gid) ∧
    (∀ (r s : filestat) (file_fd : Int) (file : File), file_fd ≠ 0 → r.inRange →
      ∀ k ∈ recognized_keys,
        k ∈ processed_keys (splitLines (filestat_parser_format_write file_fd file r).2.data)
          true false s) := by
  constructor
  · intro my_data stbuf1 stbuf2 u1 u2 a1 o1 o2 hc ht hu hg hcontent hkeys hreg1 hsz1 hreg2 hsz2
      hg1 hf1 hg2 hf2 h1
    obtain ⟨r, hread, ha1⟩ := getattr_regular_inv my_data stbuf1 u1 a1 (.ok o1) hreg1 hsz1 h1
    rw [read_filestat_ok o1 _ hg1 hf1] at hread
    have hp1 : processLines (splitLines o1.content) true false (fill_filestat_from_stat u1).2 =
        (0, r) := Option.some.inj hread
    have hp2 := processLines_agree (splitLines o1.content) true false
      (fill_filestat_from_stat u1).2 (fill_filestat_from_stat u2).2 r []
      (by simp [agree_on]) (fun k hk => Or.inr (hkeys k hk)) hp1
    have hread2 : read_filestat (.ok o2) (fill_filestat_from_stat u2).2 = some (0, r) := by
      rw [read_filestat_ok o2 _ hg2 hf2, hcontent, hp2]
    refine ⟨_, getattr_regular my_data stbuf2 u2 (.ok o2) r hreg2 hsz2 hread2, ?_⟩
    rw [ha1]
    simp [fill_stat_from_filestat_with_options, hc, ht, hu, hg]
  · intro r s file_fd file hfd hr k hk
    rw [processed_keys_written r s file_fd file hfd hr]
    exact hk

set_option maxRecDepth 100000 in
theorem archival_immutability_witness :
    ∃ a2, catalogfs_getattr all_overrides sample_stat
        (.ok { sample_stat with
                st_mode := 33261, st_uid := 0, st_gid := 0, st_atim := ⟨1800000000, 1⟩,
                st_mtim := ⟨1800000000, 2⟩, st_ctim := ⟨1800000000, 3⟩ })
        (.ok ⟨.ok ⟨33261, 20⟩, .ok (),
          (filestat_parser_format_write 3 sample_file sample_record).2.data⟩) = some (0, a2) ∧
      a2.st_size = 100 ∧ a2.st_blocks = 1 ∧ a2.st_mode = 33188 ∧
      a2.st_atim = ⟨1700000000, 5⟩ ∧ a2.st_mtim = ⟨1700000001, 6⟩ ∧
      a2.st_ctim = ⟨1700000002, 7⟩ ∧ a2.st_uid = 1000 ∧ a2.st_gid = 1000 :=
  archival_immutability.1 all_overrides sample_stat sample_stat sample_stat
    { sample_stat with
      st_mode := 33261, st_uid := 0, st_gid := 0, st_atim := ⟨1800000000, 1⟩,
      st_mtim := ⟨1800000000, 2⟩, st_ctim := ⟨1800000000, 3⟩ }
    { sample_stat with
      st_size := 100, st_blocks := 1, st_mode := 33188, st_atim := ⟨1700000000, 5⟩,
      st_mtim := ⟨1700000001, 6⟩, st_ctim := ⟨1700000002, 7⟩, st_uid := 1000, st_gid := 1000 }
    ⟨.ok ⟨33152, 20⟩, .ok (), (filestat_parser_format_write 3 sample_file sample_record).2.data⟩
    ⟨.ok ⟨33261, 20⟩, .ok (), (filestat_parser_format_write 3 sample_file sample_record).2.data⟩
    rfl rfl rfl rfl rfl
    (archival_immutability.2 sample_record _ 3 sample_file (by decide) sample_record_inRange)
    (by decide) (by decide) (by decide) (by decide) (by decide) rfl (by decide) rfl
    (by decide)

/-! ### C21, C22: calls without a handle, and the release of a handle -/

/-- C21, amended. `catalogfs_write`, `catalogfs_flush` and `catalogfs_release`
called with a null `fi` or with `fi->fh == 0` return `-EPERM` (not `-EINVAL`)
and leave the handle data and the file as they were; `catalogfs_release` then
neither closes a descriptor nor frees anything. -/
theorem null_or_zero_handle (fi : Option fuse_file_info)
    (hfi : fi = none ∨ ∃ f, fi = some f ∧ f.fh = 0)
    (fstatat : Except Int stat) (buf : List Nat) (size : Nat) (offset : Int)
    (data : my_fh_fileinfo) (file : File) (dup : Except Int Int) (close : Except Int Unit) :
    catalogfs_write fstatat buf size offset fi data = (-EPERM, data) ∧
    catalogfs_flush fi data file dup fstatat close = (-EPERM, data, file) ∧
    catalogfs_release fi data file fstatat close = ⟨-EPERM, some data, false, file⟩ := by
  rcases hfi with h | ⟨f, h, h0⟩
  · subst h
    refine ⟨?_, rfl, rfl⟩
    unfold catalogfs_write
    by_cases hreg : S_ISREG (get_mode_by_path fstatat) = true <;> simp [hreg]
  · subst h
    refine ⟨?_, by simp [catalogfs_flush, h0], by simp [catalogfs_release, h0]⟩
    unfold catalogfs_write
    by_cases hreg : S_ISREG (get_mode_by_path fstatat) = true <;> simp [hreg, h0]

theorem null_or_zero_handle_witness :
    ((some ⟨0, 0⟩ : Option fuse_file_info) = none ∨
      ∃ f, (some ⟨0, 0⟩ : Option fuse_file_info) = some f ∧ f.fh = 0) ∧
    catalogfs_write (.ok sample_stat) (bytes "abc") 3 0 (some ⟨0, 0⟩) ⟨5, 7⟩ = (-EPERM, ⟨5, 7⟩) ∧
    catalogfs_flush (some ⟨0, 0⟩) ⟨5, 7⟩ sample_file (.ok 9) (.ok sample_stat) (.ok ()) =
      (-EPERM, ⟨5, 7⟩, sample_file) ∧
    catalogfs_release (some ⟨0, 0⟩) ⟨5, 7⟩ sample_file (.ok sample_stat) (.ok ()) =
      ⟨-EPERM, some ⟨5, 7⟩, false, sample_file⟩ :=
  ⟨Or.inr ⟨⟨0, 0⟩, rfl, rfl⟩,
    null_or_zero_handle (some ⟨0, 0⟩) (Or.inr ⟨⟨0, 0⟩, rfl, rfl⟩) (.ok sample_stat) (bytes "abc")
      3 0 ⟨5, 7⟩ sample_file (.ok 9) (.ok ())⟩

/-- C21 as stated fails: with a null `fi`, and with `fi->fh == 0`, the three
callbacks return -1 (`-EPERM`), which is not -22 (`-EINVAL`). -/
theorem null_or_zero_handle_counterexample :
    (catalogfs_write (.ok sample_stat) (bytes "abc") 3 0 none ⟨5, 7⟩).1 = -1 ∧
    (catalogfs_write (.ok sample_stat) (bytes "abc") 3 0 (some ⟨0, 0⟩) ⟨5, 7⟩).1 = -1 ∧
    (catalogfs_flush none ⟨5, 7⟩ sample_file (.ok 9) (.ok sample_stat) (.ok ())).1 = -1 ∧
    (catalogfs_flush (some ⟨0, 0⟩) ⟨5, 7⟩ sample_file (.ok 9) (.ok sample_stat) (.ok ())).1 = -1 ∧
    (catalogfs_release none ⟨5, 7⟩ sample_file (.ok sample_stat) (.ok ())).res = -1 ∧
    (catalogfs_release (some ⟨0, 0⟩) ⟨5, 7⟩ sample_file (.ok sample_stat) (.ok ())).res = -1 ∧
    (-1 : Int) ≠ -EINVAL := by
  decide

/-- C22: a release whose final `save_filestat` fails (here the `fstatat` of the
real file fails with `ENOENT`) returns the error before `close` and `free`: the
descriptor stays open and the `my_fh_fileinfo` stays allocated. A release whose
`close` fails returns before `free`. When both succeed the descriptor is closed,
the structure is freed and 0 is returned. -/
theorem release_early_returns :
    catalogfs_release (some ⟨0, 140000⟩) ⟨5, 100⟩ sample_file (.error 2) (.ok ()) =
      ⟨-EPERM, some ⟨5, 100⟩, false, sample_file⟩ ∧
    (catalogfs_release (some ⟨0, 140000⟩) ⟨5, 100⟩ sample_file (.ok sample_stat) (.error 5)).data =
      some ⟨5, 100⟩ ∧
    (catalogfs_release (some ⟨0, 140000⟩) ⟨5, 100⟩ sample_file (.ok sample_stat) (.error 5)).res =
      -5 ∧
    (catalogfs_release (some ⟨0, 140000⟩) ⟨5, 100⟩ sample_file (.ok sample_stat) (.ok ())).data =
      none ∧
    (catalogfs_release (some ⟨0, 140000⟩) ⟨5, 100⟩ sample_file (.ok sample_stat)
      (.ok ())).fd_closed = true ∧
    (catalogfs_release (some ⟨0, 140000⟩) ⟨5, 100⟩ sample_file (.ok sample_stat) (.ok ())).res =
      0 := by
  decide

/-! ### C23, C24: rename and the path mapping -/

/-- C23 (rename). With any non-zero `flags`, `catalogfs_rename` returns
`-EINVAL` and leaves the directory as it was, whatever `renameat2` would do;
with `flags = 0` it returns what `renameat2` of `RELPATH(from)` to `RELPATH(to)`
gives: 0 and the directory it leaves, or minus its `errno`. -/
theorem rename_flags {Dir : Type}
    (renameat2 : List Nat → List Nat → Nat → Dir → Except Int Dir)
    (from_ to_ : List Nat) (flags : Nat) (dir : Dir) :
    (flags ≠ 0 → catalogfs_rename renameat2 from_ to_ flags dir = (-EINVAL, dir)) ∧
    (flags = 0 →
      catalogfs_rename renameat2 from_ to_ flags dir =
        match renameat2 (RELPATH from_) (RELPATH to_) 0 dir with
        | .error errno => (-errno, dir)
        | .ok dir => (0, dir)) := by
  constructor
  · intro h
    simp [catalogfs_rename, h]
  · intro h
    subst h
    simp only [catalogfs_rename, ne_eq, not_true_eq_false, if_false]

theorem rename_flags_witness :
    ((1 : Nat) ≠ 0 ∧
      catalogfs_rename sample_renameat2 (bytes "/a") (bytes "/b") 1 [bytes "a", bytes "c"] =
        (-EINVAL, [bytes "a", bytes "c"])) ∧
    ((0 : Nat) = 0 ∧
      catalogfs_rename sample_renameat2 (bytes "/a") (bytes "/b") 0 [bytes "a", bytes "c"] =
        (0, [bytes "b", bytes "c"])) :=
  ⟨⟨by decide, (rename_flags sample_renameat2 (bytes "/a") (bytes "/b") 1
      [bytes "a", bytes "c"]).1 (by decide)⟩,
    ⟨rfl, ((rename_flags sample_renameat2 (bytes "/a") (bytes "/b") 0
      [bytes "a", bytes "c"]).2 rfl).trans (by decide)⟩⟩

/-- C24 (the path mapping). `RELPATH("/")` and `RELPATH("")` are `"."`; for
every non-empty `s`, `RELPATH("/" ++ s)` is `s`; for every non-empty `p` that
does not start with `/`, `RELPATH(p)` is `p`; the result is never empty. -/
theorem relpath_mapping :
    RELPATH (bytes "/") = bytes "." ∧
    RELPATH (bytes "") = bytes "." ∧
    (∀ s : List Nat, s ≠ [] → RELPATH (bytes "/" ++ s) = s) ∧
    (∀ p : List Nat, p ≠ [] → p.head? ≠ some 47 → RELPATH p = p) ∧
    (∀ p : List Nat, RELPATH p ≠ []) := by
  refine ⟨by decide, by decide, ?_, ?_, ?_⟩
  · intro s hs
    cases s with
    | nil => exact absurd rfl hs
    | cons c cs =>
      have e : bytes "/" ++ c :: cs = 47 :: c :: cs := by
        have : bytes "/" = [47] := by decide
        rw [this]; rfl
      rw [e]
      simp [RELPATH]
  · intro p hp hh
    cases p with
    | nil => exact absurd rfl hp
    | cons c cs =>
      have hc : c ≠ 47 := by simpa using hh
      simp [RELPATH, hc]
  · intro p
    have hdot : bytes "." ≠ [] := by decide
    cases p with
    | nil => simpa [RELPATH] using hdot
    | cons c cs =>
      by_cases hc : c = 47
      · subst hc
        cases cs with
        | nil => simpa [RELPATH] using hdot
        | cons d ds => simp [RELPATH]
      · simp [RELPATH, hc]

theorem relpath_mapping_witness :
    bytes "dir/file" ≠ [] ∧ RELPATH (bytes "/" ++ bytes "dir/file") = bytes "dir/file" ∧
    (bytes "dir/file").head? ≠ some 47 ∧ RELPATH (bytes "dir/file") = bytes "dir/file" :=
  ⟨by decide, relpath_mapping.2.2.1 (bytes "dir/file") (by decide), by decide,
    relpath_mapping.2.2.2.1 (bytes "dir/file") (by decide) (by decide)⟩

/-! ### C25, C26, C27: the line reader with any delimiters -/

theorem is_delimiter_iff (d1 d2 : Int) (c : Nat) :
    ((c : Int) = d1 ∨ (d2 ≥ 0 ∧ (c : Int) = d2)) ↔ is_delimiter d1 d2 c = true := by
  simp [is_delimiter]

/-- The loop on a stream whose first delimiter comes before the cap. -/
theorem getdelim_loop_found (d1 d2 : Int) (ms : Nat) (d : Nat) (rest : List Nat)
    (hd : is_delimiter d1 d2 d = true) :
    ∀ (l buf : List Nat) (n : Nat), buf.length + 1 ≤ n → n ≤ line_cap ms →
      (∀ c ∈ l, is_delimiter d1 d2 c = false) → buf.length + l.length + 1 < line_cap ms →
      (getdelim_loop d1 d2 ms (l ++ d :: rest) buf n).result = ((buf ++ l ++ [d]).length : Nat) ∧
      (getdelim_loop d1 d2 ms (l ++ d :: rest) buf n).lineptr = buf ++ l ++ [d] ∧
      (getdelim_loop d1 d2 ms (l ++ d :: rest) buf n).read_before_eof = -1 ∧
      (getdelim_loop d1 d2 ms (l ++ d :: rest) buf n).errno = 0 ∧
      (getdelim_loop d1 d2 ms (l ++ d :: rest) buf n).fp = rest := by
  intro l
  induction l with
  | nil =>
    intro buf n h1 h2 _ hlen
    simp only [List.nil_append, List.append_nil, List.length_nil, Nat.add_zero] at hlen ⊢
    unfold getdelim_loop
    cases hg : getdelim_grow ms n buf.length with
    | none =>
      have := (getdelim_grow_none ms n buf.length h1 h2).mp hg
      omega
    | some n' =>
      simp [(is_delimiter_iff d1 d2 d).mpr hd]
  | cons i l ih =>
    intro buf n h1 h2 hl hlen
    simp only [List.length_cons] at hlen
    have hi : ¬ ((i : Int) = d1 ∨ (d2 ≥ 0 ∧ (i : Int) = d2)) := by
      rw [is_delimiter_iff, hl i (List.mem_cons_self _ _)]
      decide
    rw [List.cons_append]
    unfold getdelim_loop
    cases hg : getdelim_grow ms n buf.length with
    | none =>
      have := (getdelim_grow_none ms n buf.length h1 h2).mp hg
      omega
    | some n' =>
      have hs := getdelim_grow_some ms n buf.length n' h1 h2 hg
      simp only [hi, if_false]
      have := ih (buf ++ [i]) n' (by simp; omega) hs.2
        (fun c hc => hl c (List.mem_cons_of_mem _ hc)) (by simp; omega)
      simpa [List.append_assoc] using this

/-- The loop on a stream that ends before a delimiter and before the cap. -/
theorem getdelim_loop_eof (d1 d2 : Int) (ms : Nat) :
    ∀ (fp buf : List Nat) (n : Nat), buf.length + 1 ≤ n → n ≤ line_cap ms →
      (∀ c ∈ fp, is_delimiter d1 d2 c = false) → buf.length + fp.length < line_cap ms →
      (getdelim_loop d1 d2 ms fp buf n).result = -1 ∧
      (getdelim_loop d1 d2 ms fp buf n).lineptr = buf ++ fp ∧
      (getdelim_loop d1 d2 ms fp buf n).read_before_eof = ((buf ++ fp).length : Nat) ∧
      (getdelim_loop d1 d2 ms fp buf n).errno = 0 ∧
      (getdelim_loop d1 d2 ms fp buf n).fp = [] := by
  intro fp
  induction fp with
  | nil =>
    intro buf n _ _ _ _
    simp [getdelim_loop]
  | cons i fp ih =>
    intro buf n h1 h2 hl hlen
    simp only [List.length_cons] at hlen
    have hi : ¬ ((i : Int) = d1 ∨ (d2 ≥ 0 ∧ (i : Int) = d2)) := by
      rw [is_delimiter_iff, hl i (List.mem_cons_self _ _)]
      decide
    unfold getdelim_loop
    cases hg : getdelim_grow ms n buf.length with
    | none =>
      have := (getdelim_grow_none ms n buf.length h1 h2).mp hg
      omega
    | some n' =>
      have hs := getdelim_grow_some ms n buf.length n' h1 h2 hg
      simp only [hi, if_false]
      have := ih (buf ++ [i]) n' (by simp; omega) hs.2
        (fun c hc => hl c (List.mem_cons_of_mem _ hc)) (by simp; omega)
      simpa [List.append_assoc] using this

/-- The loop on a stream whose next byte would be the `line_cap`-th of the line:
the call fails with `EOVERFLOW`, whether or not that byte is a delimiter. -/
theorem getdelim_loop_overflow (d1 d2 : Int) (ms : Nat) (x : Nat) (rest : List Nat) :
    ∀ (l buf : List Nat) (n : Nat), buf.length + 1 ≤ n → n ≤ line_cap ms →
      (∀ c ∈ l, is_delimiter d1 d2 c = false) → buf.length + l.length + 1 = line_cap ms →
      (getdelim_loop d1 d2 ms (l ++ x :: rest) buf n).result = -1 ∧
      (getdelim_loop d1 d2 ms (l ++ x :: rest) buf n).read_before_eof = -1 ∧
      (getdelim_loop d1 d2 ms (l ++ x :: rest) buf n).errno = EOVERFLOW := by
  intro l
  induction l with
  | nil =>
    intro buf n h1 h2 _ hlen
    simp only [List.nil_append, List.length_nil, Nat.add_zero] at hlen ⊢
    unfold getdelim_loop
    have hg : getdelim_grow ms n buf.length = none :=
      (getdelim_grow_none ms n buf.length h1 h2).mpr (by omega)
    rw [hg]
    exact ⟨rfl, rfl, rfl⟩
  | cons i l ih =>
    intro buf n h1 h2 hl hlen
    simp only [List.length_cons] at hlen
    have hi : ¬ ((i : Int) = d1 ∨ (d2 ≥ 0 ∧ (i : Int) = d2)) := by
      rw [is_delimiter_iff, hl i (List.mem_cons_self _ _)]
      decide
    rw [List.cons_append]
    unfold getdelim_loop
    cases hg : getdelim_grow ms n buf.length with
    | none => exact ⟨rfl, rfl, rfl⟩
    | some n' =>
      have hs := getdelim_grow_some ms n buf.length n' h1 h2 hg
      simp only [hi, if_false]
      exact ih (buf ++ [i]) n' (by simp; omega) hs.2
        (fun c hc => hl c (List.mem_cons_of_mem _ hc)) (by simp; omega)

theorem starting_size_bounds (ms : Nat) :
    ([] : List Nat).length + 1 ≤ (if ms > 0 ∧ ms < 120 then ms else 120) ∧
    (if ms > 0 ∧ ms < 120 then ms else 120) ≤ line_cap ms := by
  unfold line_cap
  constructor
  · simp only [List.length_nil]
    split_ifs <;> omega
  · split_ifs <;> omega

/-- C25 (line reader without a cap). For every stream content `b` (shorter than
2^63 - 1 bytes, as every stream is) and delimiters `d1`, `d2`, with
`max_size = 0`: when `b` is `l ++ d :: rest` with `d` its first delimiter,
`getdelim_advanced` returns the length of `l ++ [d]` (at least 1), stores
`l ++ [d]`, leaves `read_before_eof` at -1 and `rest` unread; when `b` holds no
delimiter it returns -1 with `read_before_eof` the length of `b` and the buffer
holding `b`. With `d2 = -1` only `d1` is a delimiter. -/
theorem line_reader_reference (d1 d2 : Int) (b : List Nat) (hb : b.length < 2 ^ 63 - 1) :
    (∀ l d rest, b = l ++ d :: rest → (∀ c ∈ l, is_delimiter d1 d2 c = false) →
      is_delimiter d1 d2 d = true →
      (getdelim_advanced d1 d2 b 0).result = ((l ++ [d]).length : Nat) ∧
      1 ≤ (getdelim_advanced d1 d2 b 0).result ∧
      (getdelim_advanced d1 d2 b 0).lineptr = l ++ [d] ∧
      (getdelim_advanced d1 d2 b 0).read_before_eof = -1 ∧
      (getdelim_advanced d1 d2 b 0).fp = rest) ∧
    ((∀ c ∈ b, is_delimiter d1 d2 c = false) →
      (getdelim_advanced d1 d2 b 0).result = -1 ∧
      (getdelim_advanced d1 d2 b 0).read_before_eof = (b.length : Nat) ∧
      (getdelim_advanced d1 d2 b 0).lineptr = b) ∧
    (∀ c : Nat, is_delimiter d1 (-1) c = decide ((c : Int) = d1)) := by
  have hcap : line_cap 0 = 2 ^ 63 := by decide
  obtain ⟨s1, s2⟩ := starting_size_bounds 0
  refine ⟨?_, ?_, ?_⟩
  · intro l d rest hbl hl hd
    subst hbl
    have hlen : ([] : List Nat).length + l.length + 1 < line_cap 0 := by
      rw [hcap]
      simp only [List.length_append, List.length_cons, List.length_nil] at hb ⊢
      omega
    obtain ⟨r1, r2, r3, _, r5⟩ := getdelim_loop_found d1 d2 0 d rest hd l [] _ s1 s2 hl hlen
    simp only [List.nil_append] at r1 r2
    unfold getdelim_advanced
    refine ⟨r1, ?_, r2, r3, r5⟩
    rw [r1]
    simp
  · intro hl
    have hlen : ([] : List Nat).length + b.length < line_cap 0 := by
      rw [hcap]
      simp only [List.length_nil]
      omega
    obtain ⟨r1, r2, r3, _, _⟩ := getdelim_loop_eof d1 d2 0 b [] _ s1 s2 hl hlen
    simp only [List.nil_append] at r2 r3
    unfold getdelim_advanced
    exact ⟨r1, r3, r2⟩
  · intro c
    simp [is_delimiter]

theorem line_reader_reference_witness :
    (bytes "ab;cd").length < 2 ^ 63 - 1 ∧
    (getdelim_advanced 59 (-1) (bytes "ab;cd") 0).result = 3 ∧
    (getdelim_advanced 59 (-1) (bytes "ab;cd") 0).lineptr = bytes "ab;" ∧
    (getdelim_advanced 59 (-1) (bytes "ab;cd") 0).read_before_eof = -1 ∧
    (getdelim_advanced 59 (-1) (bytes "ab;cd") 0).fp = bytes "cd" :=
  match (line_reader_reference 59 (-1) (bytes "ab;cd") (by decide)).1 (bytes "ab") 59 (bytes "cd")
    (by decide) (by decide) (by decide) with
  | ⟨h1, _, h3, h4, h5⟩ => ⟨by decide, h1, h3, h4, h5⟩

/-- What the cap does, for every cap `0 < m < 2^63`, delimiters and line
`l ++ [d]` ended by its first delimiter: the line is returned when it has fewer
than `m` bytes, delimiter included, and the call fails with `EOVERFLOW` when it
has `m` bytes or more. -/
theorem getdelim_cap (d1 d2 : Int) (m : Nat) (l : List Nat) (d : Nat) (rest : List Nat)
    (hm0 : 0 < m) (hm : m < 2 ^ 63) (hl : ∀ c ∈ l, is_delimiter d1 d2 c = false)
    (hd : is_delimiter d1 d2 d = true) :
    (l.length + 1 < m →
      (getdelim_advanced d1 d2 (l ++ d :: rest) m).result = ((l ++ [d]).length : Nat) ∧
      (getdelim_advanced d1 d2 (l ++ d :: rest) m).lineptr = l ++ [d]) ∧
    (m ≤ l.length + 1 →
      (getdelim_advanced d1 d2 (l ++ d :: rest) m).result = -1 ∧
      (getdelim_advanced d1 d2 (l ++ d :: rest) m).read_before_eof = -1 ∧
      (getdelim_advanced d1 d2 (l ++ d :: rest) m).errno = EOVERFLOW) := by
  have hcap : line_cap m = m := by
    unfold line_cap
    rw [if_pos ⟨hm0, hm⟩]
  obtain ⟨s1, s2⟩ := starting_size_bounds m
  constructor
  · intro hlt
    obtain ⟨r1, r2, _⟩ := getdelim_loop_found d1 d2 m d rest hd l [] _ s1 s2 hl
      (by rw [hcap]; simpa using hlt)
    simp only [List.nil_append] at r1 r2
    exact ⟨r1, r2⟩
  · intro hge
    have hsplit : l ++ d :: rest = l.take (m - 1) ++ (l.drop (m - 1) ++ d :: rest) := by
      rw [← List.append_assoc, List.take_append_drop]
    cases htail : l.drop (m - 1) ++ d :: rest with
    | nil => simp at htail
    | cons x rest' =>
      rw [htail] at hsplit
      have hlen : ([] : List Nat).length + (l.take (m - 1)).length + 1 = line_cap m := by
        rw [hcap, List.length_take]
        simp only [List.length_nil]
        omega
      have := getdelim_loop_overflow d1 d2 m x rest' (l.take (m - 1)) [] _ s1 s2
        (fun c hc => hl c (List.mem_of_mem_take hc)) hlen
      unfold getdelim_advanced
      rw [hsplit]
      exact this

set_option maxRecDepth 100000 in
/-- C26: with the header cap 120 (buffer initially unallocated) a line of
exactly 120 bytes, newline included, is not accepted: `getdelim_advanced` fails
with `EOVERFLOW` and `filestat_parser_format_read` returns `-EOVERFLOW`; the
same header line with one space less (119 bytes) is accepted. The cap counts the
byte of the final NUL of the buffer. -/
theorem header_of_120_bytes_overflows :
    (bytes "CatalogFS=3" ++ List.replicate 108 32 ++ [10]).length = 120 ∧
    (getdelim_advanced 10 13 (bytes "CatalogFS=3" ++ List.replicate 108 32 ++ [10]) 120).result =
      -1 ∧
    (getdelim_advanced 10 13 (bytes "CatalogFS=3" ++ List.replicate 108 32 ++ [10]) 120).errno =
      EOVERFLOW ∧
    (∀ s : filestat,
      filestat_parser_format_read (bytes "CatalogFS=3" ++ List.replicate 108 32 ++ [10]) s =
        some (- EOVERFLOW, s)) ∧
    (getdelim_advanced 10 13 (bytes "CatalogFS=3" ++ List.replicate 107 32 ++ [10]) 120).result =
      119 ∧
    filestat_parser_format_read (bytes "CatalogFS=3" ++ List.replicate 107 32 ++ [10])
      sample_skeleton = some (0, sample_skeleton) := by
  have hl : ∀ c ∈ bytes "CatalogFS=3" ++ List.replicate 108 32, is_delimiter 10 13 c = false := by
    decide
  have hl' : ∀ c ∈ bytes "CatalogFS=3" ++ List.replicate 107 32, is_delimiter 10 13 c = false := by
    decide
  have h120 := (getdelim_cap 10 13 120 (bytes "CatalogFS=3" ++ List.replicate 108 32) 10 []
    (by decide) (by decide) hl (by decide)).2 (by decide)
  have h119 := (getdelim_cap 10 13 120 (bytes "CatalogFS=3" ++ List.replicate 107 32) 10 []
    (by decide) (by decide) hl' (by decide)).1 (by decide)
  refine ⟨by decide, h120.1, h120.2.2, ?_, ?_, ?_⟩
  · intro s
    have hnl : ∀ c ∈ bytes "CatalogFS=3" ++ List.replicate 108 32, isnl c = false := by decide
    rw [filestat_parser_format_read_eq_lines, splitLines_line _ 10 [] hnl (by decide)]
    have hs : splitLines [] = [] := rfl
    rw [hs, processLines_cons_done _ _ _ _ _ _ _
      (stepLine_overflow _ true false s (by decide))]
  · rw [h119.1]
    decide
  · rw [filestat_parser_format_read_eq_lines]
    decide

/-- C27: the end of the list of bytes stands for `getc` returning `EOF`, which
it does at the end of the file and on a read error alike, and
`getdelim_advanced` has no other test (no `ferror`). So when the stream stops
after the bytes "CatalogFS=3\nsize=100", also by a read error, the call returns
-1 with `read_before_eof = 8`, not -1, `filestat_read_line` returns the 8 bytes
as a line, and `filestat_parser_format_read` returns 0 with size 100. -/
theorem read_error_taken_for_end_of_stream :
    (getdelim_advanced 10 13 (bytes "size=100") 0).result = -1 ∧
    (getdelim_advanced 10 13 (bytes "size=100") 0).read_before_eof = 8 ∧
    (filestat_read_line (bytes "size=100") 0).read = 8 ∧
    (filestat_read_line (bytes "size=100") 0).buf = bytes "size=100" ∧
    filestat_parser_format_read (bytes "CatalogFS=3\nsize=100") sample_skeleton =
      some (0, { sample_skeleton with size := 100 }) := by
  decide

/-! ### Trimming and splitting a line -/

theorem dropWhile_all_append (p : Nat → Bool) : ∀ (w rest : List Nat),
    (∀ c ∈ w, p c = true) → (w ++ rest).dropWhile p = rest.dropWhile p
  | [], _, _ => rfl
  | c :: w, rest, h => by
    rw [List.cons_append, List.dropWhile_cons_of_pos (h c (List.mem_cons_self _ _))]
    exact dropWhile_all_append p w rest (fun x hx => h x (List.mem_cons_of_mem _ hx))

theorem rdropWhile_append_all (p : Nat → Bool) (l w : List Nat) (h : ∀ c ∈ w, p c = true) :
    (l ++ w).rdropWhile p = l.rdropWhile p := by
  unfold List.rdropWhile
  rw [List.reverse_append, dropWhile_all_append p w.reverse l.reverse
    (fun c hc => h c (List.mem_reverse.mp hc))]

/-- The function `trim_string` gives the empty string exactly on white space. -/
theorem trim_string_eq_nil_iff (x : List Nat) :
    trim_string x = [] ↔ ∀ c ∈ x, isspace c = true := by
  unfold trim_string
  constructor
  · intro h
    by_cases hk : (x.rdropWhile isspace).length = 0
    · have : x.rdropWhile isspace = [] := List.length_eq_zero.mp hk
      rw [List.rdropWhile_eq_nil_iff] at this
      exact this
    · simp only [hk, if_false] at h
      have hne : x.rdropWhile isspace ≠ [] := fun e => hk (by rw [e]; rfl)
      have hlast := List.rdropWhile_last_not isspace x hne
      rw [List.dropWhile_eq_nil_iff] at h
      exact absurd (h _ (List.getLast_mem hne)) hlast
  · intro h
    have : x.rdropWhile isspace = [] := List.rdropWhile_eq_nil_iff.mpr h
    simp [this]

theorem is_string_empty_or_whitespace_iff (x : List Nat) :
    is_string_empty_or_whitespace x = true ↔ trim_string x = [] := by
  unfold is_string_empty_or_whitespace is_string_empty
  cases x with
  | nil => simp [trim_string]
  | cons c cs => simp

/-- White space around a text that neither starts nor ends with white space is
trimmed away. -/
theorem trim_string_pad (w1 w2 x : List Nat) (hw1 : ∀ c ∈ w1, isspace c = true)
    (hw2 : ∀ c ∈ w2, isspace c = true) (hx : trim_string x = x) (hne : x ≠ []) :
    trim_string (w1 ++ x ++ w2) = x := by
  have hnn : ¬ ∀ c ∈ x, isspace c = true := fun h =>
    hne (by rw [← hx]; exact (trim_string_eq_nil_iff x).mpr h)
  have hkx : x.rdropWhile isspace ≠ [] := fun e => hnn (List.rdropWhile_eq_nil_iff.mp e)
  have hx' : (x.rdropWhile isspace).dropWhile isspace = x := by
    have := hx
    unfold trim_string at this
    rw [if_neg (fun e => hkx (List.length_eq_zero.mp e))] at this
    exact this
  -- `x` ends with a byte that is not white space
  have hr : x.rdropWhile isspace = x := by
    have hpre : x.rdropWhile isspace <+: x := List.rdropWhile_prefix _ _
    have hsuf : (x.rdropWhile isspace).dropWhile isspace <:+ x.rdropWhile isspace :=
      List.dropWhile_suffix _
    rw [hx'] at hsuf
    exact List.IsPrefix.eq_of_length_le hpre hsuf.length_le
  have hd : x.dropWhile isspace = x := by rw [hr] at hx'; exact hx'
  have h1 : (w1 ++ x ++ w2).rdropWhile isspace = w1 ++ x := by
    rw [rdropWhile_append_all isspace _ w2 hw2, List.rdropWhile_eq_self_iff]
    intro hne'
    have hl : (w1 ++ x).getLast hne' = x.getLast hne := List.getLast_append_of_ne_nil hne
    rw [hl]
    have := (List.rdropWhile_eq_self_iff.mp hr) hne
    exact this
  unfold trim_string
  rw [h1, if_neg (by simp [hne]), dropWhile_all_append isspace w1 x hw1, hd]

/-- The function `filestat_parse_line` on a line that is neither a comment nor
blank and holds the separator: it is split at its first separator, and rejected
when the text before it is empty or longer than 1024 bytes or the text after it
is longer than 1048576 bytes. -/
theorem filestat_parse_line_split (a b : List Nat) (legacy : Bool)
    (hsk : skippable
      (a ++ (if legacy then FILESTAT_LEGACY_SEPARATOR_CHAR else FILESTAT_SEPARATOR_CHAR_MAIN) :: b)
      = false)
    (hsep : (if legacy then FILESTAT_LEGACY_SEPARATOR_CHAR else FILESTAT_SEPARATOR_CHAR_MAIN) ∉ a) :
    filestat_parse_line
      (a ++ (if legacy then FILESTAT_LEGACY_SEPARATOR_CHAR else FILESTAT_SEPARATOR_CHAR_MAIN) :: b)
      legacy =
      if a.length = 0 ∨ a.length > FILESTAT_MAX_LENGTH_OPTION then .failed
      else if b.length > FILESTAT_MAX_LENGTH_VALUE then .failed
      else .pair a b := by
  set sep := (if legacy then FILESTAT_LEGACY_SEPARATOR_CHAR else FILESTAT_SEPARATOR_CHAR_MAIN)
    with hsepdef
  simp only [skippable, Bool.or_eq_false_iff] at hsk
  have hidx : List.indexOf sep (a ++ sep :: b) = a.length := by
    rw [List.indexOf_append_of_not_mem hsep]
    simp
  have hmem : sep ∈ a ++ sep :: b := by simp
  have hvl : (a ++ sep :: b).length - (a.length + 1) = b.length := by
    simp only [List.length_append, List.length_cons]
    omega
  have htake : (a ++ sep :: b).take a.length = a := by simp
  have hdrop : (a ++ sep :: b).drop (a.length + 1) = b := by
    rw [← List.drop_drop]
    simp
  unfold filestat_parse_line
  simp only [hsk.1, hsk.2, Bool.false_eq_true, if_false, ← hsepdef, hidx, hmem, not_true_eq_false,
    hvl, htake, hdrop, List.take_length]

/-- The same line as the read loop sees it: both sides trimmed, and rejected
also when the text before the separator is white space only. -/
theorem classifyLine_split (a b : List Nat) (legacy : Bool)
    (hsk : skippable
      (a ++ (if legacy then FILESTAT_LEGACY_SEPARATOR_CHAR else FILESTAT_SEPARATOR_CHAR_MAIN) :: b)
      = false)
    (hsep : (if legacy then FILESTAT_LEGACY_SEPARATOR_CHAR else FILESTAT_SEPARATOR_CHAR_MAIN) ∉ a) :
    classifyLine
      (a ++ (if legacy then FILESTAT_LEGACY_SEPARATOR_CHAR else FILESTAT_SEPARATOR_CHAR_MAIN) :: b)
      legacy =
      if a.length = 0 ∨ a.length > FILESTAT_MAX_LENGTH_OPTION then .bad
      else if b.length > FILESTAT_MAX_LENGTH_VALUE then .bad
      else if trim_string a = [] then .bad
      else .pair (trim_string a) (trim_string b) := by
  unfold classifyLine
  rw [filestat_parse_line_split a b legacy hsk hsep]
  by_cases h1 : a.length = 0 ∨ a.length > FILESTAT_MAX_LENGTH_OPTION
  · simp only [h1, if_true]
  · by_cases h2 : b.length > FILESTAT_MAX_LENGTH_VALUE
    · simp only [h1, h2, if_true, if_false]
    · simp only [h1, h2, if_false]
      by_cases h3 : trim_string a = []
      · simp [h3, is_string_empty]
      · simp [h3, is_string_empty]

/-- A line that holds a separator is not a legacy header line. -/
theorem not_legacy_header_of_separator (line : List Nat) (legacy : Bool)
    (hsep : (if legacy then FILESTAT_LEGACY_SEPARATOR_CHAR else FILESTAT_SEPARATOR_CHAR_MAIN)
      ∈ line) :
    filestat_is_line_a_legacy_header (some line) = false := by
  cases hh : filestat_is_line_a_legacy_header (some line) with
  | false => rfl
  | true =>
    simp only [filestat_is_line_a_legacy_header, Bool.or_eq_true, beq_iff_eq] at hh
    rcases hh with h | h <;> subst h <;> cases legacy <;> exact absurd hsep (by decide)

/-- A line whose key part is blank or longer than 1024 bytes ends the read with
an error, whatever the state of the loop. -/
theorem stepLine_bad_key (raw : List Nat) (h l : Bool) (st : filestat) (a b : List Nat)
    (hline : lineOf raw =
      a ++ (if l then FILESTAT_LEGACY_SEPARATOR_CHAR else FILESTAT_SEPARATOR_CHAR_MAIN) :: b)
    (hsk : skippable (lineOf raw) = false)
    (hsep : (if l then FILESTAT_LEGACY_SEPARATOR_CHAR else FILESTAT_SEPARATOR_CHAR_MAIN) ∉ a)
    (hbad : is_string_empty_or_whitespace a = true ∨ FILESTAT_MAX_LENGTH_OPTION < a.length) :
    ∃ res, stepLine raw h l st = .done res st ∧ res ≠ 0 := by
  by_cases hcap : line_cap (if h = true then FILESTAT_MAX_HEADER_LENGTH else 0) ≤ raw.length
  · exact ⟨_, stepLine_overflow raw h l st hcap, by decide⟩
  · have hcl : classifyLine (lineOf raw) l = .bad := by
      rw [hline] at hsk ⊢
      rw [classifyLine_split a b l hsk hsep]
      rcases hbad with hb | hb
      · have ht := (is_string_empty_or_whitespace_iff a).mp hb
        by_cases h1 : a.length = 0 ∨ a.length > FILESTAT_MAX_LENGTH_OPTION
        · rw [if_pos h1]
        · rw [if_neg h1]
          by_cases h2 : b.length > FILESTAT_MAX_LENGTH_VALUE
          · rw [if_pos h2]
          · rw [if_neg h2, if_pos ht]
      · rw [if_pos (Or.inr hb)]
    have hnh : filestat_is_line_a_legacy_header (some (lineOf raw)) = false :=
      not_legacy_header_of_separator _ l (by rw [hline]; simp)
    refine ⟨-1, ?_, by decide⟩
    unfold stepLine
    rw [if_neg hcap, hcl]
    simp [hnh]

/-! ### Replacing lines after the header -/

/-- Once a line that is neither a comment nor blank has passed, the loop is past
the header. -/
theorem runLines_past_header : ∀ (a : List (List Nat)) (h l : Bool) (st s' : filestat)
    (h' l' : Bool), runLines a h l st = .next h' l' s' →
    (h = false ∨ ∃ raw ∈ a, skippable (lineOf raw) = false) → h' = false := by
  intro a
  induction a with
  | nil =>
    intro h l st s' h' l' hr hh
    simp only [runLines, Step.next.injEq] at hr
    rcases hh with e | ⟨raw, hm, _⟩
    · rw [← hr.1]; exact e
    · simp at hm
  | cons raw a ih =>
    intro h l st s' h' l' hr hh
    rw [runLines] at hr
    cases hs : stepLine raw h l st with
    | done r s => rw [hs] at hr; simp at hr
    | next h1 l1 s1 =>
      rw [hs] at hr
      obtain ⟨e1, _⟩ := stepLine_next_flags raw h l st s1 h1 l1 hs
      refine ih h1 l1 s1 s' h' l' hr ?_
      rcases hh with e | ⟨r, hm, hsk⟩
      · left; rw [e1, e]; rfl
      · rcases List.mem_cons.mp hm with e | e
        · left; rw [e1, ← e, hsk]; simp
        · exact Or.inr ⟨r, e, hsk⟩

/-- Two pieces of whole lines that the loop, past the header, runs through in
the same way can replace one another anywhere after the header line. -/
theorem read_replace_lines (pre x y post : List Nat) (s : filestat)
    (hpre : ends_with_newline pre) (hx : ends_with_newline x) (hy : ends_with_newline y)
    (hhdr : ∃ raw ∈ splitLines pre, skippable (lineOf raw) = false)
    (hxy : ∀ l st, runLines (splitLines x) false l st = runLines (splitLines y) false l st) :
    filestat_parser_format_read (pre ++ (x ++ post)) s =
      filestat_parser_format_read (pre ++ (y ++ post)) s := by
  rw [filestat_parser_format_read_eq_lines, filestat_parser_format_read_eq_lines,
    splitLines_append pre _ hpre, splitLines_append pre _ hpre, splitLines_append x _ hx,
    splitLines_append y _ hy, processLines_append, processLines_append]
  cases hr : runLines (splitLines pre) true false s with
  | done r s' => rfl
  | next h' l' s' =>
    have e := runLines_past_header _ true false s s' h' l' hr (Or.inr hhdr)
    subst e
    simp only
    rw [processLines_append, processLines_append, hxy l' s']

theorem ends_with_newline_line (body : List Nat) (d : Nat) (hd : isnl d = true) :
    ends_with_newline (body ++ [d]) := by
  intro c hc
  simp only [List.getLast?_append, List.getLast?_singleton, Option.or_some, Option.some.injEq,
    Option.getD_some] at hc
  simpa [← hc] using hd

theorem ends_with_newline_nil : ends_with_newline [] := by
  intro c hc
  simp at hc

theorem splitLines_single (body : List Nat) (d : Nat) (hbody : ∀ c ∈ body, isnl c = false)
    (hd : isnl d = true) : splitLines (body ++ [d]) = [body ++ [d]] := by
  rw [splitLines_line body d [] hbody hd]
  rfl

theorem split_at_nul : ∀ body : List Nat, 0 ∈ body →
    ∃ p q, body = p ++ 0 :: q ∧ ∀ c ∈ p, c ≠ 0
  | [], h => by simp at h
  | c :: cs, h => by
    by_cases hc : c = 0
    · exact ⟨[], cs, by rw [hc]; rfl, by simp⟩
    · have hm : 0 ∈ cs := by
        rcases List.mem_cons.mp h with e | e
        · exact absurd e.symm hc
        · exact e
      obtain ⟨p, q, hpq, hp⟩ := split_at_nul cs hm
      refine ⟨c :: p, q, by rw [hpq]; rfl, ?_⟩
      intro x hx
      rcases List.mem_cons.mp hx with e | e
      · rw [e]; exact hc
      · exact hp x e

theorem cstr_nul : ∀ (p rest : List Nat), (∀ c ∈ p, c ≠ 0) → cstr (p ++ 0 :: rest) = p
  | [], _, _ => by simp [cstr]
  | c :: p, rest, h => by
    have hc : c ≠ 0 := h c (List.mem_cons_self _ _)
    have ih := cstr_nul p rest (fun x hx => h x (List.mem_cons_of_mem _ hx))
    unfold cstr at ih ⊢
    simp [hc, ih]

theorem filestat_clean_line_of_no_nl (p : List Nat) (hp : ∀ c ∈ p, isnl c = false) :
    filestat_clean_line p = p := by
  unfold filestat_clean_line
  cases hl : p.getLast? with
  | none => rfl
  | some c =>
    have hm : c ∈ p := List.mem_of_getLast?_eq_some hl
    have := hp c hm
    simp only [isnl, Bool.or_eq_false_iff, beq_eq_false_iff_ne, ne_eq] at this
    simp [this.1, this.2]

theorem isspace_ne_zero (c : Nat) (h : isspace c = true) : c ≠ 0 := by
  intro e
  subst e
  exact absurd h (by decide)

/-- The C string of a raw line that is a comment or blank is a comment or blank,
also when the line holds a NUL. -/
theorem skippable_lineOf (body : List Nat) (d : Nat) (hbody : ∀ c ∈ body, isnl c = false)
    (hd : isnl d = true) (hsk : skippable body = true) :
    skippable (lineOf (body ++ [d])) = true := by
  by_cases h0 : ∀ c ∈ body, c ≠ 0
  · rw [lineOf_line body d h0 hd]
    exact hsk
  · push_neg at h0
    obtain ⟨z, hz, hz0⟩ := h0
    subst hz0
    obtain ⟨p, q, hpq, hp⟩ := split_at_nul body hz
    have hline : lineOf (body ++ [d]) = p := by
      unfold lineOf
      rw [hpq, List.append_assoc, List.cons_append, cstr_nul p _ hp]
      exact filestat_clean_line_of_no_nl p
        (fun c hc => hbody c (by rw [hpq]; exact List.mem_append_left _ hc))
    rw [hline]
    simp only [skippable, Bool.or_eq_true] at hsk ⊢
    rcases hsk with hcom | hws
    · left
      by_cases hall : ∀ c ∈ p, isspace c = true
      · rw [hpq] at hcom
        unfold is_string_a_comment at hcom
        rw [dropWhile_all_append isspace p _ hall] at hcom
        exact absurd hcom (by simp [isspace, FILESTAT_COMMENT_CHAR_1, FILESTAT_COMMENT_CHAR_2])
      · have hne : p.dropWhile isspace ≠ [] := by
          intro e
          rw [List.dropWhile_eq_nil_iff] at e
          exact hall e
        have hd' : (p ++ 0 :: q).dropWhile isspace = p.dropWhile isspace ++ 0 :: q := by
          rw [List.dropWhile_append]
          simp [hne]
        rw [hpq] at hcom
        unfold is_string_a_comment at hcom ⊢
        rw [hd'] at hcom
        cases hdw : p.dropWhile isspace with
        | nil => exact absurd hdw hne
        | cons c t =>
          rw [hdw] at hcom
          simpa using hcom
    · have hall := (trim_string_eq_nil_iff body).mp
        ((is_string_empty_or_whitespace_iff body).mp hws)
      exact absurd rfl (isspace_ne_zero 0 (hall 0 hz))

/-! ### C28: comment and blank lines after the header -/

/-- C28 (comments and blank lines after the header are free). For every content
`pre ++ post` cut at a line boundary after its header line (its first line that
is neither a comment nor blank), every skeleton and every line `body ++ [d]`
(shorter than 2^63 bytes, as every stream is) whose text is blank, white space
only, or starts after white space with `#` or `;`: inserting the line at the
boundary does not change the outcome of `filestat_parser_format_read`. -/
theorem comment_lines_after_header_free (pre body post : List Nat) (d : Nat) (s : filestat)
    (hpre : ends_with_newline pre)
    (hhdr : ∃ raw ∈ splitLines pre, skippable (lineOf raw) = false)
    (hbody : ∀ c ∈ body, isnl c = false) (hd : isnl d = true)
    (hfree : is_string_a_comment body = true ∨ is_string_empty_or_whitespace body = true)
    (hlen : (body ++ [d]).length < 2 ^ 63) :
    filestat_parser_format_read (pre ++ ((body ++ [d]) ++ post)) s =
      filestat_parser_format_read (pre ++ post) s := by
  have hsk : skippable (lineOf (body ++ [d])) = true :=
    skippable_lineOf body d hbody hd (by simpa [skippable] using hfree)
  have hcap : ¬ line_cap (if false = true then FILESTAT_MAX_HEADER_LENGTH else 0) ≤
      (body ++ [d]).length := by
    have : line_cap 0 = 2 ^ 63 := by decide
    simp only [Bool.false_eq_true, if_false, this]
    omega
  have h := read_replace_lines pre (body ++ [d]) [] post s hpre
    (ends_with_newline_line body d hd) ends_with_newline_nil hhdr
    (fun l st => by
      rw [splitLines_single body d hbody hd]
      simp only [runLines, stepLine_skip (body ++ [d]) false l st hcap hsk])
  simpa using h

theorem comment_lines_after_header_free_witness :
    ends_with_newline (bytes "CatalogFS=3\nsize=1\n") ∧
    (∃ raw ∈ splitLines (bytes "CatalogFS=3\nsize=1\n"), skippable (lineOf raw) = false) ∧
    (∀ c ∈ bytes "  ; any text = here", isnl c = false) ∧ isnl 10 = true ∧
    (is_string_a_comment (bytes "  ; any text = here") = true ∨
      is_string_empty_or_whitespace (bytes "  ; any text = here") = true) ∧
    filestat_parser_format_read
        (bytes "CatalogFS=3\nsize=1\n" ++ ((bytes "  ; any text = here" ++ [10]) ++
          bytes "mode=33188\n")) sample_skeleton =
      filestat_parser_format_read (bytes "CatalogFS=3\nsize=1\n" ++ bytes "mode=33188\n")
        sample_skeleton :=
  have h1 : ends_with_newline (bytes "CatalogFS=3\nsize=1\n") := by
    intro c hc
    have : (bytes "CatalogFS=3\nsize=1\n").getLast? = some 10 := by decide
    rw [this] at hc
    rw [← Option.some.inj hc]
    decide
  have h2 : ∃ raw ∈ splitLines (bytes "CatalogFS=3\nsize=1\n"), skippable (lineOf raw) = false :=
    ⟨bytes "CatalogFS=3\n", by decide, by decide⟩
  ⟨h1, h2, by decide, by decide, Or.inl (by decide),
    comment_lines_after_header_free (bytes "CatalogFS=3\nsize=1\n") (bytes "  ; any text = here")
      (bytes "mode=33188\n") 10 sample_skeleton h1 h2 (by decide) (by decide)
      (Or.inl (by decide)) (by decide)⟩

/-! ### C30: the key part of a line -/

theorem check_results_of_nonneg (r : filestat) (h : r.signedNonneg) :
    filestat_check_results r = 0 := by
  obtain ⟨n1, n2, n3, n4, n5, n6, n7, n8, n9⟩ := h
  simp [filestat_check_results, not_lt.mpr n1, not_lt.mpr n2, not_lt.mpr n3, not_lt.mpr n4,
    not_lt.mpr n5, not_lt.mpr n6, not_lt.mpr n7, not_lt.mpr n8, not_lt.mpr n9]

theorem loop_rejects_bad_key (fuel : Nat) (fp : List Nat) (h l : Bool) (st : filestat)
    (a b : List Nat) (hf : fp.length < fuel)
    (hline : lineOf (nextLine fp).1 =
      a ++ (if l then FILESTAT_LEGACY_SEPARATOR_CHAR else FILESTAT_SEPARATOR_CHAR_MAIN) :: b)
    (hsep : (if l then FILESTAT_LEGACY_SEPARATOR_CHAR else FILESTAT_SEPARATOR_CHAR_MAIN) ∉ a)
    (hsk : skippable
      (a ++ (if l then FILESTAT_LEGACY_SEPARATOR_CHAR else FILESTAT_SEPARATOR_CHAR_MAIN) :: b)
      = false)
    (hbad : is_string_empty_or_whitespace a = true ∨ FILESTAT_MAX_LENGTH_OPTION < a.length) :
    ∃ res st', filestat_read_loop fuel fp h l st = some (res, st') ∧ res ≠ 0 := by
  rw [read_loop_eq_lines fp.length fp fuel h l st (le_refl _) hf]
  cases fp with
  | nil =>
    have h0 : lineOf (nextLine []).1 = [] := by decide
    rw [h0] at hline
    exact absurd hline (by simp)
  | cons c cs =>
    rw [nextLine_splitLines]
    obtain ⟨res, hs, hres⟩ := stepLine_bad_key (nextLine (c :: cs)).1 h l st a b hline
      (by rw [hline]; exact hsk) hsep hbad
    exact ⟨res, st, congrArg some (processLines_cons_done _ _ _ _ _ _ _ hs), hres⟩

/-- A data line met past the header whose key part has at most 1024 bytes and
trims to a key that is not recognized (nor a legacy terminator) and whose value
part has at most 1048576 bytes changes nothing. -/
theorem stepLine_unknown_key (line : List Nat) (d : Nat) (l : Bool) (st : filestat)
    (a b : List Nat) (hfp : line.length + 1 < 2 ^ 63)
    (hl : ∀ c ∈ line, c ≠ 0) (hd : isnl d = true)
    (hline : line =
      a ++ (if l then FILESTAT_LEGACY_SEPARATOR_CHAR else FILESTAT_SEPARATOR_CHAR_MAIN) :: b)
    (hsep : (if l then FILESTAT_LEGACY_SEPARATOR_CHAR else FILESTAT_SEPARATOR_CHAR_MAIN) ∉ a)
    (hsk : skippable line = false)
    (ha : a.length ≤ FILESTAT_MAX_LENGTH_OPTION) (hb : b.length ≤ FILESTAT_MAX_LENGTH_VALUE)
    (hne : is_string_empty_or_whitespace a = false)
    (hk : trim_string a ∉ recognized_keys)
    (ht : ¬ (l = true ∧ filestat_is_option_a_legacy_terminal_one (trim_string a) = true)) :
    stepLine (line ++ [d]) false l st = .next false l st := by
  have htr : trim_string a ≠ [] := by
    intro e
    rw [(is_string_empty_or_whitespace_iff a).mpr e] at hne
    exact absurd hne (by decide)
  have ha0 : a.length ≠ 0 := by
    intro e
    have : a = [] := List.length_eq_zero.mp e
    subst this
    exact htr (by decide)
  have hcl : classifyLine (lineOf (line ++ [d])) l = .pair (trim_string a) (trim_string b) := by
    rw [lineOf_line line d hl hd, hline]
    rw [hline] at hsk
    rw [classifyLine_split a b l hsk hsep, if_neg (by simp [ha0, not_lt.mpr ha]),
      if_neg (not_lt.mpr hb), if_neg htr]
  have hcap : (line ++ [d]).length < line_cap 0 := by
    have : line_cap 0 = 2 ^ 63 := by decide
    rw [this]
    simp only [List.length_append, List.length_cons, List.length_nil]
    omega
  exact stepLine_unknown (line ++ [d]) l st _ _ hcap hcl hk ht

theorem loop_ignores_unknown_key (fuel : Nat) (line rest : List Nat) (d : Nat) (l : Bool)
    (st : filestat) (a b : List Nat) (hf : (line ++ d :: rest).length < fuel)
    (hfp : line.length + 1 < 2 ^ 63)
    (hl : ∀ c ∈ line, isnl c = false ∧ c ≠ 0) (hd : isnl d = true)
    (hline : line =
      a ++ (if l then FILESTAT_LEGACY_SEPARATOR_CHAR else FILESTAT_SEPARATOR_CHAR_MAIN) :: b)
    (hsep : (if l then FILESTAT_LEGACY_SEPARATOR_CHAR else FILESTAT_SEPARATOR_CHAR_MAIN) ∉ a)
    (hsk : skippable line = false)
    (ha : a.length ≤ FILESTAT_MAX_LENGTH_OPTION) (hb : b.length ≤ FILESTAT_MAX_LENGTH_VALUE)
    (hne : is_string_empty_or_whitespace a = false)
    (hk : trim_string a ∉ recognized_keys)
    (ht : ¬ (l = true ∧ filestat_is_option_a_legacy_terminal_one (trim_string a) = true)) :
    filestat_read_loop fuel (line ++ d :: rest) false l st =
      filestat_read_loop fuel rest false l st := by
  have hlen : (line ++ d :: rest).length = line.length + rest.length + 1 := by
    simp only [List.length_append, List.length_cons]
    omega
  rw [read_loop_eq_lines _ _ fuel false l st (le_refl _) hf,
    read_loop_eq_lines _ _ fuel false l st (le_refl _) (by omega),
    splitLines_line line d rest (fun c hc => (hl c hc).1) hd,
    processLines_cons_next _ _ _ _ _ _ _ _
      (stepLine_unknown_key line d l st a b hfp (fun c hc => (hl c hc).2) hd hline hsep hsk ha hb
        hne hk ht)]

theorem read_after_header_lines (rest : List Nat) (s : filestat) :
    filestat_parser_format_read (bytes "CatalogFS=3\n" ++ rest) s =
      some (processLines (splitLines rest) false false s) := by
  rw [read_after_header, read_loop_eq_lines rest.length rest _ false false s (le_refl _)
    (by omega)]

/-- A line that starts, after white space, with a byte that is neither white
space nor a comment character is neither a comment nor blank. -/
theorem skippable_pad (w : List Nat) (c : Nat) (t : List Nat)
    (hw : ∀ x ∈ w, isspace x = true) (hc : isspace c = false)
    (hc1 : c ≠ FILESTAT_COMMENT_CHAR_1) (hc2 : c ≠ FILESTAT_COMMENT_CHAR_2) :
    skippable (w ++ c :: t) = false := by
  have hcom : is_string_a_comment (w ++ c :: t) = false := by
    unfold is_string_a_comment
    rw [dropWhile_all_append isspace w _ hw, List.dropWhile_cons_of_neg (by simp [hc])]
    simp [hc1, hc2]
  have hws : is_string_empty_or_whitespace (w ++ c :: t) = false := by
    cases hh : is_string_empty_or_whitespace (w ++ c :: t) with
    | false => rfl
    | true =>
      have := (trim_string_eq_nil_iff _).mp ((is_string_empty_or_whitespace_iff _).mp hh) c
        (by simp)
      rw [hc] at this
      exact absurd this (by decide)
  simp [skippable, hcom, hws]

/-- After the header, a whole line that the loop steps over can be left out. -/
theorem read_skips_line_after_header (line rest : List Nat) (d : Nat) (s : filestat)
    (hl : ∀ c ∈ line, isnl c = false) (hd : isnl d = true)
    (hstep : stepLine (line ++ [d]) false false s = .next false false s) :
    filestat_parser_format_read (bytes "CatalogFS=3\n" ++ (line ++ d :: rest)) s =
      filestat_parser_format_read (bytes "CatalogFS=3\n" ++ rest) s := by
  rw [read_after_header_lines, read_after_header_lines, splitLines_line line d rest hl hd,
    processLines_cons_next _ _ _ _ _ _ _ _ hstep]

/-- After the header, a whole line on which the loop returns an error makes the
read fail. -/
theorem read_fails_at_line_after_header (line rest : List Nat) (d : Nat) (s : filestat)
    (hl : ∀ c ∈ line, isnl c = false) (hd : isnl d = true)
    (hstep : ∃ res, stepLine (line ++ [d]) false false s = .done res s ∧ res ≠ 0) :
    ∃ res st', filestat_parser_format_read (bytes "CatalogFS=3\n" ++ (line ++ d :: rest)) s =
      some (res, st') ∧ res ≠ 0 := by
  obtain ⟨res, hs, hres⟩ := hstep
  rw [read_after_header_lines, splitLines_line line d rest hl hd]
  exact ⟨res, s, congrArg some (processLines_cons_done _ _ _ _ _ _ _ hs), hres⟩

theorem recognized_keys_short : ∀ k ∈ recognized_keys, k.length ≤ 9 := by decide

theorem xkey_line_facts (n : Nat) (hn : 0 < n) :
    (∀ c ∈ List.replicate n 120, isspace c = false) ∧
    (∀ c ∈ List.replicate n 120 ++ bytes "=1", c ≠ 0) ∧
    (∀ c ∈ List.replicate n 120 ++ bytes "=1", isnl c = false) ∧
    FILESTAT_SEPARATOR_CHAR_MAIN ∉ List.replicate n 120 ∧
    skippable (List.replicate n 120 ++ FILESTAT_SEPARATOR_CHAR_MAIN :: bytes "1") = false ∧
    List.replicate n 120 ++ bytes "=1" =
      List.replicate n 120 ++ FILESTAT_SEPARATOR_CHAR_MAIN :: bytes "1" := by
  have h61 : bytes "=1" = FILESTAT_SEPARATOR_CHAR_MAIN :: bytes "1" := by decide
  have hx : ∀ c ∈ List.replicate n 120, c = 120 := fun c hc => List.eq_of_mem_replicate hc
  have hb : ∀ c ∈ bytes "=1", c ≠ 0 ∧ isnl c = false := by decide
  refine ⟨?_, ?_, ?_, ?_, ?_, by rw [h61]⟩
  · intro c hc
    rw [hx c hc]
    decide
  · intro c hc
    rcases List.mem_append.mp hc with h | h
    · rw [hx c h]
      decide
    · exact (hb c h).1
  · intro c hc
    rcases List.mem_append.mp hc with h | h
    · rw [hx c h]
      decide
    · exact (hb c h).2
  · intro hm
    exact absurd (hx _ hm) (by decide)
  · obtain ⟨m, rfl⟩ : ∃ m, n = m + 1 := ⟨n - 1, by omega⟩
    rw [List.replicate_succ, List.cons_append]
    exact skippable_pad [] 120 _ (fun _ h => absurd h (List.not_mem_nil _)) (by decide)
      (by decide) (by decide)

/-- A key part of `n` bytes `x`, for `10 ≤ n ≤ 1024`, is an unknown key: the
line `x...x=1` changes nothing. -/
theorem step_unknown_x_key (n : Nat) (st : filestat) (h1 : 10 ≤ n) (h2 : n ≤ 1024) :
    stepLine ((List.replicate n 120 ++ bytes "=1") ++ [10]) false false st =
      .next false false st := by
  obtain ⟨f1, f2, _, f4, f5, f6⟩ := xkey_line_facts n (by omega)
  have hb : (bytes "1").length ≤ FILESTAT_MAX_LENGTH_VALUE := by decide
  have hlen : (List.replicate n 120 ++ bytes "=1").length + 1 < 2 ^ 63 := by
    have : (bytes "=1").length = 2 := by decide
    rw [List.length_append, List.length_replicate, this]
    omega
  refine stepLine_unknown_key _ 10 false st (List.replicate n 120) (bytes "1") hlen f2
    (by decide) f6 f4 (by rw [f6]; exact f5)
    (by rw [List.length_replicate]; exact h2) hb ?_ ?_ (fun h => absurd h.1 (by decide))
  · cases hh : is_string_empty_or_whitespace (List.replicate n 120) with
    | false => rfl
    | true =>
      have hall := (trim_string_eq_nil_iff _).mp ((is_string_empty_or_whitespace_iff _).mp hh)
      have hm : 120 ∈ List.replicate n 120 := List.mem_replicate.mpr ⟨by omega, rfl⟩
      exact absurd (hall 120 hm) (by decide)
  · rw [trim_string_of_no_space _ f1]
    intro hm
    have := recognized_keys_short _ hm
    rw [List.length_replicate] at this
    omega

/-- A key part of more than 1024 bytes `x` makes the loop return an error. -/
theorem step_long_x_key (n : Nat) (st : filestat) (h1 : 1024 < n) :
    ∃ res, stepLine ((List.replicate n 120 ++ bytes "=1") ++ [10]) false false st =
      .done res st ∧ res ≠ 0 := by
  obtain ⟨_, f2, _, f4, f5, f6⟩ := xkey_line_facts n (by omega)
  have hline : lineOf ((List.replicate n 120 ++ bytes "=1") ++ [10]) =
      List.replicate n 120 ++ (if false = true then FILESTAT_LEGACY_SEPARATOR_CHAR
        else FILESTAT_SEPARATOR_CHAR_MAIN) :: bytes "1" := by
    rw [lineOf_line _ 10 f2 (by decide), f6]
    rfl
  exact stepLine_bad_key _ false false st (List.replicate n 120) (bytes "1") hline
    (by rw [hline]; exact f5) f4
    (Or.inr (by rw [List.length_replicate]; exact h1))

/-- The header line alone is read with success, the skeleton being left as it
is, when the nine signed fields of the skeleton are not negative. -/
theorem read_header_only (s : filestat) (hs : s.signedNonneg) :
    filestat_parser_format_read (bytes "CatalogFS=3\n") s = some (0, s) := by
  have h := read_after_header_lines [] s
  rw [List.append_nil] at h
  rw [h]
  show some (filestat_check_results s, s) = some (0, s)
  rw [check_results_of_nonneg s hs]

/-- C30 (key validity). Whatever the state of the read loop, when the next line
it meets is neither a comment nor blank and the text before its first separator
is empty, white space only, or longer than 1024 bytes, the read fails; so do
the lines `=5`, `  =5` and a key of 1025 bytes `x` after the header. Past the
header, a line whose key part has at most 1024 bytes and trims to a key that is
not recognized (nor a legacy terminator), with a value part of at most 1048576
bytes, is stepped over: so are a key of exactly 1024 bytes `x` and `future=`
(empty value). Such a line is accepted: a sidecar made of the header and that
line is read with return value 0 and the skeleton unchanged, for every skeleton
whose nine signed fields are not negative; with the 1024-byte key or `future=`
the sample skeleton is read with return value 0, and a `size=5` line after
either of them is still read. -/
theorem key_validity :
    (∀ (fuel : Nat) (fp : List Nat) (h l : Bool) (st : filestat) (a b : List Nat),
      fp.length < fuel →
      lineOf (nextLine fp).1 =
        a ++ (if l then FILESTAT_LEGACY_SEPARATOR_CHAR else FILESTAT_SEPARATOR_CHAR_MAIN) :: b →
      (if l then FILESTAT_LEGACY_SEPARATOR_CHAR else FILESTAT_SEPARATOR_CHAR_MAIN) ∉ a →
      skippable
        (a ++ (if l then FILESTAT_LEGACY_SEPARATOR_CHAR else FILESTAT_SEPARATOR_CHAR_MAIN) :: b)
        = false →
      (is_string_empty_or_whitespace a = true ∨ FILESTAT_MAX_LENGTH_OPTION < a.length) →
      ∃ res st', filestat_read_loop fuel fp h l st = some (res, st') ∧ res ≠ 0) ∧
    (∀ (s : filestat) (rest : List Nat),
      ∀ line ∈ [bytes "=5", bytes "  =5", List.replicate 1025 120 ++ bytes "=1"],
        ∃ res st', filestat_parser_format_read (bytes "CatalogFS=3\n" ++ (line ++ 10 :: rest)) s =
          some (res, st') ∧ res ≠ 0) ∧
    (∀ (fuel : Nat) (line rest : List Nat) (d : Nat) (l : Bool) (st : filestat) (a b : List Nat),
      (line ++ d :: rest).length < fuel → line.length + 1 < 2 ^ 63 →
      (∀ c ∈ line, isnl c = false ∧ c ≠ 0) → isnl d = true →
      line =
        a ++ (if l then FILESTAT_LEGACY_SEPARATOR_CHAR else FILESTAT_SEPARATOR_CHAR_MAIN) :: b →
      (if l then FILESTAT_LEGACY_SEPARATOR_CHAR else FILESTAT_SEPARATOR_CHAR_MAIN) ∉ a →
      skippable line = false →
      a.length ≤ FILESTAT_MAX_LENGTH_OPTION → b.length ≤ FILESTAT_MAX_LENGTH_VALUE →
      is_string_empty_or_whitespace a = false →
      trim_string a ∉ recognized_keys →
      ¬ (l = true ∧ filestat_is_option_a_legacy_terminal_one (trim_string a) = true) →
      filestat_read_loop fuel (line ++ d :: rest) false l st =
        filestat_read_loop fuel rest false l st) ∧
    (∀ (s : filestat) (rest : List Nat),
      ∀ line ∈ [List.replicate 1024 120 ++ bytes "=1", bytes "future="],
        filestat_parser_format_read (bytes "CatalogFS=3\n" ++ (line ++ 10 :: rest)) s =
          filestat_parser_format_read (bytes "CatalogFS=3\n" ++ rest) s) ∧
    (∀ (line : List Nat) (d : Nat) (s : filestat) (a b : List Nat),
      line.length + 1 < 2 ^ 63 →
      (∀ c ∈ line, isnl c = false ∧ c ≠ 0) → isnl d = true →
      line = a ++ FILESTAT_SEPARATOR_CHAR_MAIN :: b →
      FILESTAT_SEPARATOR_CHAR_MAIN ∉ a →
      skippable line = false →
      a.length ≤ FILESTAT_MAX_LENGTH_OPTION → b.length ≤ FILESTAT_MAX_LENGTH_VALUE →
      is_string_empty_or_whitespace a = false →
      trim_string a ∉ recognized_keys →
      s.signedNonneg →
      filestat_parser_format_read (bytes "CatalogFS=3\n" ++ (line ++ [d])) s = some (0, s)) ∧
    ((List.replicate 1024 120).length = FILESTAT_MAX_LENGTH_OPTION ∧
      ∀ line ∈ [List.replicate 1024 120 ++ bytes "=1", bytes "future="],
        filestat_parser_format_read (bytes "CatalogFS=3\n" ++ (line ++ [10])) sample_skeleton =
          some (0, sample_skeleton) ∧
        filestat_parser_format_read (bytes "CatalogFS=3\n" ++ (line ++ 10 :: bytes "size=5\n"))
          sample_skeleton = some (0, { sample_skeleton with size := 5 })) := by
  have hsk : sample_skeleton.signedNonneg := by
    unfold filestat.signedNonneg sample_skeleton
    decide
  have hsize : filestat_parser_format_read (bytes "CatalogFS=3\n" ++ bytes "size=5\n")
      sample_skeleton = some (0, { sample_skeleton with size := 5 }) := by decide
  have hx : stepLine ((List.replicate 1024 120 ++ bytes "=1") ++ [10]) false false
      sample_skeleton = .next false false sample_skeleton :=
    step_unknown_x_key 1024 sample_skeleton (by decide) (by decide)
  have hfut : ∀ s : filestat, stepLine (bytes "future=" ++ [10]) false false s =
      .next false false s := fun s =>
    stepLine_unknown_key (bytes "future=") 10 false s (bytes "future") [] (by decide)
      (by decide) (by decide) (by decide) (by decide) (by decide) (by decide) (by decide)
      (by decide) (by decide) (fun h => absurd h.1 (by decide))
  refine ⟨loop_rejects_bad_key, ?_, loop_ignores_unknown_key, ?_, ?_, ?_, ?_⟩
  · intro s rest line hline
    simp only [List.mem_cons, List.mem_singleton, List.not_mem_nil, or_false] at hline
    rcases hline with e | e | e <;> subst e
    · exact read_fails_at_line_after_header _ rest 10 s (by decide) (by decide)
        (stepLine_bad_key _ false false s [] (bytes "5") (by decide) (by decide) (by decide)
          (Or.inl (by decide)))
    · exact read_fails_at_line_after_header _ rest 10 s (by decide) (by decide)
        (stepLine_bad_key _ false false s (bytes "  ") (bytes "5") (by decide) (by decide)
          (by decide) (Or.inl (by decide)))
    · exact read_fails_at_line_after_header _ rest 10 s
        (xkey_line_facts 1025 (by decide)).2.2.1 (by decide)
        (step_long_x_key 1025 s (by decide))
  · intro s rest line hline
    simp only [List.mem_cons, List.mem_singleton, List.not_mem_nil, or_false] at hline
    rcases hline with e | e <;> subst e
    · exact read_skips_line_after_header _ rest 10 s
        (xkey_line_facts 1024 (by decide)).2.2.1 (by decide)
        (step_unknown_x_key 1024 s (by decide) (by decide))
    · exact read_skips_line_after_header _ rest 10 s (by decide) (by decide) (hfut s)
  · intro line d s a b hlen hl hd hline hsep hskip ha hb hne hk hs
    have hstep : stepLine (line ++ [d]) false false s = .next false false s :=
      stepLine_unknown_key line d false s a b hlen (fun c hc => (hl c hc).2) hd hline hsep hskip
        ha hb hne hk (fun h => absurd h.1 (by decide))
    have h1 := read_skips_line_after_header line [] d s (fun c hc => (hl c hc).1) hd hstep
    rw [List.append_nil] at h1
    rw [h1]
    exact read_header_only s hs
  · rw [List.length_replicate]
    rfl
  · intro line hline
    simp only [List.mem_cons, List.mem_singleton, List.not_mem_nil, or_false] at hline
    rcases hline with e | e <;> subst e
    · constructor
      · have h1 := read_skips_line_after_header _ [] 10 sample_skeleton
          (xkey_line_facts 1024 (by decide)).2.2.1 (by decide) hx
        rw [List.append_nil] at h1
        rw [h1]
        exact read_header_only sample_skeleton hsk
      · rw [read_skips_line_after_header _ (bytes "size=5\n") 10 sample_skeleton
          (xkey_line_facts 1024 (by decide)).2.2.1 (by decide) hx]
        exact hsize
    · constructor
      · have h1 := read_skips_line_after_header (bytes "future=") [] 10 sample_skeleton
          (by decide) (by decide) (hfut sample_skeleton)
        rw [List.append_nil] at h1
        rw [h1]
        exact read_header_only sample_skeleton hsk
      · rw [read_skips_line_after_header (bytes "future=") (bytes "size=5\n") 10 sample_skeleton
          (by decide) (by decide) (hfut sample_skeleton)]
        exact hsize

theorem key_validity_witness :
    ((bytes " =5\nsize=1\n").length < 20 ∧
      lineOf (nextLine (bytes " =5\nsize=1\n")).1 =
        bytes " " ++ (if false = true then FILESTAT_LEGACY_SEPARATOR_CHAR
          else FILESTAT_SEPARATOR_CHAR_MAIN) :: bytes "5" ∧
      is_string_empty_or_whitespace (bytes " ") = true ∧
      ∃ res st', filestat_read_loop 20 (bytes " =5\nsize=1\n") false false sample_skeleton =
        some (res, st') ∧ res ≠ 0) ∧
    (bytes "future=" = bytes "future" ++ FILESTAT_SEPARATOR_CHAR_MAIN :: [] ∧
      skippable (bytes "future=") = false ∧
      trim_string (bytes "future") ∉ recognized_keys ∧
      sample_skeleton.signedNonneg ∧
      filestat_parser_format_read (bytes "CatalogFS=3\n" ++ (bytes "future=" ++ [10]))
        sample_skeleton = some (0, sample_skeleton)) :=
  have hsk : sample_skeleton.signedNonneg := by
    unfold filestat.signedNonneg sample_skeleton
    decide
  ⟨⟨by decide, by decide, by decide,
    key_validity.1 20 (bytes " =5\nsize=1\n") false false sample_skeleton (bytes " ") (bytes "5")
      (by decide) (by decide) (by decide) (by decide) (Or.inl (by decide))⟩,
    ⟨by decide, by decide, by decide, hsk,
      key_validity.2.2.2.2.1 (bytes "future=") 10 sample_skeleton (bytes "future") []
        (by decide) (by decide) (by decide) (by decide) (by decide) (by decide) (by decide)
        (by decide) (by decide) (by decide) hsk⟩⟩

/-! ### C29: split at the first separator, both sides trimmed -/

theorem blank_run_chars (w : List Nat) (hw : is_blank_run w) :
    ∀ c ∈ w, isspace c = true ∧ c ≠ 0 ∧ isnl c = false ∧ c ≠ 61 ∧ c ≠ 58 := by
  intro c hc
  rcases hw c hc with e | e <;> subst e <;> decide

theorem recognized_key_chars : ∀ k ∈ recognized_keys,
    k ≠ [] ∧ ∀ c ∈ k, isspace c = false ∧ c ≠ 0 ∧ isnl c = false ∧ c ≠ 61 ∧ c ≠ 58 ∧
      c ≠ 35 ∧ c ≠ 59 := by
  decide

theorem isdigit_chars (c : Nat) (h : isdigit c = true ∨ c = 45 ∨ c = 43) :
    isspace c = false ∧ c ≠ 0 ∧ isnl c = false ∧ c ≠ 61 ∧ c ≠ 58 ∧ c ≠ 35 ∧ c ≠ 59 := by
  rcases h with h | h | h
  · simp only [isdigit, Bool.and_eq_true, decide_eq_true_eq] at h
    simp only [isspace, isnl, FILESTAT_NEWLINE_CHAR_1, FILESTAT_NEWLINE_CHAR_2, Bool.or_eq_false_iff,
      beq_eq_false_iff_ne, ne_eq, Bool.and_eq_false_imp, decide_eq_true_eq, decide_eq_false_iff_not]
    omega
  · subst h; decide
  · subst h; decide

theorem decimal_chars (v : List Nat) (hv : is_decimal_integer v = true) :
    v ≠ [] ∧ ∀ c ∈ v, isspace c = false ∧ c ≠ 0 ∧ isnl c = false ∧ c ≠ 61 ∧ c ≠ 58 ∧
      c ≠ 35 ∧ c ≠ 59 := by
  cases v with
  | nil => exact absurd hv (by decide)
  | cons c t =>
    refine ⟨by simp, ?_⟩
    intro x hx
    apply isdigit_chars
    unfold is_decimal_integer at hv
    by_cases hs : (c == 45 || c == 43) = true
    · simp only [hs, if_true, Bool.and_eq_true, List.all_eq_true] at hv
      rcases List.mem_cons.mp hx with e | e
      · subst e
        simp only [Bool.or_eq_true, beq_iff_eq] at hs
        exact Or.inr hs
      · exact Or.inl (hv.2 x e)
    · simp only [hs, Bool.false_eq_true, if_false, List.all_eq_true] at hv
      exact Or.inl (hv x hx)

/-- What the loop does, past the header, on the line `w1 k w2 = w3 v w4`: in the
current format it processes the pair `k`, `v`; in legacy mode it rejects the
line, which holds no `:`. The runs of blanks play no part. -/
theorem stepLine_spaced (k v w1 w2 w3 w4 : List Nat) (l : Bool) (st : filestat)
    (hk : k ∈ recognized_keys) (hv : is_decimal_integer v = true)
    (h1 : is_blank_run w1) (h2 : is_blank_run w2) (h3 : is_blank_run w3) (h4 : is_blank_run w4)
    (ha : (w1 ++ k ++ w2).length ≤ FILESTAT_MAX_LENGTH_OPTION)
    (hb : (w3 ++ v ++ w4).length ≤ FILESTAT_MAX_LENGTH_VALUE) :
    stepLine ((w1 ++ k ++ w2 ++ FILESTAT_SEPARATOR_CHAR_MAIN :: (w3 ++ v ++ w4)) ++ [10])
        false l st =
      if l = true then .done (-1) st
      else if (filestat_process_option_pair k v st).1 ≠ 0 then
        .done (-EPERM) (filestat_process_option_pair k v st).2
      else .next false false (filestat_process_option_pair k v st).2 := by
  obtain ⟨hkne, hkc⟩ := recognized_key_chars k hk
  obtain ⟨hvne, hvc⟩ := decimal_chars v hv
  have c1 := blank_run_chars w1 h1
  have c2 := blank_run_chars w2 h2
  have c3 := blank_run_chars w3 h3
  have c4 := blank_run_chars w4 h4
  have hac : ∀ c ∈ w1 ++ k ++ w2, c ≠ 0 ∧ c ≠ 61 ∧ c ≠ 58 := by
    intro c hc
    simp only [List.mem_append] at hc
    rcases hc with (h | h) | h
    · exact ⟨(c1 c h).2.1, (c1 c h).2.2.2.1, (c1 c h).2.2.2.2⟩
    · exact ⟨(hkc c h).2.1, (hkc c h).2.2.2.1, (hkc c h).2.2.2.2.1⟩
    · exact ⟨(c2 c h).2.1, (c2 c h).2.2.2.1, (c2 c h).2.2.2.2⟩
  have hbc : ∀ c ∈ w3 ++ v ++ w4, c ≠ 0 ∧ c ≠ 61 ∧ c ≠ 58 := by
    intro c hc
    simp only [List.mem_append] at hc
    rcases hc with (h | h) | h
    · exact ⟨(c3 c h).2.1, (c3 c h).2.2.2.1, (c3 c h).2.2.2.2⟩
    · exact ⟨(hvc c h).2.1, (hvc c h).2.2.2.1, (hvc c h).2.2.2.2.1⟩
    · exact ⟨(c4 c h).2.1, (c4 c h).2.2.2.1, (c4 c h).2.2.2.2⟩
  have h0 : ∀ c ∈ w1 ++ k ++ w2 ++ FILESTAT_SEPARATOR_CHAR_MAIN :: (w3 ++ v ++ w4), c ≠ 0 := by
    intro c hc
    rcases List.mem_append.mp hc with h | h
    · exact (hac c h).1
    · rcases List.mem_cons.mp h with e | e
      · rw [e]; decide
      · exact (hbc c e).1
  have hline := lineOf_line _ 10 h0 (by decide)
  have hsk : skippable (w1 ++ k ++ w2 ++ FILESTAT_SEPARATOR_CHAR_MAIN :: (w3 ++ v ++ w4)) =
      false := by
    cases k with
    | nil => exact absurd rfl hkne
    | cons c ks =>
      have hc := hkc c (List.mem_cons_self _ _)
      have e : w1 ++ c :: ks ++ w2 ++ FILESTAT_SEPARATOR_CHAR_MAIN :: (w3 ++ v ++ w4) =
          w1 ++ c :: (ks ++ w2 ++ FILESTAT_SEPARATOR_CHAR_MAIN :: (w3 ++ v ++ w4)) := by
        simp only [List.append_assoc, List.cons_append]
      rw [e]
      exact skippable_pad w1 c _ (fun x hx => (c1 x hx).1) hc.1 hc.2.2.2.2.2.1 hc.2.2.2.2.2.2
  have hcap : ((w1 ++ k ++ w2 ++ FILESTAT_SEPARATOR_CHAR_MAIN :: (w3 ++ v ++ w4)) ++ [10]).length <
      line_cap 0 := by
    have hc0 : line_cap 0 = 2 ^ 63 := by decide
    have e : ((w1 ++ k ++ w2 ++ FILESTAT_SEPARATOR_CHAR_MAIN :: (w3 ++ v ++ w4)) ++ [10]).length =
        (w1 ++ k ++ w2).length + (w3 ++ v ++ w4).length + 2 := by
      simp only [List.length_append, List.length_cons, List.length_nil]
      omega
    rw [hc0, e]
    simp only [FILESTAT_MAX_LENGTH_OPTION, FILESTAT_MAX_LENGTH_VALUE] at ha hb
    omega
  cases l with
  | false =>
    have ht1 : trim_string (w1 ++ k ++ w2) = k :=
      trim_string_pad w1 w2 k (fun x hx => (c1 x hx).1) (fun x hx => (c2 x hx).1)
        (trim_string_of_no_space k (fun x hx => (hkc x hx).1)) hkne
    have ht2 : trim_string (w3 ++ v ++ w4) = v :=
      trim_string_pad w3 w4 v (fun x hx => (c3 x hx).1) (fun x hx => (c4 x hx).1)
        (trim_string_of_no_space v (fun x hx => (hvc x hx).1)) hvne
    have hcl : classifyLine
        (lineOf ((w1 ++ k ++ w2 ++ FILESTAT_SEPARATOR_CHAR_MAIN :: (w3 ++ v ++ w4)) ++ [10]))
        false = .pair k v := by
      rw [hline]
      have := classifyLine_split (w1 ++ k ++ w2) (w3 ++ v ++ w4) false hsk
        (fun hm => (hac _ hm).2.1 rfl)
      simp only [Bool.false_eq_true, if_false] at this
      rw [this, ht1, ht2]
      have hlen0 : (w1 ++ k ++ w2).length ≠ 0 := by
        intro e
        have : w1 ++ k ++ w2 = [] := List.length_eq_zero.mp e
        simp only [List.append_eq_nil] at this
        exact hkne this.1.2
      rw [if_neg (by simp only [not_or, not_lt]; exact ⟨hlen0, ha⟩), if_neg (not_lt.mpr hb),
        if_neg hkne]
    rw [stepLine_pair _ false st k v hcap hcl]
    simp
  | true =>
    have hcl : classifyLine
        (lineOf ((w1 ++ k ++ w2 ++ FILESTAT_SEPARATOR_CHAR_MAIN :: (w3 ++ v ++ w4)) ++ [10]))
        true = .bad := by
      rw [hline]
      apply classifyLine_no_separator _ true hsk
      intro hm
      rcases List.mem_append.mp hm with h | h
      · exact (hac _ h).2.2 rfl
      · rcases List.mem_cons.mp h with e | e
        · exact absurd e (by decide)
        · exact (hbc _ e).2.2 rfl
    have hnh : filestat_is_line_a_legacy_header (some
        (lineOf ((w1 ++ k ++ w2 ++ FILESTAT_SEPARATOR_CHAR_MAIN :: (w3 ++ v ++ w4)) ++ [10]))) =
        false := by
      rw [hline]
      exact not_legacy_header_of_separator _ false (by simp)
    unfold stepLine
    rw [if_neg (by simpa using hcap), hcl]
    simp only [hnh, Bool.false_eq_true, if_false, if_true]

/-- A key padded to more than 1024 bytes makes the loop return an error. -/
theorem step_padded_size (n : Nat) (st : filestat) (hn : 1020 < n) :
    ∃ res, stepLine ((List.replicate n 32 ++ bytes "size=5") ++ [10]) false false st =
      .done res st ∧ res ≠ 0 := by
  have hx : ∀ c ∈ List.replicate n 32, c = 32 := fun c hc => List.eq_of_mem_replicate hc
  have e1 : bytes "size=5" = bytes "size" ++ FILESTAT_SEPARATOR_CHAR_MAIN :: bytes "5" := by
    decide
  have e2 : bytes "size=5" = 115 :: bytes "ize=5" := by decide
  have hb : ∀ c ∈ bytes "size=5", c ≠ 0 := by decide
  have hline : lineOf ((List.replicate n 32 ++ bytes "size=5") ++ [10]) =
      (List.replicate n 32 ++ bytes "size") ++
        (if false = true then FILESTAT_LEGACY_SEPARATOR_CHAR
          else FILESTAT_SEPARATOR_CHAR_MAIN) :: bytes "5" := by
    rw [lineOf_line _ 10 _ (by decide)]
    · rw [e1, List.append_assoc]
      rfl
    · intro c hc
      rcases List.mem_append.mp hc with h | h
      · rw [hx c h]
        decide
      · exact hb c h
  have hsk : skippable (lineOf ((List.replicate n 32 ++ bytes "size=5") ++ [10])) = false := by
    rw [lineOf_line _ 10 _ (by decide)]
    · rw [e2]
      exact skippable_pad _ 115 _ (fun c hc => by rw [hx c hc]; decide) (by decide) (by decide)
        (by decide)
    · intro c hc
      rcases List.mem_append.mp hc with h | h
      · rw [hx c h]
        decide
      · exact hb c h
  refine stepLine_bad_key _ false false st (List.replicate n 32 ++ bytes "size") (bytes "5")
    hline hsk ?_ (Or.inr ?_)
  · intro hm
    rcases List.mem_append.mp hm with h | h
    · exact absurd (hx _ h) (by decide)
    · exact absurd h (by decide)
  · have : (bytes "size").length = 4 := by decide
    rw [List.length_append, List.length_replicate, this]
    simp only [FILESTAT_MAX_LENGTH_OPTION]
    omega

/-- C29, amended. A line that is neither a comment nor blank is split at its
first separator: `filestat_parse_line` yields the text before it and the text
after it (and rejects the line when the former is empty or longer than 1024
bytes or the latter longer than 1048576 bytes), and the loop sees both trimmed.
Hence for every recognized key `k`, decimal value `v` and runs of spaces and
tabs `w1..w4` such that `w1 k w2` has at most 1024 bytes and `w3 v w4` at most
1048576 bytes, the line `w1 k w2 = w3 v w4` anywhere after the header line gives
the same outcome as the line `k=v`. The line `size=1=2` is split into `size`
and `1=2`, and the read fails. -/
theorem split_and_trim :
    (∀ (a b : List Nat) (l : Bool),
      skippable
        (a ++ (if l then FILESTAT_LEGACY_SEPARATOR_CHAR else FILESTAT_SEPARATOR_CHAR_MAIN) :: b)
        = false →
      (if l then FILESTAT_LEGACY_SEPARATOR_CHAR else FILESTAT_SEPARATOR_CHAR_MAIN) ∉ a →
      filestat_parse_line
          (a ++ (if l then FILESTAT_LEGACY_SEPARATOR_CHAR else FILESTAT_SEPARATOR_CHAR_MAIN) :: b)
          l =
        (if a.length = 0 ∨ a.length > FILESTAT_MAX_LENGTH_OPTION then .failed
          else if b.length > FILESTAT_MAX_LENGTH_VALUE then .failed
          else .pair a b) ∧
      classifyLine
          (a ++ (if l then FILESTAT_LEGACY_SEPARATOR_CHAR else FILESTAT_SEPARATOR_CHAR_MAIN) :: b)
          l =
        (if a.length = 0 ∨ a.length > FILESTAT_MAX_LENGTH_OPTION then .bad
          else if b.length > FILESTAT_MAX_LENGTH_VALUE then .bad
          else if trim_string a = [] then .bad
          else .pair (trim_string a) (trim_string b))) ∧
    (∀ k ∈ recognized_keys, ∀ (v w1 w2 w3 w4 pre post : List Nat) (s : filestat),
      is_decimal_integer v = true →
      is_blank_run w1 → is_blank_run w2 → is_blank_run w3 → is_blank_run w4 →
      (w1 ++ k ++ w2).length ≤ FILESTAT_MAX_LENGTH_OPTION →
      (w3 ++ v ++ w4).length ≤ FILESTAT_MAX_LENGTH_VALUE →
      ends_with_newline pre →
      (∃ raw ∈ splitLines pre, skippable (lineOf raw) = false) →
      filestat_parser_format_read
          (pre ++ ((w1 ++ k ++ w2 ++ FILESTAT_SEPARATOR_CHAR_MAIN :: (w3 ++ v ++ w4)) ++ [10]
            ++ post)) s =
        filestat_parser_format_read
          (pre ++ ((k ++ FILESTAT_SEPARATOR_CHAR_MAIN :: v) ++ [10] ++ post)) s) ∧
    (filestat_parse_line (bytes "size=1=2") false = .pair (bytes "size") (bytes "1=2") ∧
      ∀ (s : filestat) (rest : List Nat),
        ∃ res st', filestat_parser_format_read
          (bytes "CatalogFS=3\n" ++ (bytes "size=1=2" ++ 10 :: rest)) s = some (res, st') ∧
          res ≠ 0) := by
  refine ⟨fun a b l hsk hsep =>
    ⟨filestat_parse_line_split a b l hsk hsep, classifyLine_split a b l hsk hsep⟩, ?_,
    by decide, ?_⟩
  · intro k hk v w1 w2 w3 w4 pre post s hv h1 h2 h3 h4 ha hb hpre hhdr
    obtain ⟨_, hkc⟩ := recognized_key_chars k hk
    obtain ⟨_, hvc⟩ := decimal_chars v hv
    have hnil : is_blank_run [] := fun c hc => absurd hc (List.not_mem_nil _)
    have e : k ++ FILESTAT_SEPARATOR_CHAR_MAIN :: v =
        [] ++ k ++ [] ++ FILESTAT_SEPARATOR_CHAR_MAIN :: ([] ++ v ++ []) := by simp
    have ha' : ([] ++ k ++ ([] : List Nat)).length ≤ FILESTAT_MAX_LENGTH_OPTION := by
      simp only [List.length_append, List.length_nil] at ha ⊢
      omega
    have hb' : ([] ++ v ++ ([] : List Nat)).length ≤ FILESTAT_MAX_LENGTH_VALUE := by
      simp only [List.length_append, List.length_nil] at hb ⊢
      omega
    have hnl : ∀ (x1 x2 x3 x4 : List Nat), is_blank_run x1 → is_blank_run x2 → is_blank_run x3 →
        is_blank_run x4 →
        ∀ c ∈ x1 ++ k ++ x2 ++ FILESTAT_SEPARATOR_CHAR_MAIN :: (x3 ++ v ++ x4), isnl c = false := by
      intro x1 x2 x3 x4 g1 g2 g3 g4 c hc
      simp only [List.mem_append, List.mem_cons] at hc
      rcases hc with ((h | h) | h) | h | (h | h) | h
      · exact (blank_run_chars x1 g1 c h).2.2.1
      · exact (hkc c h).2.2.1
      · exact (blank_run_chars x2 g2 c h).2.2.1
      · rw [h]; decide
      · exact (blank_run_chars x3 g3 c h).2.2.1
      · exact (hvc c h).2.2.1
      · exact (blank_run_chars x4 g4 c h).2.2.1
    have h := read_replace_lines pre
      ((w1 ++ k ++ w2 ++ FILESTAT_SEPARATOR_CHAR_MAIN :: (w3 ++ v ++ w4)) ++ [10])
      (([] ++ k ++ [] ++ FILESTAT_SEPARATOR_CHAR_MAIN :: ([] ++ v ++ [])) ++ [10]) post s hpre
      (ends_with_newline_line _ 10 (by decide)) (ends_with_newline_line _ 10 (by decide)) hhdr
      (fun l st => by
        rw [splitLines_single _ 10 (hnl w1 w2 w3 w4 h1 h2 h3 h4) (by decide),
          splitLines_single _ 10 (hnl [] [] [] [] hnil hnil hnil hnil) (by decide)]
        simp only [runLines, stepLine_spaced k v w1 w2 w3 w4 l st hk hv h1 h2 h3 h4 ha hb,
          stepLine_spaced k v [] [] [] [] l st hk hv hnil hnil hnil hnil ha' hb'])
    rw [e]
    exact h
  · intro s rest
    rw [read_after_header]
    have hn : nextLine (bytes "size=1=2" ++ 10 :: rest) = (bytes "size=1=2" ++ [10], rest) :=
      nextLine_line _ 10 rest (by decide) (by decide)
    exact loop_rejects_bad_number _ _ false s (bytes "size") (bytes "1=2") (by omega)
      (by rw [hn]; exact (by decide :
        classifyLine (lineOf (bytes "size=1=2" ++ [10])) false =
          .pair (bytes "size") (bytes "1=2"))) (by decide) (by decide)

theorem split_and_trim_witness :
    bytes "mode" ∈ recognized_keys ∧ is_decimal_integer (bytes "33188") = true ∧
    is_blank_run (bytes "  ") ∧ is_blank_run (bytes "\t") ∧
    filestat_parser_format_read
        (bytes "CatalogFS=3\n" ++ ((bytes "  " ++ bytes "mode" ++ bytes "\t" ++
          FILESTAT_SEPARATOR_CHAR_MAIN :: (bytes "  " ++ bytes "33188" ++ bytes "\t")) ++ [10] ++
          bytes "uid=7\n")) sample_skeleton =
      filestat_parser_format_read
        (bytes "CatalogFS=3\n" ++ ((bytes "mode" ++ FILESTAT_SEPARATOR_CHAR_MAIN :: bytes "33188")
          ++ [10] ++ bytes "uid=7\n")) sample_skeleton :=
  have hs : is_blank_run (bytes "  ") := by
    intro c hc
    revert c
    decide
  have ht : is_blank_run (bytes "\t") := by
    intro c hc
    revert c
    decide
  have hpre : ends_with_newline (bytes "CatalogFS=3\n") := by
    intro c hc
    have : (bytes "CatalogFS=3\n").getLast? = some 10 := by decide
    rw [this] at hc
    rw [← Option.some.inj hc]
    decide
  ⟨by decide, by decide, hs, ht,
    split_and_trim.2.1 (bytes "mode") (by decide) (bytes "33188") (bytes "  ") (bytes "\t")
      (bytes "  ") (bytes "\t") (bytes "CatalogFS=3\n") (bytes "uid=7\n") sample_skeleton
      (by decide) hs ht hs ht (by decide) (by decide) hpre
      ⟨bytes "CatalogFS=3\n", by decide, by decide⟩⟩

/-- C29 as stated fails: with `w1` a run of 1021 spaces (the other runs empty),
`k` = `size` and `v` = `5`, the line `w1 k=v` makes the read fail, its key part
being longer than 1024 bytes, whereas the line `size=5` is read. -/
theorem split_and_trim_counterexample :
    bytes "size" ∈ recognized_keys ∧ is_decimal_integer (bytes "5") = true ∧
    is_blank_run (List.replicate 1021 32) ∧
    (∃ res st', filestat_parser_format_read
      (bytes "CatalogFS=3\n" ++ ((List.replicate 1021 32 ++ bytes "size=5") ++ 10 :: []))
      sample_skeleton = some (res, st') ∧ res ≠ 0) ∧
    filestat_parser_format_read (bytes "CatalogFS=3\n" ++ (bytes "size=5" ++ 10 :: []))
      sample_skeleton = some (0, { sample_skeleton with size := 5 }) :=
  ⟨by decide, by decide, fun c hc => Or.inl (List.eq_of_mem_replicate hc),
    read_fails_at_line_after_header _ [] 10 sample_skeleton
      (fun c hc => by
        rcases List.mem_append.mp hc with h | h
        · rw [List.eq_of_mem_replicate h]
          decide
        · exact (by decide : ∀ x ∈ bytes "size=5", isnl x = false) c h)
      (by decide) (step_padded_size 1021 sample_skeleton (by decide)),
    by decide⟩

/-! ### C33: the path mapping and leading separators -/

/-- C33, amended. For every path that does not begin with two separators,
`RELPATH(p)` does not begin with the separator `/`. -/
theorem relpath_is_relative (p : List Nat) (hp : p.take 2 ≠ [47, 47]) :
    (RELPATH p).head? ≠ some 47 := by
  cases p with
  | nil => decide
  | cons c cs =>
    by_cases hc : c = 47
    · subst hc
      cases cs with
      | nil => decide
      | cons d ds =>
        have hd : d ≠ 47 := by
          intro e
          subst e
          exact hp rfl
        simp [RELPATH, hd]
    · simp [RELPATH, hc]

theorem relpath_is_relative_witness :
    (bytes "/dir/file").take 2 ≠ [47, 47] ∧ (RELPATH (bytes "/dir/file")).head? ≠ some 47 :=
  ⟨by decide, relpath_is_relative (bytes "/dir/file") (by decide)⟩

/-- C33 as stated fails: `RELPATH("//etc/passwd")` is `"/etc/passwd"`, which
begins with the separator. -/
theorem relpath_is_relative_counterexample :
    RELPATH (bytes "//etc/passwd") = bytes "/etc/passwd" ∧
    (RELPATH (bytes "//etc/passwd")).head? = some 47 := by
  decide

/-! ### C34: a content without a header line -/

/-- C34 (a header is not required). For every content all of whose lines are
comments, blank or white space only and shorter than the header cap (the empty
content included) and every skeleton whose nine signed fields are not
negative, `filestat_parser_format_read` returns 0 and leaves the skeleton. -/
theorem header_not_required (content : List Nat) (s : filestat)
    (hlines : ∀ raw ∈ splitLines content,
      skippable (lineOf raw) = true ∧ raw.length < FILESTAT_MAX_HEADER_LENGTH)
    (hs : s.signedNonneg) :
    filestat_parser_format_read content s = some (0, s) := by
  rw [filestat_parser_format_read_eq_lines, processLines_nil_of_run,
    runLines_skippable _ s hlines]
  simp only [check_results_of_nonneg s hs]

theorem header_not_required_witness :
    (∀ raw ∈ splitLines (bytes "# only a comment\n\n  \n; more"),
      skippable (lineOf raw) = true ∧ raw.length < FILESTAT_MAX_HEADER_LENGTH) ∧
    sample_skeleton.signedNonneg ∧
    filestat_parser_format_read (bytes "# only a comment\n\n  \n; more") sample_skeleton =
      some (0, sample_skeleton) ∧
    filestat_parser_format_read [] sample_skeleton = some (0, sample_skeleton) :=
  have h1 : ∀ raw ∈ splitLines (bytes "# only a comment\n\n  \n; more"),
      skippable (lineOf raw) = true ∧ raw.length < FILESTAT_MAX_HEADER_LENGTH := by decide
  have h2 : sample_skeleton.signedNonneg := by
    unfold filestat.signedNonneg sample_skeleton
    decide
  ⟨h1, h2, header_not_required _ sample_skeleton h1 h2,
    header_not_required [] sample_skeleton (by decide) h2⟩

/-! ### C35: a legacy header line at any position -/

/-- A legacy header line switches the loop to legacy mode in every state. -/
theorem stepLine_legacy_header_any (hdr : List Nat) (d : Nat) (h l : Bool) (s : filestat)
    (hh : hdr = FILESTAT_LEGACY_HEADER_V1 ∨ hdr = FILESTAT_LEGACY_HEADER_V2)
    (hd : isnl d = true) :
    stepLine (hdr ++ [d]) h l s = .next false true s := by
  have h0 : ∀ x ∈ hdr, x ≠ 0 := by
    rcases hh with e | e <;> subst e <;> decide
  have hlen : hdr.length = 16 := by
    rcases hh with e | e <;> subst e <;> decide
  have hl := lineOf_line hdr d h0 hd
  have hleg : filestat_is_line_a_legacy_header (some hdr) = true := by
    rcases hh with e | e <;> subst e <;> decide
  have hcap : ¬ line_cap (if h = true then FILESTAT_MAX_HEADER_LENGTH else 0) ≤
      (hdr ++ [d]).length := by
    cases h <;> simp [line_cap, FILESTAT_MAX_HEADER_LENGTH, hlen]
  unfold stepLine
  rw [if_neg hcap, hl, classifyLine_legacy_header hdr l hleg]
  simp only [hleg, if_true]

/-- C35 (a legacy header is honoured at any position). The content
"CatalogFS=3\nsize=10\nCatalogFS.File.1\nmtime:5\n" is read with success, size
10 and mtime 5. In every state of the read loop a line equal to
`CatalogFS.File.1` or `CatalogFS.File.2` is not an error: the loop goes on in
legacy mode, past the header. After it the `name` / `path` terminators are in
force: in "CatalogFS=3\nsize=10\nCatalogFS.File.2\nname:x\nsize=oops\n" the read
ends with success at the `name` line. -/
theorem legacy_header_anywhere :
    filestat_parser_format_read (bytes "CatalogFS=3\nsize=10\nCatalogFS.File.1\nmtime:5\n")
      sample_skeleton = some (0, { sample_skeleton with size := 10, mtime := 5 }) ∧
    (∀ (fuel : Nat) (hdr rest : List Nat) (d : Nat) (h l : Bool) (st : filestat),
      (hdr = FILESTAT_LEGACY_HEADER_V1 ∨ hdr = FILESTAT_LEGACY_HEADER_V2) → isnl d = true →
      (hdr ++ d :: rest).length < fuel →
      filestat_read_loop fuel (hdr ++ d :: rest) h l st =
        filestat_read_loop fuel rest false true st) ∧
    filestat_parser_format_read
      (bytes "CatalogFS=3\nsize=10\nCatalogFS.File.2\nname:x\nsize=oops\n") sample_skeleton =
      some (0, { sample_skeleton with size := 10 }) := by
  refine ⟨by decide, ?_, by decide⟩
  intro fuel hdr rest d h l st hh hd hf
  have hlen : (hdr ++ d :: rest).length = hdr.length + rest.length + 1 := by
    simp only [List.length_append, List.length_cons]
    omega
  rw [read_loop_eq_lines _ _ fuel h l st (le_refl _) hf,
    read_loop_eq_lines _ _ fuel false true st (le_refl _) (by omega),
    splitLines_line hdr d rest (legacy_header_no_nl hdr hh) hd,
    processLines_cons_next _ _ _ _ _ _ _ _ (stepLine_legacy_header_any hdr d h l st hh hd)]

theorem legacy_header_anywhere_witness :
    (FILESTAT_LEGACY_HEADER_V1 = FILESTAT_LEGACY_HEADER_V1 ∨
      FILESTAT_LEGACY_HEADER_V1 = FILESTAT_LEGACY_HEADER_V2) ∧
    filestat_read_loop 40 (FILESTAT_LEGACY_HEADER_V1 ++ 10 :: bytes "mtime:5\n") false false
      sample_skeleton = filestat_read_loop 40 (bytes "mtime:5\n") false true sample_skeleton :=
  ⟨Or.inl rfl, legacy_header_anywhere.2.1 40 FILESTAT_LEGACY_HEADER_V1 (bytes "mtime:5\n") 10
    false false sample_skeleton (Or.inl rfl) (by decide) (by decide)⟩

/-! ### C37: the saved mode is reported as it is -/

theorem read_filestat_eq_read (o : OpenedFile) (s : filestat)
    (hg : check_filestat_file_size_is_small_enough o.fstat = 0) (hf : o.fdopen = .ok ()) :
    read_filestat (.ok o) s = filestat_parser_format_read o.content s := by
  rw [read_filestat_ok o s hg hf, filestat_parser_format_read_eq_lines]

/-- The sidecar made of the header line and the line `mode=m` is read as the
skeleton with mode `m`. -/
theorem read_mode_line (m : Nat) (s : filestat) (hm : m < 2 ^ 32) (hs : s.signedNonneg) :
    filestat_parser_format_read
      (bytes "CatalogFS=3\n" ++ ((bytes "mode" ++ 61 :: printf_u m) ++ 10 :: [])) s =
      some (0, { s with mode := m }) := by
  rw [read_after_header_lines,
    splitLines_line _ 10 [] (field_line_no_nl _ _ (by decide) (printf_u_chars _)) (by decide)]
  have hsp : splitLines [] = [] := rfl
  rw [hsp, processLines_cons_next _ _ _ _ _ _ _ _ (step_mode m s hm)]
  have hc : filestat_check_results { s with mode := m } = 0 :=
    check_results_of_nonneg _ hs
  simp only [processLines, hc]

/-- C37 (the saved mode is reported verbatim). When a regular non-empty
underlying file is read into a record `r` and `ignore_saved_chmod` is off,
`catalogfs_getattr` reports `st_mode = r.mode`, whatever file type it denotes.
For every `m < 2^32` the sidecar "CatalogFS=3\nmode=m\n" makes it report
`st_mode = m`; with `m = 16877` a directory is reported although the underlying
entry is a regular file. -/
theorem saved_mode_verbatim :
    (∀ (my_data : my_private_data) (stbuf u : stat) (openat : Except Int OpenedFile)
      (r : filestat), S_ISREG u.st_mode = true → u.st_size ≠ 0 →
      read_filestat openat (fill_filestat_from_stat u).2 = some (0, r) →
      my_data.ignore_saved_chmod = false →
      ∃ a, catalogfs_getattr my_data stbuf (.ok u) openat = some (0, a) ∧ a.st_mode = r.mode) ∧
    (∀ (m : Nat) (my_data : my_private_data) (stbuf u : stat) (o : OpenedFile), m < 2 ^ 32 →
      S_ISREG u.st_mode = true → u.st_size ≠ 0 → (fill_filestat_from_stat u).2.signedNonneg →
      check_filestat_file_size_is_small_enough o.fstat = 0 → o.fdopen = .ok () →
      o.content = bytes "CatalogFS=3\n" ++ ((bytes "mode" ++ 61 :: printf_u m) ++ 10 :: []) →
      my_data.ignore_saved_chmod = false →
      ∃ a, catalogfs_getattr my_data stbuf (.ok u) (.ok o) = some (0, a) ∧ a.st_mode = m) ∧
    (S_ISREG sample_stat.st_mode = true ∧
      ∃ a, catalogfs_getattr all_overrides sample_stat (.ok sample_stat)
          (.ok ⟨.ok sample_stat.toStat, .ok (), bytes "CatalogFS=3\nmode=16877\n"⟩) =
          some (0, a) ∧
        a.st_mode = 16877 ∧ S_ISDIR a.st_mode = true ∧ S_ISREG a.st_mode = false) := by
  have part1 : ∀ (my_data : my_private_data) (stbuf u : stat) (openat : Except Int OpenedFile)
      (r : filestat), S_ISREG u.st_mode = true → u.st_size ≠ 0 →
      read_filestat openat (fill_filestat_from_stat u).2 = some (0, r) →
      my_data.ignore_saved_chmod = false →
      ∃ a, catalogfs_getattr my_data stbuf (.ok u) openat = some (0, a) ∧
        a.st_mode = r.mode := by
    intro my_data stbuf u openat r hreg hsz hread hc
    refine ⟨_, getattr_regular my_data stbuf u openat r hreg hsz hread, ?_⟩
    obtain ⟨lo, ch, ti, ui, gi⟩ := my_data
    simp only at hc
    subst hc
    cases ti <;> cases ui <;> cases gi <;> simp [fill_stat_from_filestat_with_options]
  refine ⟨part1, ?_, by decide, ?_⟩
  · intro m my_data stbuf u o hm hreg hsz hs hg hf hcontent hc
    have hread : read_filestat (.ok o) (fill_filestat_from_stat u).2 =
        some (0, { (fill_filestat_from_stat u).2 with mode := m }) := by
      rw [read_filestat_eq_read o _ hg hf, hcontent, read_mode_line m _ hm hs]
    obtain ⟨a, ha, hmode⟩ := part1 my_data stbuf u (.ok o) _ hreg hsz hread hc
    exact ⟨a, ha, hmode⟩
  · have hread : read_filestat
        (.ok ⟨.ok sample_stat.toStat, .ok (), bytes "CatalogFS=3\nmode=16877\n"⟩)
        (fill_filestat_from_stat sample_stat).2 =
        some (0, { (fill_filestat_from_stat sample_stat).2 with mode := 16877 }) := by decide
    obtain ⟨a, ha, hmode⟩ := part1 all_overrides sample_stat sample_stat _ _ (by decide)
      (by decide) hread rfl
    have hm : a.st_mode = 16877 := hmode
    exact ⟨a, ha, hm, by rw [hm]; decide, by rw [hm]; decide⟩

theorem saved_mode_verbatim_witness :
    (40960 : Nat) < 2 ^ 32 ∧ S_ISREG sample_stat.st_mode = true ∧
    ∃ a, catalogfs_getattr all_overrides sample_stat (.ok sample_stat)
        (.ok ⟨.ok sample_stat.toStat, .ok (),
          bytes "CatalogFS=3\n" ++ ((bytes "mode" ++ 61 :: printf_u 40960) ++ 10 :: [])⟩) =
        some (0, a) ∧ a.st_mode = 40960 :=
  ⟨by decide, by decide,
    saved_mode_verbatim.2.1 40960 all_overrides sample_stat sample_stat
      ⟨.ok sample_stat.toStat, .ok (),
        bytes "CatalogFS=3\n" ++ ((bytes "mode" ++ 61 :: printf_u 40960) ++ 10 :: [])⟩
      (by decide) (by decide) (by decide)
      (by unfold filestat.signedNonneg fill_filestat_from_stat sample_stat; decide)
      (by decide) rfl rfl rfl⟩

/-! ### C39: the reader returns on every input -/

/-- The inner loop never runs out of a fuel larger than the stream: every
skipped line takes at least one byte off it. -/
theorem get_next_returns (ms : Nat) (legacy : Bool) :
    ∀ (k : Nat) (fp : List Nat) (fuel : Nat), fp.length ≤ k → fp.length < fuel →
      filestat_get_next_option_pair ms legacy fuel fp ≠ .out_of_fuel := by
  intro k
  induction k with
  | zero =>
    intro fp fuel hk hf
    have : fp = [] := List.length_eq_zero.mp (by omega)
    subst this
    rw [get_next_spec ms legacy fuel [] hf]
    simp
  | succ k ih =>
    intro fp fuel hk hf
    rw [get_next_spec ms legacy fuel fp hf]
    by_cases h0 : fp = []
    · rw [if_pos h0]
      simp
    · rw [if_neg h0]
      by_cases hcap : line_cap ms ≤ (nextLine fp).1.length
      · rw [if_pos hcap]
        simp
      · rw [if_neg hcap]
        cases hcl : classifyLine (lineOf (nextLine fp).1) legacy with
        | skip =>
          simp only
          cases fp with
          | nil => exact absurd rfl h0
          | cons c cs =>
            have h1 := nextLine_length (c :: cs)
            have h2 := nextLine_pos c cs
            exact ih _ _ (by omega) (by omega)
        | bad => simp
        | pair o v => simp

/-- C39 (termination). For every byte content and skeleton
`filestat_parser_format_read` returns a code and a record. The fuel of the
model, one more than the number of bytes of the stream, is never used up: with
any fuel above the length of the stream the outer loop returns, in every state,
the same outcome, and the inner loop of `filestat_get_next_option_pair` returns;
so every iteration of both loops takes at least one byte off the stream or ends
at its end. -/
theorem reader_terminates (fp : List Nat) :
    (∀ s : filestat, ∃ res r, filestat_parser_format_read fp s = some (res, r)) ∧
    (∀ (fuel : Nat) (h l : Bool) (st : filestat), fp.length < fuel →
      filestat_read_loop fuel fp h l st =
        filestat_read_loop (fp.length + 1) fp h l st ∧
      ∃ res r, filestat_read_loop fuel fp h l st = some (res, r)) ∧
    (∀ (fuel ms : Nat) (l : Bool), fp.length < fuel →
      filestat_get_next_option_pair ms l fuel fp ≠ .out_of_fuel) := by
  refine ⟨fun s => ⟨_, _, filestat_parser_format_read_eq_lines fp s⟩, ?_, ?_⟩
  · intro fuel h l st hf
    rw [read_loop_eq_lines fp.length fp fuel h l st (le_refl _) hf,
      read_loop_eq_lines fp.length fp (fp.length + 1) h l st (le_refl _) (by omega)]
    exact ⟨rfl, _, _, rfl⟩
  · intro fuel ms l hf
    exact get_next_returns ms l fp.length fp fuel (le_refl _) hf

theorem reader_terminates_witness :
    (bytes "# c\n\nsize").length < 20 ∧
    filestat_read_loop 20 (bytes "# c\n\nsize") true false sample_skeleton =
      filestat_read_loop ((bytes "# c\n\nsize").length + 1) (bytes "# c\n\nsize") true false
        sample_skeleton ∧
    filestat_get_next_option_pair 120 false 20 (bytes "# c\n\nsize") ≠ .out_of_fuel :=
  ⟨by decide,
    ((reader_terminates (bytes "# c\n\nsize")).2.1 20 true false sample_skeleton (by decide)).1,
    (reader_terminates (bytes "# c\n\nsize")).2.2 20 120 false (by decide)⟩

/-! ### C32: the code of a rejection -/

theorem check_results_code (st : filestat) :
    filestat_check_results st = 0 ∨ filestat_check_results st = -EPERM := by
  unfold filestat_check_results
  split_ifs
  · exact Or.inr rfl
  · exact Or.inl rfl

/-- The code with which the loop returns on a line that is shorter than its cap. -/
theorem stepLine_done_code (raw : List Nat) (h l : Bool) (st st' : filestat) (res : Int)
    (hcap : ¬ line_cap (if h = true then FILESTAT_MAX_HEADER_LENGTH else 0) ≤ raw.length)
    (hs : stepLine raw h l st = .done res st') : res = 0 ∨ res = -EPERM := by
  unfold stepLine at hs
  rw [if_neg hcap] at hs
  cases hcl : classifyLine (lineOf raw) l with
  | skip => rw [hcl] at hs; simp at hs
  | bad =>
    rw [hcl] at hs
    simp only at hs
    by_cases hh : filestat_is_line_a_legacy_header (some (lineOf raw)) = true
    · rw [if_pos hh] at hs; simp at hs
    · rw [if_neg hh] at hs
      simp only [Step.done.injEq] at hs
      right
      rw [← hs.1]
      rfl
  | pair k v =>
    rw [hcl] at hs
    simp only at hs
    cases h with
    | true =>
      simp only [if_true] at hs
      by_cases h0 : filestat_is_header_correct k v = 0
      · simp [h0] at hs
      · simp only [h0, ne_eq, not_false_eq_true, if_true, Step.done.injEq] at hs
        exact Or.inr hs.1.symm
    | false =>
      simp only [Bool.false_eq_true, if_false] at hs
      by_cases ht : l = true ∧ filestat_is_option_a_legacy_terminal_one k = true
      · rw [if_pos ht] at hs
        simp only [Step.done.injEq] at hs
        rw [← hs.1]
        exact check_results_code st
      · rw [if_neg ht] at hs
        by_cases h0 : (filestat_process_option_pair k v st).1 = 0
        · simp [h0] at hs
        · simp only [h0, ne_eq, not_false_eq_true, if_true, Step.done.injEq] at hs
          exact Or.inr hs.1.symm

theorem processLines_code : ∀ (ls : List (List Nat)) (h l : Bool) (st : filestat),
    ¬ exceeds_cap ls h →
    (processLines ls h l st).1 = 0 ∨ (processLines ls h l st).1 = -EPERM := by
  intro ls
  induction ls with
  | nil =>
    intro h l st _
    exact check_results_code st
  | cons raw ls ih =>
    intro h l st hex
    simp only [exceeds_cap, not_or] at hex
    obtain ⟨hcap, hrest⟩ := hex
    rw [processLines]
    cases hs : stepLine raw h l st with
    | done res st' => exact stepLine_done_code raw h l st st' res hcap hs
    | next h' l' st' =>
      obtain ⟨e1, _⟩ := stepLine_next_flags raw h l st st' h' l' hs
      subst e1
      exact ih _ l' st' hrest

/-- C32 (rejections surface as operation-not-permitted). Whenever
`filestat_parser_format_read` returns a non-zero code and no line was as long as
the cap in force where it stands, the code is `-EPERM`: this is so for a wrong
or unsupported header, a data line without separator (the literal -1 of that
path is `-EPERM`), an empty key, a non-numeric value of a recognized key and a
negative signed field in the final record. -/
theorem rejections_are_eperm :
    (∀ (fp : List Nat) (s r : filestat) (res : Int),
      filestat_parser_format_read fp s = some (res, r) → res ≠ 0 →
      ¬ exceeds_cap (splitLines fp) true → res = -EPERM) ∧
    (∀ content ∈ [bytes "Foo=1\nsize=1\n", bytes "CatalogFS=4\nsize=1\n",
        bytes "CatalogFS=3\nsize 5\n", bytes "CatalogFS=3\n=5\n", bytes "CatalogFS=3\nsize=abc\n",
        bytes "CatalogFS=3\nsize=-5\n"],
      (filestat_parser_format_read content sample_skeleton).map Prod.fst = some (-EPERM)) := by
  constructor
  · intro fp s r res hread hres hex
    rw [filestat_parser_format_read_eq_lines] at hread
    have hp := processLines_code (splitLines fp) true false s hex
    have e : (processLines (splitLines fp) true false s).1 = res := by
      rw [Option.some.inj hread]
    rw [e] at hp
    exact hp.resolve_left hres
  · decide

theorem rejections_are_eperm_witness :
    ¬ exceeds_cap (splitLines (bytes "CatalogFS=3\nnosep\n")) true ∧
    filestat_parser_format_read (bytes "CatalogFS=3\nnosep\n") sample_skeleton =
      some (-1, sample_skeleton) ∧
    (-1 : Int) = -EPERM :=
  have hread : filestat_parser_format_read (bytes "CatalogFS=3\nnosep\n") sample_skeleton =
      some (-1, sample_skeleton) := by decide
  have hex : ¬ exceeds_cap (splitLines (bytes "CatalogFS=3\nnosep\n")) true := by
    have h : splitLines (bytes "CatalogFS=3\nnosep\n") =
        [bytes "CatalogFS=3\n", bytes "nosep\n"] := by decide
    rw [h]
    simp only [exceeds_cap, not_or, not_false_eq_true, and_true]
    exact ⟨by decide, by decide⟩
  ⟨hex, hread,
    rejections_are_eperm.1 _ sample_skeleton sample_skeleton (-1) hread (by decide) hex⟩

/-! ### C38: the size of what the writer leaves -/

theorem printf_u_length_pos (n : Nat) : 1 ≤ (printf_u n).length :=
  List.length_pos.mpr (printf_u_ne_nil n)

theorem printf_u32_length (n : Nat) (h : n < 2 ^ 32) : (printf_u n).length ≤ 10 := by
  have := decimalAux_length (n + 1) n 10 [] (by omega) (by omega)
  simpa [printf_u] using this

theorem printf_d_length_bounds (v : Int) (h1 : -(2 : Int) ^ 63 ≤ v) (h2 : v < 2 ^ 63) :
    1 ≤ (printf_d v).length ∧ (printf_d v).length ≤ 20 := by
  have hu := decimalAux_length (v.natAbs + 1) v.natAbs 19 [] (by omega) (by omega)
  have hu' : (printf_u v.natAbs).length ≤ 19 := by simpa [printf_u] using hu
  have hp := printf_u_length_pos v.natAbs
  unfold printf_d
  split_ifs
  · simp only [List.length_cons]
    omega
  · omega

/-- The number of bytes the writer leaves, in terms of the lengths of the 13
rendered values. -/
theorem written_length (file_fd : Int) (file : File) (r : filestat) (hfd : file_fd ≠ 0) :
    (filestat_parser_format_write file_fd file r).2.data.length =
      112 + ((printf_d r.size).length + (printf_d r.blocks).length + (printf_u r.mode).length +
        (printf_u r.uid).length + (printf_u r.gid).length + (printf_d r.atime).length +
        (printf_d r.mtime).length + (printf_d r.ctime).length + (printf_d r.atimensec).length +
        (printf_d r.mtimensec).length + (printf_d r.ctimensec).length +
        (printf_u r.nlink).length + (printf_d r.blksize).length) := by
  have k0 : (bytes "CatalogFS").length = 9 := by decide
  have k00 : (printf_u 3).length = 1 := by decide
  have k1 : (bytes "size").length = 4 := by decide
  have k2 : (bytes "blocks").length = 6 := by decide
  have k3 : (bytes "mode").length = 4 := by decide
  have k4 : (bytes "uid").length = 3 := by decide
  have k5 : (bytes "gid").length = 3 := by decide
  have k6 : (bytes "atime").length = 5 := by decide
  have k7 : (bytes "mtime").length = 5 := by decide
  have k8 : (bytes "ctime").length = 5 := by decide
  have k9 : (bytes "atimensec").length = 9 := by decide
  have k10 : (bytes "mtimensec").length = 9 := by decide
  have k11 : (bytes "ctimensec").length = 9 := by decide
  have k12 : (bytes "nlink").length = 5 := by decide
  have k13 : (bytes "blksize").length = 7 := by decide
  rw [filestat_parser_format_write_data _ _ _ hfd]
  simp only [List.length_append, List.length_cons, List.length_nil, k0, k00, k1, k2, k3, k4, k5,
    k6, k7, k8, k9, k10, k11, k12, k13]
  omega

/-- C38 (the writer's output is small and never empty). For every record whose
fields are in the ranges of their C types, the text `filestat_parser_format_write`
leaves has between 125 and 342 bytes and its first line, the header, has 12. So
it passes the size guard of `read_filestat` as a regular file of that size, its
header line is shorter than the header cap, and its size is not zero. -/
theorem writer_output_size (file_fd : Int) (file : File) (r : filestat) (hfd : file_fd ≠ 0)
    (hr : r.inRange) :
    125 ≤ (filestat_parser_format_write file_fd file r).2.data.length ∧
    (filestat_parser_format_write file_fd file r).2.data.length ≤ 342 ∧
    (nextLine (filestat_parser_format_write file_fd file r).2.data).1 = bytes "CatalogFS=3\n" ∧
    (nextLine (filestat_parser_format_write file_fd file r).2.data).1.length = 12 ∧
    (nextLine (filestat_parser_format_write file_fd file r).2.data).1.length <
      line_cap FILESTAT_MAX_HEADER_LENGTH ∧
    check_filestat_file_size_is_small_enough
      (.ok ⟨S_IFREG, (filestat_parser_format_write file_fd file r).2.data.length⟩) = 0 ∧
    ((filestat_parser_format_write file_fd file r).2.data.length : Int) ≠ 0 := by
  obtain ⟨⟨a1, a2⟩, ⟨b1, b2⟩, hm, hu, hg, ⟨c1, c2⟩, ⟨d1, d2⟩, ⟨e1, e2⟩, ⟨f1, f2⟩, ⟨g1, g2⟩,
    ⟨i1, i2⟩, hl, ⟨j1, j2⟩⟩ := hr
  have hlen := written_length file_fd file r hfd
  have p1 := printf_d_length_bounds r.size a1 a2
  have p2 := printf_d_length_bounds r.blocks b1 b2
  have p3 := printf_u32_length r.mode hm
  have p3' := printf_u_length_pos r.mode
  have p4 := printf_u32_length r.uid hu
  have p4' := printf_u_length_pos r.uid
  have p5 := printf_u32_length r.gid hg
  have p5' := printf_u_length_pos r.gid
  have p6 := printf_d_length_bounds r.atime c1 c2
  have p7 := printf_d_length_bounds r.mtime d1 d2
  have p8 := printf_d_length_bounds r.ctime e1 e2
  have p9 := printf_d_length_bounds r.atimensec f1 f2
  have p10 := printf_d_length_bounds r.mtimensec g1 g2
  have p11 := printf_d_length_bounds r.ctimensec i1 i2
  have p12 := printf_u_length r.nlink hl
  have p12' := printf_u_length_pos r.nlink
  have p13 := printf_d_length_bounds r.blksize j1 j2
  have hlo : 125 ≤ (filestat_parser_format_write file_fd file r).2.data.length := by omega
  have hhi : (filestat_parser_format_write file_fd file r).2.data.length ≤ 342 := by omega
  have hhdr : (nextLine (filestat_parser_format_write file_fd file r).2.data).1 =
      bytes "CatalogFS=3\n" := by
    rw [filestat_parser_format_write_data _ _ _ hfd]
    simp only
    rw [nextLine_line _ 10 _ (by decide) (by decide)]
    exact (by decide : (bytes "CatalogFS" ++ 61 :: printf_u 3) ++ [10] = bytes "CatalogFS=3\n")
  have h12 : (bytes "CatalogFS=3\n").length = 12 := by decide
  refine ⟨hlo, hhi, hhdr, by rw [hhdr, h12], by rw [hhdr, h12]; decide, ?_, by omega⟩
  unfold check_filestat_file_size_is_small_enough
  have hreg : S_ISREG S_IFREG = true := by decide
  simp only [hreg, Bool.not_true, Bool.false_eq_true, if_false, FILESTAT_MAXSIZE]
  rw [if_neg (by omega)]

theorem writer_output_size_witness :
    (3 : Int) ≠ 0 ∧ sample_record.inRange ∧
    125 ≤ (filestat_parser_format_write 3 sample_file sample_record).2.data.length ∧
    (filestat_parser_format_write 3 sample_file sample_record).2.data.length ≤ 342 :=
  ⟨by decide, sample_record_inRange,
    (writer_output_size 3 sample_file sample_record (by decide) sample_record_inRange).1,
    (writer_output_size 3 sample_file sample_record (by decide) sample_record_inRange).2.1⟩

/-! ### C36: the last line of a key decides its field -/

/-- A stream either holds no delimiter or splits at its first one. -/
theorem first_delimiter_split (d1 d2 : Int) : ∀ fp : List Nat,
    (∀ c ∈ fp, is_delimiter d1 d2 c = false) ∨
    ∃ l d rest, fp = l ++ d :: rest ∧ (∀ c ∈ l, is_delimiter d1 d2 c = false) ∧
      is_delimiter d1 d2 d = true := by
  intro fp
  induction fp with
  | nil => exact Or.inl (fun c hc => absurd hc (List.not_mem_nil _))
  | cons x xs ih =>
    cases hx : is_delimiter d1 d2 x with
    | true => exact Or.inr ⟨[], x, xs, rfl, fun c hc => absurd hc (List.not_mem_nil _), hx⟩
    | false =>
      rcases ih with h | ⟨l, d, rest, e, hl, hd⟩
      · left
        intro c hc
        rcases List.mem_cons.mp hc with e | hc
        · rw [e]; exact hx
        · exact h c hc
      · right
        refine ⟨x :: l, d, rest, by rw [e]; rfl, ?_, hd⟩
        intro c hc
        rcases List.mem_cons.mp hc with e | hc
        · rw [e]; exact hx
        · exact hl c hc

/-- One call without a cap on a stream with a delimiter. -/
theorem getdelim_nocap_found (d1 d2 : Int) (l : List Nat) (d : Nat) (rest : List Nat)
    (hlen : (l ++ d :: rest).length < 2 ^ 63 - 1)
    (hl : ∀ c ∈ l, is_delimiter d1 d2 c = false) (hd : is_delimiter d1 d2 d = true) :
    (getdelim_advanced d1 d2 (l ++ d :: rest) 0).result ≥ 0 ∧
    (getdelim_advanced d1 d2 (l ++ d :: rest) 0).lineptr = l ++ [d] ∧
    (getdelim_advanced d1 d2 (l ++ d :: rest) 0).fp = rest := by
  have hcap : line_cap 0 = 2 ^ 63 := by decide
  obtain ⟨s1, s2⟩ := starting_size_bounds 0
  have hlen2 : ([] : List Nat).length + l.length + 1 < line_cap 0 := by
    rw [hcap]
    simp only [List.length_append, List.length_cons, List.length_nil] at hlen ⊢
    omega
  obtain ⟨r1, r2, _, _, r5⟩ := getdelim_loop_found d1 d2 0 d rest hd l [] _ s1 s2 hl hlen2
  simp only [List.nil_append] at r1 r2
  unfold getdelim_advanced
  refine ⟨?_, r2, r5⟩
  rw [r1]
  exact Int.natCast_nonneg _

/-- One call without a cap on a stream without a delimiter. -/
theorem getdelim_nocap_eof (d1 d2 : Int) (fp : List Nat) (hlen : fp.length < 2 ^ 63 - 1)
    (hl : ∀ c ∈ fp, is_delimiter d1 d2 c = false) :
    (getdelim_advanced d1 d2 fp 0).result = -1 ∧
    (getdelim_advanced d1 d2 fp 0).lineptr = fp ∧
    (getdelim_advanced d1 d2 fp 0).read_before_eof = (fp.length : Nat) ∧
    (getdelim_advanced d1 d2 fp 0).fp = [] := by
  have hcap : line_cap 0 = 2 ^ 63 := by decide
  obtain ⟨s1, s2⟩ := starting_size_bounds 0
  have hlen2 : ([] : List Nat).length + fp.length < line_cap 0 := by
    rw [hcap]
    simp only [List.length_nil]
    omega
  obtain ⟨r1, r2, r3, _, r5⟩ := getdelim_loop_eof d1 d2 0 fp [] _ s1 s2 hl hlen2
  simp only [List.nil_append] at r2 r3
  unfold getdelim_advanced
  exact ⟨r1, r2, r3, r5⟩

/-- The pieces of a stream, by induction on its length. -/
theorem read_pieces_spec (d1 d2 : Int) : ∀ (k : Nat) (fp : List Nat), fp.length ≤ k →
    fp.length < 2 ^ 63 - 1 → ∀ fuel, fp.length + 1 < fuel →
    ∃ ps, read_pieces d1 d2 fuel fp = some ps ∧ ps.flatten = fp ∧
      (∀ p ∈ ps, p ≠ []) ∧
      (∀ p ∈ ps.dropLast, ∃ d, p.getLast? = some d ∧ is_delimiter d1 d2 d = true) ∧
      (∀ p ∈ ps, ∀ c ∈ p.dropLast, is_delimiter d1 d2 c = false) ∧
      (∀ p ∈ ps.getLast?, (∀ d ∈ p.getLast?, is_delimiter d1 d2 d = false) →
        ∀ c ∈ p, is_delimiter d1 d2 c = false) := by
  intro k
  induction k with
  | zero =>
    intro fp hk _ fuel hf
    have : fp = [] := List.length_eq_zero.mp (Nat.le_zero.mp hk)
    subst this
    obtain ⟨f, rfl⟩ : ∃ f, fuel = f + 1 := ⟨fuel - 1, by omega⟩
    refine ⟨[], by simp [read_pieces, getdelim_advanced, getdelim_loop], rfl, ?_, ?_, ?_, ?_⟩ <;>
      simp
  | succ k ih =>
    intro fp hk hlen fuel hf
    obtain ⟨f, rfl⟩ : ∃ f, fuel = f + 1 := ⟨fuel - 1, by omega⟩
    rcases first_delimiter_split d1 d2 fp with hno | ⟨l, d, rest, e, hl, hd⟩
    · cases fp with
      | nil =>
        refine ⟨[], by simp [read_pieces, getdelim_advanced, getdelim_loop], rfl, ?_, ?_, ?_, ?_⟩ <;>
          simp
      | cons x xs =>
        obtain ⟨r1, r2, r3, r5⟩ := getdelim_nocap_eof d1 d2 (x :: xs) hlen hno
        obtain ⟨f2, rfl⟩ : ∃ f2, f = f2 + 1 := ⟨f - 1, by simp at hf; omega⟩
        refine ⟨[x :: xs], ?_, by simp, by simp, by simp, ?_, ?_⟩
        · rw [read_pieces]
          simp only [r1, r2, r3, r5]
          simp [read_pieces, getdelim_advanced, getdelim_loop]
        · intro p hp c hc
          rw [List.mem_singleton.mp hp] at hc
          exact hno c (List.mem_of_mem_dropLast hc)
        · intro p hp _ c hc
          simp only [List.getLast?_singleton, Option.mem_def, Option.some.injEq] at hp
          rw [← hp] at hc
          exact hno c hc
    · subst e
      obtain ⟨r1, r2, r5⟩ := getdelim_nocap_found d1 d2 l d rest hlen hl hd
      have hrl : rest.length ≤ k := by
        simp only [List.length_append, List.length_cons] at hk
        omega
      have hrlen : rest.length < 2 ^ 63 - 1 := by
        simp only [List.length_append, List.length_cons] at hlen
        omega
      have hrf : rest.length + 1 < f := by
        simp only [List.length_append, List.length_cons] at hf
        omega
      obtain ⟨ps, e1, e2, e3, e4, e5, e6⟩ := ih rest hrl hrlen f hrf
      refine ⟨(l ++ [d]) :: ps, ?_, ?_, ?_, ?_, ?_, ?_⟩
      · rw [read_pieces]
        simp only [r1, r2, r5, true_or, if_true, e1, Option.map_some']
      · rw [List.flatten_cons, e2]
        simp
      · intro p hp
        rcases List.mem_cons.mp hp with e | hp
        · rw [e]; simp
        · exact e3 p hp
      · intro p hp
        cases ps with
        | nil => simp at hp
        | cons q qs =>
          rw [List.dropLast_cons₂] at hp
          rcases List.mem_cons.mp hp with e | hp
          · exact ⟨d, by rw [e]; simp, hd⟩
          · exact e4 p hp
      · intro p hp c hc
        rcases List.mem_cons.mp hp with e | hp
        · rw [e, List.dropLast_concat] at hc
          exact hl c hc
        · exact e5 p hp c hc
      · intro p hp hlast c hc
        cases ps with
        | nil =>
          simp only [List.getLast?_singleton, Option.mem_def, Option.some.injEq] at hp
          subst hp
          have := hlast d (by simp)
          rw [hd] at this
          exact absurd this (by decide)
        | cons q qs =>
          rw [List.getLast?_cons_cons] at hp
          exact e6 p hp hlast c hc

/-- C40 (line reader partitions the stream). For every stream content `fp`
(shorter than 2^63 - 1 bytes, as every stream is) and delimiters `d1`, `d2`,
calling `getdelim_advanced` with no cap until it reports the end of the stream
with zero bytes comes to an end and returns pieces `ps` such that: their
concatenation in order is `fp`; no piece is empty; every piece except possibly
the last ends with a delimiter; and no piece holds a delimiter before its last
byte. -/
theorem line_reader_partitions (d1 d2 : Int) (fp : List Nat) (hfp : fp.length < 2 ^ 63 - 1)
    (fuel : Nat) (hfuel : fp.length + 1 < fuel) :
    ∃ ps, read_pieces d1 d2 fuel fp = some ps ∧ ps.flatten = fp ∧
      (∀ p ∈ ps, p ≠ []) ∧
      (∀ p ∈ ps.dropLast, ∃ d, p.getLast? = some d ∧ is_delimiter d1 d2 d = true) ∧
      (∀ p ∈ ps, ∀ c ∈ p.dropLast, is_delimiter d1 d2 c = false) := by
  obtain ⟨ps, h1, h2, h3, h4, h5, _⟩ := read_pieces_spec d1 d2 fp.length fp (le_refl _) hfp fuel hfuel
  exact ⟨ps, h1, h2, h3, h4, h5⟩

theorem line_reader_partitions_witness :
    (bytes "ab;cd;;e").length < 2 ^ 63 - 1 ∧ (bytes "ab;cd;;e").length + 1 < 10 ∧
    read_pieces 59 (-1) 10 (bytes "ab;cd;;e") =
      some [bytes "ab;", bytes "cd;", bytes ";", bytes "e"] ∧
    ∃ ps, read_pieces 59 (-1) 10 (bytes "ab;cd;;e") = some ps ∧ ps.flatten = bytes "ab;cd;;e" ∧
      (∀ p ∈ ps, p ≠ []) ∧
      (∀ p ∈ ps.dropLast, ∃ d, p.getLast? = some d ∧ is_delimiter 59 (-1) d = true) ∧
      (∀ p ∈ ps, ∀ c ∈ p.dropLast, is_delimiter 59 (-1) c = false) :=
  ⟨by decide, by decide, by decide,
    line_reader_partitions 59 (-1) (bytes "ab;cd;;e") (by decide) 10 (by decide)⟩

/-! ### C31: line endings -/

/-- A stream either holds no line delimiter or splits at its first one. -/
theorem first_newline_split : ∀ fp : List Nat,
    (∀ c ∈ fp, isnl c = false) ∨
    ∃ l d rest, fp = l ++ d :: rest ∧ (∀ c ∈ l, isnl c = false) ∧ isnl d = true := by
  intro fp
  induction fp with
  | nil => exact Or.inl (fun c hc => absurd hc (List.not_mem_nil _))
  | cons x xs ih =>
    cases hx : isnl x with
    | true => exact Or.inr ⟨[], x, xs, rfl, fun c hc => absurd hc (List.not_mem_nil _), hx⟩
    | false =>
      rcases ih with h | ⟨l, d, rest, e, hl, hd⟩
      · left
        intro c hc
        rcases List.mem_cons.mp hc with e | hc
        · rw [e]; exact hx
        · exact h c hc
      · right
        refine ⟨x :: l, d, rest, by rw [e]; rfl, ?_, hd⟩
        intro c hc
        rcases List.mem_cons.mp hc with e | hc
        · rw [e]; exact hx
        · exact hl c hc

theorem isnl_cases (d : Nat) (hd : isnl d = true) : d = 10 ∨ d = 13 := by
  simpa [isnl, FILESTAT_NEWLINE_CHAR_1, FILESTAT_NEWLINE_CHAR_2] using hd

theorem isnl_ne_zero (d : Nat) (hd : isnl d = true) : d ≠ 0 := by
  rcases isnl_cases d hd with e | e <;> rw [e] <;> decide

/-- The parser sees the same text whichever delimiter ends the line. -/
theorem lineOf_any_newline (body : List Nat) (d d' : Nat) (hd : isnl d = true)
    (hd' : isnl d' = true) : lineOf (body ++ [d]) = lineOf (body ++ [d']) := by
  by_cases h0 : 0 ∈ body
  · obtain ⟨p, q, e, hp⟩ := split_at_nul body h0
    subst e
    unfold lineOf
    rw [List.append_assoc, List.append_assoc, List.cons_append, List.cons_append,
      cstr_nul p _ hp, cstr_nul p _ hp]
  · have hb : ∀ c ∈ body, c ≠ 0 := fun c hc e => h0 (e ▸ hc)
    rw [lineOf_line body d hb hd, lineOf_line body d' hb hd']

/-- The parser sees the same text when a line ended by the end of the stream
gets a delimiter. -/
theorem lineOf_append_newline (body : List Nat) (d : Nat) (hb : ∀ c ∈ body, isnl c = false)
    (hd : isnl d = true) : lineOf (body ++ [d]) = lineOf body := by
  by_cases h0 : 0 ∈ body
  · obtain ⟨p, q, e, hp⟩ := split_at_nul body h0
    subst e
    unfold lineOf
    rw [List.append_assoc, List.cons_append, cstr_nul p _ hp, cstr_nul p _ hp]
  · have hz : ∀ c ∈ body, c ≠ 0 := fun c hc e => h0 (e ▸ hc)
    rw [lineOf_line body d hz hd]
    unfold lineOf
    rw [cstr_of_no_nul body hz, filestat_clean_line_of_no_nl body hb]

/-- The step of the loop depends on the length of the raw line and on its text only. -/
theorem stepLine_congr (raw raw' : List Nat) (h l : Bool) (st : filestat)
    (hlen : raw.length = raw'.length) (hline : lineOf raw = lineOf raw') :
    stepLine raw h l st = stepLine raw' h l st := by
  unfold stepLine
  rw [hlen, hline]

theorem replace_newlines_append (rep : List Nat) : ∀ a b : List Nat,
    replace_newlines rep (a ++ b) = replace_newlines rep a ++ replace_newlines rep b
  | [], b => rfl
  | c :: a, b => by
    rw [List.cons_append, replace_newlines, replace_newlines, replace_newlines_append rep a b,
      List.append_assoc]

theorem replace_newlines_id (rep : List Nat) : ∀ body : List Nat,
    (∀ c ∈ body, isnl c = false) → replace_newlines rep body = body
  | [], _ => rfl
  | c :: body, h => by
    have hc : c ≠ 10 := by
      intro e
      have := h c (List.mem_cons_self _ _)
      rw [e] at this
      exact absurd this (by decide)
    rw [replace_newlines, if_neg hc,
      replace_newlines_id rep body (fun x hx => h x (List.mem_cons_of_mem _ hx))]
    rfl

theorem splitLines_no_newline (c : Nat) (cs : List Nat) (h : ∀ x ∈ c :: cs, isnl x = false) :
    splitLines (c :: cs) = [c :: cs] := by
  induction cs generalizing c with
  | nil =>
    simp [splitLines, h c (List.mem_cons_self _ _)]
  | cons y ys ih =>
    have := ih y (fun x hx => h x (List.mem_cons_of_mem _ hx))
    rw [splitLines, this]
    simp [h c (List.mem_cons_self _ _)]

theorem stepLine_blank (h l : Bool) (st : filestat) : stepLine [10] h l st = .next h l st :=
  stepLine_skip [10] h l st (by cases h <;> decide) (by decide)

/-- The loop over the lines of a content whose `\n` bytes are replaced by `\r`
or by `\r\n`, in any state of the loop. -/
theorem processLines_replace_newlines (rep : List Nat) (hrep : rep = [13] ∨ rep = [13, 10]) :
    ∀ (k : Nat) (content : List Nat), content.length ≤ k → ∀ (h l : Bool) (st : filestat),
      processLines (splitLines (replace_newlines rep content)) h l st =
        processLines (splitLines content) h l st := by
  intro k
  induction k with
  | zero =>
    intro content hk h l st
    have : content = [] := List.length_eq_zero.mp (Nat.le_zero.mp hk)
    subst this
    rfl
  | succ k ih =>
    intro content hk h l st
    rcases first_newline_split content with hno | ⟨b, d, rest, e, hb, hd⟩
    · rw [replace_newlines_id rep content hno]
    · subst e
      have hrest : rest.length ≤ k := by
        simp only [List.length_append, List.length_cons] at hk
        omega
      have hcons : replace_newlines rep (d :: rest) =
          (if d = 10 then rep else [d]) ++ replace_newlines rep rest := by
        rw [replace_newlines]
      rw [replace_newlines_append, replace_newlines_id rep b hb, hcons,
        splitLines_line b d rest hb hd]
      have key : ∀ (d' : Nat) (X : List Nat), isnl d' = true →
          (∀ h' l' st', processLines (splitLines X) h' l' st' =
            processLines (splitLines rest) h' l' st') →
          processLines (splitLines (b ++ d' :: X)) h l st =
            processLines ((b ++ [d]) :: splitLines rest) h l st := by
        intro d' X hd' hX
        rw [splitLines_line b d' X hb hd', processLines, processLines,
          stepLine_congr (b ++ [d']) (b ++ [d]) h l st (by simp)
            (lineOf_any_newline b d' d hd' hd)]
        cases stepLine (b ++ [d]) h l st with
        | done r s => rfl
        | next h' l' s' => exact hX h' l' s'
      by_cases h10 : d = 10
      · rw [if_pos h10]
        rcases hrep with e | e
        · subst e
          rw [List.singleton_append]
          exact key 13 _ (by decide) (fun h' l' st' => ih rest hrest h' l' st')
        · subst e
          rw [List.cons_append, List.singleton_append]
          refine key 13 _ (by decide) (fun h' l' st' => ?_)
          have : splitLines (10 :: replace_newlines [13, 10] rest) =
              [10] :: splitLines (replace_newlines [13, 10] rest) :=
            splitLines_line [] 10 _ (fun c hc => absurd hc (List.not_mem_nil _)) (by decide)
          rw [this, processLines_cons_next _ _ _ _ _ _ _ _ (stepLine_blank h' l' st')]
          exact ih rest hrest h' l' st'
      · rw [if_neg h10, List.singleton_append]
        exact key d _ hd (fun h' l' st' => ih rest hrest h' l' st')

/-- The read of a content does not change when its `\n` bytes are replaced by
`\r` or by `\r\n` (for every content and skeleton). -/
theorem read_replace_newlines (rep : List Nat) (hrep : rep = [13] ∨ rep = [13, 10])
    (content : List Nat) (s : filestat) :
    filestat_parser_format_read (replace_newlines rep content) s =
      filestat_parser_format_read content s := by
  rw [filestat_parser_format_read_eq_lines, filestat_parser_format_read_eq_lines,
    processLines_replace_newlines rep hrep content.length content (le_refl _)]

theorem stepLine_append_newline (body : List Nat) (d : Nat) (h l : Bool) (st : filestat)
    (hb : ∀ c ∈ body, isnl c = false) (hd : isnl d = true)
    (hcap : ¬ line_cap (if h = true then FILESTAT_MAX_HEADER_LENGTH else 0) ≤
      (body ++ [d]).length) :
    stepLine (body ++ [d]) h l st = stepLine body h l st := by
  have hcap2 : ¬ line_cap (if h = true then FILESTAT_MAX_HEADER_LENGTH else 0) ≤ body.length := by
    simp only [List.length_append, List.length_singleton] at hcap
    omega
  unfold stepLine
  rw [if_neg hcap, if_neg hcap2, lineOf_append_newline body d hb hd]

theorem stepLine_delimiter (d : Nat) (hd : isnl d = true) (h l : Bool) (st : filestat) :
    stepLine [d] h l st = .next h l st := by
  rcases isnl_cases d hd with e | e <;> subst e <;>
    exact stepLine_skip _ h l st (by cases h <;> decide) (by decide)

/-- The loop over the lines of a content that gets a final delimiter, in any
state of the loop, when no line reaches the cap in force. -/
theorem processLines_append_newline (d : Nat) (hd : isnl d = true) :
    ∀ (k : Nat) (content : List Nat), content.length ≤ k → ∀ (h l : Bool) (st : filestat),
      ¬ exceeds_cap (splitLines (content ++ [d])) h →
      processLines (splitLines (content ++ [d])) h l st =
        processLines (splitLines content) h l st := by
  have hnil : ∀ (h l : Bool) (st : filestat),
      processLines (splitLines ([] ++ [d])) h l st = processLines (splitLines []) h l st := by
    intro h l st
    rw [splitLines_single [] d (fun c hc => absurd hc (List.not_mem_nil _)) hd, List.nil_append,
      processLines_cons_next _ _ _ _ _ _ _ _ (stepLine_delimiter d hd h l st)]
    rfl
  intro k
  induction k with
  | zero =>
    intro content hk h l st _
    have : content = [] := List.length_eq_zero.mp (Nat.le_zero.mp hk)
    subst this
    exact hnil h l st
  | succ k ih =>
    intro content hk h l st hcap
    rcases first_newline_split content with hno | ⟨b, d', rest, e, hb, hd'⟩
    · cases content with
      | nil => exact hnil h l st
      | cons c cs =>
        rw [splitLines_single (c :: cs) d hno hd] at hcap ⊢
        rw [splitLines_no_newline c cs hno, processLines, processLines]
        have hc : ¬ line_cap (if h = true then FILESTAT_MAX_HEADER_LENGTH else 0) ≤
            (c :: cs ++ [d]).length := by
          intro hle
          exact hcap (Or.inl hle)
        rw [stepLine_append_newline (c :: cs) d h l st hno hd hc]
    · subst e
      have hrest : rest.length ≤ k := by
        simp only [List.length_append, List.length_cons] at hk
        omega
      have hshape : (b ++ d' :: rest) ++ [d] = b ++ d' :: (rest ++ [d]) := by
        rw [List.append_assoc, List.cons_append]
      rw [hshape, splitLines_line b d' _ hb hd'] at hcap ⊢
      rw [splitLines_line b d' rest hb hd', processLines, processLines]
      cases hs : stepLine (b ++ [d']) h l st with
      | done r s => rfl
      | next h' l' s' =>
        obtain ⟨eh, _⟩ := stepLine_next_flags _ h l st s' h' l' hs
        refine ih rest hrest h' l' s' ?_
        intro hex
        rw [eh] at hex
        exact hcap (Or.inr hex)

/-- The read of a content does not change when it gets a final delimiter,
whether or not its last line had one, as long as no line of the result reaches
the cap in force where it is read. -/
theorem read_append_newline (content : List Nat) (d : Nat) (s : filestat) (hd : isnl d = true)
    (hcap : ¬ exceeds_cap (splitLines (content ++ [d])) true) :
    filestat_parser_format_read (content ++ [d]) s = filestat_parser_format_read content s := by
  rw [filestat_parser_format_read_eq_lines, filestat_parser_format_read_eq_lines,
    processLines_append_newline d hd content.length content (le_refl _) true false s hcap]

/-- A header line ended by the end of the stream is read the same with a final
delimiter when the two together have fewer than 120 bytes. -/
theorem read_header_at_end (body : List Nat) (d : Nat) (s : filestat)
    (hb : ∀ c ∈ body, isnl c = false) (hd : isnl d = true)
    (hlen : body.length + 1 < FILESTAT_MAX_HEADER_LENGTH) :
    filestat_parser_format_read (body ++ [d]) s = filestat_parser_format_read body s := by
  refine read_append_newline body d s hd ?_
  rw [splitLines_single body d hb hd]
  intro hex
  rcases hex with hle | hf
  · have hc : line_cap FILESTAT_MAX_HEADER_LENGTH = FILESTAT_MAX_HEADER_LENGTH := by decide
    simp only [if_true, hc, List.length_append, List.length_singleton] at hle
    omega
  · exact hf

set_option maxRecDepth 100000 in
/-- At the header cap the final delimiter matters: the header line
`CatalogFS=3` padded with spaces to 119 bytes is accepted when the stream ends
after it, and overflows when a newline follows it, the line then having 120
bytes. -/
theorem final_newline_at_header_cap :
    (bytes "CatalogFS=3" ++ List.replicate 108 32 ++ [10]).length = 120 ∧
    filestat_parser_format_read (bytes "CatalogFS=3" ++ List.replicate 108 32) sample_skeleton =
      some (0, sample_skeleton) ∧
    filestat_parser_format_read (bytes "CatalogFS=3" ++ List.replicate 108 32 ++ [10])
      sample_skeleton = some (- EOVERFLOW, sample_skeleton) := by
  refine ⟨by decide, ?_, ?_⟩
  · rw [filestat_parser_format_read_eq_lines]
    decide
  · have hnl : ∀ c ∈ bytes "CatalogFS=3" ++ List.replicate 108 32, isnl c = false := by decide
    rw [filestat_parser_format_read_eq_lines, splitLines_line _ 10 [] hnl (by decide)]
    have hs : splitLines [] = [] := rfl
    rw [hs, processLines_cons_done _ _ _ _ _ _ _
      (stepLine_overflow _ true false sample_skeleton (by decide))]

/-- C31 (line-ending independence). For every content and skeleton, replacing
every `\n` of the content by `\r`, or by `\r\n`, leaves the outcome of
`filestat_parser_format_read` as it is (same return value, same record). And
giving the content a final delimiter `d` (`\n` or `\r`) leaves the outcome as
it is, so that a last line ended by the end of the stream is read like the same
line followed by a newline, when no line of the content with the delimiter
reaches the cap in force where it is read: a line read as header line stays
below the header cap of 120 bytes, delimiter included. -/
theorem line_ending_independence (content : List Nat) (s : filestat) :
    filestat_parser_format_read (replace_newlines [13] content) s =
      filestat_parser_format_read content s ∧
    filestat_parser_format_read (replace_newlines [13, 10] content) s =
      filestat_parser_format_read content s ∧
    (∀ d : Nat, isnl d = true → ¬ exceeds_cap (splitLines (content ++ [d])) true →
      filestat_parser_format_read (content ++ [d]) s = filestat_parser_format_read content s) :=
  ⟨read_replace_newlines [13] (Or.inl rfl) content s,
    read_replace_newlines [13, 10] (Or.inr rfl) content s,
    fun d hd hcap => read_append_newline content d s hd hcap⟩

theorem line_ending_independence_witness :
    replace_newlines [13] (bytes "CatalogFS=3\nsize=5") = bytes "CatalogFS=3\rsize=5" ∧
    replace_newlines [13, 10] (bytes "CatalogFS=3\nsize=5") = bytes "CatalogFS=3\r\nsize=5" ∧
    isnl 10 = true ∧
    ¬ exceeds_cap (splitLines (bytes "CatalogFS=3\nsize=5" ++ [10])) true ∧
    filestat_parser_format_read (bytes "CatalogFS=3\nsize=5") sample_skeleton =
      some (0, { sample_skeleton with size := 5 }) ∧
    filestat_parser_format_read (replace_newlines [13] (bytes "CatalogFS=3\nsize=5"))
      sample_skeleton = filestat_parser_format_read (bytes "CatalogFS=3\nsize=5") sample_skeleton ∧
    filestat_parser_format_read (replace_newlines [13, 10] (bytes "CatalogFS=3\nsize=5"))
      sample_skeleton = filestat_parser_format_read (bytes "CatalogFS=3\nsize=5") sample_skeleton ∧
    filestat_parser_format_read (bytes "CatalogFS=3\nsize=5" ++ [10]) sample_skeleton =
      filestat_parser_format_read (bytes "CatalogFS=3\nsize=5") sample_skeleton :=
  have hex : ¬ exceeds_cap (splitLines (bytes "CatalogFS=3\nsize=5" ++ [10])) true := by
    have h : splitLines (bytes "CatalogFS=3\nsize=5" ++ [10]) =
        [bytes "CatalogFS=3\n", bytes "size=5\n"] := by decide
    rw [h]
    simp only [exceeds_cap, not_or, not_false_eq_true, and_true]
    exact ⟨by decide, by decide⟩
  ⟨by decide, by decide, by decide, hex, by decide,
    (line_ending_independence (bytes "CatalogFS=3\nsize=5") sample_skeleton).1,
    (line_ending_independence (bytes "CatalogFS=3\nsize=5") sample_skeleton).2.1,
    (line_ending_independence (bytes "CatalogFS=3\nsize=5") sample_skeleton).2.2 10 (by decide) hex⟩

end CatalogFS
